import Mathlib

/-!
# Espruino interactive scheduler: event queue, timers and pin watches

A shallow embedding of the scheduler in `src/jsinteractive.c`
(`jsiQueueEvents`, `jsiExecuteEvents`, `jsiExecuteEventCallback`,
`jsiShouldExecuteWatch`, `jsiIsWatchingPin`, `jsiIdle`, `jsiLoop`,
`jsiTimerAdd`), of the state machine of the console (`jsiHandleChar`), of
`jswrap_serial_setup` in `src/jswrap_serial.c` and of `httpParseHeaders` and
`httpStringGet` in `libs/network/http/httpserver.c`, together with theorems
about them.

Conventions of the embedding

* A `JsVar *` that is `0` is the JavaScript value `undefined`; it is the
  constructor `JsVar.undefined`.
* `JsSysTime` and `JsVarInt` are signed machine integers, embedded in `Int`.
  Signed overflow is undefined in C, so the embedding describes the executions
  in which it does not occur; the conversions to `unsigned int` are explicit
  remainders modulo `2 ^ 32`, the conversions to `int` of values read from
  variables (line 1210 of `jsinteractive.c`, `jswrap_serial_setup`) are
  explicit (`toInt32`), and a shift of an `int` by `32` bits or more is a
  failure.
* A variable that the pool cannot supply is the null pointer: the child that
  `jsvObjectSetChild` is to set to it is left without a value. The requests
  that are embedded are those for objects and for the values that are made
  outside the block of an object (lines 1346 and 1348 of `jsinteractive.c`);
  inside the block `if (obj)` of an object that the pool did supply, the values
  of its children are taken to be supplied as well.
* `assert` is embedded as failure: a function whose assertion is violated
  returns `none`. A loop that can run for ever takes a bound on its number of
  iterations and returns `none` when the bound is reached.
* The JavaScript evaluator (`jspExecuteFunction`, `jspEvaluateVar`) is not part
  of the scheduler; it is a parameter of the embedding (`Interp`).
-/

namespace Espruino

/-! ## Machine integers -/

/-- The cast `(unsigned int)time` of `jsiIdle`: the low 32 bits. -/
def lowU32 (time : Int) : Int := time % 2 ^ 32

/-- The expression `time & ~0xFFFFFFFFLL` on a two's complement `JsSysTime`:
the low 32 bits are cleared, which is `time` minus its low 32 bits. -/
def clearLow32 (time : Int) : Int := time - time % 2 ^ 32

/-- The event time reconstruction of `jsiIdle` (lines 1314 to 1318):
```
JsSysTime time = jshGetSystemTime();
if (((unsigned int)time) < (unsigned int)event.data.time)
  time = time - 0x100000000LL;
JsSysTime eventTime = (time & ~0xFFFFFFFFLL) | (JsSysTime)event.data.time;
```
`now` is the value returned by `jshGetSystemTime`, `evTime` the 32 bit
`event.data.time`. As the low 32 bits of the left operand of `|` are zero and
`evTime` has only low bits, the bitwise or is an addition. -/
def eventTime (now : Int) (evTime : Nat) : Int :=
  let evLow : Int := (evTime : Int) % 2 ^ 32
  let time : Int := if lowU32 now < evLow then now - 0x100000000 else now
  clearLow32 time + evLow

/-- The cast `(int)x` of a `JsVarInt` to a 32 bit `int`: the value in
`[-2^31, 2^31)` that is congruent to `x` modulo `2^32`. -/
def toInt32 (x : Int) : Int := (x + 2 ^ 31) % 2 ^ 32 - 2 ^ 31

/-! ## Edge policy -/

/-- The function `jsiShouldExecuteWatch`, on the integer `edge` read from the
watch's `edge` child (`jsvGetIntegerAndUnLock`), which line 1210 casts to
`int`. -/
def jsiShouldExecuteWatch (edge : Int) (pinIsHigh : Bool) : Bool :=
  let watchEdge := toInt32 edge
  watchEdge == 0 ||
  (pinIsHigh && decide (watchEdge > 0)) ||
  (!pinIsHigh && decide (watchEdge < 0))

/-! ## Values -/

/-- A `JsVarRef`: the identity of a variable in the pool. -/
abbrev JsVarRef := Nat

/-- A pin number. -/
abbrev Pin := Nat

/-- The object `data` that `jsiIdle` hands to a timer or watch callback. Its
children `time` and `lastTime` are floats computed from a `JsSysTime` by
`jshGetMillisecondsFromTime(t)/1000`; they are kept as that `JsSysTime`. -/
structure EventData where
  time : Option Int
  lastTime : Option Int
  pin : Option Pin
  state : Option Bool
  deriving DecidableEq, Repr

/-- The kinds of `JsVar` the scheduler tells apart (`jsvIsFunction`,
`jsvIsString`, `jsvIsArray`); `undefined` is the null pointer. -/
inductive JsVar where
  | undefined
  | function (id : Nat)
  | string (id : Nat)
  | array (elems : List JsVar)
  | data (d : EventData)
  | other (id : Nat)
  deriving Repr

namespace JsVar

mutual
/-- Equality of values is decidable. -/
def decEq : (a b : JsVar) → Decidable (a = b)
  | undefined, undefined => isTrue rfl
  | function a, function b =>
    if h : a = b then isTrue (by rw [h]) else isFalse (fun e => h (by cases e; rfl))
  | string a, string b =>
    if h : a = b then isTrue (by rw [h]) else isFalse (fun e => h (by cases e; rfl))
  | array a, array b =>
    match decEqList a b with
    | isTrue h => isTrue (by rw [h])
    | isFalse h => isFalse (fun e => h (by cases e; rfl))
  | data a, data b =>
    if h : a = b then isTrue (by rw [h]) else isFalse (fun e => h (by cases e; rfl))
  | other a, other b =>
    if h : a = b then isTrue (by rw [h]) else isFalse (fun e => h (by cases e; rfl))
  | undefined, function _ | undefined, string _ | undefined, array _
  | undefined, data _ | undefined, other _ => isFalse (fun e => by cases e)
  | function _, undefined | function _, string _ | function _, array _
  | function _, data _ | function _, other _ => isFalse (fun e => by cases e)
  | string _, undefined | string _, function _ | string _, array _
  | string _, data _ | string _, other _ => isFalse (fun e => by cases e)
  | array _, undefined | array _, function _ | array _, string _
  | array _, data _ | array _, other _ => isFalse (fun e => by cases e)
  | data _, undefined | data _, function _ | data _, string _
  | data _, array _ | data _, other _ => isFalse (fun e => by cases e)
  | other _, undefined | other _, function _ | other _, string _
  | other _, array _ | other _, data _ => isFalse (fun e => by cases e)
/-- Equality of lists of values is decidable. -/
def decEqList : (a b : List JsVar) → Decidable (a = b)
  | [], [] => isTrue rfl
  | a :: as, b :: bs =>
    match decEq a b, decEqList as bs with
    | isTrue h1, isTrue h2 => isTrue (by rw [h1, h2])
    | isFalse h1, _ => isFalse (fun e => h1 (by cases e; rfl))
    | _, isFalse h2 => isFalse (fun e => h2 (by cases e; rfl))
  | [], _ :: _ => isFalse (fun e => by cases e)
  | _ :: _, [] => isFalse (fun e => by cases e)
end

instance : DecidableEq JsVar := decEq

/-- The test `jsvIsFunction`. -/
def isFunction : JsVar → Bool
  | function _ => true
  | _ => false

/-- The test `jsvIsString`. -/
def isString : JsVar → Bool
  | string _ => true
  | _ => false

/-- The test `jsvIsArray`. -/
def isArray : JsVar → Bool
  | array _ => true
  | _ => false

/-- The test `!callback` on a `JsVar *`. -/
def isUndefined : JsVar → Bool
  | undefined => true
  | _ => false

/-- The children of an array, in array order (what `JsvArrayIterator` and the
`firstChild`/`nextSibling` chain enumerate); empty for any other value. -/
def elements : JsVar → List JsVar
  | array xs => xs
  | _ => []

end JsVar

/-! ## Scheduler state -/

/-- An entry of the array `events`: the object built by
`jsiQueueEventInternal`, with its child `func` and its children `arg0`,
`arg1`, ... in order. -/
structure Event where
  func : JsVar
  args : List JsVar
  deriving DecidableEq, Repr

/-- A call of the evaluator, `jspExecuteFunction(func, 0, 2, args)` or
`jspEvaluateVar(func, 0, false)` (then `args` is empty). -/
structure Invocation where
  func : JsVar
  args : List JsVar
  deriving DecidableEq, Repr

/-- The children of a timer object in `timerArray` that `jsiIdle` reads or
writes. A child that is absent reads as `0`, `false` or `undefined`. -/
structure Timer where
  time : Int
  interval : Int
  recur : Bool
  callback : JsVar
  watch : Option JsVarRef
  lastTime : Option Int
  pin : Option Pin
  deriving DecidableEq, Repr

/-- The children of a watch object in `watchArray`. -/
structure Watch where
  pin : Pin
  edge : Int
  recur : Bool
  debounce : Int
  callback : JsVar
  lastTime : Option Int
  state : Option Bool
  timeout : Option JsVarRef
  deriving DecidableEq, Repr

/-- An `IOEvent` popped by `jshPopIOEvent`: its type
(`IOEVENTFLAGS_GETTYPE(event.flags)`), the flag `EV_EXTI_IS_HIGH`, the
characters `event.data.chars[0 .. IOEVENTFLAGS_GETCHARS(event.flags))` and the
32 bit `event.data.time`. -/
structure IOEvent where
  eventType : Nat
  isHigh : Bool
  chars : List Nat
  time : Nat
  deriving DecidableEq, Repr

/-- The type `TODOFlags`: a set of the three flags `TODO_RESET`,
`TODO_FLASH_SAVE` and `TODO_FLASH_LOAD`; `TODO_NOTHING` has none of them. -/
structure TODOFlags where
  reset : Bool
  flashSave : Bool
  flashLoad : Bool
  deriving DecidableEq, Repr

/-- The constant `TODO_NOTHING`. -/
def TODO_NOTHING : TODOFlags := { reset := false, flashSave := false, flashLoad := false }

/-- The maintenance actions of the idle loop. -/
inductive Maintenance where
  | reset
  | flashSave
  | flashLoad
  deriving DecidableEq, Repr

/-- The globals of `jsinteractive.c` that the scheduler uses, the variable pool
as far as timers and watches live in it, the collaborators' state, and a record
of the calls made to the collaborators.

`timerArray` and `watchArray` are the child lists of the two arrays: the
references of the timer and watch objects in list order (an object and the
array entry that names it are identified). `timerObj` and `watchObj` give the
children of an object, also of one that is no longer in its array but is still
referenced. -/
structure St where
  events : List Event
  timerArray : List JsVarRef
  watchArray : List JsVarRef
  timerObj : JsVarRef → Timer
  watchObj : JsVarRef → Watch
  jsiLastIdleTime : Int
  loopsIdling : Nat
  interruptedDuringEvent : Bool
  todo : TODOFlags
  consoleDevice : Nat
  busy : Bool
  /-- The flag `jspIsInterrupted()`. -/
  interrupted : Bool
  /-- The flag `jspHasError()`. -/
  hasError : Bool
  /-- How many variables `jsvNewWithFlags` has been asked for. -/
  allocs : Nat
  /-- The next unused reference. -/
  nextRef : JsVarRef
  /-- How many times `jshGetSystemTime` has been called. -/
  clockReads : Nat
  /-- Calls of `jspExecuteFunction` and `jspEvaluateVar`, oldest first. -/
  trace : List Invocation
  /-- Entries pushed on `events` by `jsiQueueEventInternal`, oldest first. -/
  queued : List Event
  /-- Messages given to `jsError`, oldest first. -/
  errors : List String
  /-- Calls of `jshPinWatch`, oldest first. -/
  pinWatchCalls : List (Pin × Bool)
  /-- The buffer of `IOEvent`s that `jshPopIOEvent` pops from, oldest first. -/
  ioEvents : List IOEvent
  /-- For a USART device type, the child `DEVICE_OPTIONS_NAME` of its class
  object: `none` when there is no class object, `some none` when the class has
  no options object, `some (some b)` when it has one, `b` being its child
  `bytesize` (`none` when that is absent). -/
  usartClass : Nat → Option (Option (Option Int))
  /-- Characters given to `jsiHandleChar`, oldest first. -/
  consoleChars : List Nat
  /-- Calls of `jswrap_stream_pushData`: device type and characters. -/
  streamData : List (Nat × List Nat)
  /-- Calls of `jshSetFlowControlXON(device, true)`, oldest first. -/
  flowControlXON : List Nat
  /-- Text given to `jsiConsolePrint`, oldest first. -/
  consoleOut : List String
  /-- Maintenance actions carried out, oldest first. -/
  maintenance : List Maintenance
  /-- Calls of `jsvGarbageCollect` made by the idle loop itself. -/
  gcCalls : Nat
  /-- Arguments of the calls of `jshSleep`, oldest first. -/
  sleeps : List Int

/-- What running a callback can do to the scheduler: the calls it can make into
the scheduler and the flags of the evaluator it can set. -/
inductive Action where
  /-- A call `jsiQueueEvents(callback, args, argCount)`. -/
  | queueEvents (callback : JsVar) (args : List JsVar)
  /-- A new timer object handed to `jsiTimerAdd` (`setTimeout`, `setInterval`). -/
  | timerAdd (t : Timer)
  /-- The entry of a timer taken out of `timerArray` by `jsvRemoveChild`
  (`clearTimeout`, `clearInterval`). -/
  | timerRemove (r : JsVarRef)
  /-- A new watch object appended to `watchArray` (`setWatch`). -/
  | watchAdd (w : Watch)
  /-- The entry of a watch taken out of `watchArray` by `jsvRemoveChild`
  (`clearWatch`). -/
  | watchRemove (r : JsVarRef)
  /-- The interrupt request flag is set or cleared (`jspSetInterrupted`). -/
  | setInterrupted (b : Bool)
  /-- The error flag of the evaluator is set or cleared. -/
  | setError (b : Bool)
  /-- A call `jsiSetTodo(newTodo)`. -/
  | setTodo (newTodo : TODOFlags)

/-- The collaborators of the scheduler that are not part of it.

* `interp func args s` is what evaluating the callback `func` with arguments
  `args` does when it starts in state `s`, as the sequence of its actions on
  the scheduler;
* `oom n` says that the `n`-th request for a new variable finds the pool
  exhausted (`jsvNewWithFlags` returns `0`);
* `clock n` is the value of the `n`-th call of `jshGetSystemTime`;
* `jshIsEventForPin`, `isUsart` (`DEVICE_IS_USART`) and `isExti`
  (`DEVICE_IS_EXTI`) classify an event. -/
structure Env where
  interp : JsVar → List JsVar → St → List Action
  oom : Nat → Bool
  clock : Nat → Int
  jshIsEventForPin : IOEvent → Pin → Bool
  isUsart : Nat → Bool
  isExti : Nat → Bool
  /-- What `jsiHandleChar` does to the scheduler for a character of console
  input (the console may evaluate a line of source text). -/
  jsiHandleChar : Nat → St → List Action
  /-- What `jswrap_stream_pushData` does to the scheduler for the data of a
  device. -/
  pushData : Nat → List Nat → St → List Action
  /-- The call `jswIdle()`: whether the libraries report work, and what they
  do to the scheduler. -/
  jswIdle : St → Bool × List Action
  /-- The teardown and start up that a maintenance action delegates to the
  rest of the interpreter. -/
  reinit : Maintenance → St → St
  /-- The constant `IOBUFFER_XON`. -/
  IOBUFFER_XON : Nat
  /-- The constants `USARTS` and `EV_SERIAL1`. -/
  USARTS : Nat
  EV_SERIAL1 : Nat
  /-- The value `jshGetTimeFromMilliseconds(10)`. -/
  tenMilliseconds : Int
  /-- The build is a `USB` build and `jshIsUSBSERIALConnected()` holds. -/
  usbConnected : St → Bool
  /-- The call `jshHasTransmitData()`. -/
  jshHasTransmitData : St → Bool
  /-- The call `jshIdle()` of `jsiLoop`: the events that polling the hardware
  puts in the buffer of raw events. -/
  jshIdle : St → List IOEvent := fun _ => []
  /-- The call `jspGetException()`: the text of the exception that the
  evaluator holds, if any. -/
  jspGetException : St → Option String := fun _ => none
  /-- The call `jspGetStackTrace()`: the text of the stack trace that the
  evaluator holds, if any. -/
  jspGetStackTrace : St → Option String := fun _ => none

/-- The constant `JSSYSTIME_MAX`. -/
def JSSYSTIME_MAX : Int := 0x7FFFFFFFFFFFFFFF

/-- The call `jsvNewWithFlags(JSV_OBJECT)`: a fresh reference, or `none` when
the pool is exhausted. -/
def jsvNewWithFlags (env : Env) (s : St) : Option JsVarRef × St :=
  if env.oom s.allocs then (none, { s with allocs := s.allocs + 1 })
  else (some s.nextRef, { s with allocs := s.allocs + 1, nextRef := s.nextRef + 1 })

/-- The call `jshGetSystemTime()`. -/
def jshGetSystemTime (env : Env) (s : St) : Int × St :=
  (env.clock s.clockReads, { s with clockReads := s.clockReads + 1 })

/-- The call `jsError(msg)`. -/
def jsError (msg : String) (s : St) : St :=
  { s with errors := s.errors ++ [msg] }

/-- The call `jsiSetBusy(BUSY_INTERACTIVE, b)`. -/
def jsiSetBusy (b : Bool) (s : St) : St :=
  { s with busy := b }

/-- The call `jshPinWatch(pin, b)`. -/
def jshPinWatch (pin : Pin) (b : Bool) (s : St) : St :=
  { s with pinWatchCalls := s.pinWatchCalls ++ [(pin, b)] }

/-! ## Child lists -/

/-- Modelled from the spec: `jsvRemoveChild` is defined in `jsvar.c`, which is
not among the sources. It unlinks the entry from the child list of the array
and leaves the other entries in order. Following the rule of the spec that a
cancelled timer changes the structural link under the iterator, the unlinked
entry has no siblings any more: see `nextSibling`. -/
def jsvRemoveChild (children : List JsVarRef) (child : JsVarRef) : List JsVarRef :=
  children.erase child

/-- The field `nextSibling` of the entry `r` of a child list: the entry after
it, `none` (the reference `0`) when `r` is the last entry or is not in the list
(an entry unlinked by `jsvRemoveChild`). -/
def nextSibling : List JsVarRef → JsVarRef → Option JsVarRef
  | [], _ => none
  | x :: rest, r => if x = r then rest.head? else nextSibling rest r

/-- The call `jsvGetArrayIndexOf(array, obj, true)` as a test: is the object
still a child of the array? -/
def jsvGetArrayIndexOf (children : List JsVarRef) (obj : JsVarRef) : Bool :=
  children.contains obj

/-! ## The event queue -/

/-- The function `jsiQueueEventInternal`. The two assertions are checked; the
entry is built and pushed unless the pool is exhausted. -/
def jsiQueueEventInternal (env : Env) (callbackFunc : JsVar) (args : List JsVar)
    (s : St) : Option St :=
  if args.length < 10 ∧ (callbackFunc.isFunction ∨ callbackFunc.isString) then
    match jsvNewWithFlags env s with
    | (some _, s1) =>
      let event : Event := { func := callbackFunc, args := args }
      some { s1 with events := s1.events ++ [event], queued := s1.queued ++ [event] }
    | (none, s1) => some s1
  else none

/-- The loop of `jsiQueueEvents` over the elements of an array target. -/
def jsiQueueEventsLoop (env : Env) (args : List JsVar) : List JsVar → St → Option St
  | [], s => some s
  | callbackFunc :: rest, s =>
    match jsiQueueEventInternal env callbackFunc args s with
    | some s1 => jsiQueueEventsLoop env args rest s1
    | none => none

/-- The function `jsiQueueEvents`. -/
def jsiQueueEvents (env : Env) (callback : JsVar) (args : List JsVar) (s : St) : Option St :=
  if callback.isUndefined then some s
  else if callback.isFunction ∨ callback.isString then
    jsiQueueEventInternal env callback args s
  else if callback.isArray then
    jsiQueueEventsLoop env args callback.elements s
  else none

/-- The function `jsiTimerAdd`: the timer object is appended to `timerArray`. -/
def jsiTimerAdd (timerPtr : JsVarRef) (s : St) : St :=
  { s with timerArray := s.timerArray ++ [timerPtr] }

/-! ## Running a callback -/

/-- The effect of one action of a callback. -/
def applyAction (env : Env) (a : Action) (s : St) : Option St :=
  match a with
  | .queueEvents callback args => jsiQueueEvents env callback args s
  | .timerAdd t =>
    some (jsiTimerAdd s.nextRef
      { s with timerObj := Function.update s.timerObj s.nextRef t, nextRef := s.nextRef + 1 })
  | .timerRemove r => some { s with timerArray := jsvRemoveChild s.timerArray r }
  | .watchAdd w =>
    some { s with watchObj := Function.update s.watchObj s.nextRef w,
                  watchArray := s.watchArray ++ [s.nextRef], nextRef := s.nextRef + 1 }
  | .watchRemove r => some { s with watchArray := jsvRemoveChild s.watchArray r }
  | .setInterrupted b => some { s with interrupted := b }
  | .setError b => some { s with hasError := b }
  | .setTodo newTodo => some { s with todo := newTodo }

/-- The effect of the actions of a callback, in order. -/
def applyActions (env : Env) : List Action → St → Option St
  | [], s => some s
  | a :: rest, s =>
    match applyAction env a s with
    | some s1 => applyActions env rest s1
    | none => none

/-- The call `jspExecuteFunction(func, 0, 2, args)`: the call is recorded and
the callback does what the evaluator says. -/
def jspExecuteFunction (env : Env) (func : JsVar) (args : List JsVar) (s : St) : Option St :=
  let s1 := { s with trace := s.trace ++ [{ func := func, args := args }] }
  applyActions env (env.interp func args s1) s1

/-- The call `jspEvaluateVar(func, 0, false)` on a string of source text. -/
def jspEvaluateVar (env : Env) (func : JsVar) (s : St) : Option St :=
  let s1 := { s with trace := s.trace ++ [{ func := func, args := [] }] }
  applyActions env (env.interp func [] s1) s1

/-- The body of the `while` loop of `jsiExecuteEvents` for the entry `event`
popped from the front of `events`. -/
def jsiExecuteEvent (env : Env) (event : Event) (s : St) : Option St :=
  let func := event.func
  let args := [event.args.getD 0 .undefined, event.args.getD 1 .undefined]
  if func.isUndefined then some s
  else if func.isFunction then jspExecuteFunction env func args s
  else if func.isString then jspEvaluateVar env func s
  else some (jsError "Unknown type of callback in Event Queue" s)

/-- The `while` loop of `jsiExecuteEvents`, for at most `fuel` iterations. -/
def jsiExecuteEventsLoop (env : Env) : Nat → St → Option St
  | fuel, s =>
    match s.events with
    | [] => some s
    | event :: rest =>
      match fuel with
      | 0 => none
      | fuel + 1 =>
        match jsiExecuteEvent env event { s with events := rest } with
        | some s1 => jsiExecuteEventsLoop env fuel s1
        | none => none

/-- The function `jsiExecuteEvents`. -/
def jsiExecuteEvents (env : Env) (fuel : Nat) (s : St) : Option St :=
  let hasEvents := !s.events.isEmpty
  let wasInterrupted := s.interrupted
  let s1 := if hasEvents then jsiSetBusy true s else s
  match jsiExecuteEventsLoop env fuel s1 with
  | none => none
  | some s2 =>
    if hasEvents then
      let s3 := jsiSetBusy false s2
      some (if !wasInterrupted && s3.interrupted then
              { s3 with interruptedDuringEvent := true } else s3)
    else some s2

/-! ## Sample states and collaborators -/

/-- A timer object without children. -/
def Timer.absent : Timer :=
  { time := 0, interval := 0, recur := false, callback := .undefined, watch := none,
    lastTime := none, pin := none }

/-- A watch object without children. -/
def Watch.absent : Watch :=
  { pin := 0, edge := 0, recur := false, debounce := 0, callback := .undefined,
    lastTime := none, state := none, timeout := none }

/-- The state after start up: nothing queued, no timers, no watches. -/
def St.init : St :=
  { events := [], timerArray := [], watchArray := [], timerObj := fun _ => Timer.absent,
    watchObj := fun _ => Watch.absent, jsiLastIdleTime := 0, loopsIdling := 0,
    interruptedDuringEvent := false, todo := TODO_NOTHING, consoleDevice := 0, busy := false,
    interrupted := false, hasError := false, allocs := 0, nextRef := 1, clockReads := 0,
    trace := [], queued := [], errors := [], pinWatchCalls := [], ioEvents := [],
    usartClass := fun _ => none, consoleChars := [], streamData := [], flowControlXON := [],
    consoleOut := [], maintenance := [], gcCalls := 0, sleeps := [] }

/-- Collaborators that do nothing: callbacks have no effect on the scheduler,
the pool is never exhausted, the clock stands at `0`, and an event is for the
pin whose number is its type. -/
def Env.quiet : Env :=
  { interp := fun _ _ _ => [], oom := fun _ => false, clock := fun _ => 0,
    jshIsEventForPin := fun ev pin => ev.eventType == pin,
    isUsart := fun _ => false, isExti := fun _ => true,
    jsiHandleChar := fun _ _ => [], pushData := fun _ _ _ => [],
    jswIdle := fun _ => (false, []), reinit := fun _ s => s,
    IOBUFFER_XON := 0, USARTS := 0, EV_SERIAL1 := 0, tenMilliseconds := 10000,
    usbConnected := fun _ => false, jshHasTransmitData := fun _ => false }

/-- The invocation that `jsiExecuteEvents` makes for a queue entry: a function
gets the entry's first two arguments, source text is evaluated. -/
def Event.invocation (e : Event) : Invocation :=
  if e.func.isFunction then
    { func := e.func, args := [e.args.getD 0 .undefined, e.args.getD 1 .undefined] }
  else { func := e.func, args := [] }

/-- The elements of an array target for which `jsiQueueEventInternal` gets a
variable from the pool, when the first request is request number `n`. -/
def allocated (env : Env) : Nat → List JsVar → List JsVar
  | _, [] => []
  | n, x :: xs => (if env.oom n then [] else [x]) ++ allocated env (n + 1) xs

/-- A target that `jsiQueueEventInternal` accepts. -/
def JsVar.isCallable (v : JsVar) : Prop := v.isFunction ∨ v.isString

instance (v : JsVar) : Decidable v.isCallable := by unfold JsVar.isCallable; infer_instance

/-- What a sequence of scheduler calls may do to the queue: entries `new` are
appended to `events` and to the record `queued`, nothing is invoked. -/
structure Appends (s s' : St) (new : List Event) : Prop where
  events : s'.events = s.events ++ new
  queued : s'.queued = s.queued ++ new
  trace : s'.trace = s.trace
  callable : ∀ e ∈ new, e.func.isCallable

/-- Collaborators whose pool of variables is exhausted. -/
def Env.exhausted : Env := { Env.quiet with oom := fun _ => true }

/-! ## Reference definitions of the specification -/

/-- The edge policy of a watch, in the words of the specification. -/
inductive EdgePolicy where
  | rising
  | falling
  | either
  deriving DecidableEq, Repr

/-- The policy that the integer child `edge` of a watch stands for: positive
for a rising edge, negative for a falling edge, zero for either. -/
def edgePolicy (watchEdge : Int) : EdgePolicy :=
  if watchEdge > 0 then .rising else if watchEdge < 0 then .falling else .either

/-- The relation `EdgeMatches(policy, isHigh)` of the specification. -/
def EdgeMatches : EdgePolicy → Bool → Bool
  | .rising, isHigh => isHigh
  | .falling, isHigh => !isHigh
  | .either, _ => true

/-- The 32 bit timestamp that the hardware stores for an event captured at the
full width time `t`. -/
def truncate32 (t : Int) : Nat := (t % 2 ^ 32).toNat

/-- Collaborators in which the callback `function 1` queues an array of two
further callbacks and every other callback does nothing. -/
def Env.requeue : Env :=
  { Env.quiet with
    interp := fun f _ _ =>
      if f = .function 1 then [.queueEvents (.array [.function 2, .string 3]) [.other 5]]
      else [] }

/-- A queue of two entries: `function 1` and, behind it, the source text
`string 4`. -/
def St.twoQueued : St :=
  { St.init with
    events := [{ func := .function 1, args := [.other 8] }, { func := .string 4, args := [] }] }

/-! ## Callback chains -/

/-- The end of `jsiExecuteEventCallback`: the call fails when the evaluator
has an error that it did not have when the call started. -/
def jsiExecuteEventCallbackResult (wasInterrupted : Bool) (s : St) : Bool × St :=
  if !wasInterrupted && s.hasError then (false, { s with interruptedDuringEvent := true })
  else (true, s)

mutual
/-- The function `jsiExecuteEventCallback`. -/
def jsiExecuteEventCallback (env : Env) : JsVar → JsVar → JsVar → St → Option (Bool × St)
  | .undefined, _, _, s => some (jsiExecuteEventCallbackResult s.hasError s)
  | .array elems, arg0, arg1, s =>
    (jsiExecuteEventCallbackChildren env elems arg0 arg1 s).map
      (jsiExecuteEventCallbackResult s.hasError)
  | .function id, arg0, arg1, s =>
    (jspExecuteFunction env (.function id) [arg0, arg1] s).map
      (jsiExecuteEventCallbackResult s.hasError)
  | .string id, _, _, s =>
    (jspEvaluateVar env (.string id) s).map (jsiExecuteEventCallbackResult s.hasError)
  | .data _, _, _, s =>
    some (jsiExecuteEventCallbackResult s.hasError
      (jsError "Unknown type of callback in Event Queue" s))
  | .other _, _, _, s =>
    some (jsiExecuteEventCallbackResult s.hasError
      (jsError "Unknown type of callback in Event Queue" s))
/-- The loop of `jsiExecuteEventCallback` over the children of an array: each
child is executed, its result is dropped. -/
def jsiExecuteEventCallbackChildren (env : Env) :
    List JsVar → JsVar → JsVar → St → Option St
  | [], _, _, s => some s
  | child :: rest, arg0, arg1, s =>
    match jsiExecuteEventCallback env child arg0 arg1 s with
    | some (_, s1) => jsiExecuteEventCallbackChildren env rest arg0 arg1 s1
    | none => none
end

/-! ## Watches and timers -/

/-- The timer object `r` with its children changed by `f`. -/
def St.setTimer (s : St) (r : JsVarRef) (f : Timer → Timer) : St :=
  { s with timerObj := Function.update s.timerObj r (f (s.timerObj r)) }

/-- The watch object `r` with its children changed by `f`. -/
def St.setWatch (s : St) (r : JsVarRef) (f : Watch → Watch) : St :=
  { s with watchObj := Function.update s.watchObj r (f (s.watchObj r)) }

/-- The function `jsiIsWatchingPin`. -/
def jsiIsWatchingPin (s : St) (pin : Pin) : Bool :=
  s.watchArray.any fun r => (s.watchObj r).pin == pin

/-- The part of `jsiIdle` that removes a watch which is not recurring after its
debounce timer has run (lines 1443 to 1454): the watch leaves `watchArray` if
it is still there, and the interrupt of its pin is switched off when no watch is
left on the pin. -/
def jsiIdleTimerUnwatch (watchPtr : JsVarRef) (s : St) : St :=
  let s1 := if jsvGetArrayIndexOf s.watchArray watchPtr then
      { s with watchArray := jsvRemoveChild s.watchArray watchPtr } else s
  let pin := (s1.watchObj watchPtr).pin
  if !jsiIsWatchingPin s1 pin then jshPinWatch pin false s1 else s1

/-- The start of the block of the timer loop of `jsiIdle` for a timer that is
due (lines 1411 to 1430): the object `data` is made and filled in. The result
is `exec`, `data` (undefined when the pool is exhausted) and the state. For a
debounce timer `exec` is the edge test on the level stored in the watch, and
the watch gets the time of the timer as its `lastTime`. -/
def jsiIdleTimerData (env : Env) (timerPtr : JsVarRef) (s0 : St) : Bool × JsVar × St :=
  let s1 := jsiSetBusy true s0
  let watchPtr := (s1.timerObj timerPtr).watch
  let alloc := jsvNewWithFlags env s1
  let s2 := alloc.2
  let timePtr : Int := s2.jsiLastIdleTime + (s2.timerObj timerPtr).time
  match alloc.1, watchPtr with
  | none, _ => (true, .undefined, s2)
  | some _, none =>
    (true, .data { time := some timePtr, lastTime := none, pin := none, state := none }, s2)
  | some _, some w =>
    let watch := s2.watchObj w
    (jsiShouldExecuteWatch watch.edge (watch.state.getD false),
      .data { time := some timePtr, lastTime := watch.lastTime, pin := none,
              state := watch.state },
      s2.setWatch w fun x => { x with lastTime := some timePtr })

/-- The end of the block of the timer loop of `jsiIdle` for a timer that is
due (lines 1438 to 1473), after the callback chain: the watch of a debounce
timer loses its link to the timer and is removed when it ran and is not
recurring; the timer is rescheduled when `intervalRecurring` holds and removed
from `timerArray`, if it is still there, otherwise. -/
def jsiIdleTimerFinish (timerPtr : JsVarRef) (watchPtr : Option JsVarRef) (exec : Bool)
    (intervalRecurring : Bool) (s4 : St) : St :=
  let s5 :=
    match watchPtr with
    | none => s4
    | some w =>
      let s := s4.setWatch w fun x => { x with timeout := none }
      if exec && !(s.watchObj w).recur then jsiIdleTimerUnwatch w s else s
  if intervalRecurring then
    let interval := (s5.timerObj timerPtr).interval
    if interval ≤ 0 then s5.setTimer timerPtr fun t => { t with time := 0 }
    else s5.setTimer timerPtr fun t => { t with time := t.time + interval }
  else if jsvGetArrayIndexOf s5.timerArray timerPtr then
    { s5 with timerArray := jsvRemoveChild s5.timerArray timerPtr }
  else s5

/-- The block of the timer loop of `jsiIdle` for a timer that is due
(`timeUntilNext <= 0`, lines 1410 to 1474). -/
def jsiIdleTimerFire (env : Env) (timerPtr : JsVarRef) (s0 : St) : Option St :=
  let timerCallback := (s0.timerObj timerPtr).callback
  let watchPtr := (s0.timerObj timerPtr).watch
  let prepared := jsiIdleTimerData env timerPtr s0
  let exec := prepared.1
  let data := prepared.2.1
  let s3 := prepared.2.2
  let intervalRecurring := (s3.timerObj timerPtr).recur
  if exec then
    match jsiExecuteEventCallback env timerCallback data .undefined s3 with
    | some (ok, s4) =>
      if !ok && intervalRecurring then
        some (jsiIdleTimerFinish timerPtr watchPtr exec false
          (jsError "Error processing interval - removing it." s4))
      else some (jsiIdleTimerFinish timerPtr watchPtr exec intervalRecurring s4)
    | none => none
  else some (jsiIdleTimerFinish timerPtr watchPtr exec intervalRecurring s3)

/-- The body of the timer loop of `jsiIdle` for the timer `timer` (lines 1401
to 1485). The result is the new `minTimeUntilNext`, the new `wasBusy`, the
state, and the timer to go on with: `none` for the third component of the
continuation means that the loop was left by `break`. -/
def jsiIdleTimer (env : Env) (timePassed : Int) (timer : JsVarRef) (minTimeUntilNext : Int)
    (wasBusy : Bool) (s0 : St) : Option (Int × Bool × Option (Option JsVarRef) × St) :=
  let next := nextSibling s0.timerArray timer
  let timeUntilNext := (s0.timerObj timer).time - timePassed
  let s1 := s0.setTimer timer fun t => { t with time := timeUntilNext }
  let min1 := if timeUntilNext < minTimeUntilNext then timeUntilNext else minTimeUntilNext
  let fired : Option (Bool × St) :=
    if timeUntilNext ≤ 0 then (jsiIdleTimerFire env timer s1).map fun s => (true, s)
    else some (wasBusy, s1)
  match fired with
  | none => none
  | some (busy1, s2) =>
    let currentTimer := nextSibling s2.timerArray timer
    if currentTimer ≠ next then some (0, busy1, none, s2)
    else some (min1, busy1, some next, s2)

/-- The timer loop of `jsiIdle` (lines 1400 to 1486) from the timer `timer` on,
for at most `fuel` iterations. The result is `minTimeUntilNext`, `wasBusy` and
the state. -/
def jsiIdleTimerLoop (env : Env) (timePassed : Int) :
    Nat → Option JsVarRef → Int → Bool → St → Option (Int × Bool × St)
  | _, none, minTimeUntilNext, wasBusy, s => some (minTimeUntilNext, wasBusy, s)
  | 0, some _, _, _, _ => none
  | fuel + 1, some timer, minTimeUntilNext, wasBusy, s =>
    match jsiIdleTimer env timePassed timer minTimeUntilNext wasBusy s with
    | none => none
    | some (min1, busy1, none, s1) => some (min1, busy1, s1)
    | some (min1, busy1, some next, s1) => jsiIdleTimerLoop env timePassed fuel next min1 busy1 s1

/-- The timer check of `jsiIdle` (lines 1392 to 1487): the clock is read twice,
once for the new `jsiLastIdleTime` and once for `timePassed`, and the timers
are swept from the first child of `timerArray`. -/
def jsiIdleTimers (env : Env) (fuel : Nat) (wasBusy : Bool) (s0 : St) :
    Option (Int × Bool × St) :=
  let t1 := jshGetSystemTime env s0
  let t2 := jshGetSystemTime env t1.2
  let timePassed := t2.1 - t2.2.jsiLastIdleTime
  let s1 := { t2.2 with jsiLastIdleTime := t1.1 }
  jsiIdleTimerLoop env timePassed fuel s1.timerArray.head? JSSYSTIME_MAX wasBusy s1

/-- Modelled from the spec: `jsvNewFromBool` is defined in `jsvar.c`, which is
not among the sources. It takes a variable from the pool for the value, and
returns `0` (`none`) when the pool is exhausted. -/
def jsvNewFromBool (env : Env) (value : Bool) (s : St) : Option Bool × St :=
  let alloc := jsvNewWithFlags env s
  (alloc.1.map fun _ => value, alloc.2)

/-- Modelled from the spec: `jsvNewFromFloat` is defined in `jsvar.c`, which
is not among the sources. It takes a variable from the pool for the value, and
returns `0` (`none`) when the pool is exhausted. The floats of `jsiIdle` are
times in seconds made from a `JsSysTime`; they are kept as that `JsSysTime`. -/
def jsvNewFromFloat (env : Env) (value : Int) (s : St) : Option Int × St :=
  let alloc := jsvNewWithFlags env s
  (alloc.1.map fun _ => value, alloc.2)

/-- The debounce branch of the watch loop of `jsiIdle` up to line 1344: the
pending timer of the watch is set to run `debounce` ticks after the event, or
a timer is made for it, unless the pool is exhausted. -/
def jsiIdleWatchDebounceTimer (env : Env) (watchPtr : JsVarRef) (pin : Pin)
    (eventTime : Int) (debounce : Int) (s0 : St) : St :=
  match (s0.watchObj watchPtr).timeout with
  | some timeout =>
    s0.setTimer timeout fun t =>
      { t with time := (eventTime - s0.jsiLastIdleTime) + debounce }
  | none =>
    let alloc := jsvNewWithFlags env s0
    match alloc.1 with
    | some timeout =>
      let s1 := alloc.2
      let created : Timer :=
        { Timer.absent with
          watch := some watchPtr
          time := (eventTime - s1.jsiLastIdleTime) + debounce
          callback := (s1.watchObj watchPtr).callback
          lastTime := (s1.watchObj watchPtr).lastTime
          pin := some pin }
      (jsiTimerAdd timeout
        { s1 with timerObj := Function.update s1.timerObj timeout created }).setWatch
          watchPtr fun w => { w with timeout := some timeout }
    | none => alloc.2

/-- The debounce branch of the watch loop of `jsiIdle` (lines 1324 to 1346):
the timer of the watch is set or made, and the level of the pin is stored in
the watch. The level is a new variable (`jsvNewFromBool`, line 1346): when the
pool is exhausted `jsvObjectSetChild` gets the null pointer and the child
`state` is left without a value. -/
def jsiIdleWatchDebounce (env : Env) (watchPtr : JsVarRef) (pin : Pin) (pinIsHigh : Bool)
    (eventTime : Int) (debounce : Int) (s0 : St) : St :=
  let s2 := jsiIdleWatchDebounceTimer env watchPtr pin eventTime debounce s0
  let state := jsvNewFromBool env pinIsHigh s2
  state.2.setWatch watchPtr fun w => { w with state := state.1 }

/-- The edge triggering block of the watch loop of `jsiIdle` (lines 1350 to
1371), for a watch without debounce whose edge matches. `timePtr` is the
variable made at line 1348 (`none` when the pool was exhausted). -/
def jsiIdleWatchFire (env : Env) (watchNamePtr : JsVarRef) (pin : Pin) (pinIsHigh : Bool)
    (timePtr : Option Int) (s0 : St) : Option St :=
  let watchCallback := (s0.watchObj watchNamePtr).callback
  let watchRecurring := (s0.watchObj watchNamePtr).recur
  let alloc := jsvNewWithFlags env s0
  let data : JsVar :=
    match alloc.1 with
    | some _ =>
      .data { lastTime := (s0.watchObj watchNamePtr).lastTime, time := timePtr,
              pin := some pin, state := some pinIsHigh }
    | none => .undefined
  match jsiExecuteEventCallback env watchCallback data .undefined alloc.2 with
  | none => none
  | some (ok, s1) =>
    let failed := !ok && watchRecurring
    let s2 := if failed then jsError "Error processing Watch - removing it." s1 else s1
    if failed || !watchRecurring then
      let s3 := { s2 with watchArray := jsvRemoveChild s2.watchArray watchNamePtr }
      some (if !jsiIsWatchingPin s3 pin then jshPinWatch pin false s3 else s3)
    else some s2

/-- The body of the watch loop of `jsiIdle` for the watch `watchNamePtr` and
the pin event `event` (lines 1301 to 1379). Without debounce the time of the
event is a new variable (`jsvNewFromFloat`, line 1348) that becomes the child
`time` of `data` and, at line 1373, the child `lastTime` of the watch: when
the pool is exhausted both are left without a value. -/
def jsiIdleWatch (env : Env) (event : IOEvent) (watchNamePtr : JsVarRef) (s0 : St) :
    Option St :=
  let pin := (s0.watchObj watchNamePtr).pin
  if env.jshIsEventForPin event pin then
    let t := jshGetSystemTime env s0
    let evTime := eventTime t.1 event.time
    let s1 := t.2
    let pinIsHigh := event.isHigh
    let debounce := (s1.watchObj watchNamePtr).debounce
    if debounce > 0 then
      some (jsiIdleWatchDebounce env watchNamePtr pin pinIsHigh evTime debounce s1)
    else
      let timePtr := jsvNewFromFloat env evTime s1
      let fired : Option St :=
        if jsiShouldExecuteWatch (s1.watchObj watchNamePtr).edge pinIsHigh then
          jsiIdleWatchFire env watchNamePtr pin pinIsHigh timePtr.1 timePtr.2
        else some timePtr.2
      fired.map fun s => s.setWatch watchNamePtr fun w => { w with lastTime := timePtr.1 }
  else some s0

/-- The watch loop of `jsiIdle` for a pin event (lines 1298 to 1381) from the
watch `watchName` on, for at most `fuel` iterations. -/
def jsiIdleWatchLoop (env : Env) (event : IOEvent) : Nat → Option JsVarRef → St → Option St
  | _, none, s => some s
  | 0, some _, _ => none
  | fuel + 1, some watchName, s =>
    match jsiIdleWatch env event watchName s with
    | none => none
    | some s1 => jsiIdleWatchLoop env event fuel (nextSibling s1.watchArray watchName) s1

/-! ## The idle loop -/

/-- The loop `for (i=0;i<c;i++) jsiHandleChar(event.data.chars[i])`. -/
def jsiHandleChars (env : Env) : List Nat → St → Option St
  | [], s => some s
  | c :: rest, s =>
    let s1 := { s with consoleChars := s.consoleChars ++ [c] }
    match applyActions env (env.jsiHandleChar c s1) s1 with
    | some s2 => jsiHandleChars env rest s2
    | none => none

/-- The mask of the serial branch: `(char)(c & ((1<<bytesize)-1))` for a
character `c`, as the byte that is appended. The shift is made on a 32 bit
`int`: for `bytesize` of `32` or more it is undefined, which is a failure
here; for `bytesize = 31` the mask is `0x7FFFFFFF` in two's complement. -/
def maskChar (bytesize : Nat) (c : Nat) : Option Nat :=
  if bytesize < 32 then some (c % 2 ^ bytesize % 256) else none

/-- The loop `for (i=0;i<chars;i++)` of the serial branch (lines 1277 to
1280): every character of the event is masked. -/
def jsiIdleUsartMask (bytesize : Nat) : List Nat → Option (List Nat)
  | [] => some []
  | c :: cs =>
    match maskChar bytesize c, jsiIdleUsartMask bytesize cs with
    | some ch, some rest => some (ch :: rest)
    | _, _ => none

/-- The loop `while (chars)` of the serial branch of `jsiIdle` (lines 1276 to
1287): the characters of the event are masked and appended, and as long as the
next event in the buffer is of the same type it is popped and treated alike.
The result is the string and the buffer that is left. -/
def jsiIdleUsartChars (eventType : Nat) (bytesize : Nat) :
    List Nat → List IOEvent → Option (List Nat × List IOEvent)
  | [], buffer => some ([], buffer)
  | c :: cs, [] => (jsiIdleUsartMask bytesize (c :: cs)).map fun masked => (masked, [])
  | c :: cs, top :: buffer =>
    match jsiIdleUsartMask bytesize (c :: cs) with
    | none => none
    | some masked =>
      if top.eventType = eventType then
        (jsiIdleUsartChars eventType bytesize top.chars buffer).map fun more =>
          (masked ++ more.1, more.2)
      else some (masked, top :: buffer)

/-- The serial branch of `jsiIdle` (lines 1259 to 1294). -/
def jsiIdleUsart (env : Env) (event : IOEvent) (s0 : St) : Option St :=
  match s0.usartClass event.eventType with
  | none => some s0
  | some options =>
    let bytesize : Nat :=
      match options with
      | none => 8
      | some child => ((child.getD 0) % 256).toNat
    let alloc := jsvNewWithFlags env s0
    match alloc.1 with
    | none => some alloc.2
    | some _ =>
      let s1 := alloc.2
      match jsiIdleUsartChars event.eventType bytesize event.chars s1.ioEvents with
      | none => none
      | some gathered =>
        let s2 := { s1 with ioEvents := gathered.2,
                            streamData := s1.streamData ++ [(event.eventType, gathered.1)] }
        applyActions env (env.pushData event.eventType gathered.1 s2) s2

/-- The body of the loop `while (jshPopIOEvent(&event))` of `jsiIdle` for the
event that was popped (lines 1244 to 1382). -/
def jsiIdleEvent (env : Env) (fuel : Nat) (event : IOEvent) (s0 : St) : Option St :=
  let s1 := { jsiSetBusy true s0 with loopsIdling := 0 }
  if event.eventType = s1.consoleDevice then
    (jsiHandleChars env event.chars (jsiSetBusy true s1)).map (jsiSetBusy false)
  else if env.isUsart event.eventType then jsiIdleUsart env event s1
  else if env.isExti event.eventType then
    jsiIdleWatchLoop env event fuel s1.watchArray.head? s1
  else some s1

/-- The loop `while (jshPopIOEvent(&event))` of `jsiIdle`, for at most `fuel`
iterations. The result is `wasBusy` and the state. -/
def jsiIdleEvents (env : Env) (inner : Nat) : Nat → Bool → St → Option (Bool × St)
  | fuel, wasBusy, s =>
    match s.ioEvents with
    | [] => some (wasBusy, s)
    | event :: rest =>
      match fuel with
      | 0 => none
      | fuel + 1 =>
        match jsiIdleEvent env inner event { s with ioEvents := rest } with
        | some s1 => jsiIdleEvents env inner fuel true s1
        | none => none

/-- The loop that resets the flow control of the serial ports (lines 1386 to
1390). -/
def jsiIdleFlowControl (env : Env) (s : St) : St :=
  if s.ioEvents.length < env.IOBUFFER_XON then
    { s with flowControlXON :=
        s.flowControlXON ++ (List.range env.USARTS).map fun i => env.EV_SERIAL1 + i }
  else s

/-- One maintenance action of `jsiIdle`: the flag is cleared, the action is
recorded and the teardown and start up are delegated. -/
def jsiIdleMaintain (env : Env) (m : Maintenance) (s : St) : St :=
  let cleared : TODOFlags :=
    match m with
    | .reset => { s.todo with reset := false }
    | .flashSave => { s.todo with flashSave := false }
    | .flashLoad => { s.todo with flashLoad := false }
  env.reinit m { s with todo := cleared, maintenance := s.maintenance ++ [m] }

/-- The check for TODOs of `jsiIdle` (lines 1511 to 1546). -/
def jsiIdleTodo (env : Env) (s0 : St) : St :=
  if s0.todo.reset || s0.todo.flashSave || s0.todo.flashLoad then
    let s1 := jsiSetBusy true s0
    let s2 := if s1.todo.reset then jsiIdleMaintain env .reset s1 else s1
    let s3 := if s2.todo.flashSave then jsiIdleMaintain env .flashSave s2 else s2
    let s4 := if s3.todo.flashLoad then jsiIdleMaintain env .flashLoad s3 else s3
    jsiSetBusy false s4
  else s0

/-- The end of `jsiIdle` (lines 1551 to 1566): garbage collection when there
is time for it, and sleep. -/
def jsiIdleSleep (env : Env) (minTimeUntilNext : Int) (s0 : St) : St :=
  let s1 :=
    if s0.loopsIdling = 1 ∧ minTimeUntilNext > env.tenMilliseconds then
      jsiSetBusy false { jsiSetBusy true s0 with gcCalls := s0.gcCalls + 1 }
    else s0
  if s1.loopsIdling > 1 ∧ !env.usbConnected s1 ∧ s1.ioEvents.isEmpty ∧
      !env.jshHasTransmitData s1 then
    { s1 with sleeps := s1.sleeps ++ [minTimeUntilNext] }
  else s1

/-- The function `jsiIdle`. Each of its loops runs for at most `fuel`
iterations. -/
def jsiIdle (env : Env) (fuel : Nat) (s0 : St) : Option St :=
  let s1 := if s0.loopsIdling < 255 then { s0 with loopsIdling := s0.loopsIdling + 1 } else s0
  match jsiIdleEvents env fuel fuel false s1 with
  | none => none
  | some (busy1, s2) =>
    match jsiIdleTimers env fuel busy1 (jsiIdleFlowControl env s2) with
    | none => none
    | some (minTimeUntilNext, busy2, s3) =>
      let idle := env.jswIdle s3
      match applyActions env idle.2 s3 with
      | none => none
      | some s4 =>
        let wasBusy := busy2 || idle.1
        let s5 := if wasBusy || !s4.events.isEmpty then { s4 with loopsIdling := 0 } else s4
        let s6 := if wasBusy then jsiSetBusy false s5 else s5
        match (if !s6.interrupted then jsiExecuteEvents env fuel s6 else some s6) with
        | none => none
        | some s7 =>
          let s8 :=
            if s7.interruptedDuringEvent then
              { s7 with interrupted := false, interruptedDuringEvent := false,
                        consoleOut := s7.consoleOut ++
                          ["Execution Interrupted during event processing.\n"] }
            else s7
          some (jsiIdleSleep env minTimeUntilNext (jsiIdleTodo env s8))

/-! ## Reference definitions for callback chains -/

mutual
/-- The invocations that a callback chain stands for: the functions and
strings of the target, the members of an array target in array order at any
depth, a function with the two arguments and a string without. -/
def callbackInvocations : JsVar → JsVar → JsVar → List Invocation
  | .array elems, arg0, arg1 => callbackInvocationsList elems arg0 arg1
  | .function id, arg0, arg1 => [{ func := .function id, args := [arg0, arg1] }]
  | .string id, _, _ => [{ func := .string id, args := [] }]
  | .undefined, _, _ => []
  | .data _, _, _ => []
  | .other _, _, _ => []
/-- The invocations of the members of an array target. -/
def callbackInvocationsList : List JsVar → JsVar → JsVar → List Invocation
  | [], _, _ => []
  | child :: rest, arg0, arg1 =>
    callbackInvocations child arg0 arg1 ++ callbackInvocationsList rest arg0 arg1
end

/-- A relation between states that holds across everything that running a
callback chain does: it is a preorder, and it holds across recording a call,
across every action that the evaluator asks for, across `jsError` and across
setting `interruptedDuringEvent`. -/
structure StepClosed (env : Env) (R : St → St → Prop) : Prop where
  refl : ∀ s, R s s
  trans : ∀ a b c, R a b → R b c → R a c
  record : ∀ s (i : Invocation), R s { s with trace := s.trace ++ [i] }
  act : ∀ f args st, ∀ a ∈ env.interp f args st, ∀ s s', applyAction env a s = some s' → R s s'
  error : ∀ s msg, R s (jsError msg s)
  flag : ∀ s, R s { s with interruptedDuringEvent := true }

/-- What no callback can change: the objects that exist (their references are
below `nextRef`) keep their children, references are never reused, and the
clock of the idle loop is untouched. -/
structure Preserves (s s' : St) : Prop where
  nextRef : s.nextRef ≤ s'.nextRef
  timerObj : ∀ r, r < s.nextRef → s'.timerObj r = s.timerObj r
  watchObj : ∀ r, r < s.nextRef → s'.watchObj r = s.watchObj r
  jsiLastIdleTime : s'.jsiLastIdleTime = s.jsiLastIdleTime
  clockReads : s'.clockReads = s.clockReads
  ioEvents : s'.ioEvents = s.ioEvents

/-- The argument `data` that the timer loop hands to the callback chain of the
timer `timer` when the timer is due after `timePassed` ticks. -/
def jsiIdleTimerArg (env : Env) (timePassed : Int) (timer : JsVarRef) (s : St) : JsVar :=
  (jsiIdleTimerData env timer
    (s.setTimer timer fun t => { t with time := (s.timerObj timer).time - timePassed })).2.1

/-- The run of the callback chain of the timer `timer` by the timer loop when
the timer is due after `timePassed` ticks: the call of
`jsiExecuteEventCallback` of line 1432, in the state in which the loop makes
it. The result is the value of the call and the state after it. -/
def jsiIdleTimerChain (env : Env) (timePassed : Int) (timer : JsVarRef) (s : St) :
    Option (Bool × St) :=
  jsiExecuteEventCallback env (s.timerObj timer).callback
    (jsiIdleTimerArg env timePassed timer s) .undefined
    (jsiIdleTimerData env timer
      (s.setTimer timer fun t => { t with time := (s.timerObj timer).time - timePassed })).2.2

/-- A recurring timer with reference `1`: interval `50`, `50` ticks remaining,
callback `function 7`. -/
def St.interval50 : St :=
  { St.init with
    timerArray := [1]
    nextRef := 2
    timerObj := fun r =>
      if r = 1 then
        { Timer.absent with time := 50, interval := 50, recur := true, callback := .function 7 }
      else Timer.absent }

/-- Collaborators in which the clock reads `60`, `60`, `100`, `100`, `150`,
`150`, ... and callbacks do nothing. -/
def Env.clock60 : Env :=
  { Env.quiet with clock := fun n => if n < 2 then 60 else if n < 4 then 100 else 150 }

/-- Collaborators in which the callback `function 7` cancels the timer with
reference `1` (`clearInterval`) and the clock stands at `60`. -/
def Env.selfCancel : Env :=
  { Env.quiet with
    clock := fun _ => 60
    interp := fun f _ _ => if f = .function 7 then [.timerRemove 1] else [] }

/-- The timer check of one step of `jsiIdle` (lines 1392 to 1487), as a step
on states. -/
def jsiIdleTimersStep (env : Env) (fuel : Nat) (s : St) : Option St :=
  (jsiIdleTimers env fuel false s).map fun r => r.2.2

/-- Three timers `1`, `2`, `3` in this order. Timer `1` is recurring with
interval `10` and `10` ticks left, its callback is `function 7`; timers `2` and
`3` have `100` ticks left. -/
def St.threeTimers : St :=
  { St.init with
    timerArray := [1, 2, 3]
    nextRef := 4
    timerObj := fun r =>
      if r = 1 then
        { Timer.absent with time := 10, interval := 10, recur := true, callback := .function 7 }
      else if r = 2 then { Timer.absent with time := 100, callback := .function 8 }
      else if r = 3 then { Timer.absent with time := 100, callback := .function 9 }
      else Timer.absent }

/-- Collaborators in which the callback `function 7` cancels the timer with
reference `2`. -/
def Env.cancelSibling : Env :=
  { Env.quiet with
    interp := fun f _ _ => if f = .function 7 then [.timerRemove 2] else [] }

/-- Two one-shot timers: timer `1` with `10` ticks left and callback
`function 1`, and behind it timer `2` with `100` ticks left and callback
`function 2`. The last idle step was at time `0`. -/
def St.twoOneShots : St :=
  { St.init with
    timerArray := [1, 2]
    nextRef := 3
    timerObj := fun r =>
      if r = 1 then { Timer.absent with time := 10, callback := .function 1 }
      else if r = 2 then { Timer.absent with time := 100, callback := .function 2 }
      else Timer.absent }

/-- Collaborators in which the clock reads `100` during the first idle step
and `120` from the second step on, and callbacks do nothing. -/
def Env.clock100 : Env :=
  { Env.quiet with clock := fun n => if n < 2 then 100 else 120 }

/-! ## Reference definitions for the watch loop -/

/-- An action that leaves the watch table as it is. -/
def Action.keepsWatches : Action → Prop
  | .watchAdd _ => False
  | .watchRemove _ => False
  | _ => True

/-- What the pin event `event` is to do with a watch whose children are
`watch`, in the words of the specification: `invs` are the invocations made
for the watch. A watch without debounce on the pin of the event whose edge
policy matches the level of the event has its callback chain invoked once, with
a data object that carries the reconstructed time of the event, the pin, the
level of the event and the `lastTime` of the watch; any other watch is not
invoked. -/
def WatchFired (env : Env) (event : IOEvent) (watch : Watch) (invs : List Invocation) : Prop :=
  if env.jshIsEventForPin event watch.pin = true ∧ watch.debounce ≤ 0 ∧
      jsiShouldExecuteWatch watch.edge event.isHigh = true then
    ∃ n, invs = callbackInvocations watch.callback
      (.data { time := some (eventTime (env.clock n) event.time), lastTime := watch.lastTime,
               pin := some watch.pin, state := some event.isHigh }) .undefined
  else invs = []

/-- A recurring watch with reference `1` on pin `5`: falling edge, no
debounce, callback `function 3`, last run at time `500`. -/
def St.fallingWatch : St :=
  { St.init with
    watchArray := [1]
    nextRef := 2
    watchObj := fun r =>
      if r = 1 then
        { Watch.absent with pin := 5, edge := -1, recur := true, callback := .function 3,
                            lastTime := some 500 }
      else Watch.absent }

/-- Two recurring watches without debounce on pin `5`: watch `1` on either
edge with callback `function 3`, and behind it watch `2` on the falling edge
with callback `function 4`. -/
def St.twoWatches : St :=
  { St.init with
    watchArray := [1, 2]
    nextRef := 3
    watchObj := fun r =>
      if r = 1 then
        { Watch.absent with pin := 5, edge := 0, recur := true, callback := .function 3 }
      else if r = 2 then
        { Watch.absent with pin := 5, edge := -1, recur := true, callback := .function 4 }
      else Watch.absent }

/-- A pin event for pin `5` with the low level, stamped `990`. -/
def IOEvent.low5 : IOEvent := { eventType := 5, isHigh := false, chars := [], time := 990 }

/-- A pin event for pin `5` with the high level, stamped `990`. -/
def IOEvent.high5 : IOEvent := { eventType := 5, isHigh := true, chars := [], time := 990 }

/-- Collaborators in which the clock stands at `1000` and callbacks do
nothing. -/
def Env.at1000 : Env := { Env.quiet with clock := fun _ => 1000 }

/-- Collaborators in which the callback `function 3` removes the watch with
reference `2` (`clearWatch`) and the clock stands at `1000`. -/
def Env.clearWatch2 : Env :=
  { Env.quiet with
    clock := fun _ => 1000
    interp := fun f _ _ => if f = .function 3 then [.watchRemove 2] else [] }

/-- Collaborators whose pool of variables is exhausted, with the clock at
`1000`. -/
def Env.exhausted1000 : Env := { Env.quiet with oom := fun _ => true, clock := fun _ => 1000 }

/-! ## Reference definitions for debounce -/

/-- The debounce timer that `jsiIdle` makes for the watch `w` with children
`watch`, with `time` ticks remaining. -/
def debounceTimer (w : JsVarRef) (watch : Watch) (time : Int) : Timer :=
  { Timer.absent with
    watch := some w
    time := time
    callback := watch.callback
    lastTime := watch.lastTime
    pin := some watch.pin }

/-- A recurring watch with reference `1` on pin `5`: rising edge, debounce
window `50`, callback `function 3`, no debounce timer pending. -/
def St.risingWatch : St :=
  { St.init with
    watchArray := [1]
    nextRef := 2
    watchObj := fun r =>
      if r = 1 then
        { Watch.absent with pin := 5, edge := 1, recur := true, debounce := 50,
                            callback := .function 3 }
      else Watch.absent }

/-- A pin event for pin `5` with the given level and time stamp. -/
def IOEvent.edge5 (isHigh : Bool) (time : Nat) : IOEvent :=
  { eventType := 5, isHigh := isHigh, chars := [], time := time }

/-- Collaborators in which the clock stands at `25` and callbacks do
nothing. -/
def Env.at25 : Env := { Env.quiet with clock := fun _ => 25 }

/-- Collaborators whose pool of variables is exhausted, in which the clock
reads `25` during the first idle step and `100` afterwards. -/
def Env.exhausted25 : Env :=
  { Env.quiet with oom := fun _ => true, clock := fun n => if n < 3 then 25 else 100 }

/-- The watch of `St.risingWatch` with one raw edge in the buffer: high,
stamped `20`. -/
def St.risingEdge : St :=
  { St.risingWatch with ioEvents := [IOEvent.edge5 true 20] }

/-- One one-shot timer with reference `1`, `100` ticks left and callback
`function 2`; the last idle step was at time `0`. -/
def St.oneShot100 : St :=
  { St.init with
    timerArray := [1]
    nextRef := 2
    timerObj := fun r =>
      if r = 1 then { Timer.absent with time := 100, callback := .function 2 }
      else Timer.absent }

/-- Collaborators in which the clock reads `40`, `80` and `120` in three
successive timer checks, and callbacks do nothing. -/
def Env.clock40 : Env :=
  { Env.quiet with clock := fun n => if n < 2 then 40 else if n < 4 then 80 else 120 }

/-- Two watches without debounce on pin `5`: watch `1` on either edge, not
recurring, with callback `function 3`, and behind it watch `2` on the falling
edge, recurring, with callback `function 4`. -/
def St.oneShotWatchFirst : St :=
  { St.init with
    watchArray := [1, 2]
    nextRef := 3
    watchObj := fun r =>
      if r = 1 then
        { Watch.absent with pin := 5, edge := 0, recur := false, callback := .function 3 }
      else if r = 2 then
        { Watch.absent with pin := 5, edge := -1, recur := true, callback := .function 4 }
      else Watch.absent }

/-! ## Reference definitions for sequences of idle steps -/

/-- An action that leaves the timer table as it is. -/
def Action.keepsTimers : Action → Prop
  | .timerAdd _ => False
  | .timerRemove _ => False
  | _ => True

/-- The timer sweeps of successive steps of `jsiIdle` whose elapsed ticks
(`timePassed`) are the elements of the list: each sweep is the timer loop from
the first child of `timerArray`, with `minTimeUntilNext = JSSYSTIME_MAX` and
`wasBusy = false` at its start. -/
def jsiIdleSweeps (env : Env) (fuel : Nat) : List Int → St → Option St
  | [], s => some s
  | timePassed :: rest, s =>
    match jsiIdleTimerLoop env timePassed fuel s.timerArray.head? JSSYSTIME_MAX false s with
    | some r => jsiIdleSweeps env fuel rest r.2.2
    | none => none

/-- A rising edge watch `1` with a debounce window whose last raw edge was
low, and its pending debounce timer `2`, a one-shot timer with `100` ticks
left. -/
def St.debouncePending : St :=
  { St.init with
    watchArray := [1]
    timerArray := [2]
    nextRef := 3
    watchObj := fun r =>
      if r = 1 then
        { Watch.absent with pin := 5, edge := 1, recur := true, debounce := 100,
                            callback := .function 3, state := some false, timeout := some 2 }
      else Watch.absent
    timerObj := fun r =>
      if r = 2 then
        { Timer.absent with time := 100, watch := some 1, callback := .function 3,
                            pin := some 5 }
      else Timer.absent }

/-! ## Reference definitions for the failure policy -/

/-- The timer table is a well-formed child list: no entry occurs twice, and
every entry is a variable that has been allocated. -/
def St.timersWF (s : St) : Prop :=
  s.timerArray.Nodup ∧ ∀ r ∈ s.timerArray, r < s.nextRef

/-- Collaborators in which every callback raises an error and the clock stands
at `60`. -/
def Env.failing : Env :=
  { Env.quiet with
    clock := fun _ => 60
    interp := fun _ _ _ => [.setError true] }

/-! ## Reference definitions for the result of a callback chain -/

mutual
/-- In the words of the specification: invoking the target, or some member of
an array target at any depth, reports a failure. An invocation reports a
failure when the evaluator has an error after it (`jspHasError()`); the members
of an array run one after the other, each in the state that the one before it
has left. -/
def chainFails (env : Env) : JsVar → JsVar → JsVar → St → Bool
  | .array elems, arg0, arg1, s => chainFailsList env elems arg0 arg1 s
  | .function id, arg0, arg1, s =>
    match jspExecuteFunction env (.function id) [arg0, arg1] s with
    | some s1 => s1.hasError
    | none => false
  | .string id, _, _, s =>
    match jspEvaluateVar env (.string id) s with
    | some s1 => s1.hasError
    | none => false
  | .undefined, _, _, _ => false
  | .data _, _, _, _ => false
  | .other _, _, _, _ => false
/-- Some member of the list reports a failure. -/
def chainFailsList (env : Env) : List JsVar → JsVar → JsVar → St → Bool
  | [], _, _, _ => false
  | child :: rest, arg0, arg1, s =>
    chainFails env child arg0 arg1 s ||
      match jsiExecuteEventCallback env child arg0 arg1 s with
      | some (_, s1) => chainFailsList env rest arg0 arg1 s1
      | none => false
end

/-- The state after start up with an error of the evaluator pending. -/
def St.errorPending : St := { St.init with hasError := true }

/-- Collaborators in which the callback `function 2` raises an error and every
other callback does nothing. -/
def Env.secondFails : Env :=
  { Env.quiet with interp := fun f _ _ => if f = .function 2 then [.setError true] else [] }

/-! ## The main loop -/

/-- The part of `jsiIdle` from line 1492 on: `loopsIdling` is cleared when
there was work or the queue is not empty, the queue is drained unless the
interrupt flag is set, an interruption during the drain is reported, the TODOs
are carried out, and the step ends with garbage collection or sleep.
`wasBusy` and `minTimeUntilNext` are the values of the locals at line 1492. -/
def jsiIdleDrain (env : Env) (fuel : Nat) (minTimeUntilNext : Int) (wasBusy : Bool) (s4 : St) :
    Option St :=
  let s5 := if wasBusy || !s4.events.isEmpty then { s4 with loopsIdling := 0 } else s4
  let s6 := if wasBusy then jsiSetBusy false s5 else s5
  match (if !s6.interrupted then jsiExecuteEvents env fuel s6 else some s6) with
  | none => none
  | some s7 =>
    let s8 :=
      if s7.interruptedDuringEvent then
        { s7 with interrupted := false, interruptedDuringEvent := false,
                  consoleOut := s7.consoleOut ++
                    ["Execution Interrupted during event processing.\n"] }
      else s7
    some (jsiIdleSleep env minTimeUntilNext (jsiIdleTodo env s8))

/-- The function `jsiLoop`. The result is the value returned and the state.
The input line of the console (`jsiConsoleRemoveInputLine`,
`jsiClearInputLine`, `jsiReturnInputLine`) and the Ctrl-C flag of the
evaluator are not part of the state. -/
def jsiLoop (env : Env) (fuel : Nat) (s0 : St) : Option (Bool × St) :=
  let s1 := { s0 with ioEvents := s0.ioEvents ++ env.jshIdle s0 }
  match jsiIdle env fuel s1 with
  | none => none
  | some s2 =>
    let s3 :=
      match env.jspGetException s2 with
      | some text => { s2 with consoleOut := s2.consoleOut ++ ["Uncaught " ++ text ++ "\n"] }
      | none => s2
    let s4 :=
      if s3.interrupted then
        { s3 with consoleOut := s3.consoleOut ++ ["Execution Interrupted.\n"],
                  interrupted := false }
      else s3
    let s5 :=
      match env.jspGetStackTrace s4 with
      | some text => { s4 with consoleOut := s4.consoleOut ++ [text] }
      | none => s4
    some (s5.loopsIdling == 0, s5)

/-- In the words of the specification: at least one timer reached remaining
ticks `<= 0` in the sweep of the timer loop that starts at the timer `timer`
with `timePassed` elapsed ticks. -/
def jsiIdleTimerLoopDue (env : Env) (timePassed : Int) : Nat → Option JsVarRef → St → Bool
  | _, none, _ => false
  | 0, some _, _ => false
  | fuel + 1, some timer, s =>
    decide ((s.timerObj timer).time - timePassed ≤ 0) ||
      match jsiIdleTimer env timePassed timer JSSYSTIME_MAX false s with
      | some (_, _, some next, s1) => jsiIdleTimerLoopDue env timePassed fuel next s1
      | _ => false

/-- At least one timer reached remaining ticks `<= 0` in the timer check of a
step of `jsiIdle` that starts in the state `s0`. -/
def jsiIdleTimersDue (env : Env) (fuel : Nat) (s0 : St) : Bool :=
  let t1 := jshGetSystemTime env s0
  let t2 := jshGetSystemTime env t1.2
  let timePassed := t2.1 - t2.2.jsiLastIdleTime
  let s1 := { t2.2 with jsiLastIdleTime := t1.1 }
  jsiIdleTimerLoopDue env timePassed fuel s1.timerArray.head? s1

/-! ## Reference definitions for one-shot timers in a table -/

/-- The timers for which a sweep of the timer loop runs the block for a due
timer (lines 1410 to 1474), in the order in which it runs it: the sweep starts
at the timer `timer` with `timePassed` elapsed ticks. -/
def jsiIdleTimerLoopFired (env : Env) (timePassed : Int) :
    Nat → Option JsVarRef → St → List JsVarRef
  | _, none, _ => []
  | 0, some _, _ => []
  | fuel + 1, some timer, s =>
    (if (s.timerObj timer).time - timePassed ≤ 0 then [timer] else []) ++
      match jsiIdleTimer env timePassed timer JSSYSTIME_MAX false s with
      | some (_, _, some next, s1) => jsiIdleTimerLoopFired env timePassed fuel next s1
      | _ => []

/-- The timers for which the timer check of a step of `jsiIdle` that starts in
the state `s0` runs the block for a due timer. -/
def jsiIdleTimersFired (env : Env) (fuel : Nat) (s0 : St) : List JsVarRef :=
  let t1 := jshGetSystemTime env s0
  let t2 := jshGetSystemTime env t1.2
  let timePassed := t2.1 - t2.2.jsiLastIdleTime
  let s1 := { t2.2 with jsiLastIdleTime := t1.1 }
  jsiIdleTimerLoopFired env timePassed fuel s1.timerArray.head? s1

/-- The record of the timer check of one step of `jsiIdle` (lines 1392 to
1487): the state in which it starts, the time `now` of the step (the value
that becomes `jsiLastIdleTime`, line 1394), the elapsed ticks `timePassed`
(line 1395), the timers whose block for a due timer it runs, and the state in
which it ends. -/
structure TimerCheck where
  start : St
  now : Int
  timePassed : Int
  fired : List JsVarRef
  finish : St

/-- The timer checks of `n` successive steps of `jsiIdle`, with their
records. -/
def jsiIdleTimerChecks (env : Env) (fuel : Nat) : Nat → St → Option (List TimerCheck)
  | 0, _ => some []
  | n + 1, s =>
    match jsiIdleTimers env fuel false s with
    | none => none
    | some r =>
      (jsiIdleTimerChecks env fuel n r.2.2).map fun rest =>
        { start := s, now := env.clock s.clockReads,
          timePassed := env.clock (s.clockReads + 1) - s.jsiLastIdleTime,
          fired := jsiIdleTimersFired env fuel s, finish := r.2.2 } :: rest

/-- What the body of the timer loop for the timer `p` does to the rest of
the state when callbacks keep the timer table: the table is as before or has
lost `p`; the other timer objects are as before, and `p` keeps its link, its
recurrence and its callback; the watch objects other than the watch that `p`
is linked to are as before; `jsiLastIdleTime` is not written; calls are added
to the record of calls. -/
structure TimerBodyFrame (p : JsVarRef) (s s' : St) : Prop where
  table : s'.timerArray = s.timerArray ∨ s'.timerArray = s.timerArray.erase p
  others : ∀ x, x ≠ p → x < s.nextRef → s'.timerObj x = s.timerObj x
  fields : ∀ x, x < s.nextRef →
    (s'.timerObj x).watch = (s.timerObj x).watch ∧ (s'.timerObj x).recur = (s.timerObj x).recur ∧
      (s'.timerObj x).callback = (s.timerObj x).callback
  watches : ∀ w, (s.timerObj p).watch ≠ some w → w < s.nextRef → s'.watchObj w = s.watchObj w
  lastIdle : s'.jsiLastIdleTime = s.jsiLastIdleTime
  nextRef : s.nextRef ≤ s'.nextRef
  trace : ∃ calls, s'.trace = s.trace ++ calls

/-- What the bodies of the timer loop for timers other than `T` do to the
state when callbacks keep the timer table: `T` stays in the table, which gains
no entry and stays well formed; every timer keeps its link, its recurrence and
its callback; a watch that no timer of the table other than `T` is linked to
is as before; calls are added to the record of calls. -/
structure TimerSweepFrame (T : JsVarRef) (s s' : St) : Prop where
  mem : T ∈ s'.timerArray
  wf : s'.timersWF
  sub : ∀ x, x ∈ s'.timerArray → x ∈ s.timerArray
  fields : ∀ x, x < s.nextRef →
    (s'.timerObj x).watch = (s.timerObj x).watch ∧ (s'.timerObj x).recur = (s.timerObj x).recur ∧
      (s'.timerObj x).callback = (s.timerObj x).callback
  watches : ∀ w, (∀ p ∈ s.timerArray, p ≠ T → (s.timerObj p).watch ≠ some w) →
    w < s.nextRef → s'.watchObj w = s.watchObj w
  nextRef : s.nextRef ≤ s'.nextRef
  trace : ∃ calls, s'.trace = s.trace ++ calls

/-- A recurring timer `1` with interval `1000`, `1000` ticks left and callback
`function 1`, and behind it a one-shot timer `2` with `100` ticks left and
callback `function 2`; the last idle step was at time `0`. -/
def St.intervalThenOneShot : St :=
  { St.init with
    timerArray := [1, 2]
    nextRef := 3
    timerObj := fun r =>
      if r = 1 then
        { Timer.absent with time := 1000, interval := 1000, recur := true,
                            callback := .function 1 }
      else if r = 2 then { Timer.absent with time := 100, callback := .function 2 }
      else Timer.absent }

/-- The timers that stand before the timer `T` in the timer table. -/
def St.timersBefore (s : St) (T : JsVarRef) : List JsVarRef :=
  s.timerArray.takeWhile fun r => r != T

/-- The elapsed ticks of the checks up to and including check number `k`
(counted from `0`), added up. -/
def elapsedUpTo (log : List TimerCheck) (k : Nat) : Int :=
  ((log.take (k + 1)).map fun c => c.timePassed).sum

/-! ## Reference definitions for the removal of watches -/

/-- The watch table is a well-formed child list: no entry occurs twice, and
every entry is a variable that has been allocated. -/
def St.watchesWF (s : St) : Prop :=
  s.watchArray.Nodup ∧ ∀ r ∈ s.watchArray, r < s.nextRef

/-- A watch `1` on pin `5` that is not recurring, waits for a rising edge and
has a debounce window of `100` ticks; its debounce timer `2` is pending with
`100` ticks left, and the level recorded for the pin is `level`. -/
def St.debounceOnce (level : Bool) : St :=
  { St.init with
    watchArray := [1]
    timerArray := [2]
    nextRef := 3
    watchObj := fun r =>
      if r = 1 then
        { Watch.absent with pin := 5, edge := 1, recur := false, debounce := 100,
                            callback := .function 3, state := some level, timeout := some 2 }
      else Watch.absent
    timerObj := fun r =>
      if r = 2 then
        { Timer.absent with time := 100, watch := some 1, callback := .function 3,
                            pin := some 5 }
      else Timer.absent }

/-- The run of the callback chain of the watch `watchNamePtr` by the watch
loop for a matching edge: the call of `jsiExecuteEventCallback` of line 1361,
in the state in which the loop makes it, after the variable for the time of
the event (line 1348) and the object `data` (line 1352) have been asked for.
The result is the value of the call and the state after it. -/
def jsiIdleWatchChain (env : Env) (watchNamePtr : JsVarRef) (pin : Pin) (pinIsHigh : Bool)
    (eventTime : Int) (s0 : St) : Option (Bool × St) :=
  let timePtr := jsvNewFromFloat env eventTime s0
  let alloc := jsvNewWithFlags env timePtr.2
  let data : JsVar :=
    match alloc.1 with
    | some _ =>
      .data { lastTime := (s0.watchObj watchNamePtr).lastTime, time := timePtr.1,
              pin := some pin, state := some pinIsHigh }
    | none => .undefined
  jsiExecuteEventCallback env (s0.watchObj watchNamePtr).callback data .undefined alloc.2

/-! ## Reference definitions for the drain -/

/-- Collaborators whose teardown and start up do to the queue what
`jsiSoftKill` and `jsiSoftInit` do: `jsiSoftKill` drops `events` (`events=0`,
line 543) and `jsiSoftInit` makes a new, empty array (line 381). -/
def Env.softInit : Env := { Env.quiet with reinit := fun _ s => { s with events := [] } }

/-- Two entries in the queue, the interrupt flag set, and nothing to do
besides. -/
def St.interruptedQueue : St := { St.twoQueued with interrupted := true }

/-- Two entries in the queue, the interrupt flag set, and a reset requested
(`jsiSetTodo(TODO_RESET)`). -/
def St.interruptedReset : St :=
  { St.twoQueued with interrupted := true, todo := { TODO_NOTHING with reset := true } }

/-- Collaborators in which the callback `function 1` sets the interrupt flag
(the user presses Ctrl-C while it runs) and every other callback does
nothing. -/
def Env.interrupting : Env :=
  { Env.quiet with interp := fun f _ _ => if f = .function 1 then [.setInterrupted true] else [] }

/-- A recurring timer with reference `1`: interval `0`, `50` ticks remaining,
callback `function 7`. -/
def St.interval0 : St :=
  { St.init with
    timerArray := [1]
    nextRef := 2
    timerObj := fun r =>
      if r = 1 then
        { Timer.absent with time := 50, interval := 0, recur := true, callback := .function 7 }
      else Timer.absent }

/-! ## Reference definitions for the clock -/

/-- Collaborators whose clock advances by one tick from one reading to the
next, starting at `5`; callbacks do nothing. -/
def Env.ticking : Env := { Env.quiet with clock := fun n => 5 + n }

/-! ## Reference definitions for maintenance and sleep -/

/-- The two records that only the end of `jsiIdle` writes: the maintenance
actions carried out and the calls of `jshSleep`. -/
def St.logs (s : St) : List Maintenance × List Int := (s.maintenance, s.sleeps)

/-! ## Reference definitions for the serial branch -/

/-- The characters that the serial branch of `jsiIdle` receives for an event of
type `eventType` with the characters `chars`: those of the event, followed by
those of the events of the same type that come next in the buffer, in the order
of arrival. The loop ends at the first event of another type or without
characters. -/
def jsiIdleUsartReceived (eventType : Nat) : List Nat → List IOEvent → List Nat
  | [], _ => []
  | c :: cs, [] => c :: cs
  | c :: cs, top :: buffer =>
    if top.eventType = eventType then
      (c :: cs) ++ jsiIdleUsartReceived eventType top.chars buffer
    else c :: cs

/-- The event of the serial device `3` with the characters `A` and `B`. -/
def IOEvent.serialAB : IOEvent := { eventType := 3, isHigh := false, chars := [65, 66], time := 0 }

/-- The device `3` has a class object with the options `options`. -/
def St.serial (options : Option (Option Int)) : St :=
  { St.init with usartClass := fun d => if d = 3 then some options else none }

/-! ## The console: the state machine of `jsiHandleChar` -/

/-- The type `InputState`. -/
inductive InputState where
  | IS_NONE
  | IS_HAD_R
  | IS_HAD_27
  | IS_HAD_27_79
  | IS_HAD_27_91
  | IS_HAD_27_91_49
  | IS_HAD_27_91_50
  | IS_HAD_27_91_51
  | IS_HAD_27_91_52
  | IS_HAD_27_91_53
  | IS_HAD_27_91_54
  deriving DecidableEq, Repr

/-- The calls that `jsiHandleChar` makes into the line editor. The blocks for
the cursor keys and for a character that is added to the input line are
recorded as one call each. -/
inductive ConsoleCall where
  | jsiHandleNewLine (execute : Bool)
  | jsiHandleEnd
  | jsiHandleHome
  | cursorLeft
  | cursorRight
  | cursorUp
  | cursorDown
  | jsiClearInputLine
  | jsiHandleDelete (isBackspace : Bool)
  | jsiHandlePageUpDown (n : Nat)
  | addToInputLine (ch : Nat)
  deriving DecidableEq, Repr

/-- The global `inputState` and the calls made into the line editor, oldest
first. -/
structure Console where
  inputState : InputState
  calls : List ConsoleCall
  deriving DecidableEq, Repr

/-- A call into the line editor is recorded. -/
def Console.call (c : Console) (x : ConsoleCall) : Console :=
  { c with calls := c.calls ++ [x] }

/-- The body of `jsiHandleChar` (lines 929 to 1077); `self` stands for the
calls of `jsiHandleChar` that the body makes for the keys of the numpad. -/
def jsiHandleCharBody (self : Nat → Console → Console) (ch : Nat) (c : Console) : Console :=
  if ch = 0 then { c with inputState := .IS_NONE }
  else if ch = 27 then { c with inputState := .IS_HAD_27 }
  else if c.inputState = .IS_HAD_27 then
    let c1 := { c with inputState := .IS_NONE }
    if ch = 79 then { c1 with inputState := .IS_HAD_27_79 }
    else if ch = 91 then { c1 with inputState := .IS_HAD_27_91 }
    else if ch = 10 then c1.call (.jsiHandleNewLine false)
    else c1
  else if c.inputState = .IS_HAD_27_79 then
    let c1 := { c with inputState := .IS_NONE }
    if ch = 70 then c1.call .jsiHandleEnd
    else if ch = 72 then c1.call .jsiHandleHome
    else if ch = 111 then self 47 c1
    else if ch = 106 then self 42 c1
    else if ch = 109 then self 45 c1
    else if ch = 107 then self 43 c1
    else if ch = 77 then self 13 c1
    else c1
  else if c.inputState = .IS_HAD_27_91 then
    let c1 := { c with inputState := .IS_NONE }
    if ch = 68 then c1.call .cursorLeft
    else if ch = 67 then c1.call .cursorRight
    else if ch = 65 then c1.call .cursorUp
    else if ch = 66 then c1.call .cursorDown
    else if ch = 49 then { c1 with inputState := .IS_HAD_27_91_49 }
    else if ch = 50 then { c1 with inputState := .IS_HAD_27_91_50 }
    else if ch = 51 then { c1 with inputState := .IS_HAD_27_91_51 }
    else if ch = 52 then { c1 with inputState := .IS_HAD_27_91_52 }
    else if ch = 53 then { c1 with inputState := .IS_HAD_27_91_53 }
    else if ch = 54 then { c1 with inputState := .IS_HAD_27_91_54 }
    else c1
  else if c.inputState = .IS_HAD_27_91_49 then
    let c1 := { c with inputState := .IS_NONE }
    if ch = 126 then c1.call .jsiHandleHome else c1
  else if c.inputState = .IS_HAD_27_91_50 then
    let c1 := { c with inputState := .IS_NONE }
    if ch = 75 then c1.call .jsiClearInputLine else c1
  else if c.inputState = .IS_HAD_27_91_51 then
    let c1 := { c with inputState := .IS_NONE }
    if ch = 126 then c1.call (.jsiHandleDelete false) else c1
  else if c.inputState = .IS_HAD_27_91_52 then
    let c1 := { c with inputState := .IS_NONE }
    if ch = 126 then c1.call .jsiHandleEnd else c1
  else if c.inputState = .IS_HAD_27_91_53 then
    let c1 := { c with inputState := .IS_NONE }
    if ch = 126 then c1.call (.jsiHandlePageUpDown 0) else c1
  else if c.inputState = .IS_HAD_27_91_54 then
    let c1 := { c with inputState := .IS_NONE }
    if ch = 126 then c1.call (.jsiHandlePageUpDown 1) else c1
  else
    let c1 := { c with inputState := .IS_NONE }
    if ch = 0x08 ∨ ch = 0x7F then c1.call (.jsiHandleDelete true)
    else if ch = 10 ∧ c1.inputState = .IS_HAD_R then { c1 with inputState := .IS_NONE }
    else if ch = 13 ∨ ch = 10 then
      let c2 := if ch = 13 then { c1 with inputState := .IS_HAD_R } else c1
      c2.call (.jsiHandleNewLine true)
    else if ch ≥ 32 ∨ ch = 9 then c1.call (.addToInputLine ch)
    else c1

/-- The function `jsiHandleChar` for the character with code `ch` (a `char`
taken as unsigned). The calls that the body makes to itself are made with
`inputState == IS_NONE` and one of the characters `/ * - +` and `\r`, for
which the body makes no further call, so two levels of the body are the
function (`jsiHandleChar_unfold`). -/
def jsiHandleChar (ch : Nat) (c : Console) : Console :=
  jsiHandleCharBody (jsiHandleCharBody fun _ c1 => c1) ch c

/-- The characters of `chars` are given to `jsiHandleChar` one after the
other. -/
def jsiHandleCharSeq : List Nat → Console → Console
  | [], c => c
  | ch :: rest, c => jsiHandleCharSeq rest (jsiHandleChar ch c)

/-- How many times `jsiHandleNewLine` was called. -/
def Console.newLines (c : Console) : Nat :=
  c.calls.countP fun x => match x with | .jsiHandleNewLine _ => true | _ => false

/-! ## `jswrap_serial.c`: `Serial.setup` -/

/-- A child of the object `options`, as far as `jswrap_serial_setup` looks at
it: absent, an integer, a string, or something else. -/
inductive OptionValue where
  | undefined
  | int (v : Int)
  | str (s : String)
  | other
  deriving DecidableEq, Repr

/-- The children `rx`, `tx`, `bytesize`, `parity` and `stopbits` of an object
given as `options`. -/
structure SerialOptions where
  rx : OptionValue
  tx : OptionValue
  bytesize : OptionValue
  parity : OptionValue
  stopbits : OptionValue
  deriving DecidableEq, Repr

/-- The argument `options` of `jswrap_serial_setup`: the null pointer
(`undefined`), an object, or a value that is not an object. -/
inductive OptionsArg where
  | undefined
  | object (o : SerialOptions)
  | other
  deriving DecidableEq, Repr

/-- The type `JshUSARTInfo`. -/
structure JshUSARTInfo where
  baudRate : Int
  pinRX : Pin
  pinTX : Pin
  bytesize : Nat
  parity : Nat
  stopbits : Nat
  deriving DecidableEq, Repr

/-- The Serial object `parent` with its children `USART_BAUDRATE_NAME` and
`DEVICE_OPTIONS_NAME`, the calls of `jshUSARTSetup` for its device and the
messages given to `jsExceptionHere`, oldest first. -/
structure Serial where
  baudrate : Option Int
  options : Option OptionsArg
  setups : List JshUSARTInfo
  exceptions : List String
  deriving DecidableEq, Repr

/-- What `jswrap_serial_setup` takes from the hardware layer: whether the
device of the object is a USART (`DEVICE_IS_USART`), the values that
`jshUSARTInitInfo` fills in, the constant `DEFAULT_BAUD_RATE`, and
`jshGetPinFromVarAndUnLock` on a child of `options`. -/
structure SerialEnv where
  isUsart : Bool
  initInfo : JshUSARTInfo
  DEFAULT_BAUD_RATE : Int
  jshGetPinFromVar : OptionValue → Pin

/-- The call `jsExceptionHere(JSET_ERROR, msg, ...)`. -/
def jsExceptionHere (msg : String) (p : Serial) : Serial :=
  { p with exceptions := p.exceptions ++ [msg] }

/-- The block `if (jsvIsObject(options))` of `jswrap_serial_setup` (lines 98 to
128): `none` stands for the `return` after an invalid parity. -/
def jswrap_serial_setup_options (env : SerialEnv) (o : SerialOptions) (inf : JshUSARTInfo)
    (p : Serial) : Option JshUSARTInfo × Serial :=
  let inf1 := { inf with pinRX := env.jshGetPinFromVar o.rx, pinTX := env.jshGetPinFromVar o.tx }
  let inf2 :=
    match o.bytesize with
    | .int v => { inf1 with bytesize := (v % 256).toNat }
    | _ => inf1
  let parity : Nat :=
    match o.parity with
    | .str s =>
      if s = "o" ∨ s = "odd" then 1
      else if s = "e" ∨ s = "even" then 2
      else 0
    | .int v => (v % 256).toNat
    | _ => 0
  let inf3 := { inf2 with parity := parity }
  if inf3.parity > 2 then (none, jsExceptionHere "Invalid parity %d" p)
  else
    match o.stopbits with
    | .int v => (some { inf3 with stopbits := (v % 256).toNat }, p)
    | _ => (some inf3, p)

/-- The function `jswrap_serial_setup`; `baud` is `none` for an undefined
argument and the value of `jsvGetInteger(baud)` otherwise. -/
def jswrap_serial_setup (env : SerialEnv) (baud : Option Int) (options : OptionsArg)
    (p : Serial) : Serial :=
  if !env.isUsart then p
  else
    let checked : JshUSARTInfo × Serial :=
      match baud with
      | none => (env.initInfo, p)
      | some v =>
        let b := toInt32 v
        if b ≤ 100 ∨ b > 10000000 then
          (env.initInfo, jsExceptionHere "Invalid baud rate specified" p)
        else ({ env.initInfo with baudRate := b }, p)
    let configured : Option JshUSARTInfo × Serial :=
      match options with
      | .object o => jswrap_serial_setup_options env o checked.1 checked.2
      | _ => (some checked.1, checked.2)
    match configured with
    | (none, p2) => p2
    | (some inf, p2) =>
      let p3 := { p2 with setups := p2.setups ++ [inf] }
      let p4 :=
        if inf.baudRate ≠ env.DEFAULT_BAUD_RATE then { p3 with baudrate := some inf.baudRate }
        else { p3 with baudrate := none }
      if options ≠ .undefined then { p4 with options := some options }
      else { p4 with options := none }

/-- A hardware layer for a USART device: 9600 baud, 8 bits, no parity and one
stop bit by default, pins undefined (`255`). -/
def SerialEnv.usart : SerialEnv :=
  { isUsart := true
    initInfo := { baudRate := 9600, pinRX := 255, pinTX := 255, bytesize := 8, parity := 0,
                  stopbits := 1 }
    DEFAULT_BAUD_RATE := 9600
    jshGetPinFromVar := fun v => match v with | .int n => n.toNat | _ => 255 }

/-- Options that give only the parity. -/
def SerialOptions.onlyParity (v : OptionValue) : SerialOptions :=
  { rx := .undefined, tx := .undefined, bytesize := .undefined, parity := v,
    stopbits := .undefined }

/-- A Serial object that was set up with 115200 baud and odd parity. -/
def Serial.configured : Serial :=
  { baudrate := some 115200
    options := some (.object (SerialOptions.onlyParity (.str "odd")))
    setups := []
    exceptions := [] }

/-! ## `httpserver.c`: the headers and the strings -/

/-- The conversion of an `int` to `size_t`, taken as 32 bits wide. -/
def toSize (x : Int) : Nat := (x % 2 ^ 32).toNat

/-- Modelled from the spec: `jsvNewFromStringVar(str, stridx, maxLength)` and
`jsvAppendStringVar(v, str, stridx, maxLength)` (for an empty `v`) are defined
in `jsvar.c`, which is not among the sources. They give the characters of `str`
from index `stridx` on, at most `maxLength` of them. A string variable is the
list of the codes of its characters. -/
def jsvNewFromStringVar (str : List Nat) (stridx : Nat) (maxLength : Nat) : List Nat :=
  (str.drop stridx).take maxLength

/-- The constant `JSVAPPENDSTRINGVAR_MAXLENGTH`. -/
def JSVAPPENDSTRINGVAR_MAXLENGTH : Nat := 0x7FFFFFFF

/-- The values that `httpParseHeaders` adds to `objectForData` as named
children: a string, or the object `headers` with its names in the order in
which they were added (a name whose value could not be allocated has no
value). -/
inductive HttpChild where
  | str (chars : List Nat)
  | headers (names : List (List Nat × Option (List Nat)))
  deriving DecidableEq, Repr

/-- The body of the first loop of `httpParseHeaders` (lines 75 to 87) for the
character `ch`, on the variables `newlineIdx`, `strIdx` and `headerEnd`. -/
def httpParseHeadersFindStep (v : Int × Int × Int) (ch : Nat) : Int × Int × Int :=
  let newlineIdx := v.1
  let strIdx := v.2.1
  let headerEnd := v.2.2
  if ch = 13 then
    if newlineIdx = 0 then (1, strIdx + 1, headerEnd)
    else if newlineIdx = 2 then (3, strIdx + 1, headerEnd)
    else (newlineIdx, strIdx + 1, headerEnd)
  else if ch = 10 then
    if newlineIdx = 1 then (2, strIdx + 1, headerEnd)
    else if newlineIdx = 3 then (newlineIdx, strIdx + 1, strIdx + 1)
    else (newlineIdx, strIdx + 1, headerEnd)
  else (0, strIdx + 1, headerEnd)

/-- The first loop of `httpParseHeaders` (lines 69 to 88): the value of
`headerEnd` after the string has been read. -/
def httpParseHeadersFind (receiveData : List Nat) : Int :=
  (receiveData.foldl httpParseHeadersFindStep (0, 0, -1)).2.2

/-- The variables of the second loop of `httpParseHeaders`, the names added to
`vHeaders` so far, and the number of variables asked for. -/
structure HeaderScan where
  strIdx : Int
  firstSpace : Int
  secondSpace : Int
  lineNumber : Int
  lastLineStart : Int
  colonPos : Int
  names : List (List Nat × Option (List Nat))
  allocs : Nat

/-- The body of the second loop of `httpParseHeaders` (lines 103 to 131) for
the character `ch`; `oom n` says that the `n`-th request for a variable finds
the pool exhausted. -/
def httpParseHeadersLineStep (oom : Nat → Bool) (receiveData : List Nat) (v : HeaderScan)
    (ch : Nat) : HeaderScan :=
  let v1 :=
    if ch = 32 ∨ ch = 13 then
      if v.firstSpace < 0 then { v with firstSpace := v.strIdx }
      else if v.secondSpace < 0 then { v with secondSpace := v.strIdx }
      else v
    else v
  let v2 := if ch = 58 ∧ v1.colonPos < 0 then { v1 with colonPos := v1.strIdx } else v1
  let v3 :=
    if ch = 13 then
      let v4 :=
        if v2.lineNumber > 0 ∧ v2.colonPos > v2.lastLineStart ∧ v2.lastLineStart < v2.strIdx then
          let hVal : Option (List Nat) :=
            if oom v2.allocs then none
            else some (jsvNewFromStringVar receiveData (toSize (v2.colonPos + 2))
              (toSize (v2.strIdx - (v2.colonPos + 2))))
          if oom (v2.allocs + 1) then { v2 with allocs := v2.allocs + 2 }
          else
            { v2 with
              allocs := v2.allocs + 2
              names := v2.names ++
                [(jsvNewFromStringVar receiveData (toSize v2.lastLineStart)
                    (toSize (v2.colonPos - v2.lastLineStart)), hVal)] }
        else v2
      { v4 with lineNumber := v4.lineNumber + 1, colonPos := -1 }
    else v2
  let v5 := if ch = 13 ∨ ch = 10 then { v3 with lastLineStart := v3.strIdx + 1 } else v3
  { v5 with strIdx := v5.strIdx + 1 }

/-- The function `httpParseHeaders`. The result is the value returned, the
string `*receiveData` afterwards (`none` is the null pointer), the named
children of `objectForData` afterwards, and the number of variables asked
for. -/
def httpParseHeaders (oom : Nat → Bool) (allocs : Nat) (receiveData : List Nat)
    (objectForData : List (String × HttpChild)) (isServer : Bool) :
    Bool × Option (List Nat) × List (String × HttpChild) × Nat :=
  let headerEnd := httpParseHeadersFind receiveData
  if headerEnd < 0 then (false, some receiveData, objectForData, allocs)
  else if oom allocs then (true, some receiveData, objectForData, allocs + 1)
  else
    let scan := receiveData.foldl (httpParseHeadersLineStep oom receiveData)
      { strIdx := 0, firstSpace := -1, secondSpace := -1, lineNumber := 0, lastLineStart := 0,
        colonPos := 0, names := [], allocs := allocs + 1 }
    let o1 := objectForData ++ [("headers", HttpChild.headers scan.names)]
    let o2 :=
      if isServer ∧ !oom scan.allocs then
        o1 ++ [("method", HttpChild.str
          (jsvNewFromStringVar receiveData 0 (toSize scan.firstSpace)))]
      else o1
    let a2 := if isServer then scan.allocs + 1 else scan.allocs
    let o3 :=
      if isServer ∧ !oom a2 then
        o2 ++ [("url", HttpChild.str
          (jsvNewFromStringVar receiveData (toSize (scan.firstSpace + 1))
            (toSize (scan.secondSpace - (scan.firstSpace + 1)))))]
      else o2
    let a3 := if isServer then a2 + 1 else a2
    let afterHeaders : Option (List Nat) :=
      if oom a3 then none
      else some (jsvNewFromStringVar receiveData (toSize headerEnd) JSVAPPENDSTRINGVAR_MAXLENGTH)
    (true, afterHeaders, o3, a3 + 1)

/-- The function `httpStringGet` from the characters that the iterator has not
read yet: `l` is the local variable, `pos` the offset of the pointer `str` from
where it started, `buf` the memory from there on. The result is the value
returned and the memory. -/
def httpStringGetLoop (len : Nat) : List Nat → Nat → Nat → (Nat → Nat) → Nat × (Nat → Nat)
  | [], l, _, buf => (len - l, buf)
  | ch :: rest, l, pos, buf =>
    if l = 0 then (len, buf)
    else httpStringGetLoop len rest (l - 1) (pos + 1) (Function.update buf pos ch)

/-- The function `httpStringGet`: `v` is the string, `str` the memory from the
pointer `str` on (by offset), `len` the length of the buffer. -/
def httpStringGet (v : List Nat) (str : Nat → Nat) (len : Nat) : Nat × (Nat → Nat) :=
  httpStringGetLoop len v len 0 str

/-- A blank line as far as repeats go, in a string: CR, one or more LF, one or
more CR, LF. With one LF and one CR in the middle it is the sequence
CR LF CR LF. -/
def blankLineRepeated (data : List Nat) : Prop :=
  ∃ pre b c post, 1 ≤ b ∧ 1 ≤ c ∧
    data = pre ++ 13 :: (List.replicate b 10 ++ List.replicate c 13 ++ 10 :: post)

/-- The string begins with LF, after CRs if any. -/
def beginsWithLineFeed (data : List Nat) : Prop :=
  ∃ c rest, data = List.replicate c 13 ++ 10 :: rest

/-- The text `A`, a blank line, `B`, a blank line, `C`. -/
def twoBlankLines : List Nat := [65, 13, 10, 13, 10, 66, 13, 10, 13, 10, 67]

/-- The maintenance actions that the check for TODOs carries out for the
pending flags `todo`, in the order of the three tests (lines 1513, 1520 and
1533). -/
def TODOFlags.actions (todo : TODOFlags) : List Maintenance :=
  (if todo.reset then [Maintenance.reset] else []) ++
  (if todo.flashSave then [Maintenance.flashSave] else []) ++
  (if todo.flashLoad then [Maintenance.flashLoad] else [])

/-- How many of the three flags are set. -/
def TODOFlags.count (todo : TODOFlags) : Nat :=
  (if todo.reset then 1 else 0) + (if todo.flashSave then 1 else 0) +
    (if todo.flashLoad then 1 else 0)

/-- The three flags `TODO_RESET`, `TODO_FLASH_SAVE` and `TODO_FLASH_LOAD` are
set together, and nothing else is pending. -/
def St.allTodo : St :=
  { St.init with todo := { reset := true, flashSave := true, flashLoad := true } }

/-- In the words of the specification: the least remaining ticks over the live
timers, `JSSYSTIME_MAX` when there are none, once `timePassed` ticks have been
taken from every timer of the table. -/
def minRemaining (s : St) (timePassed : Int) : Int :=
  (s.timerArray.map fun t => (s.timerObj t).time - timePassed).foldl min JSSYSTIME_MAX

/-- The test of the last statement of `jsiIdle` (lines 1558 to 1564), at whose
success `jshSleep` is called. -/
def jsiIdleSleeps (env : Env) (s : St) : Prop :=
  s.loopsIdling > 1 ∧ env.usbConnected s = false ∧ s.ioEvents = [] ∧
    env.jshHasTransmitData s = false

/-- Two idle steps are behind (`loopsIdling` is `2`), and one timer with
reference `1` has `100` ticks left. -/
def St.idleTwice : St := { St.oneShot100 with loopsIdling := 2 }

/-- Two idle steps are behind and there is no timer. -/
def St.idleNoTimer : St := { St.init with loopsIdling := 2 }

/-! ## Reference definitions for the debounce link -/

/-- The debounce link of the timer and watch tables: both tables are
well-formed child lists, and every timer of the timer table that carries a link
`watch` is a one-shot timer, the watch that it names has been allocated, and
the child `timeout` of that watch is this timer. -/
structure St.DebounceLinked (s : St) : Prop where
  timers : s.timersWF
  watches : s.watchesWF
  linked : ∀ t ∈ s.timerArray, ∀ w, (s.timerObj t).watch = some w →
    (s.timerObj t).recur = false ∧ w < s.nextRef ∧ (s.watchObj w).timeout = some t

/-- An action that does not make a timer with a link `watch`: the timers that
`setTimeout` and `setInterval` make have none, the link is written by `jsiIdle`
alone (line 1333). -/
def Action.plainTimer : Action → Prop
  | .timerAdd t => t.watch = none
  | _ => True

/-- No collaborator makes a timer with a link `watch`, and the teardown and
start up of a maintenance action leave tables with the debounce link. -/
structure Env.PlainTimers (env : Env) : Prop where
  interp : ∀ f args st, ∀ a ∈ env.interp f args st, a.plainTimer
  jsiHandleChar : ∀ c st, ∀ a ∈ env.jsiHandleChar c st, a.plainTimer
  pushData : ∀ d cs st, ∀ a ∈ env.pushData d cs st, a.plainTimer
  jswIdle : ∀ st, ∀ a ∈ (env.jswIdle st).2, a.plainTimer
  reinit : ∀ m x, x.DebounceLinked → (env.reinit m x).DebounceLinked

/-- The states that steps of `jsiIdle` reach from `s0`, raw events arriving in
the buffer between the steps. -/
inductive Reachable (env : Env) (fuel : Nat) (s0 : St) : St → Prop where
  | start : Reachable env fuel s0 s0
  | step (s s' : St) : Reachable env fuel s0 s → jsiIdle env fuel s = some s' →
      Reachable env fuel s0 s'
  | arrive (s : St) (evs : List IOEvent) : Reachable env fuel s0 s →
      Reachable env fuel s0 { s with ioEvents := s.ioEvents ++ evs }

/-! # Theorems -/

/-! ## Facts about the event queue -/

theorem appends_refl (s : St) : Appends s s [] :=
  ⟨by simp, by simp, rfl, by simp⟩

theorem appends_trans {s1 s2 s3 : St} {a b : List Event}
    (h1 : Appends s1 s2 a) (h2 : Appends s2 s3 b) : Appends s1 s3 (a ++ b) where
  events := by rw [h2.events, h1.events, List.append_assoc]
  queued := by rw [h2.queued, h1.queued, List.append_assoc]
  trace := by rw [h2.trace, h1.trace]
  callable := by
    intro e he
    rcases List.mem_append.1 he with h | h
    · exact h1.callable e h
    · exact h2.callable e h

theorem jsiQueueEventInternal_appends (env : Env) (f : JsVar) (args : List JsVar) (s s' : St)
    (h : jsiQueueEventInternal env f args s = some s') :
    Appends s s' (if env.oom s.allocs then [] else [{ func := f, args := args }]) ∧
      s'.allocs = s.allocs + 1 ∧ f.isCallable ∧ args.length < 10 := by
  unfold jsiQueueEventInternal at h
  split at h
  · rename_i hassert
    unfold jsvNewWithFlags at h
    by_cases ho : env.oom s.allocs = true
    · simp only [ho, if_true] at h
      cases h
      simp only [ho, if_true]
      exact ⟨⟨by simp, by simp, rfl, by simp⟩, by simp, hassert.2, hassert.1⟩
    · simp only [ho] at h
      cases h
      simp only [ho]
      refine ⟨⟨rfl, rfl, rfl, ?_⟩, by simp, hassert.2, hassert.1⟩
      intro e he
      simp at he
      subst he
      exact hassert.2
  · cases h

theorem jsiQueueEventsLoop_appends (env : Env) (args : List JsVar) :
    ∀ (elems : List JsVar) (s s' : St), jsiQueueEventsLoop env args elems s = some s' →
      Appends s s' ((allocated env s.allocs elems).map fun f => { func := f, args := args }) ∧
        s'.allocs = s.allocs + elems.length ∧ ∀ f ∈ elems, f.isCallable
  | [], s, s', h => by
      simp only [jsiQueueEventsLoop] at h
      cases h
      exact ⟨by simpa [allocated] using appends_refl s, rfl, by simp⟩
  | f :: rest, s, s', h => by
      simp only [jsiQueueEventsLoop] at h
      cases h1 : jsiQueueEventInternal env f args s with
      | none => simp [h1] at h
      | some s1 =>
        simp only [h1] at h
        obtain ⟨ha, hn, hc, _⟩ := jsiQueueEventInternal_appends env f args s s1 h1
        obtain ⟨hb, hm, hcs⟩ := jsiQueueEventsLoop_appends env args rest s1 s' h
        refine ⟨?_, by rw [hm, hn]; simp only [List.length_cons]; omega, ?_⟩
        · have := appends_trans ha hb
          rw [hn] at this
          simp only [allocated, List.map_append]
          by_cases ho : env.oom s.allocs = true
          · simpa [ho] using this
          · simpa [ho] using this
        · intro g hg
          rcases List.mem_cons.1 hg with rfl | hg
          · exact hc
          · exact hcs g hg

theorem jsiQueueEvents_appends (env : Env) (callback : JsVar) (args : List JsVar) (s s' : St)
    (h : jsiQueueEvents env callback args s = some s') :
    ∃ new, Appends s s' new := by
  unfold jsiQueueEvents at h
  split at h
  · cases h; exact ⟨[], appends_refl s⟩
  · split at h
    · exact ⟨_, (jsiQueueEventInternal_appends env callback args s s' h).1⟩
    · split at h
      · exact ⟨_, (jsiQueueEventsLoop_appends env args _ s s' h).1⟩
      · cases h

theorem applyAction_appends (env : Env) (a : Action) (s s' : St)
    (h : applyAction env a s = some s') : ∃ new, Appends s s' new := by
  cases a with
  | queueEvents callback args => exact jsiQueueEvents_appends env callback args s s' h
  | timerAdd t => simp only [applyAction, jsiTimerAdd] at h; cases h; exact ⟨[], by simp, by simp, rfl, by simp⟩
  | timerRemove r => simp only [applyAction] at h; cases h; exact ⟨[], by simp, by simp, rfl, by simp⟩
  | watchAdd w => simp only [applyAction] at h; cases h; exact ⟨[], by simp, by simp, rfl, by simp⟩
  | watchRemove r => simp only [applyAction] at h; cases h; exact ⟨[], by simp, by simp, rfl, by simp⟩
  | setInterrupted b => simp only [applyAction] at h; cases h; exact ⟨[], by simp, by simp, rfl, by simp⟩
  | setError b => simp only [applyAction] at h; cases h; exact ⟨[], by simp, by simp, rfl, by simp⟩
  | setTodo t => simp only [applyAction] at h; cases h; exact ⟨[], by simp, by simp, rfl, by simp⟩

theorem applyActions_appends (env : Env) :
    ∀ (acts : List Action) (s s' : St), applyActions env acts s = some s' →
      ∃ new, Appends s s' new
  | [], s, s', h => by simp only [applyActions] at h; cases h; exact ⟨[], appends_refl s⟩
  | a :: rest, s, s', h => by
      simp only [applyActions] at h
      cases h1 : applyAction env a s with
      | none => simp [h1] at h
      | some s1 =>
        simp only [h1] at h
        obtain ⟨n1, hn1⟩ := applyAction_appends env a s s1 h1
        obtain ⟨n2, hn2⟩ := applyActions_appends env rest s1 s' h
        exact ⟨n1 ++ n2, appends_trans hn1 hn2⟩

theorem jsiQueueEventInternal_some (env : Env) (f : JsVar) (args : List JsVar) (s : St)
    (hargs : args.length < 10) (hf : f.isFunction ∨ f.isString) :
    ∃ s', jsiQueueEventInternal env f args s = some s' := by
  unfold jsiQueueEventInternal
  rw [if_pos ⟨hargs, hf⟩]
  cases h : jsvNewWithFlags env s with
  | mk r s1 => cases r <;> simp

theorem jsiQueueEventsLoop_some (env : Env) (args : List JsVar) (hargs : args.length < 10) :
    ∀ (elems : List JsVar) (s : St), (∀ f ∈ elems, f.isFunction ∨ f.isString) →
      ∃ s', jsiQueueEventsLoop env args elems s = some s'
  | [], s, _ => ⟨s, rfl⟩
  | f :: rest, s, h => by
      obtain ⟨s1, h1⟩ := jsiQueueEventInternal_some env f args s hargs (h f (by simp))
      obtain ⟨s2, h2⟩ := jsiQueueEventsLoop_some env args hargs rest s1
        (fun g hg => h g (by simp [hg]))
      exact ⟨s2, by simp [jsiQueueEventsLoop, h1, h2]⟩

theorem allocated_eq_self (env : Env) :
    ∀ (elems : List JsVar) (n : Nat), (∀ i, i < elems.length → env.oom (n + i) = false) →
      allocated env n elems = elems
  | [], _, _ => rfl
  | f :: rest, n, h => by
      have h0 : env.oom n = false := by simpa using h 0 (by simp)
      have hr : ∀ i, i < rest.length → env.oom (n + 1 + i) = false := by
        intro i hi
        have := h (i + 1) (by simp [hi])
        rwa [show n + (i + 1) = n + 1 + i by omega] at this
      simp [allocated, h0, allocated_eq_self env rest (n + 1) hr]

/-- C2 (amended). For a call `jsiQueueEvents(callback, args)` with fewer than
ten arguments: an absent callback leaves the state, and so the queue,
unchanged; a function or string target appends exactly one entry when the pool
gives a variable for it and none when the pool is exhausted; an array target
whose elements are functions or strings appends, at the end of the queue and
in array order, one entry with the same arguments for every element whose
variable the pool gives, so exactly one per element when the pool is not
exhausted. The entries already queued stay in front, unchanged. -/
theorem jsiQueueEvents_queue (env : Env) (callback : JsVar) (args : List JsVar) (s : St)
    (hargs : args.length < 10) :
    (callback = .undefined → jsiQueueEvents env callback args s = some s) ∧
    (callback.isFunction ∨ callback.isString →
      ∃ s', jsiQueueEvents env callback args s = some s' ∧
        s'.events = s.events ++
          (if env.oom s.allocs then [] else [{ func := callback, args := args }])) ∧
    (∀ elems, callback = .array elems → (∀ f ∈ elems, f.isFunction ∨ f.isString) →
      ∃ s', jsiQueueEvents env callback args s = some s' ∧
        s'.events = s.events ++
          (allocated env s.allocs elems).map (fun f => { func := f, args := args }) ∧
        ((∀ i, i < elems.length → env.oom (s.allocs + i) = false) →
          s'.events = s.events ++ elems.map (fun f => { func := f, args := args }))) := by
  refine ⟨?_, ?_, ?_⟩
  · rintro rfl
    rfl
  · intro hf
    have hu : callback.isUndefined = false := by
      cases callback <;> simp_all [JsVar.isUndefined, JsVar.isFunction, JsVar.isString]
    obtain ⟨s', h⟩ := jsiQueueEventInternal_some env callback args s hargs hf
    refine ⟨s', ?_, (jsiQueueEventInternal_appends env callback args s s' h).1.events⟩
    unfold jsiQueueEvents
    simp [hu, hf, h]
  · rintro elems rfl helems
    obtain ⟨s', h⟩ := jsiQueueEventsLoop_some env args hargs elems s helems
    have hev := (jsiQueueEventsLoop_appends env args elems s s' h).1.events
    refine ⟨s', ?_, hev, ?_⟩
    · unfold jsiQueueEvents
      simp [JsVar.isUndefined, JsVar.isFunction, JsVar.isString, JsVar.isArray,
        JsVar.elements, h]
    · intro hoom
      rw [hev, allocated_eq_self env elems s.allocs hoom]

/-- C2, witness: an array of two functions queued with one argument. -/
theorem jsiQueueEvents_queue_witness :
    (∃ s', jsiQueueEvents Env.quiet (.array [.function 1, .function 2]) [.other 7] St.init
        = some s' ∧
      s'.events = St.init.events ++
          (allocated Env.quiet St.init.allocs [.function 1, .function 2]).map
            (fun f => { func := f, args := [.other 7] }) ∧
      ((∀ i, i < [JsVar.function 1, JsVar.function 2].length →
          Env.quiet.oom (St.init.allocs + i) = false) →
        s'.events = St.init.events ++ [JsVar.function 1, JsVar.function 2].map
          (fun f => { func := f, args := [.other 7] }))) :=
  (jsiQueueEvents_queue Env.quiet (.array [.function 1, .function 2]) [.other 7] St.init
    (by decide)).2.2 [.function 1, .function 2] rfl (by decide)

/-- C2, counterexample: with the pool exhausted, queueing a single function
returns normally and appends no entry, where the claim promises exactly one. -/
theorem jsiQueueEvents_exhausted :
    (JsVar.function 1).isFunction = true ∧
    (jsiQueueEvents Env.exhausted (.function 1) [] St.init).map (fun s => s.events) =
      some [] ∧
    ¬ ∃ s', jsiQueueEvents Env.exhausted (.function 1) [] St.init = some s' ∧
        s'.events = St.init.events ++ [{ func := .function 1, args := [] }] := by
  refine ⟨rfl, rfl, ?_⟩
  rintro ⟨s', h, he⟩
  have h2 : (jsiQueueEvents Env.exhausted (.function 1) [] St.init).map (fun s => s.events)
      = some [] := rfl
  rw [h] at h2
  simp only [Option.map_some'] at h2
  rw [he] at h2
  simp [St.init] at h2

theorem jspExecuteFunction_appends (env : Env) (f : JsVar) (args : List JsVar) (s s' : St)
    (h : jspExecuteFunction env f args s = some s') :
    ∃ new, s'.events = s.events ++ new ∧ s'.queued = s.queued ++ new ∧
      s'.trace = s.trace ++ [{ func := f, args := args }] ∧ ∀ e ∈ new, e.func.isCallable := by
  unfold jspExecuteFunction at h
  obtain ⟨new, hn⟩ := applyActions_appends env _ _ s' h
  exact ⟨new, hn.events, hn.queued, hn.trace, hn.callable⟩

theorem jspEvaluateVar_appends (env : Env) (f : JsVar) (s s' : St)
    (h : jspEvaluateVar env f s = some s') :
    ∃ new, s'.events = s.events ++ new ∧ s'.queued = s.queued ++ new ∧
      s'.trace = s.trace ++ [{ func := f, args := [] }] ∧ ∀ e ∈ new, e.func.isCallable := by
  unfold jspEvaluateVar at h
  obtain ⟨new, hn⟩ := applyActions_appends env _ _ s' h
  exact ⟨new, hn.events, hn.queued, hn.trace, hn.callable⟩

theorem jsiExecuteEvent_appends (env : Env) (e : Event) (s s' : St)
    (he : e.func.isCallable) (h : jsiExecuteEvent env e s = some s') :
    ∃ new, s'.events = s.events ++ new ∧ s'.queued = s.queued ++ new ∧
      s'.trace = s.trace ++ [e.invocation] ∧ ∀ x ∈ new, x.func.isCallable := by
  unfold jsiExecuteEvent at h
  have hu : e.func.isUndefined = false := by
    rcases he with he | he <;>
      cases hf : e.func <;> simp_all [JsVar.isUndefined, JsVar.isFunction, JsVar.isString]
  simp only [hu] at h
  by_cases hfun : e.func.isFunction = true
  · simp only [hfun, if_true] at h
    simpa [Event.invocation, hfun] using jspExecuteFunction_appends env _ _ s s' h
  · have hstr : e.func.isString = true := by
      rcases he with he | he
      · exact absurd he hfun
      · exact he
    simp only [hfun, hstr, if_true] at h
    simpa [Event.invocation, hfun] using jspEvaluateVar_appends env _ s s' h

theorem jsiExecuteEventsLoop_fifo (env : Env) :
    ∀ (fuel : Nat) (s s' : St), (∀ e ∈ s.events, e.func.isCallable) →
      jsiExecuteEventsLoop env fuel s = some s' →
      ∃ new, s'.queued = s.queued ++ new ∧ s'.events = [] ∧
        s'.trace = s.trace ++ (s.events ++ new).map Event.invocation := by
  intro fuel
  induction fuel with
  | zero =>
    intro s s' _ h
    unfold jsiExecuteEventsLoop at h
    cases hev : s.events with
    | nil =>
      simp only [hev] at h
      cases h
      exact ⟨[], by simp, hev, by simp [hev]⟩
    | cons e rest => simp [hev] at h
  | succ fuel ih =>
    intro s s' hq h
    unfold jsiExecuteEventsLoop at h
    cases hev : s.events with
    | nil =>
      simp only [hev] at h
      cases h
      exact ⟨[], by simp, hev, by simp [hev]⟩
    | cons e rest =>
      simp only [hev] at h
      cases h1 : jsiExecuteEvent env e { s with events := rest } with
      | none => simp [h1] at h
      | some s1 =>
        simp only [h1] at h
        have hec : e.func.isCallable := hq e (by simp [hev])
        obtain ⟨n1, hev1, hq1, ht1, hc1⟩ := jsiExecuteEvent_appends env e _ s1 hec h1
        simp only at hev1 hq1 ht1
        have hq' : ∀ x ∈ s1.events, x.func.isCallable := by
          intro x hx
          rw [hev1] at hx
          rcases List.mem_append.1 hx with hx | hx
          · exact hq x (by simp [hev, hx])
          · exact hc1 x hx
        obtain ⟨n2, hq2, he2, ht2⟩ := ih s1 s' hq' h
        refine ⟨n1 ++ n2, by rw [hq2, hq1, List.append_assoc], he2, ?_⟩
        rw [ht2, ht1, hev1]
        simp [List.append_assoc]

/-- C1. A drain `jsiExecuteEvents` that returns has invoked every entry that
was in the queue when it started and every entry that the callbacks it ran have
queued meanwhile (`jsiQueueEvents` records them in `queued`), each exactly once
and in the order in which they were queued, and it leaves the queue empty. The
entries of the initial queue are functions or strings, as the assertion of
`jsiQueueEventInternal` makes them. -/
theorem jsiExecuteEvents_fifo (env : Env) (fuel : Nat) (s s' : St)
    (hq : ∀ e ∈ s.events, e.func.isFunction ∨ e.func.isString)
    (h : jsiExecuteEvents env fuel s = some s') :
    s'.events = [] ∧
    s'.trace = s.trace ++
      (s.events ++ s'.queued.drop s.queued.length).map Event.invocation := by
  have hs1 : ∀ (b : Bool) (x : St), x = (if b = true then jsiSetBusy true s else s) →
      x.events = s.events ∧ x.trace = s.trace ∧ x.queued = s.queued := by
    intro b x hx
    subst hx
    split <;> simp [jsiSetBusy]
  have hs3 : ∀ (b : Bool) (s2 x : St), x = (if b = true
        then { jsiSetBusy false s2 with interruptedDuringEvent := true }
        else jsiSetBusy false s2) →
      x.events = s2.events ∧ x.trace = s2.trace ∧ x.queued = s2.queued := by
    intro b s2 x hx
    subst hx
    split <;> simp [jsiSetBusy]
  dsimp only [jsiExecuteEvents] at h
  split at h
  · cases h
  · rename_i s2 hl
    obtain ⟨e1, t1, q1⟩ := hs1 _ _ rfl
    obtain ⟨new, hq2, he2, ht2⟩ := jsiExecuteEventsLoop_fifo env fuel _ s2
      (by rw [e1]; exact hq) hl
    rw [e1, t1] at ht2
    rw [q1] at hq2
    have hd : s2.queued.drop s.queued.length = new := by rw [hq2]; simp
    split at h
    · cases h
      obtain ⟨e3, t3, q3⟩ := hs3 _ s2 _ rfl
      exact ⟨by rw [e3, he2], by rw [t3, q3, hd, ht2]⟩
    · cases h
      exact ⟨he2, by rw [hd, ht2]⟩

/-- C1, witness: `function 1` queues two more callbacks while the drain runs.
They are invoked after `string 4`, which was queued before them. -/
theorem jsiExecuteEvents_fifo_witness :
    (∃ s', jsiExecuteEvents Env.requeue 5 St.twoQueued = some s' ∧
      s'.events = [] ∧
      s'.trace = St.twoQueued.trace ++
        (St.twoQueued.events ++ s'.queued.drop St.twoQueued.queued.length).map
          Event.invocation) ∧
    (jsiExecuteEvents Env.requeue 5 St.twoQueued).map (fun s => s.trace) =
      some [{ func := .function 1, args := [.other 8, .undefined] },
            { func := .string 4, args := [] },
            { func := .function 2, args := [.other 5, .undefined] },
            { func := .string 3, args := [] }] := by
  refine ⟨?_, by decide⟩
  cases h : jsiExecuteEvents Env.requeue 5 St.twoQueued with
  | none =>
    have : (jsiExecuteEvents Env.requeue 5 St.twoQueued).isSome = true := by decide
    rw [h] at this
    cases this
  | some s' =>
    exact ⟨s', rfl, jsiExecuteEvents_fifo Env.requeue 5 St.twoQueued s' (by decide) h⟩

theorem two_pow_32 : (2 : Int) ^ 32 = 4294967296 := by norm_num

/-- C6. When the event was captured at time `t` and is processed at time `now`
less than `2 ^ 32` ticks later, the time that `jsiIdle` reconstructs from `now`
and the low 32 bits of `t` is `t`; so the reconstructed times of two such
events are in the order of their capture times. -/
theorem eventTime_roundtrip (t now : Int) (h0 : 0 ≤ now - t) (h1 : now - t < 2 ^ 32) :
    eventTime now (truncate32 t) = t ∧
    ∀ t2 now2 : Int, 0 ≤ now2 - t2 → now2 - t2 < 2 ^ 32 → t ≤ t2 →
      eventTime now (truncate32 t) ≤ eventTime now2 (truncate32 t2) := by
  have key : ∀ t now : Int, 0 ≤ now - t → now - t < 2 ^ 32 →
      eventTime now (truncate32 t) = t := by
    intro t now h0 h1
    unfold eventTime truncate32 lowU32 clearLow32
    rw [two_pow_32] at *
    have hnn : 0 ≤ t % 4294967296 := Int.emod_nonneg _ (by norm_num)
    rw [Int.toNat_of_nonneg hnn]
    simp only
    split <;> omega
  refine ⟨key t now h0 h1, ?_⟩
  intro t2 now2 h02 h12 hle
  rw [key t now h0 h1, key t2 now2 h02 h12]
  exact hle

/-- C6, witness: an event captured just before the low 32 bits wrap and
processed six ticks later. -/
theorem eventTime_roundtrip_witness :
    eventTime (3 * 2 ^ 32 + 5) (truncate32 (3 * 2 ^ 32 - 1)) = 3 * 2 ^ 32 - 1 ∧
    ∀ t2 now2 : Int, 0 ≤ now2 - t2 → now2 - t2 < 2 ^ 32 → 3 * 2 ^ 32 - 1 ≤ t2 →
      eventTime (3 * 2 ^ 32 + 5) (truncate32 (3 * 2 ^ 32 - 1)) ≤
        eventTime now2 (truncate32 t2) :=
  eventTime_roundtrip (3 * 2 ^ 32 - 1) (3 * 2 ^ 32 + 5) (by norm_num) (by norm_num)

/-- C7. For every current time `now` and every 32 bit timestamp `s` the
reconstructed event time has `s` as its low 32 bits, is at most `now` and is
later than `now - 2 ^ 32`, also when the low 32 bits of `now` are below `s`. -/
theorem eventTime_bounds (now : Int) (s : Nat) (hs : s < 2 ^ 32) :
    eventTime now s % 2 ^ 32 = s ∧ now - 2 ^ 32 < eventTime now s ∧ eventTime now s ≤ now := by
  have hs' : (s : Int) < 4294967296 := by
    have : (s : Int) < ((2 ^ 32 : Nat) : Int) := by exact_mod_cast hs
    simpa using this
  unfold eventTime lowU32 clearLow32
  rw [two_pow_32]
  simp only
  have hs0 : (0 : Int) ≤ s := Int.ofNat_nonneg s
  split <;> refine ⟨?_, ?_, ?_⟩ <;> omega

/-- C7, witness: the timestamp `2 ^ 32 - 1` processed when the low 32 bits of
the clock have wrapped to `5`. -/
theorem eventTime_bounds_witness :
    (2 ^ 32 - 1 < 2 ^ 32) ∧
    eventTime (3 * 2 ^ 32 + 5) (2 ^ 32 - 1) % 2 ^ 32 = ((2 ^ 32 - 1 : Nat) : Int) ∧
    (3 * 2 ^ 32 + 5 : Int) - 2 ^ 32 < eventTime (3 * 2 ^ 32 + 5) (2 ^ 32 - 1) ∧
    eventTime (3 * 2 ^ 32 + 5) (2 ^ 32 - 1) ≤ 3 * 2 ^ 32 + 5 :=
  ⟨by norm_num, eventTime_bounds (3 * 2 ^ 32 + 5) (2 ^ 32 - 1) (by norm_num)⟩

theorem toInt32_of_range (x : Int) (hlo : -2 ^ 31 ≤ x) (hhi : x < 2 ^ 31) : toInt32 x = x := by
  unfold toInt32
  rw [Int.emod_eq_of_lt (by omega) (by omega)]
  omega

theorem jsiShouldExecuteWatch_cases (edge : Int) (pinIsHigh : Bool) :
    jsiShouldExecuteWatch edge pinIsHigh = EdgeMatches (edgePolicy (toInt32 edge)) pinIsHigh ∧
    jsiShouldExecuteWatch edge pinIsHigh =
      (if toInt32 edge > 0 then pinIsHigh else if toInt32 edge < 0 then !pinIsHigh
        else true) := by
  unfold jsiShouldExecuteWatch edgePolicy
  simp only
  generalize toInt32 edge = watchEdge
  rcases lt_trichotomy watchEdge 0 with h | h | h
  · have h1 : ¬ watchEdge > 0 := by omega
    have h2 : ¬ watchEdge = 0 := by omega
    cases pinIsHigh <;> simp [h, h1, h2, EdgeMatches]
  · subst h
    cases pinIsHigh <;> simp [EdgeMatches]
  · have h1 : ¬ watchEdge < 0 := by omega
    have h2 : ¬ watchEdge = 0 := by omega
    cases pinIsHigh <;> simp [h, h1, h2, EdgeMatches]

/-- C9, counterexample. The claim decides by the sign of the child `edge`. The
function casts the child to `int` first (line 1210): the value `2 ^ 32` is
positive, a rising edge watch by the claim, but it is read as `0`, and the
function returns true for the low level, where `EdgeMatches` of the rising
policy is false. -/
theorem jsiShouldExecuteWatch_truncates :
    (2 ^ 32 : Int) > 0 ∧ jsiShouldExecuteWatch (2 ^ 32) false = true ∧
    EdgeMatches (edgePolicy (2 ^ 32)) false = false := by
  refine ⟨by norm_num, ?_, ?_⟩
  · rw [(jsiShouldExecuteWatch_cases _ _).2]
    have h : toInt32 (2 ^ 32) = 0 := by unfold toInt32; norm_num
    rw [h]
    rfl
  · unfold edgePolicy
    rw [if_pos (by norm_num)]
    rfl

/-- C9 (amended). The function `jsiShouldExecuteWatch` is the relation `EdgeMatches` of
the specification for the policy of the child `edge` as line 1210 reads it,
cast to `int`: it returns `pinIsHigh` for a rising edge watch (`(int)edge > 0`),
the negation of `pinIsHigh` for a falling edge watch (`(int)edge < 0`) and
`true` for a watch on either edge (`(int)edge = 0`). For every value of the
child in the range of `int` the cast changes nothing, and the function is
`EdgeMatches` for the policy of the child itself. -/
theorem jsiShouldExecuteWatch_eq_EdgeMatches (edge : Int) (pinIsHigh : Bool) :
    jsiShouldExecuteWatch edge pinIsHigh = EdgeMatches (edgePolicy (toInt32 edge)) pinIsHigh ∧
    jsiShouldExecuteWatch edge pinIsHigh =
      (if toInt32 edge > 0 then pinIsHigh else if toInt32 edge < 0 then !pinIsHigh
        else true) ∧
    (-2 ^ 31 ≤ edge → edge < 2 ^ 31 →
      jsiShouldExecuteWatch edge pinIsHigh = EdgeMatches (edgePolicy edge) pinIsHigh ∧
      jsiShouldExecuteWatch edge pinIsHigh =
        (if edge > 0 then pinIsHigh else if edge < 0 then !pinIsHigh else true)) := by
  refine ⟨(jsiShouldExecuteWatch_cases edge pinIsHigh).1,
    (jsiShouldExecuteWatch_cases edge pinIsHigh).2, fun hlo hhi => ?_⟩
  have h := jsiShouldExecuteWatch_cases edge pinIsHigh
  rw [toInt32_of_range edge hlo hhi] at h
  exact h

/-- C9, witness: the falling edge value `-1` is in the range of `int`; the
function returns false for the high level and true for the low level. -/
theorem jsiShouldExecuteWatch_eq_EdgeMatches_witness :
    jsiShouldExecuteWatch (-1) true = false ∧ jsiShouldExecuteWatch (-1) false = true := by
  have h1 := (jsiShouldExecuteWatch_eq_EdgeMatches (-1) true).2.2 (by norm_num) (by norm_num)
  have h2 := (jsiShouldExecuteWatch_eq_EdgeMatches (-1) false).2.2 (by norm_num) (by norm_num)
  exact ⟨by rw [h1.2]; rfl, by rw [h2.2]; rfl⟩

/-! ## Facts about callback chains -/

theorem applyActions_rel (env : Env) (R : St → St → Prop)
    (hrefl : ∀ s, R s s) (htrans : ∀ a b c, R a b → R b c → R a c) :
    ∀ (acts : List Action) (s s' : St),
      (∀ a ∈ acts, ∀ x x', applyAction env a x = some x' → R x x') →
      applyActions env acts s = some s' → R s s'
  | [], s, s', _, h => by simp only [applyActions] at h; cases h; exact hrefl s
  | a :: rest, s, s', hact, h => by
      simp only [applyActions] at h
      cases h1 : applyAction env a s with
      | none => simp [h1] at h
      | some s1 =>
        simp only [h1] at h
        exact htrans _ _ _ (hact a (by simp) s s1 h1)
          (applyActions_rel env R hrefl htrans rest s1 s'
            (fun b hb => hact b (by simp [hb])) h)

theorem jspExecuteFunction_rel (env : Env) (R : St → St → Prop) (hR : StepClosed env R)
    (f : JsVar) (args : List JsVar) (s s' : St)
    (h : jspExecuteFunction env f args s = some s') : R s s' := by
  unfold jspExecuteFunction at h
  exact hR.trans _ _ _ (hR.record s _)
    (applyActions_rel env R hR.refl hR.trans _ _ s' (hR.act f args _) h)

theorem jspEvaluateVar_rel (env : Env) (R : St → St → Prop) (hR : StepClosed env R)
    (f : JsVar) (s s' : St) (h : jspEvaluateVar env f s = some s') : R s s' := by
  unfold jspEvaluateVar at h
  exact hR.trans _ _ _ (hR.record s _)
    (applyActions_rel env R hR.refl hR.trans _ _ s' (hR.act f [] _) h)

theorem jsiExecuteEventCallbackResult_rel (env : Env) (R : St → St → Prop)
    (hR : StepClosed env R) (b : Bool) (s : St) :
    R s (jsiExecuteEventCallbackResult b s).2 := by
  unfold jsiExecuteEventCallbackResult
  split
  · exact hR.flag s
  · exact hR.refl s

mutual
theorem jsiExecuteEventCallback_rel (env : Env) (R : St → St → Prop) (hR : StepClosed env R) :
    ∀ (cb arg0 arg1 : JsVar) (s : St) (r : Bool × St),
      jsiExecuteEventCallback env cb arg0 arg1 s = some r → R s r.2
  | .undefined, _, _, s, r, h => by
      simp only [jsiExecuteEventCallback, Option.some.injEq] at h
      subst h
      exact jsiExecuteEventCallbackResult_rel env R hR _ s
  | .array elems, arg0, arg1, s, r, h => by
      simp only [jsiExecuteEventCallback, Option.map_eq_some'] at h
      obtain ⟨s1, h1, rfl⟩ := h
      exact hR.trans _ _ _ (jsiExecuteEventCallbackChildren_rel env R hR elems arg0 arg1 s s1 h1)
        (jsiExecuteEventCallbackResult_rel env R hR _ s1)
  | .function id, arg0, arg1, s, r, h => by
      simp only [jsiExecuteEventCallback, Option.map_eq_some'] at h
      obtain ⟨s1, h1, rfl⟩ := h
      exact hR.trans _ _ _ (jspExecuteFunction_rel env R hR _ _ s s1 h1)
        (jsiExecuteEventCallbackResult_rel env R hR _ s1)
  | .string id, _, _, s, r, h => by
      simp only [jsiExecuteEventCallback, Option.map_eq_some'] at h
      obtain ⟨s1, h1, rfl⟩ := h
      exact hR.trans _ _ _ (jspEvaluateVar_rel env R hR _ s s1 h1)
        (jsiExecuteEventCallbackResult_rel env R hR _ s1)
  | .data _, _, _, s, r, h => by
      simp only [jsiExecuteEventCallback, Option.some.injEq] at h
      subst h
      exact hR.trans _ _ _ (hR.error s _) (jsiExecuteEventCallbackResult_rel env R hR _ _)
  | .other _, _, _, s, r, h => by
      simp only [jsiExecuteEventCallback, Option.some.injEq] at h
      subst h
      exact hR.trans _ _ _ (hR.error s _) (jsiExecuteEventCallbackResult_rel env R hR _ _)
theorem jsiExecuteEventCallbackChildren_rel (env : Env) (R : St → St → Prop)
    (hR : StepClosed env R) :
    ∀ (elems : List JsVar) (arg0 arg1 : JsVar) (s s' : St),
      jsiExecuteEventCallbackChildren env elems arg0 arg1 s = some s' → R s s'
  | [], _, _, s, s', h => by
      simp only [jsiExecuteEventCallbackChildren, Option.some.injEq] at h
      subst h
      exact hR.refl s
  | child :: rest, arg0, arg1, s, s', h => by
      simp only [jsiExecuteEventCallbackChildren] at h
      cases h1 : jsiExecuteEventCallback env child arg0 arg1 s with
      | none => simp [h1] at h
      | some r =>
        obtain ⟨ok, s1⟩ := r
        simp only [h1] at h
        exact hR.trans _ _ _ (jsiExecuteEventCallback_rel env R hR child arg0 arg1 s _ h1)
          (jsiExecuteEventCallbackChildren_rel env R hR rest arg0 arg1 s1 s' h)
end

theorem applyActions_trace (env : Env) (acts : List Action) (s s' : St)
    (h : applyActions env acts s = some s') : s'.trace = s.trace := by
  obtain ⟨new, hn⟩ := applyActions_appends env acts s s' h
  exact hn.trace

theorem jsiExecuteEventCallbackResult_trace (b : Bool) (s : St) :
    (jsiExecuteEventCallbackResult b s).2.trace = s.trace := by
  unfold jsiExecuteEventCallbackResult
  split <;> rfl

mutual
theorem jsiExecuteEventCallback_trace (env : Env) :
    ∀ (cb arg0 arg1 : JsVar) (s : St) (r : Bool × St),
      jsiExecuteEventCallback env cb arg0 arg1 s = some r →
      r.2.trace = s.trace ++ callbackInvocations cb arg0 arg1
  | .undefined, _, _, s, r, h => by
      simp only [jsiExecuteEventCallback, Option.some.injEq] at h
      subst h
      simp [jsiExecuteEventCallbackResult_trace, callbackInvocations]
  | .array elems, arg0, arg1, s, r, h => by
      simp only [jsiExecuteEventCallback, Option.map_eq_some'] at h
      obtain ⟨s1, h1, rfl⟩ := h
      rw [jsiExecuteEventCallbackResult_trace,
        jsiExecuteEventCallbackChildren_trace env elems arg0 arg1 s s1 h1]
      simp [callbackInvocations]
  | .function id, arg0, arg1, s, r, h => by
      simp only [jsiExecuteEventCallback, Option.map_eq_some'] at h
      obtain ⟨s1, h1, rfl⟩ := h
      rw [jsiExecuteEventCallbackResult_trace]
      unfold jspExecuteFunction at h1
      rw [applyActions_trace env _ _ s1 h1]
      simp [callbackInvocations]
  | .string id, _, _, s, r, h => by
      simp only [jsiExecuteEventCallback, Option.map_eq_some'] at h
      obtain ⟨s1, h1, rfl⟩ := h
      rw [jsiExecuteEventCallbackResult_trace]
      unfold jspEvaluateVar at h1
      rw [applyActions_trace env _ _ s1 h1]
      simp [callbackInvocations]
  | .data _, _, _, s, r, h => by
      simp only [jsiExecuteEventCallback, Option.some.injEq] at h
      subst h
      simp [jsiExecuteEventCallbackResult_trace, callbackInvocations, jsError]
  | .other _, _, _, s, r, h => by
      simp only [jsiExecuteEventCallback, Option.some.injEq] at h
      subst h
      simp [jsiExecuteEventCallbackResult_trace, callbackInvocations, jsError]
theorem jsiExecuteEventCallbackChildren_trace (env : Env) :
    ∀ (elems : List JsVar) (arg0 arg1 : JsVar) (s s' : St),
      jsiExecuteEventCallbackChildren env elems arg0 arg1 s = some s' →
      s'.trace = s.trace ++ callbackInvocationsList elems arg0 arg1
  | [], _, _, s, s', h => by
      simp only [jsiExecuteEventCallbackChildren, Option.some.injEq] at h
      subst h
      simp [callbackInvocationsList]
  | child :: rest, arg0, arg1, s, s', h => by
      simp only [jsiExecuteEventCallbackChildren] at h
      cases h1 : jsiExecuteEventCallback env child arg0 arg1 s with
      | none => simp [h1] at h
      | some r =>
        obtain ⟨ok, s1⟩ := r
        simp only [h1] at h
        rw [jsiExecuteEventCallbackChildren_trace env rest arg0 arg1 s1 s' h,
          jsiExecuteEventCallback_trace env child arg0 arg1 s _ h1]
        simp [callbackInvocationsList]
end

/-! ## What callbacks leave alone -/

theorem preserves_refl (s : St) : Preserves s s :=
  ⟨le_refl _, fun _ _ => rfl, fun _ _ => rfl, rfl, rfl, rfl⟩

theorem preserves_trans {a b c : St} (h1 : Preserves a b) (h2 : Preserves b c) :
    Preserves a c where
  nextRef := le_trans h1.nextRef h2.nextRef
  timerObj := fun r hr => by
    rw [h2.timerObj r (lt_of_lt_of_le hr h1.nextRef), h1.timerObj r hr]
  watchObj := fun r hr => by
    rw [h2.watchObj r (lt_of_lt_of_le hr h1.nextRef), h1.watchObj r hr]
  jsiLastIdleTime := by rw [h2.jsiLastIdleTime, h1.jsiLastIdleTime]
  clockReads := by rw [h2.clockReads, h1.clockReads]
  ioEvents := by rw [h2.ioEvents, h1.ioEvents]

theorem jsvNewWithFlags_preserves (env : Env) (s : St) :
    Preserves s (jsvNewWithFlags env s).2 := by
  unfold jsvNewWithFlags
  split
  · exact ⟨le_refl _, fun _ _ => rfl, fun _ _ => rfl, rfl, rfl, rfl⟩
  · exact ⟨Nat.le_succ _, fun _ _ => rfl, fun _ _ => rfl, rfl, rfl, rfl⟩

/-- The call `jsvNewWithFlags` writes only the two counters of the pool. -/
theorem jsvNewWithFlags_eq (env : Env) (s : St) :
    ∃ r, s.nextRef ≤ r ∧ r ≤ s.nextRef + 1 ∧
      (jsvNewWithFlags env s).2 = { s with allocs := s.allocs + 1, nextRef := r } ∧
      (env.oom s.allocs = false → r = s.nextRef + 1) := by
  unfold jsvNewWithFlags
  by_cases ho : env.oom s.allocs = true
  · exact ⟨s.nextRef, le_refl _, Nat.le_succ _, by simp only [ho, if_true],
      fun h => by rw [h] at ho; cases ho⟩
  · simp only [Bool.not_eq_true] at ho
    exact ⟨s.nextRef + 1, Nat.le_succ _, le_refl _,
      by simp only [ho, Bool.false_eq_true, if_false], fun _ => rfl⟩

/-- The call `jsvNewFromBool`: the value it returns, and what it writes. -/
theorem jsvNewFromBool_eq (env : Env) (b : Bool) (s : St) :
    (jsvNewFromBool env b s).1 = (if env.oom s.allocs = true then none else some b) ∧
    ∃ r, s.nextRef ≤ r ∧ r ≤ s.nextRef + 1 ∧
      (jsvNewFromBool env b s).2 = { s with allocs := s.allocs + 1, nextRef := r } := by
  unfold jsvNewFromBool jsvNewWithFlags
  by_cases ho : env.oom s.allocs = true
  · simp only [ho, if_true]
    exact ⟨rfl, s.nextRef, le_refl _, Nat.le_succ _, rfl⟩
  · simp only [ho, Bool.false_eq_true, if_false]
    exact ⟨rfl, s.nextRef + 1, Nat.le_succ _, le_refl _, rfl⟩

/-- The call `jsvNewFromFloat`: the value it returns, and what it writes. -/
theorem jsvNewFromFloat_eq (env : Env) (x : Int) (s : St) :
    (jsvNewFromFloat env x s).1 = (if env.oom s.allocs = true then none else some x) ∧
    ∃ r, s.nextRef ≤ r ∧ r ≤ s.nextRef + 1 ∧
      (jsvNewFromFloat env x s).2 = { s with allocs := s.allocs + 1, nextRef := r } := by
  unfold jsvNewFromFloat jsvNewWithFlags
  by_cases ho : env.oom s.allocs = true
  · simp only [ho, if_true]
    exact ⟨rfl, s.nextRef, le_refl _, Nat.le_succ _, rfl⟩
  · simp only [ho, Bool.false_eq_true, if_false]
    exact ⟨rfl, s.nextRef + 1, Nat.le_succ _, le_refl _, rfl⟩

theorem jsiQueueEventInternal_preserves (env : Env) (f : JsVar) (args : List JsVar)
    (s s' : St) (h : jsiQueueEventInternal env f args s = some s') : Preserves s s' := by
  unfold jsiQueueEventInternal at h
  split at h
  · have hp := jsvNewWithFlags_preserves env s
    cases hn : jsvNewWithFlags env s with
    | mk r s1 =>
      rw [hn] at h hp
      cases r with
      | none => simp only [Option.some.injEq] at h; subst h; exact hp
      | some x =>
        simp only [Option.some.injEq] at h
        subst h
        exact ⟨hp.nextRef, hp.timerObj, hp.watchObj, hp.jsiLastIdleTime, hp.clockReads,
          hp.ioEvents⟩
  · cases h

theorem jsiQueueEventsLoop_preserves (env : Env) (args : List JsVar) :
    ∀ (elems : List JsVar) (s s' : St),
      jsiQueueEventsLoop env args elems s = some s' → Preserves s s'
  | [], s, s', h => by
      simp only [jsiQueueEventsLoop, Option.some.injEq] at h
      subst h
      exact preserves_refl s
  | f :: rest, s, s', h => by
      simp only [jsiQueueEventsLoop] at h
      cases h1 : jsiQueueEventInternal env f args s with
      | none => simp [h1] at h
      | some s1 =>
        simp only [h1] at h
        exact preserves_trans (jsiQueueEventInternal_preserves env f args s s1 h1)
          (jsiQueueEventsLoop_preserves env args rest s1 s' h)

theorem jsiQueueEvents_preserves (env : Env) (callback : JsVar) (args : List JsVar)
    (s s' : St) (h : jsiQueueEvents env callback args s = some s') : Preserves s s' := by
  unfold jsiQueueEvents at h
  split at h
  · cases h; exact preserves_refl s
  · split at h
    · exact jsiQueueEventInternal_preserves env callback args s s' h
    · split at h
      · exact jsiQueueEventsLoop_preserves env args _ s s' h
      · cases h

theorem applyAction_preserves (env : Env) (a : Action) (s s' : St)
    (h : applyAction env a s = some s') : Preserves s s' := by
  cases a with
  | queueEvents callback args => exact jsiQueueEvents_preserves env callback args s s' h
  | timerAdd t =>
    simp only [applyAction, jsiTimerAdd, Option.some.injEq] at h
    subst h
    refine ⟨Nat.le_succ _, fun r hr => ?_, fun _ _ => rfl, rfl, rfl, rfl⟩
    exact Function.update_noteq (Nat.ne_of_lt hr) _ _
  | timerRemove r =>
    simp only [applyAction, Option.some.injEq] at h
    subst h
    exact ⟨le_refl _, fun _ _ => rfl, fun _ _ => rfl, rfl, rfl, rfl⟩
  | watchAdd w =>
    simp only [applyAction, Option.some.injEq] at h
    subst h
    refine ⟨Nat.le_succ _, fun _ _ => rfl, fun r hr => ?_, rfl, rfl, rfl⟩
    exact Function.update_noteq (Nat.ne_of_lt hr) _ _
  | watchRemove r =>
    simp only [applyAction, Option.some.injEq] at h
    subst h
    exact ⟨le_refl _, fun _ _ => rfl, fun _ _ => rfl, rfl, rfl, rfl⟩
  | setInterrupted b =>
    simp only [applyAction, Option.some.injEq] at h
    subst h
    exact ⟨le_refl _, fun _ _ => rfl, fun _ _ => rfl, rfl, rfl, rfl⟩
  | setError b =>
    simp only [applyAction, Option.some.injEq] at h
    subst h
    exact ⟨le_refl _, fun _ _ => rfl, fun _ _ => rfl, rfl, rfl, rfl⟩
  | setTodo t =>
    simp only [applyAction, Option.some.injEq] at h
    subst h
    exact ⟨le_refl _, fun _ _ => rfl, fun _ _ => rfl, rfl, rfl, rfl⟩

theorem stepClosed_preserves (env : Env) : StepClosed env Preserves where
  refl := preserves_refl
  trans := fun _ _ _ h1 h2 => preserves_trans h1 h2
  record := fun _ _ => ⟨le_refl _, fun _ _ => rfl, fun _ _ => rfl, rfl, rfl, rfl⟩
  act := fun _ _ _ a _ s s' h => applyAction_preserves env a s s' h
  error := fun _ _ => ⟨le_refl _, fun _ _ => rfl, fun _ _ => rfl, rfl, rfl, rfl⟩
  flag := fun _ => ⟨le_refl _, fun _ _ => rfl, fun _ _ => rfl, rfl, rfl, rfl⟩

theorem jsiExecuteEventCallback_preserves (env : Env) (cb arg0 arg1 : JsVar) (s : St)
    (r : Bool × St) (h : jsiExecuteEventCallback env cb arg0 arg1 s = some r) :
    Preserves s r.2 :=
  jsiExecuteEventCallback_rel env Preserves (stepClosed_preserves env) cb arg0 arg1 s r h

/-! ## The timer loop -/

theorem setTimer_timerObj_same (s : St) (r : JsVarRef) (f : Timer → Timer) :
    (s.setTimer r f).timerObj r = f (s.timerObj r) := by
  simp [St.setTimer]

theorem setTimer_timerObj_ne (s : St) (r x : JsVarRef) (f : Timer → Timer) (h : x ≠ r) :
    (s.setTimer r f).timerObj x = s.timerObj x := by
  simp [St.setTimer, Function.update_noteq h]

/-- The preparation of `data` for a timer without a watch: the callback is to
run, and nothing but the pool and the busy flag changes. -/
theorem jsiIdleTimerData_plain (env : Env) (timer : JsVarRef) (s : St)
    (hw : (s.timerObj timer).watch = none) :
    (jsiIdleTimerData env timer s).1 = true ∧
    (jsiIdleTimerData env timer s).2.2.timerObj = s.timerObj ∧
    (jsiIdleTimerData env timer s).2.2.watchObj = s.watchObj ∧
    (jsiIdleTimerData env timer s).2.2.timerArray = s.timerArray ∧
    (jsiIdleTimerData env timer s).2.2.watchArray = s.watchArray ∧
    (jsiIdleTimerData env timer s).2.2.trace = s.trace ∧
    s.nextRef ≤ (jsiIdleTimerData env timer s).2.2.nextRef := by
  unfold jsiIdleTimerData jsvNewWithFlags jsiSetBusy
  simp only [hw]
  by_cases ho : env.oom s.allocs = true
  · simp [ho]
  · simp [ho]

/-- C4 (amended). In the timer loop, when a recurring timer (one made by
`setInterval`: it has no watch link) with `interval > 0` is brought to
`r - e <= 0` by the elapsed ticks `e`, and its callback chain succeeds and
leaves the timer in the table, then the loop body runs the callback chain
exactly once, the timer stays in the table, and its remaining ticks become
`(r - e) + interval`. -/
theorem jsiIdleTimer_recurring (env : Env) (timePassed : Int) (timer : JsVarRef)
    (minTimeUntilNext : Int) (wasBusy : Bool) (s s4 : St)
    (hwf : timer < s.nextRef)
    (hrec : (s.timerObj timer).recur = true)
    (hint : 0 < (s.timerObj timer).interval)
    (hwatch : (s.timerObj timer).watch = none)
    (hdue : (s.timerObj timer).time - timePassed ≤ 0)
    (hcb : jsiIdleTimerChain env timePassed timer s = some (true, s4))
    (hkeep : timer ∈ s4.timerArray) :
    ∃ m cont s', jsiIdleTimer env timePassed timer minTimeUntilNext wasBusy s =
        some (m, true, cont, s') ∧
      s'.trace = s.trace ++ callbackInvocations (s.timerObj timer).callback
        (jsiIdleTimerArg env timePassed timer s) .undefined ∧
      timer ∈ s'.timerArray ∧
      (s'.timerObj timer).time =
        ((s.timerObj timer).time - timePassed) + (s.timerObj timer).interval := by
  -- the state in which the timer has been decremented
  set s1 := s.setTimer timer fun t => { t with time := (s.timerObj timer).time - timePassed }
    with hs1
  have hobj1 : s1.timerObj timer =
      { s.timerObj timer with time := (s.timerObj timer).time - timePassed } := by
    rw [hs1, setTimer_timerObj_same]
  have hw1 : (s1.timerObj timer).watch = none := by rw [hobj1]; exact hwatch
  obtain ⟨hexec, hto, _, hta, _, htr, hnr⟩ := jsiIdleTimerData_plain env timer s1 hw1
  have hnext1 : s1.nextRef = s.nextRef := rfl
  have hpres := jsiExecuteEventCallback_preserves env _ _ _ _ _ hcb
  have htrace := jsiExecuteEventCallback_trace env _ _ _ _ _ hcb
  simp only at hpres htrace
  have hobj4 : s4.timerObj timer =
      { s.timerObj timer with time := (s.timerObj timer).time - timePassed } := by
    rw [hpres.timerObj timer (lt_of_lt_of_le (hnext1 ▸ hwf) hnr), hto, hobj1]
  have hcb' : jsiExecuteEventCallback env (s1.timerObj timer).callback
      (jsiIdleTimerData env timer s1).2.1 .undefined (jsiIdleTimerData env timer s1).2.2 =
      some (true, s4) := by
    rw [hobj1]
    exact hcb
  have hrec3 : ((jsiIdleTimerData env timer s1).2.2.timerObj timer).recur = true := by
    rw [hto, hobj1]; exact hrec
  have hfire : jsiIdleTimerFire env timer s1 =
      some (s4.setTimer timer fun t => { t with time := t.time + (s.timerObj timer).interval })
      := by
    unfold jsiIdleTimerFire
    simp only [hexec, if_true, hcb', hrec3, hw1]
    simp only [jsiIdleTimerFinish, Bool.not_true, Bool.false_and, Bool.false_eq_true, if_false,
      if_true, hobj4]
    rw [if_neg (not_le.2 hint)]
  have hbody : ∃ m cont, jsiIdleTimer env timePassed timer minTimeUntilNext wasBusy s =
      some (m, true, cont,
        s4.setTimer timer fun t => { t with time := t.time + (s.timerObj timer).interval })
      := by
    unfold jsiIdleTimer
    simp only [← hs1, if_pos hdue, hfire, Option.map_some']
    split
    · exact ⟨_, _, rfl⟩
    · exact ⟨_, _, rfl⟩
  obtain ⟨m, cont, hbody⟩ := hbody
  refine ⟨m, cont, _, hbody, ?_, hkeep, ?_⟩
  · show s4.trace = _
    rw [htrace, htr]
    rfl
  · rw [setTimer_timerObj_same, hobj4]

/-- C4, witness: the timer of the claim, interval `50`, swept after `60`
ticks: it runs once and has `(50 - 60) + 50 = 40` ticks left. Driven through
the timer check of `jsiIdle` by the elapsed ticks `60`, `40`, `50` it runs once
in every step. -/
theorem jsiIdleTimer_recurring_witness :
    (∃ m cont s', jsiIdleTimer Env.quiet 60 1 JSSYSTIME_MAX false St.interval50 =
        some (m, true, cont, s') ∧
      s'.trace = St.interval50.trace ++ callbackInvocations (St.interval50.timerObj 1).callback
        (jsiIdleTimerArg Env.quiet 60 1 St.interval50) .undefined ∧
      1 ∈ s'.timerArray ∧
      (s'.timerObj 1).time =
        ((St.interval50.timerObj 1).time - 60) + (St.interval50.timerObj 1).interval) ∧
    (jsiIdleTimersStep Env.clock60 5 St.interval50).map
      (fun s => (s.trace.length, (s.timerObj 1).time)) = some (1, 40) ∧
    ((jsiIdleTimersStep Env.clock60 5 St.interval50).bind (jsiIdleTimersStep Env.clock60 5)).map
      (fun s => (s.trace.length, (s.timerObj 1).time)) = some (2, 50) ∧
    (((jsiIdleTimersStep Env.clock60 5 St.interval50).bind
      (jsiIdleTimersStep Env.clock60 5)).bind (jsiIdleTimersStep Env.clock60 5)).map
      (fun s => (s.trace.length, (s.timerObj 1).time)) = some (3, 50) := by
  refine ⟨?_, by rfl, by rfl, by rfl⟩
  cases h : jsiIdleTimerChain Env.quiet 60 1 St.interval50 with
  | none =>
    have : (jsiIdleTimerChain Env.quiet 60 1 St.interval50).isSome = true := by rfl
    rw [h] at this
    cases this
  | some r =>
    obtain ⟨ok, s4⟩ := r
    have h1 : (jsiIdleTimerChain Env.quiet 60 1 St.interval50).map
        (fun r => (r.1, r.2.timerArray)) = some (true, [1]) := by rfl
    rw [h] at h1
    simp only [Option.map_some', Option.some.injEq, Prod.mk.injEq] at h1
    obtain ⟨hok, harr⟩ := h1
    subst hok
    exact jsiIdleTimer_recurring Env.quiet 60 1 JSSYSTIME_MAX false St.interval50 s4
      (by decide) (by rfl) (by decide) (by rfl) (by decide) h (by rw [harr]; simp)

/-- C4, counterexample: a recurring timer with interval `50` whose callback
succeeds (no error is raised, no message is printed) and cancels its own timer.
The sweep after `60` ticks runs the callback once, and the timer is not in the
table afterwards, where the claim says that it stays. -/
theorem jsiIdle_selfCancel :
    (St.interval50.timerObj 1).recur = true ∧
    0 < (St.interval50.timerObj 1).interval ∧
    (jsiIdleTimerChain Env.selfCancel 60 1 St.interval50).map (fun r => r.1) = some true ∧
    (jsiIdleTimer Env.selfCancel 60 1 JSSYSTIME_MAX false St.interval50).map
      (fun r => (r.2.2.2.trace.length, r.2.2.2.timerArray)) = some (1, []) ∧
    (jsiIdle Env.selfCancel 5 St.interval50).map
      (fun s => (s.trace.length, s.errors, s.hasError, s.timerArray)) =
      some (1, [], false, []) := by
  refine ⟨by rfl, by decide, by rfl, by rfl, by rfl⟩

theorem jsiIdleTimerData_frame (env : Env) (timer : JsVarRef) (s : St) :
    (jsiIdleTimerData env timer s).2.2.timerObj = s.timerObj ∧
    (jsiIdleTimerData env timer s).2.2.timerArray = s.timerArray ∧
    s.nextRef ≤ (jsiIdleTimerData env timer s).2.2.nextRef := by
  unfold jsiIdleTimerData jsvNewWithFlags jsiSetBusy
  by_cases ho : env.oom s.allocs = true
  · simp [ho]
  · cases hw : (s.timerObj timer).watch <;> simp [ho, hw, St.setWatch]

theorem jsiIdleTimerUnwatch_frame (w : JsVarRef) (s : St) :
    (jsiIdleTimerUnwatch w s).timerObj = s.timerObj ∧
    (jsiIdleTimerUnwatch w s).timerArray = s.timerArray := by
  unfold jsiIdleTimerUnwatch jshPinWatch
  simp only
  split <;> split <;> simp

theorem jsiIdleTimerFinish_frame (timer : JsVarRef) (watchPtr : Option JsVarRef)
    (exec rec : Bool) (s : St) :
    (∀ x, x ≠ timer → (jsiIdleTimerFinish timer watchPtr exec rec s).timerObj x =
      s.timerObj x) ∧
    (∀ x, x ≠ timer → x ∈ s.timerArray →
      x ∈ (jsiIdleTimerFinish timer watchPtr exec rec s).timerArray) := by
  have h5 : ∀ s5 : St, s5 = (match watchPtr with
      | none => s
      | some w =>
        if (exec && !((s.setWatch w fun x => { x with timeout := none }).watchObj w).recur)
            = true
        then jsiIdleTimerUnwatch w (s.setWatch w fun x => { x with timeout := none })
        else s.setWatch w fun x => { x with timeout := none }) →
      s5.timerObj = s.timerObj ∧ s5.timerArray = s.timerArray := by
    intro s5 h
    subst h
    cases watchPtr with
    | none => exact ⟨rfl, rfl⟩
    | some w =>
      simp only
      split
      · obtain ⟨h1, h2⟩ := jsiIdleTimerUnwatch_frame w
          (s.setWatch w fun x => { x with timeout := none })
        exact ⟨by rw [h1]; rfl, by rw [h2]; rfl⟩
      · exact ⟨rfl, rfl⟩
  obtain ⟨ho, ha⟩ := h5 _ rfl
  unfold jsiIdleTimerFinish
  simp only
  refine ⟨fun x hx => ?_, fun x hx hmem => ?_⟩
  · split
    · split
      · rw [setTimer_timerObj_ne _ _ _ _ hx, ho]
      · rw [setTimer_timerObj_ne _ _ _ _ hx, ho]
    · split
      · exact congrFun ho x
      · exact congrFun ho x
  · split
    · split
      · show x ∈ (_ : St).timerArray
        simp only [St.setTimer]
        rw [ha]; exact hmem
      · show x ∈ (_ : St).timerArray
        simp only [St.setTimer]
        rw [ha]; exact hmem
    · split
      · simp only [jsvRemoveChild]
        rw [ha]
        exact (List.mem_erase_of_ne hx).2 hmem
      · rw [ha]; exact hmem
theorem jsiQueueEventInternal_tables (env : Env) (f : JsVar) (args : List JsVar)
    (s s' : St) (h : jsiQueueEventInternal env f args s = some s') :
    s'.timerArray = s.timerArray ∧ s'.watchArray = s.watchArray ∧
      s'.timerObj = s.timerObj ∧ s'.watchObj = s.watchObj := by
  unfold jsiQueueEventInternal jsvNewWithFlags at h
  split at h
  · by_cases ho : env.oom s.allocs = true
    · simp only [ho, if_true, Option.some.injEq] at h
      subst h
      exact ⟨rfl, rfl, rfl, rfl⟩
    · simp only [ho, Bool.false_eq_true, if_false, Option.some.injEq] at h
      subst h
      exact ⟨rfl, rfl, rfl, rfl⟩
  · cases h

theorem jsiQueueEventsLoop_tables (env : Env) (args : List JsVar) :
    ∀ (elems : List JsVar) (s s' : St), jsiQueueEventsLoop env args elems s = some s' →
      s'.timerArray = s.timerArray ∧ s'.watchArray = s.watchArray ∧
        s'.timerObj = s.timerObj ∧ s'.watchObj = s.watchObj
  | [], s, s', h => by
      simp only [jsiQueueEventsLoop, Option.some.injEq] at h
      subst h
      exact ⟨rfl, rfl, rfl, rfl⟩
  | f :: rest, s, s', h => by
      simp only [jsiQueueEventsLoop] at h
      cases h1 : jsiQueueEventInternal env f args s with
      | none => simp [h1] at h
      | some s1 =>
        simp only [h1] at h
        obtain ⟨a1, a2, a3, a4⟩ := jsiQueueEventInternal_tables env f args s s1 h1
        obtain ⟨b1, b2, b3, b4⟩ := jsiQueueEventsLoop_tables env args rest s1 s' h
        exact ⟨by rw [b1, a1], by rw [b2, a2], by rw [b3, a3], by rw [b4, a4]⟩

theorem jsiQueueEvents_tables (env : Env) (callback : JsVar) (args : List JsVar)
    (s s' : St) (h : jsiQueueEvents env callback args s = some s') :
    s'.timerArray = s.timerArray ∧ s'.watchArray = s.watchArray ∧
      s'.timerObj = s.timerObj ∧ s'.watchObj = s.watchObj := by
  unfold jsiQueueEvents at h
  split at h
  · cases h; exact ⟨rfl, rfl, rfl, rfl⟩
  · split at h
    · exact jsiQueueEventInternal_tables env callback args s s' h
    · split at h
      · exact jsiQueueEventsLoop_tables env args _ s s' h
      · cases h

/-- A timer that no callback removes stays in the table across a callback
chain. -/
theorem stepClosed_timer_stays (env : Env) (r : JsVarRef)
    (hrm : ∀ f args st, Action.timerRemove r ∉ env.interp f args st) :
    StepClosed env (fun s s' => r ∈ s.timerArray → r ∈ s'.timerArray) where
  refl := fun _ h => h
  trans := fun _ _ _ h1 h2 h => h2 (h1 h)
  record := fun _ _ h => h
  act := by
    intro f args st a ha s s' h hmem
    cases a with
    | queueEvents callback cargs =>
      rw [(jsiQueueEvents_tables env callback cargs s s' h).1]; exact hmem
    | timerAdd t =>
      simp only [applyAction, jsiTimerAdd, Option.some.injEq] at h
      subst h
      exact List.mem_append_left _ hmem
    | timerRemove x =>
      simp only [applyAction, Option.some.injEq] at h
      subst h
      have hx : r ≠ x := by
        rintro rfl
        exact hrm f args st ha
      exact (List.mem_erase_of_ne hx).2 hmem
    | watchAdd w => simp only [applyAction, Option.some.injEq] at h; subst h; exact hmem
    | watchRemove x => simp only [applyAction, Option.some.injEq] at h; subst h; exact hmem
    | setInterrupted b => simp only [applyAction, Option.some.injEq] at h; subst h; exact hmem
    | setError b => simp only [applyAction, Option.some.injEq] at h; subst h; exact hmem
    | setTodo t => simp only [applyAction, Option.some.injEq] at h; subst h; exact hmem
  error := fun _ _ h => h
  flag := fun _ h => h

/-- The block for a due timer changes no other timer object that exists, and
takes no other timer out of the table unless a callback does. -/
theorem jsiIdleTimerFire_frame (env : Env) (timer : JsVarRef) (s s' : St)
    (h : jsiIdleTimerFire env timer s = some s') :
    (∀ r, r ≠ timer → r < s.nextRef → s'.timerObj r = s.timerObj r) ∧
    (∀ r, r ≠ timer → r ∈ s.timerArray →
      (∀ f args st, Action.timerRemove r ∉ env.interp f args st) → r ∈ s'.timerArray) := by
  obtain ⟨hto, hta, hnr⟩ := jsiIdleTimerData_frame env timer s
  unfold jsiIdleTimerFire at h
  simp only at h
  split at h
  · -- the callback chain runs
    split at h
    · rename_i ok s4 hcb
      have hp := jsiExecuteEventCallback_preserves env _ _ _ _ _ hcb
      simp only at hp
      have hobj : ∀ r, r < s.nextRef → s4.timerObj r = s.timerObj r := fun r hr => by
        rw [hp.timerObj r (lt_of_lt_of_le hr hnr), hto]
      have hmem : ∀ r, r ∈ s.timerArray →
          (∀ f args st, Action.timerRemove r ∉ env.interp f args st) → r ∈ s4.timerArray := by
        intro r hr hrm
        have := jsiExecuteEventCallback_rel env _ (stepClosed_timer_stays env r hrm)
          _ _ _ _ _ hcb
        exact this (by rw [hta]; exact hr)
      split at h
      · simp only [Option.some.injEq] at h
        subst h
        obtain ⟨f1, f2⟩ := jsiIdleTimerFinish_frame timer (s.timerObj timer).watch
          (jsiIdleTimerData env timer s).1 false
          (jsError "Error processing interval - removing it." s4)
        exact ⟨fun r hne hr => by rw [f1 r hne]; exact hobj r hr,
          fun r hne hr hrm => f2 r hne (hmem r hr hrm)⟩
      · simp only [Option.some.injEq] at h
        subst h
        obtain ⟨f1, f2⟩ := jsiIdleTimerFinish_frame timer (s.timerObj timer).watch
          (jsiIdleTimerData env timer s).1
          ((jsiIdleTimerData env timer s).2.2.timerObj timer).recur s4
        exact ⟨fun r hne hr => by rw [f1 r hne]; exact hobj r hr,
          fun r hne hr hrm => f2 r hne (hmem r hr hrm)⟩
    · cases h
  · simp only [Option.some.injEq] at h
    subst h
    obtain ⟨f1, f2⟩ := jsiIdleTimerFinish_frame timer (s.timerObj timer).watch
      (jsiIdleTimerData env timer s).1
      ((jsiIdleTimerData env timer s).2.2.timerObj timer).recur
      (jsiIdleTimerData env timer s).2.2
    exact ⟨fun r hne _ => by rw [f1 r hne, hto],
      fun r hne hr _ => f2 r hne (by rw [hta]; exact hr)⟩

/-- C5. While the sweep evaluates the timer `timer`, the table changes under
it: after the body of the timer loop has run for `timer`, the sibling link of
`timer` differs from the one the loop had captured (a callback has removed
`timer` or its sibling). Then the sweep stops right there, with the state that
the body produced and with `minTimeUntilNext = 0`; every other timer, so every
timer not yet visited, keeps its remaining ticks, interval, recurrence and
callback, and it is still in the table at the end of the sweep, for the next
step, unless it is a timer that a callback removes. -/
theorem jsiIdleTimerLoop_break (env : Env) (timePassed : Int) (fuel : Nat) (timer : JsVarRef)
    (minTimeUntilNext : Int) (wasBusy : Bool) (s s1 : St) (m : Int) (b : Bool)
    (cont : Option (Option JsVarRef))
    (hbody : jsiIdleTimer env timePassed timer minTimeUntilNext wasBusy s =
      some (m, b, cont, s1))
    (hlink : nextSibling s1.timerArray timer ≠ nextSibling s.timerArray timer) :
    jsiIdleTimerLoop env timePassed (fuel + 1) (some timer) minTimeUntilNext wasBusy s =
      some (0, b, s1) ∧
    (∀ r, r ≠ timer → r < s.nextRef → s1.timerObj r = s.timerObj r) ∧
    (∀ r, r ≠ timer → r ∈ s.timerArray →
      (∀ f args st, Action.timerRemove r ∉ env.interp f args st) → r ∈ s1.timerArray) := by
  have hshape : m = 0 ∧ cont = none ∧
      ((s.timerObj timer).time - timePassed ≤ 0 →
        jsiIdleTimerFire env timer
          (s.setTimer timer fun t => { t with time := (s.timerObj timer).time - timePassed })
          = some s1) ∧
      (¬ (s.timerObj timer).time - timePassed ≤ 0 →
        s1 = s.setTimer timer fun t =>
          { t with time := (s.timerObj timer).time - timePassed }) := by
    unfold jsiIdleTimer at hbody
    simp only at hbody
    by_cases hdue : (s.timerObj timer).time - timePassed ≤ 0
    · simp only [if_pos hdue] at hbody
      cases hf : jsiIdleTimerFire env timer
          (s.setTimer timer fun t => { t with time := (s.timerObj timer).time - timePassed })
        with
      | none => simp [hf] at hbody
      | some s2 =>
        simp only [hf, Option.map_some'] at hbody
        split at hbody
        · simp only [Option.some.injEq, Prod.mk.injEq] at hbody
          obtain ⟨h1, _, h3, h4⟩ := hbody
          subst h4
          exact ⟨h1.symm, h3.symm, fun _ => rfl, fun h => absurd hdue h⟩
        · rename_i hsame
          simp only [Option.some.injEq, Prod.mk.injEq] at hbody
          obtain ⟨_, _, _, h4⟩ := hbody
          subst h4
          exact absurd (not_not.1 hsame) hlink
    · simp only [if_neg hdue] at hbody
      split at hbody
      · simp only [Option.some.injEq, Prod.mk.injEq] at hbody
        obtain ⟨h1, _, h3, h4⟩ := hbody
        exact ⟨h1.symm, h3.symm, fun h => absurd h hdue, fun _ => h4.symm⟩
      · rename_i hsame
        simp only [Option.some.injEq, Prod.mk.injEq] at hbody
        obtain ⟨_, _, _, h4⟩ := hbody
        subst h4
        exact absurd (not_not.1 hsame) hlink
  obtain ⟨hm, hc, hfire, hidle⟩ := hshape
  subst hm hc
  refine ⟨by simp [jsiIdleTimerLoop, hbody], ?_, ?_⟩
  · intro r hne hr
    by_cases hdue : (s.timerObj timer).time - timePassed ≤ 0
    · rw [(jsiIdleTimerFire_frame env timer _ s1 (hfire hdue)).1 r hne hr,
        setTimer_timerObj_ne _ _ _ _ hne]
    · rw [hidle hdue, setTimer_timerObj_ne _ _ _ _ hne]
  · intro r hne hr hrm
    by_cases hdue : (s.timerObj timer).time - timePassed ≤ 0
    · exact (jsiIdleTimerFire_frame env timer _ s1 (hfire hdue)).2 r hne hr hrm
    · rw [hidle hdue]
      exact hr

/-- C5, witness: timer `1` of three is due and its callback cancels timer `2`,
the next sibling. The sweep stops after timer `1`. -/
theorem jsiIdleTimerLoop_break_witness :
    ∃ b s1, jsiIdleTimerLoop Env.cancelSibling 10 (4 + 1) (some 1) JSSYSTIME_MAX false
        St.threeTimers = some (0, b, s1) ∧
      (∀ r, r ≠ 1 → r < St.threeTimers.nextRef →
        s1.timerObj r = St.threeTimers.timerObj r) ∧
      (∀ r, r ≠ 1 → r ∈ St.threeTimers.timerArray →
        (∀ f args st, Action.timerRemove r ∉ Env.cancelSibling.interp f args st) →
        r ∈ s1.timerArray) := by
  cases h : jsiIdleTimer Env.cancelSibling 10 1 JSSYSTIME_MAX false St.threeTimers with
  | none =>
    have : (jsiIdleTimer Env.cancelSibling 10 1 JSSYSTIME_MAX false St.threeTimers).isSome
        = true := by rfl
    rw [h] at this
    cases this
  | some r =>
    obtain ⟨m, b, cont, s1⟩ := r
    have h1 : (jsiIdleTimer Env.cancelSibling 10 1 JSSYSTIME_MAX false St.threeTimers).map
        (fun r => r.2.2.2.timerArray) = some [1, 3] := by rfl
    rw [h] at h1
    simp only [Option.map_some', Option.some.injEq] at h1
    have hlink : nextSibling s1.timerArray 1 ≠ nextSibling St.threeTimers.timerArray 1 := by
      rw [h1]
      decide
    exact ⟨b, s1, jsiIdleTimerLoop_break Env.cancelSibling 10 4 1 JSSYSTIME_MAX false
      St.threeTimers s1 m b cont h hlink⟩

/-- C5, example: in the sweep of three timers the callback of timer `1`
cancels timer `2`. The sweep stops after timer `1` with `minTimeUntilNext = 0`;
timer `3` has not been visited, keeps its `100` ticks and is in the table for
the next step; timer `2`, which the callback has removed, is not. -/
theorem jsiIdleTimerLoop_sibling_cancelled :
    2 ∈ St.threeTimers.timerArray ∧
    (jsiIdleTimerLoop Env.cancelSibling 10 5 St.threeTimers.timerArray.head? JSSYSTIME_MAX
        false St.threeTimers).map
      (fun r => (r.1, r.2.2.timerArray, (r.2.2.timerObj 2).time, (r.2.2.timerObj 3).time,
        r.2.2.trace.map fun i => i.func)) =
      some (0, [1, 3], 100, 100, [.function 7]) := by
  refine ⟨by decide, by rfl⟩

/-- A sweep that stops early: two one-shot timers, `10` and `100` ticks, no callback
touches the timer table, and the idle steps come after `100` and after `20`
more ticks. In the first step timer `1` runs and is removed by the sweep, which
then stops: timer `2` is not invoked although `100` ticks have elapsed, and it
still has all its `100` ticks. After the second step it has `80` ticks left and
has still not been invoked. -/
theorem jsiIdle_oneShot_skipped :
    (jsiIdle Env.clock100 5 St.twoOneShots).map
      (fun s => (s.trace.map (fun i => i.func), s.timerArray, (s.timerObj 2).time,
        s.jsiLastIdleTime)) = some ([.function 1], [2], 100, 100) ∧
    ((jsiIdleTimersStep Env.clock100 5 St.twoOneShots).bind
      (jsiIdleTimersStep Env.clock100 5)).map
      (fun s => (s.trace.map (fun i => i.func), s.timerArray, (s.timerObj 2).time,
        s.jsiLastIdleTime)) = some ([.function 1], [2], 80, 120) := by
  refine ⟨by rfl, by rfl⟩

/-! ## The watch loop -/

theorem nextSibling_not_mem : ∀ (l : List JsVarRef) (x : JsVarRef), x ∉ l →
    nextSibling l x = none
  | [], _, _ => rfl
  | y :: rest, x, h => by
      have hne : y ≠ x := fun e => h (by simp [e])
      simp only [nextSibling, if_neg hne]
      exact nextSibling_not_mem rest x (fun hm => h (by simp [hm]))

theorem nextSibling_append : ∀ (pre post : List JsVarRef) (x : JsVarRef), x ∉ pre →
    nextSibling (pre ++ x :: post) x = post.head?
  | [], post, x, _ => by simp [nextSibling]
  | y :: rest, post, x, h => by
      have hne : y ≠ x := fun e => h (by simp [e])
      simp only [List.cons_append, nextSibling, if_neg hne]
      exact nextSibling_append rest post x (fun hm => h (by simp [hm]))

/-- Callbacks that keep the watch table leave `watchArray` as it is. -/
theorem stepClosed_watchArray (env : Env)
    (hcb : ∀ f args st, ∀ a ∈ env.interp f args st, a.keepsWatches) :
    StepClosed env (fun s s' => s'.watchArray = s.watchArray) where
  refl := fun _ => rfl
  trans := fun _ _ _ h1 h2 => by rw [h2, h1]
  record := fun _ _ => rfl
  act := by
    intro f args st a ha s s' h
    have hk := hcb f args st a ha
    cases a with
    | queueEvents callback cargs => exact (jsiQueueEvents_tables env callback cargs s s' h).2.1
    | timerAdd t => simp only [applyAction, jsiTimerAdd, Option.some.injEq] at h; subst h; rfl
    | timerRemove x => simp only [applyAction, Option.some.injEq] at h; subst h; rfl
    | watchAdd w => exact absurd hk (by simp [Action.keepsWatches])
    | watchRemove x => exact absurd hk (by simp [Action.keepsWatches])
    | setInterrupted b => simp only [applyAction, Option.some.injEq] at h; subst h; rfl
    | setError b => simp only [applyAction, Option.some.injEq] at h; subst h; rfl
    | setTodo t => simp only [applyAction, Option.some.injEq] at h; subst h; rfl
  error := fun _ _ => rfl
  flag := fun _ => rfl

theorem setWatch_watchObj_same (s : St) (r : JsVarRef) (f : Watch → Watch) :
    (s.setWatch r f).watchObj r = f (s.watchObj r) := by
  simp [St.setWatch]

theorem setWatch_watchObj_ne (s : St) (r x : JsVarRef) (f : Watch → Watch) (h : x ≠ r) :
    (s.setWatch r f).watchObj x = s.watchObj x := by
  simp [St.setWatch, Function.update_noteq h]

/-- The debounce branch is its timer part followed by the store of the level:
the level is stored when the pool has a variable for it, and the child `state`
is without a value otherwise. -/
theorem jsiIdleWatchDebounce_eq (env : Env) (w : JsVarRef) (pin : Pin) (pinIsHigh : Bool)
    (evTime debounce : Int) (s : St) :
    ∃ r, (jsiIdleWatchDebounceTimer env w pin evTime debounce s).nextRef ≤ r ∧
      r ≤ (jsiIdleWatchDebounceTimer env w pin evTime debounce s).nextRef + 1 ∧
      jsiIdleWatchDebounce env w pin pinIsHigh evTime debounce s =
        ({ jsiIdleWatchDebounceTimer env w pin evTime debounce s with
            allocs := (jsiIdleWatchDebounceTimer env w pin evTime debounce s).allocs + 1
            nextRef := r }).setWatch w fun x =>
          { x with state :=
              if env.oom (jsiIdleWatchDebounceTimer env w pin evTime debounce s).allocs = true
              then none else some pinIsHigh } := by
  obtain ⟨hv, r, h1, h2, hs⟩ :=
    jsvNewFromBool_eq env pinIsHigh (jsiIdleWatchDebounceTimer env w pin evTime debounce s)
  refine ⟨r, h1, h2, ?_⟩
  unfold jsiIdleWatchDebounce
  simp only
  rw [hs, hv]

/-- The timer part of the debounce branch invokes nothing, keeps the watch
table and changes no other watch object. -/
theorem jsiIdleWatchDebounceTimer_frame (env : Env) (w : JsVarRef) (pin : Pin)
    (evTime debounce : Int) (s : St) :
    (jsiIdleWatchDebounceTimer env w pin evTime debounce s).trace = s.trace ∧
    (jsiIdleWatchDebounceTimer env w pin evTime debounce s).watchArray = s.watchArray ∧
    (∀ r, r ≠ w →
      (jsiIdleWatchDebounceTimer env w pin evTime debounce s).watchObj r =
        s.watchObj r) ∧
    s.nextRef ≤ (jsiIdleWatchDebounceTimer env w pin evTime debounce s).nextRef := by
  unfold jsiIdleWatchDebounceTimer
  cases ht : (s.watchObj w).timeout with
  | some timeout => exact ⟨rfl, rfl, fun r hr => rfl, le_refl _⟩
  | none =>
    unfold jsvNewWithFlags
    by_cases ho : env.oom s.allocs = true
    · rw [if_pos ho]
      exact ⟨rfl, rfl, fun r hr => rfl, le_refl _⟩
    · rw [if_neg ho]
      refine ⟨rfl, rfl, fun r hr => ?_, Nat.le_succ _⟩
      show ((jsiTimerAdd _ _).setWatch w _).watchObj r = _
      rw [setWatch_watchObj_ne _ _ _ _ hr]
      rfl

/-- The debounce branch invokes nothing, keeps the watch table and changes no
other watch object. -/
theorem jsiIdleWatchDebounce_frame (env : Env) (w : JsVarRef) (pin : Pin) (pinIsHigh : Bool)
    (evTime debounce : Int) (s : St) :
    (jsiIdleWatchDebounce env w pin pinIsHigh evTime debounce s).trace = s.trace ∧
    (jsiIdleWatchDebounce env w pin pinIsHigh evTime debounce s).watchArray = s.watchArray ∧
    (∀ r, r ≠ w →
      (jsiIdleWatchDebounce env w pin pinIsHigh evTime debounce s).watchObj r =
        s.watchObj r) ∧
    s.nextRef ≤ (jsiIdleWatchDebounce env w pin pinIsHigh evTime debounce s).nextRef := by
  obtain ⟨r, h1, _, heq⟩ := jsiIdleWatchDebounce_eq env w pin pinIsHigh evTime debounce s
  obtain ⟨t1, t2, t3, t4⟩ := jsiIdleWatchDebounceTimer_frame env w pin evTime debounce s
  rw [heq]
  refine ⟨t1, t2, fun x hx => ?_, le_trans t4 h1⟩
  rw [setWatch_watchObj_ne _ _ _ _ hx]
  exact t3 x hx

/-- The edge triggering block, when the pool is not exhausted and callbacks
keep the watch table: the callback chain of the watch runs once, with the data
object of the event; the watch table is as before or has lost this watch; no
watch object is changed. -/
theorem jsiIdleWatchFire_frame (env : Env) (w : JsVarRef) (pin : Pin) (pinIsHigh : Bool)
    (timePtr : Option Int) (s s1 : St)
    (hoom : ∀ n, env.oom n = false)
    (hcb : ∀ f args st, ∀ a ∈ env.interp f args st, a.keepsWatches)
    (h : jsiIdleWatchFire env w pin pinIsHigh timePtr s = some s1) :
    s1.trace = s.trace ++ callbackInvocations (s.watchObj w).callback
      (.data { time := timePtr, lastTime := (s.watchObj w).lastTime, pin := some pin,
               state := some pinIsHigh }) .undefined ∧
    (s1.watchArray = s.watchArray ∨ s1.watchArray = s.watchArray.erase w) ∧
    (∀ r, r < s.nextRef → s1.watchObj r = s.watchObj r) ∧
    s.nextRef ≤ s1.nextRef := by
  unfold jsiIdleWatchFire at h
  simp only [jsvNewWithFlags, hoom, Bool.false_eq_true, if_false] at h
  split at h
  · cases h
  · rename_i ok s2 hchain
    have htr := jsiExecuteEventCallback_trace env _ _ _ _ _ hchain
    have hp := jsiExecuteEventCallback_preserves env _ _ _ _ _ hchain
    have hwa := jsiExecuteEventCallback_rel env _ (stepClosed_watchArray env hcb) _ _ _ _ _ hchain
    simp only at htr hp hwa
    have hobj : ∀ r, r < s.nextRef → s2.watchObj r = s.watchObj r := fun r hr =>
      hp.watchObj r (Nat.lt_succ_of_lt hr)
    have hnr : s.nextRef ≤ s2.nextRef := le_trans (Nat.le_succ _) hp.nextRef
    -- the state after the error message, if any
    have herr : ∀ (c : Bool) (x : St),
        x = (if c = true then jsError "Error processing Watch - removing it." s2 else s2) →
        x.trace = s2.trace ∧ x.watchArray = s2.watchArray ∧ x.watchObj = s2.watchObj ∧
          x.nextRef = s2.nextRef := by
      intro c x hx
      subst hx
      split <;> exact ⟨rfl, rfl, rfl, rfl⟩
    obtain ⟨e1, e2, e3, e4⟩ := herr _ _ rfl
    split at h
    · -- the watch is removed
      simp only [Option.some.injEq] at h
      subst h
      have hrm : ∀ (x y : St), y = { x with watchArray := jsvRemoveChild x.watchArray w } →
          ∀ z : St, z = (if (!jsiIsWatchingPin y pin) = true then jshPinWatch pin false y
            else y) →
          z.trace = x.trace ∧ z.watchArray = x.watchArray.erase w ∧ z.watchObj = x.watchObj ∧
            z.nextRef = x.nextRef := by
        intro x y hy z hz
        subst hy hz
        split <;> exact ⟨rfl, rfl, rfl, rfl⟩
      obtain ⟨r1, r2, r3, r4⟩ := hrm _ _ rfl _ rfl
      refine ⟨by rw [r1, e1, htr], Or.inr (by rw [r2, e2, hwa]), fun r hr => ?_, ?_⟩
      · rw [r3, e3]; exact hobj r hr
      · rw [r4, e4]; exact hnr
    · simp only [Option.some.injEq] at h
      subst h
      refine ⟨by rw [e1, htr], Or.inl (by rw [e2, hwa]), fun r hr => ?_, ?_⟩
      · rw [e3]; exact hobj r hr
      · rw [e4]; exact hnr

/-- The body of the watch loop, when the pool is not exhausted and callbacks
keep the watch table. -/
theorem jsiIdleWatch_frame (env : Env) (event : IOEvent) (w : JsVarRef) (s s1 : St)
    (hoom : ∀ n, env.oom n = false)
    (hcb : ∀ f args st, ∀ a ∈ env.interp f args st, a.keepsWatches)
    (h : jsiIdleWatch env event w s = some s1) :
    (∃ invs, WatchFired env event (s.watchObj w) invs ∧ s1.trace = s.trace ++ invs) ∧
    (s1.watchArray = s.watchArray ∨ s1.watchArray = s.watchArray.erase w) ∧
    (∀ r, r ≠ w → r < s.nextRef → s1.watchObj r = s.watchObj r) ∧
    s.nextRef ≤ s1.nextRef := by
  unfold jsiIdleWatch at h
  simp only [jshGetSystemTime] at h
  by_cases hpin : env.jshIsEventForPin event (s.watchObj w).pin = true
  · simp only [hpin, if_true] at h
    by_cases hdeb : (s.watchObj w).debounce > 0
    · simp only [hdeb, if_true, Option.some.injEq] at h
      subst h
      obtain ⟨d1, d2, d3, d4⟩ := jsiIdleWatchDebounce_frame env w (s.watchObj w).pin
        event.isHigh (eventTime (env.clock s.clockReads) event.time) (s.watchObj w).debounce
        { s with clockReads := s.clockReads + 1 }
      refine ⟨⟨[], ?_, by rw [d1]; simp⟩, Or.inl d2, fun r hr _ => d3 r hr, d4⟩
      unfold WatchFired
      rw [if_neg]
      intro hc
      exact absurd hc.2.1 (not_le.2 hdeb)
    · simp only [hdeb, if_false] at h
      obtain ⟨hv, r0, hr1, _, hs⟩ := jsvNewFromFloat_eq env
        (eventTime (env.clock s.clockReads) event.time) { s with clockReads := s.clockReads + 1 }
      rw [hs, hv] at h
      simp only [hoom, Bool.false_eq_true, if_false] at h
      by_cases hedge : jsiShouldExecuteWatch (s.watchObj w).edge event.isHigh = true
      · simp only [hedge, if_true, Option.map_eq_some'] at h
        obtain ⟨s2, hfire, rfl⟩ := h
        obtain ⟨f1, f2, f3, f4⟩ := jsiIdleWatchFire_frame env w _ _ _ _ s2 hoom hcb hfire
        refine ⟨⟨_, ?_, f1⟩, f2, fun r hr hlt => ?_, le_trans hr1 f4⟩
        · unfold WatchFired
          rw [if_pos ⟨hpin, not_lt.1 hdeb, hedge⟩]
          exact ⟨s.clockReads, rfl⟩
        · rw [setWatch_watchObj_ne _ _ _ _ hr]
          exact f3 r (lt_of_lt_of_le hlt hr1)
      · simp only [hedge, Bool.false_eq_true, if_false, Option.map_some',
          Option.some.injEq] at h
        subst h
        refine ⟨⟨[], ?_, by simp [St.setWatch]⟩, Or.inl rfl, fun r hr _ => ?_, hr1⟩
        · unfold WatchFired
          rw [if_neg]
          intro hc
          exact hedge hc.2.2
        · rw [setWatch_watchObj_ne _ _ _ _ hr]
  · simp only [hpin, Bool.false_eq_true, if_false, Option.some.injEq] at h
    subst h
    refine ⟨⟨[], ?_, by simp⟩, Or.inl rfl, fun _ _ _ => rfl, le_refl _⟩
    unfold WatchFired
    rw [if_neg]
    intro hc
    exact hpin hc.1

theorem jsiIdleWatchLoop_suffix (env : Env) (event : IOEvent)
    (hoom : ∀ n, env.oom n = false)
    (hcb : ∀ f args st, ∀ a ∈ env.interp f args st, a.keepsWatches)
    (W : JsVarRef → Watch) :
    ∀ (post pre : List JsVarRef) (x : JsVarRef) (fuel : Nat) (s s' : St),
      s.watchArray = pre ++ x :: post → s.watchArray.Nodup →
      (∀ w ∈ s.watchArray, w < s.nextRef) →
      (∀ w ∈ x :: post, s.watchObj w = W w) →
      jsiIdleWatchLoop env event fuel (some x) s = some s' →
      ∃ visited parts,
        List.Forall₂ (fun w invs => WatchFired env event (W w) invs) visited parts ∧
        s'.trace = s.trace ++ parts.flatten ∧
        ((s'.watchArray = s.watchArray ∧ visited = x :: post) ∨
          ∃ before removed behind, x :: post = before ++ removed :: behind ∧
            s'.watchArray = pre ++ before ++ behind ∧ visited = before ++ [removed]) := by
  intro post
  induction post with
  | nil =>
    intro pre x fuel s s' harr hnd hwf hW hrun
    cases fuel with
    | zero => simp [jsiIdleWatchLoop] at hrun
    | succ fuel =>
      simp only [jsiIdleWatchLoop] at hrun
      cases hb : jsiIdleWatch env event x s with
      | none => simp [hb] at hrun
      | some s1 =>
        simp only [hb] at hrun
        obtain ⟨⟨invs, hfired, htr⟩, harr1, _, _⟩ := jsiIdleWatch_frame env event x s s1 hoom hcb hb
        have hxpre : x ∉ pre := by
          rw [harr] at hnd
          intro hm
          exact (List.nodup_append.1 hnd).2.2 hm (by simp)
        have hnext : nextSibling s1.watchArray x = none := by
          rcases harr1 with h1 | h1
          · rw [h1, harr, nextSibling_append pre [] x hxpre]; rfl
          · rw [h1]
            exact nextSibling_not_mem _ _ (fun hm => (List.Nodup.mem_erase_iff hnd).1 hm |>.1 rfl)
        rw [hnext] at hrun
        have hs' : s' = s1 := by
          cases fuel <;> simp only [jsiIdleWatchLoop, Option.some.injEq] at hrun <;>
            exact hrun.symm
        subst hs'
        refine ⟨[x], [invs], ?_, by simpa using htr, ?_⟩
        · refine List.Forall₂.cons ?_ List.Forall₂.nil
          rw [← hW x (by simp)]
          exact hfired
        · rcases harr1 with h1 | h1
          · exact Or.inl ⟨h1, rfl⟩
          · refine Or.inr ⟨[], x, [], rfl, ?_, rfl⟩
            rw [h1, harr, List.erase_append_right _ hxpre]
            simp
  | cons y post ih =>
    intro pre x fuel s s' harr hnd hwf hW hrun
    cases fuel with
    | zero => simp [jsiIdleWatchLoop] at hrun
    | succ fuel =>
      simp only [jsiIdleWatchLoop] at hrun
      cases hb : jsiIdleWatch env event x s with
      | none => simp [hb] at hrun
      | some s1 =>
        simp only [hb] at hrun
        obtain ⟨⟨invs, hfired, htr⟩, harr1, hobj, hnr⟩ :=
          jsiIdleWatch_frame env event x s s1 hoom hcb hb
        have hxmem : x ∈ s.watchArray := by rw [harr]; simp
        have hxpre : x ∉ pre := by
          rw [harr] at hnd
          intro hm
          exact (List.nodup_append.1 hnd).2.2 hm (by simp)
        rcases harr1 with h1 | h1
        · -- the watch table is as before: the loop goes on with `y`
          have hnext : nextSibling s1.watchArray x = some y := by
            rw [h1, harr, nextSibling_append pre (y :: post) x hxpre]; rfl
          rw [hnext] at hrun
          have harr' : s1.watchArray = (pre ++ [x]) ++ y :: post := by
            rw [h1, harr]; simp
          have hW1 : ∀ w ∈ y :: post, s1.watchObj w = W w := by
            intro w hw
            have hwmem : w ∈ s.watchArray := by
              rw [harr]
              exact List.mem_append_right _ (List.mem_cons_of_mem _ hw)
            have hne : w ≠ x := by
              rintro rfl
              rw [harr] at hnd
              have := (List.nodup_append.1 hnd).2.1
              exact (List.nodup_cons.1 this).1 hw
            rw [hobj w hne (hwf w hwmem)]
            exact hW w (List.mem_cons_of_mem _ hw)
          obtain ⟨visited, parts, hparts, htr', hshape⟩ := ih (pre ++ [x]) y fuel s1 s' harr'
            (by rw [h1]; exact hnd)
            (fun w hw => lt_of_lt_of_le (hwf w (by rw [← h1]; exact hw)) hnr)
            hW1 hrun
          refine ⟨x :: visited, invs :: parts, List.Forall₂.cons ?_ hparts, ?_, ?_⟩
          · rw [← hW x (by simp)]
            exact hfired
          · rw [htr', htr]
            simp
          · rcases hshape with ⟨hk, hv⟩ | ⟨before, removed, behind, hsplit, hk, hv⟩
            · exact Or.inl ⟨by rw [hk, h1], by rw [hv]⟩
            · refine Or.inr ⟨x :: before, removed, behind, by rw [hsplit]; rfl, ?_, by rw [hv]; rfl⟩
              rw [hk]
              simp
        · -- the watch was removed: the loop ends
          have hnext : nextSibling s1.watchArray x = none := by
            rw [h1]
            exact nextSibling_not_mem _ _ (fun hm => (List.Nodup.mem_erase_iff hnd).1 hm |>.1 rfl)
          rw [hnext] at hrun
          have hs' : s' = s1 := by
            cases fuel <;> simp only [jsiIdleWatchLoop, Option.some.injEq] at hrun <;>
              exact hrun.symm
          subst hs'
          refine ⟨[x], [invs], ?_, by simpa using htr, ?_⟩
          · refine List.Forall₂.cons ?_ List.Forall₂.nil
            rw [← hW x (by simp)]
            exact hfired
          · refine Or.inr ⟨[], x, y :: post, rfl, ?_, rfl⟩
            rw [h1, harr, List.erase_append_right _ hxpre]
            simp

/-- C10 (amended). For every watch table and every raw pin event, provided
the pool of variables is not exhausted and callbacks do not modify the watch
table: the watch loop handles, in table order, the watches `visited`, which
are all watches of the table when the loop takes none out of it, and the
watches up to and including the first watch that the loop takes out of the
table otherwise. For each of them the callback chain is invoked exactly once
if the watch has no debounce, is on the pin of the event and its edge policy
matches the level of the event, with a data object that carries the
reconstructed time, the pin, the level of the event as `state` and the
previous `lastTime` of the watch, and is not invoked otherwise; nothing else
is invoked. -/
theorem jsiIdleWatchLoop_edges (env : Env) (event : IOEvent) (fuel : Nat) (s s' : St)
    (hoom : ∀ n, env.oom n = false)
    (hcb : ∀ f args st, ∀ a ∈ env.interp f args st, a.keepsWatches)
    (hnd : s.watchArray.Nodup)
    (hwf : ∀ w ∈ s.watchArray, w < s.nextRef)
    (hrun : jsiIdleWatchLoop env event fuel s.watchArray.head? s = some s') :
    ∃ visited parts,
      List.Forall₂ (fun w invs => WatchFired env event (s.watchObj w) invs) visited parts ∧
      s'.trace = s.trace ++ parts.flatten ∧
      ((s'.watchArray = s.watchArray ∧ visited = s.watchArray) ∨
        ∃ before removed behind, s.watchArray = before ++ removed :: behind ∧
          s'.watchArray = before ++ behind ∧ visited = before ++ [removed]) := by
  cases harr : s.watchArray with
  | nil =>
    rw [harr] at hrun
    have : s' = s := by
      cases fuel <;> simp only [List.head?_nil, jsiIdleWatchLoop, Option.some.injEq] at hrun <;>
        exact hrun.symm
    subst this
    exact ⟨[], [], List.Forall₂.nil, by simp, Or.inl ⟨harr, rfl⟩⟩
  | cons x post =>
    rw [harr] at hrun
    simp only [List.head?_cons] at hrun
    obtain ⟨visited, parts, hparts, htr, hshape⟩ :=
      jsiIdleWatchLoop_suffix env event hoom hcb s.watchObj post [] x fuel s s'
        (by rw [harr]; rfl) hnd hwf (fun _ _ => rfl) hrun
    refine ⟨visited, parts, hparts, htr, ?_⟩
    rcases hshape with ⟨hk, hv⟩ | ⟨before, removed, behind, hsplit, hk, hv⟩
    · exact Or.inl ⟨by rw [hk, harr], hv⟩
    · exact Or.inr ⟨before, removed, behind, hsplit, by simpa using hk, hv⟩

/-- C10, witness: a falling edge watch and a low event. The loop invokes the
callback once, with the data of the event; for a high event it invokes
nothing. And a watch on either edge that is not recurring, with a second watch
behind it: the loop invokes the callback of the first watch once and takes the
watch out of the table. -/
theorem jsiIdleWatchLoop_edges_witness :
    (∃ s' visited parts,
      jsiIdleWatchLoop Env.at1000 IOEvent.low5 3 St.fallingWatch.watchArray.head?
        St.fallingWatch = some s' ∧
      List.Forall₂ (fun w invs => WatchFired Env.at1000 IOEvent.low5
        (St.fallingWatch.watchObj w) invs) visited parts ∧
      s'.trace = St.fallingWatch.trace ++ parts.flatten ∧ visited = [1]) ∧
    (jsiIdleWatchLoop Env.at1000 IOEvent.low5 3 St.fallingWatch.watchArray.head?
        St.fallingWatch).map (fun s => s.trace) =
      some [{ func := .function 3,
              args := [.data { time := some 990, lastTime := some 500, pin := some 5,
                               state := some false }, .undefined] }] ∧
    (jsiIdleWatchLoop Env.at1000 IOEvent.high5 3 St.fallingWatch.watchArray.head?
        St.fallingWatch).map (fun s => s.trace) = some [] ∧
    (∃ s' visited parts,
      jsiIdleWatchLoop Env.at1000 IOEvent.low5 3 St.oneShotWatchFirst.watchArray.head?
        St.oneShotWatchFirst = some s' ∧
      List.Forall₂ (fun w invs => WatchFired Env.at1000 IOEvent.low5
        (St.oneShotWatchFirst.watchObj w) invs) visited parts ∧
      s'.trace = St.oneShotWatchFirst.trace ++ parts.flatten ∧ visited = [1] ∧
      s'.watchArray = [2]) := by
  refine ⟨?_, by rfl, by rfl, ?_⟩
  · cases h : jsiIdleWatchLoop Env.at1000 IOEvent.low5 3 St.fallingWatch.watchArray.head?
        St.fallingWatch with
    | none =>
      have : (jsiIdleWatchLoop Env.at1000 IOEvent.low5 3 St.fallingWatch.watchArray.head?
          St.fallingWatch).isSome = true := by rfl
      rw [h] at this
      cases this
    | some s' =>
      have h1 : (jsiIdleWatchLoop Env.at1000 IOEvent.low5 3 St.fallingWatch.watchArray.head?
          St.fallingWatch).map (fun s => s.watchArray) = some [1] := by rfl
      rw [h] at h1
      simp only [Option.map_some', Option.some.injEq] at h1
      obtain ⟨visited, parts, hp, htr, hshape⟩ :=
        jsiIdleWatchLoop_edges Env.at1000 IOEvent.low5 3 St.fallingWatch s'
          (fun _ => rfl) (fun _ _ _ a ha => by simp [Env.at1000, Env.quiet] at ha)
          (by decide) (by decide) h
      refine ⟨s', visited, parts, rfl, hp, htr, ?_⟩
      rcases hshape with ⟨_, hv⟩ | ⟨before, removed, behind, hsplit, hk, _⟩
      · exact hv
      · exfalso
        rw [h1] at hk
        have hlen := congrArg List.length hsplit
        have hlen2 := congrArg List.length hk
        simp only [List.length_append, List.length_cons] at hlen hlen2
        have : St.fallingWatch.watchArray.length = 1 := rfl
        omega
  · cases h : jsiIdleWatchLoop Env.at1000 IOEvent.low5 3 St.oneShotWatchFirst.watchArray.head?
        St.oneShotWatchFirst with
    | none =>
      have : (jsiIdleWatchLoop Env.at1000 IOEvent.low5 3
          St.oneShotWatchFirst.watchArray.head? St.oneShotWatchFirst).isSome = true := by rfl
      rw [h] at this
      cases this
    | some s' =>
      have h1 : (jsiIdleWatchLoop Env.at1000 IOEvent.low5 3
          St.oneShotWatchFirst.watchArray.head? St.oneShotWatchFirst).map
          (fun s => s.watchArray) = some [2] := by rfl
      rw [h] at h1
      simp only [Option.map_some', Option.some.injEq] at h1
      obtain ⟨visited, parts, hp, htr, hshape⟩ :=
        jsiIdleWatchLoop_edges Env.at1000 IOEvent.low5 3 St.oneShotWatchFirst s'
          (fun _ => rfl) (fun _ _ _ a ha => by simp [Env.at1000, Env.quiet] at ha)
          (by decide) (by decide) h
      refine ⟨s', visited, parts, rfl, hp, htr, ?_, h1⟩
      have harr : St.oneShotWatchFirst.watchArray = [1, 2] := rfl
      rcases hshape with ⟨hk, _⟩ | ⟨before, removed, behind, hsplit, hk, hv⟩
      · rw [h1, harr] at hk
        cases hk
      · rw [harr] at hsplit
        rw [h1] at hk
        rw [hv]
        match before, hsplit, hk with
        | [], hsplit, hk =>
          simp only [List.nil_append, List.cons.injEq] at hsplit
          rw [← hsplit.1]
          rfl
        | [b], hsplit, hk =>
          simp only [List.cons_append, List.nil_append, List.cons.injEq] at hsplit hk
          exfalso
          have e1 : (1 : Nat) = b := hsplit.1
          have e2 : (2 : Nat) = b := hk.1
          omega
        | b :: c :: rest, hsplit, hk =>
          simp only [List.cons_append, List.cons.injEq] at hsplit hk
          exfalso
          have h3 := hk.2
          have := congrArg List.length h3
          simp at this

/-- C10, counterexample. Two watches without debounce on the pin of a low
event, both with a matching edge policy: the callback of the first removes the
second, and the second is not invoked, where the claim says that it is invoked
exactly once. And with the pool of variables exhausted the callback of a
matching watch is invoked without a data object. -/
theorem jsiIdleWatchLoop_sibling_removed :
    (∀ w ∈ St.twoWatches.watchArray,
      Env.clearWatch2.jshIsEventForPin IOEvent.low5 (St.twoWatches.watchObj w).pin = true ∧
      (St.twoWatches.watchObj w).debounce = 0 ∧
      jsiShouldExecuteWatch (St.twoWatches.watchObj w).edge IOEvent.low5.isHigh = true) ∧
    (jsiIdleWatchLoop Env.clearWatch2 IOEvent.low5 3 St.twoWatches.watchArray.head?
        St.twoWatches).map (fun s => s.trace.map fun i => i.func) = some [.function 3] ∧
    (jsiIdleWatchLoop Env.exhausted1000 IOEvent.low5 3 St.fallingWatch.watchArray.head?
        St.fallingWatch).map (fun s => s.trace) =
      some [{ func := .function 3, args := [.undefined, .undefined] }] := by
  refine ⟨by decide, by rfl, by rfl⟩

/-! ## Debounce -/

/-- A raw edge for a debounced watch that has a pending timer: nothing is
invoked, the timer is set to run `debounce` ticks after the edge, and the level
is stored in the watch when the pool has a variable for it. -/
theorem jsiIdleWatch_pending (env : Env) (event : IOEvent) (w tr : JsVarRef) (s : St)
    (hpin : env.jshIsEventForPin event (s.watchObj w).pin = true)
    (hdeb : (s.watchObj w).debounce > 0)
    (hto : (s.watchObj w).timeout = some tr) :
    ∃ s1, jsiIdleWatch env event w s = some s1 ∧
      s1.trace = s.trace ∧ s1.timerArray = s.timerArray ∧
      s1.jsiLastIdleTime = s.jsiLastIdleTime ∧ s1.clockReads = s.clockReads + 1 ∧
      s1.watchObj w = { s.watchObj w with
        state := if env.oom s.allocs = true then none else some event.isHigh } ∧
      s1.timerObj tr = { s.timerObj tr with
        time := (eventTime (env.clock s.clockReads) event.time - s.jsiLastIdleTime) +
          (s.watchObj w).debounce } ∧
      s1.allocs = s.allocs + 1 := by
  have hrun : jsiIdleWatch env event w s = some (jsiIdleWatchDebounce env w (s.watchObj w).pin
      event.isHigh (eventTime (env.clock s.clockReads) event.time) (s.watchObj w).debounce
      { s with clockReads := s.clockReads + 1 }) := by
    unfold jsiIdleWatch
    simp only [jshGetSystemTime, hpin, if_true, hdeb]
  refine ⟨_, hrun, ?_⟩
  obtain ⟨r, _, _, heq⟩ := jsiIdleWatchDebounce_eq env w (s.watchObj w).pin
    event.isHigh (eventTime (env.clock s.clockReads) event.time) (s.watchObj w).debounce
    { s with clockReads := s.clockReads + 1 }
  rw [heq]
  have hT : jsiIdleWatchDebounceTimer env w (s.watchObj w).pin
      (eventTime (env.clock s.clockReads) event.time) (s.watchObj w).debounce
      { s with clockReads := s.clockReads + 1 } =
      ({ s with clockReads := s.clockReads + 1 } : St).setTimer tr fun t =>
        { t with time := (eventTime (env.clock s.clockReads) event.time - s.jsiLastIdleTime) +
          (s.watchObj w).debounce } := by
    unfold jsiIdleWatchDebounceTimer
    simp only [hto]
  rw [hT]
  refine ⟨rfl, rfl, rfl, rfl, ?_, ?_, rfl⟩
  · rw [setWatch_watchObj_same]
    rfl
  · simp [St.setWatch, St.setTimer]

/-- A raw edge for a debounced watch without a pending timer, when the pool is
not exhausted: nothing is invoked, a one-shot timer linked to the watch is
appended to the timer table, due `debounce` ticks after the edge, and the level
is stored in the watch when the pool has a second variable for it. -/
theorem jsiIdleWatch_fresh (env : Env) (event : IOEvent) (w : JsVarRef) (s : St)
    (hoom : env.oom s.allocs = false)
    (hpin : env.jshIsEventForPin event (s.watchObj w).pin = true)
    (hdeb : (s.watchObj w).debounce > 0)
    (hto : (s.watchObj w).timeout = none) :
    ∃ s1, jsiIdleWatch env event w s = some s1 ∧
      s1.trace = s.trace ∧ s1.timerArray = s.timerArray ++ [s.nextRef] ∧
      s1.jsiLastIdleTime = s.jsiLastIdleTime ∧ s1.clockReads = s.clockReads + 1 ∧
      s1.allocs = s.allocs + 2 ∧
      s1.watchObj w = { s.watchObj w with
        state := if env.oom (s.allocs + 1) = true then none else some event.isHigh,
        timeout := some s.nextRef } ∧
      s1.timerObj s.nextRef = debounceTimer w (s.watchObj w)
        ((eventTime (env.clock s.clockReads) event.time - s.jsiLastIdleTime) +
          (s.watchObj w).debounce) := by
  have hrun : jsiIdleWatch env event w s = some (jsiIdleWatchDebounce env w (s.watchObj w).pin
      event.isHigh (eventTime (env.clock s.clockReads) event.time) (s.watchObj w).debounce
      { s with clockReads := s.clockReads + 1 }) := by
    unfold jsiIdleWatch
    simp only [jshGetSystemTime, hpin, if_true, hdeb]
  refine ⟨_, hrun, ?_⟩
  obtain ⟨r, _, _, heq⟩ := jsiIdleWatchDebounce_eq env w (s.watchObj w).pin
    event.isHigh (eventTime (env.clock s.clockReads) event.time) (s.watchObj w).debounce
    { s with clockReads := s.clockReads + 1 }
  rw [heq]
  have hT : jsiIdleWatchDebounceTimer env w (s.watchObj w).pin
      (eventTime (env.clock s.clockReads) event.time) (s.watchObj w).debounce
      { s with clockReads := s.clockReads + 1 } =
      (jsiTimerAdd s.nextRef
        { s with clockReads := s.clockReads + 1, allocs := s.allocs + 1,
                 nextRef := s.nextRef + 1,
                 timerObj := Function.update s.timerObj s.nextRef
                   (debounceTimer w (s.watchObj w)
                     ((eventTime (env.clock s.clockReads) event.time - s.jsiLastIdleTime) +
                       (s.watchObj w).debounce)) }).setWatch w fun x =>
          { x with timeout := some s.nextRef } := by
    unfold jsiIdleWatchDebounceTimer
    simp only [hto, jsvNewWithFlags, hoom, Bool.false_eq_true, if_false]
    rfl
  rw [hT]
  refine ⟨rfl, rfl, rfl, rfl, rfl, ?_, ?_⟩
  · rw [setWatch_watchObj_same, setWatch_watchObj_same]
    rfl
  · simp [St.setWatch, jsiTimerAdd]

theorem jsiIdleTimerFinish_trace (timer : JsVarRef) (watchPtr : Option JsVarRef)
    (exec rec : Bool) (s : St) :
    (jsiIdleTimerFinish timer watchPtr exec rec s).trace = s.trace := by
  unfold jsiIdleTimerFinish jsiIdleTimerUnwatch jshPinWatch
  cases watchPtr with
  | none =>
    simp only
    split
    · split <;> rfl
    · split <;> rfl
  | some w =>
    simp only
    split <;> split <;> (try split) <;> (try split) <;> (try split) <;> rfl

/-- Three complete timer checks on a table that holds one timer: a one-shot timer
with `100` ticks, checked after `40`, `40` and `40` ticks, is invoked in the
third check only and is then no longer in the table. -/
theorem jsiIdle_oneShot_alone :
    (jsiIdleTimersStep Env.clock40 5 St.oneShot100).map
      (fun s => (s.trace.map (fun i => i.func), s.timerArray, (s.timerObj 1).time)) =
      some ([], [1], 60) ∧
    ((jsiIdleTimersStep Env.clock40 5 St.oneShot100).bind
      (jsiIdleTimersStep Env.clock40 5)).map
      (fun s => (s.trace.map (fun i => i.func), s.timerArray, (s.timerObj 1).time)) =
      some ([], [1], 20) ∧
    (((jsiIdleTimersStep Env.clock40 5 St.oneShot100).bind
      (jsiIdleTimersStep Env.clock40 5)).bind (jsiIdleTimersStep Env.clock40 5)).map
      (fun s => (s.trace.map (fun i => i.func), s.timerArray)) =
      some ([.function 2], []) := by
  refine ⟨by rfl, by rfl, by rfl⟩

/-- The watch loop after it has removed a watch itself: watch `1` is not
recurring, it runs for a low event and is removed, the loop then reads the
cleared sibling link of the removed entry and ends; watch `2`, on the same pin
and with a matching edge policy, is not invoked for this event. -/
theorem jsiIdleWatchLoop_ends_after_removal :
    (jsiIdleWatchLoop Env.at1000 IOEvent.low5 3 St.oneShotWatchFirst.watchArray.head?
        St.oneShotWatchFirst).map
      (fun s => (s.trace.map (fun i => i.func), s.watchArray, s.pinWatchCalls)) =
      some ([.function 3], [2], []) := by
  rfl

/-! ## Callbacks that keep the timer table -/

/-- Callbacks that keep the timer table leave `timerArray` as it is. -/
theorem stepClosed_timerArray (env : Env)
    (hcb : ∀ f args st, ∀ a ∈ env.interp f args st, a.keepsTimers) :
    StepClosed env (fun s s' => s'.timerArray = s.timerArray) where
  refl := fun _ => rfl
  trans := fun _ _ _ h1 h2 => by rw [h2, h1]
  record := fun _ _ => rfl
  act := by
    intro f args st a ha s s' h
    have hk := hcb f args st a ha
    cases a with
    | queueEvents callback cargs => exact (jsiQueueEvents_tables env callback cargs s s' h).1
    | timerAdd t => exact absurd hk (by simp [Action.keepsTimers])
    | timerRemove x => exact absurd hk (by simp [Action.keepsTimers])
    | watchAdd w => simp only [applyAction, Option.some.injEq] at h; subst h; rfl
    | watchRemove x => simp only [applyAction, Option.some.injEq] at h; subst h; rfl
    | setInterrupted b => simp only [applyAction, Option.some.injEq] at h; subst h; rfl
    | setError b => simp only [applyAction, Option.some.injEq] at h; subst h; rfl
    | setTodo t => simp only [applyAction, Option.some.injEq] at h; subst h; rfl
  error := fun _ _ => rfl
  flag := fun _ => rfl

/-! ## The failure policy of timers -/

/-- Callbacks keep the timer table well formed. -/
theorem stepClosed_timersWF (env : Env) :
    StepClosed env (fun s s' => s.timersWF → s'.timersWF) where
  refl := fun _ h => h
  trans := fun _ _ _ h1 h2 h => h2 (h1 h)
  record := fun _ _ h => h
  act := by
    intro f args st a _ s s' h hwf
    cases a with
    | queueEvents callback cargs =>
      obtain ⟨h1, _, _, _⟩ := jsiQueueEvents_tables env callback cargs s s' h
      have h2 := (jsiQueueEvents_preserves env callback cargs s s' h).nextRef
      exact ⟨by rw [h1]; exact hwf.1, fun r hr => lt_of_lt_of_le (hwf.2 r (h1 ▸ hr)) h2⟩
    | timerAdd t =>
      simp only [applyAction, jsiTimerAdd, Option.some.injEq] at h
      subst h
      refine ⟨?_, fun r hr => ?_⟩
      · show (s.timerArray ++ [s.nextRef]).Nodup
        rw [List.nodup_append]
        refine ⟨hwf.1, List.nodup_singleton _, ?_⟩
        intro a ha hb
        rw [List.mem_singleton] at hb
        subst hb
        exact absurd (hwf.2 _ ha) (lt_irrefl _)
      · have hr' : r ∈ s.timerArray ++ [s.nextRef] := hr
        rw [List.mem_append, List.mem_singleton] at hr'
        show r < s.nextRef + 1
        rcases hr' with h1 | h1
        · exact Nat.lt_succ_of_lt (hwf.2 r h1)
        · rw [h1]; exact Nat.lt_succ_self _
    | timerRemove x =>
      simp only [applyAction, Option.some.injEq] at h
      subst h
      exact ⟨hwf.1.erase x, fun r hr => hwf.2 r (List.mem_of_mem_erase hr)⟩
    | watchAdd w =>
      simp only [applyAction, Option.some.injEq] at h
      subst h
      exact ⟨hwf.1, fun r hr => Nat.lt_succ_of_lt (hwf.2 r hr)⟩
    | watchRemove x => simp only [applyAction, Option.some.injEq] at h; subst h; exact hwf
    | setInterrupted b => simp only [applyAction, Option.some.injEq] at h; subst h; exact hwf
    | setError b => simp only [applyAction, Option.some.injEq] at h; subst h; exact hwf
    | setTodo t => simp only [applyAction, Option.some.injEq] at h; subst h; exact hwf
  error := fun _ _ h => h
  flag := fun _ h => h

/-- The end of the block of a due timer that is not to run again: the timer is
taken out of the table, and nothing is written in the log of errors. -/
theorem jsiIdleTimerFinish_removes (timer : JsVarRef) (watchPtr : Option JsVarRef)
    (exec : Bool) (s : St) :
    (jsiIdleTimerFinish timer watchPtr exec false s).timerArray = s.timerArray.erase timer ∧
    (jsiIdleTimerFinish timer watchPtr exec false s).errors = s.errors ∧
    (jsiIdleTimerFinish timer watchPtr exec false s).timerObj = s.timerObj := by
  have h5 : ∀ s5 : St, s5 = (match watchPtr with
      | none => s
      | some w =>
        if (exec && !((s.setWatch w fun x => { x with timeout := none }).watchObj w).recur)
            = true
        then jsiIdleTimerUnwatch w (s.setWatch w fun x => { x with timeout := none })
        else s.setWatch w fun x => { x with timeout := none }) →
      s5.timerArray = s.timerArray ∧ s5.errors = s.errors ∧ s5.timerObj = s.timerObj := by
    intro s5 h
    subst h
    cases watchPtr with
    | none => exact ⟨rfl, rfl, rfl⟩
    | some w =>
      simp only
      split
      · unfold jsiIdleTimerUnwatch jshPinWatch
        simp only
        split <;> split <;> exact ⟨rfl, rfl, rfl⟩
      · exact ⟨rfl, rfl, rfl⟩
  obtain ⟨ha, he, ho⟩ := h5 _ rfl
  unfold jsiIdleTimerFinish
  simp only [Bool.false_eq_true, if_false]
  split
  · exact ⟨by simp only [jsvRemoveChild]; rw [ha], he, ho⟩
  · rename_i hnot
    refine ⟨?_, he, ho⟩
    rw [ha] at hnot ⊢
    have : timer ∉ s.timerArray := by
      simpa [jsvGetArrayIndexOf] using hnot
    exact (List.erase_of_not_mem this).symm

/-- The block for a due timer whose callback chain runs and either fails or
belongs to a one-shot timer: the timer is not in the table afterwards, and the
failure of a recurring timer is written in the log of errors. -/
theorem jsiIdleTimerFire_off (env : Env) (timer : JsVarRef) (s1 s4 : St) (ok : Bool)
    (hwf : s1.timersWF)
    (hexec : (jsiIdleTimerData env timer s1).1 = true)
    (hcb : jsiExecuteEventCallback env (s1.timerObj timer).callback
      (jsiIdleTimerData env timer s1).2.1 .undefined (jsiIdleTimerData env timer s1).2.2 =
      some (ok, s4))
    (hoff : (s1.timerObj timer).recur = false ∨ ok = false) :
    ∃ s', jsiIdleTimerFire env timer s1 = some s' ∧ timer ∉ s'.timerArray ∧
      s'.errors = s4.errors ++
        (if (s1.timerObj timer).recur = true ∧ ok = false
          then ["Error processing interval - removing it."] else []) ∧
      s'.timerObj = s4.timerObj := by
  obtain ⟨hto, hta, hnr⟩ := jsiIdleTimerData_frame env timer s1
  have hwf3 : (jsiIdleTimerData env timer s1).2.2.timersWF :=
    ⟨by rw [hta]; exact hwf.1, fun r hr => lt_of_lt_of_le (hwf.2 r (hta ▸ hr)) hnr⟩
  have hwf4 : s4.timersWF :=
    jsiExecuteEventCallback_rel env _ (stepClosed_timersWF env) _ _ _ _ _ hcb hwf3
  have hrec3 : ((jsiIdleTimerData env timer s1).2.2.timerObj timer).recur =
      (s1.timerObj timer).recur := by rw [hto]
  have hgone : ∀ x : St, x.timerArray = s4.timerArray → timer ∉ x.timerArray.erase timer := by
    intro x hx
    rw [hx]
    exact List.Nodup.not_mem_erase hwf4.1
  unfold jsiIdleTimerFire
  simp only [hexec, if_true, hcb, hrec3]
  by_cases hbad : (!ok && (s1.timerObj timer).recur) = true
  · -- a recurring timer whose callback chain failed
    simp only [hbad, if_true]
    have hok : ok = false := by
      cases ok
      · rfl
      · simp at hbad
    have hrec : (s1.timerObj timer).recur = true := by
      cases hr : (s1.timerObj timer).recur
      · simp [hr] at hbad
      · rfl
    obtain ⟨ha, he, ho⟩ := jsiIdleTimerFinish_removes timer (s1.timerObj timer).watch true
      (jsError "Error processing interval - removing it." s4)
    refine ⟨_, rfl, ?_, ?_, ho⟩
    · rw [ha]
      exact hgone _ rfl
    · rw [he]
      simp [jsError, hrec, hok]
  · -- a one-shot timer
    simp only [hbad, Bool.false_eq_true, if_false]
    have hrec : (s1.timerObj timer).recur = false := by
      rcases hoff with h | h
      · exact h
      · subst h
        cases hr : (s1.timerObj timer).recur
        · rfl
        · simp [hr] at hbad
    rw [hrec]
    obtain ⟨ha, he, ho⟩ := jsiIdleTimerFinish_removes timer (s1.timerObj timer).watch true s4
    refine ⟨_, rfl, ?_, ?_, ho⟩
    · rw [ha]
      exact hgone _ rfl
    · rw [he]
      simp

theorem nextSibling_mem : ∀ (l : List JsVarRef) (x y : JsVarRef),
    nextSibling l x = some y → y ∈ l
  | [], _, _, h => by simp [nextSibling] at h
  | a :: rest, x, y, h => by
      simp only [nextSibling] at h
      split at h
      · cases rest with
        | nil => simp at h
        | cons b rest' =>
          simp only [List.head?_cons, Option.some.injEq] at h
          subst h
          simp
      · exact List.mem_cons_of_mem _ (nextSibling_mem rest x y h)

/-- A timer that is not in the table and whose variable exists is not put in
the table by any callback, and its variable is not written. -/
theorem stepClosed_absent (env : Env) (T : JsVarRef) :
    StepClosed env (fun s s' => s.timersWF ∧ T ∉ s.timerArray ∧ T < s.nextRef →
      s'.timersWF ∧ T ∉ s'.timerArray ∧ T < s'.nextRef) where
  refl := fun _ h => h
  trans := fun _ _ _ h1 h2 h => h2 (h1 h)
  record := fun _ _ h => h
  act := by
    intro f args st a ha s s' h hyp
    obtain ⟨hwf, hnot, hlt⟩ := hyp
    have hwf' : s'.timersWF := (stepClosed_timersWF env).act f args st a ha s s' h hwf
    have hnr : s.nextRef ≤ s'.nextRef := (applyAction_preserves env a s s' h).nextRef
    refine ⟨hwf', ?_, lt_of_lt_of_le hlt hnr⟩
    cases a with
    | queueEvents callback cargs =>
      rw [(jsiQueueEvents_tables env callback cargs s s' h).1]; exact hnot
    | timerAdd t =>
      simp only [applyAction, jsiTimerAdd, Option.some.injEq] at h
      subst h
      show T ∉ s.timerArray ++ [s.nextRef]
      rw [List.mem_append, List.mem_singleton]
      rintro (h1 | h1)
      · exact hnot h1
      · rw [h1] at hlt; exact lt_irrefl _ hlt
    | timerRemove x =>
      simp only [applyAction, Option.some.injEq] at h
      subst h
      exact fun hm => hnot (List.mem_of_mem_erase hm)
    | watchAdd w => simp only [applyAction, Option.some.injEq] at h; subst h; exact hnot
    | watchRemove x => simp only [applyAction, Option.some.injEq] at h; subst h; exact hnot
    | setInterrupted b => simp only [applyAction, Option.some.injEq] at h; subst h; exact hnot
    | setError b => simp only [applyAction, Option.some.injEq] at h; subst h; exact hnot
    | setTodo t => simp only [applyAction, Option.some.injEq] at h; subst h; exact hnot
  error := fun _ _ h => h
  flag := fun _ h => h

/-- The end of the block of a due timer leaves the table as it is or takes the
timer out of it, and allocates nothing. -/
theorem jsiIdleTimerFinish_table (timer : JsVarRef) (watchPtr : Option JsVarRef)
    (exec rec : Bool) (s : St) :
    ((jsiIdleTimerFinish timer watchPtr exec rec s).timerArray = s.timerArray ∨
      (jsiIdleTimerFinish timer watchPtr exec rec s).timerArray = s.timerArray.erase timer) ∧
    (jsiIdleTimerFinish timer watchPtr exec rec s).nextRef = s.nextRef := by
  have h5 : ∀ s5 : St, s5 = (match watchPtr with
      | none => s
      | some w =>
        if (exec && !((s.setWatch w fun x => { x with timeout := none }).watchObj w).recur)
            = true
        then jsiIdleTimerUnwatch w (s.setWatch w fun x => { x with timeout := none })
        else s.setWatch w fun x => { x with timeout := none }) →
      s5.timerArray = s.timerArray ∧ s5.nextRef = s.nextRef := by
    intro s5 h
    subst h
    cases watchPtr with
    | none => exact ⟨rfl, rfl⟩
    | some w =>
      simp only
      split
      · unfold jsiIdleTimerUnwatch jshPinWatch
        simp only
        split <;> split <;> exact ⟨rfl, rfl⟩
      · exact ⟨rfl, rfl⟩
  obtain ⟨ha, hn⟩ := h5 _ rfl
  unfold jsiIdleTimerFinish
  simp only
  split
  · split
    · exact ⟨Or.inl ha, hn⟩
    · exact ⟨Or.inl ha, hn⟩
  · split
    · exact ⟨Or.inr (by simp only [jsvRemoveChild]; rw [ha]), hn⟩
    · exact ⟨Or.inl ha, hn⟩

/-- The block for a due timer keeps the timer table well formed, and does not
put a timer in it that was not in it and whose variable exists. -/
theorem jsiIdleTimerFire_absent (env : Env) (timer T : JsVarRef) (s s' : St)
    (h : jsiIdleTimerFire env timer s = some s')
    (hyp : s.timersWF ∧ T ∉ s.timerArray ∧ T < s.nextRef) :
    s'.timersWF ∧ T ∉ s'.timerArray ∧ T < s'.nextRef := by
  obtain ⟨hto, hta, hnr⟩ := jsiIdleTimerData_frame env timer s
  have hyp3 : (jsiIdleTimerData env timer s).2.2.timersWF ∧
      T ∉ (jsiIdleTimerData env timer s).2.2.timerArray ∧
      T < (jsiIdleTimerData env timer s).2.2.nextRef :=
    ⟨⟨by rw [hta]; exact hyp.1.1, fun r hr => lt_of_lt_of_le (hyp.1.2 r (hta ▸ hr)) hnr⟩,
      by rw [hta]; exact hyp.2.1, lt_of_lt_of_le hyp.2.2 hnr⟩
  have hfin : ∀ (exec rec : Bool) (x : St),
      x.timersWF ∧ T ∉ x.timerArray ∧ T < x.nextRef →
      (jsiIdleTimerFinish timer (s.timerObj timer).watch exec rec x).timersWF ∧
      T ∉ (jsiIdleTimerFinish timer (s.timerObj timer).watch exec rec x).timerArray ∧
      T < (jsiIdleTimerFinish timer (s.timerObj timer).watch exec rec x).nextRef := by
    intro exec rec x hx
    obtain ⟨htab, hn⟩ := jsiIdleTimerFinish_table timer (s.timerObj timer).watch exec rec x
    rcases htab with e | e
    · exact ⟨⟨by rw [e]; exact hx.1.1, fun r hr => by rw [hn]; exact hx.1.2 r (e ▸ hr)⟩,
        by rw [e]; exact hx.2.1, by rw [hn]; exact hx.2.2⟩
    · exact ⟨⟨by rw [e]; exact hx.1.1.erase _,
          fun r hr => by rw [hn]; exact hx.1.2 r (List.mem_of_mem_erase (e ▸ hr))⟩,
        by rw [e]; exact fun hm => hx.2.1 (List.mem_of_mem_erase hm),
        by rw [hn]; exact hx.2.2⟩
  unfold jsiIdleTimerFire at h
  simp only at h
  split at h
  · split at h
    · rename_i ok s4 hcb
      have hyp4 := jsiExecuteEventCallback_rel env _ (stepClosed_absent env T) _ _ _ _ _ hcb hyp3
      simp only at hyp4
      split at h
      · simp only [Option.some.injEq] at h
        subst h
        exact hfin _ _ (jsError "Error processing interval - removing it." s4) hyp4
      · simp only [Option.some.injEq] at h
        subst h
        exact hfin _ _ s4 hyp4
    · cases h
  · simp only [Option.some.injEq] at h
    subst h
    exact hfin _ _ _ hyp3

/-- The body of the timer loop, for a timer other than `T`: a timer `T` that
is not in the table stays out of it, its variable is not written, and the
timer that the loop goes on with is in the table. -/
theorem jsiIdleTimer_absent (env : Env) (e : Int) (timer T : JsVarRef) (m : Int) (b : Bool)
    (s : St) (r : Int × Bool × Option (Option JsVarRef) × St)
    (hne : T ≠ timer)
    (hyp : s.timersWF ∧ T ∉ s.timerArray ∧ T < s.nextRef)
    (h : jsiIdleTimer env e timer m b s = some r) :
    (r.2.2.2.timersWF ∧ T ∉ r.2.2.2.timerArray ∧ T < r.2.2.2.nextRef) ∧
    r.2.2.2.timerObj T = s.timerObj T ∧
    (∀ n, r.2.2.1 = some (some n) → n ∈ r.2.2.2.timerArray) := by
  have hyp1 : (s.setTimer timer fun t => { t with time := (s.timerObj timer).time - e }).timersWF ∧
      T ∉ (s.setTimer timer fun t => { t with time := (s.timerObj timer).time - e }).timerArray ∧
      T < (s.setTimer timer fun t => { t with time := (s.timerObj timer).time - e }).nextRef :=
    hyp
  have hobj1 : (s.setTimer timer fun t =>
      { t with time := (s.timerObj timer).time - e }).timerObj T = s.timerObj T :=
    setTimer_timerObj_ne _ _ _ _ hne
  have hend : ∀ (busy1 : Bool) (s2 : St),
      (s2.timersWF ∧ T ∉ s2.timerArray ∧ T < s2.nextRef) → s2.timerObj T = s.timerObj T →
      (if nextSibling s2.timerArray timer ≠ nextSibling s.timerArray timer then
          some ((0 : Int), busy1, (none : Option (Option JsVarRef)), s2)
        else some ((if (s.timerObj timer).time - e < m then (s.timerObj timer).time - e else m),
          busy1, some (nextSibling s.timerArray timer), s2)) = some r →
      (r.2.2.2.timersWF ∧ T ∉ r.2.2.2.timerArray ∧ T < r.2.2.2.nextRef) ∧
      r.2.2.2.timerObj T = s.timerObj T ∧
      (∀ n, r.2.2.1 = some (some n) → n ∈ r.2.2.2.timerArray) := by
    intro busy1 s2 hs2 ho2 hr
    split at hr
    · simp only [Option.some.injEq] at hr
      subst hr
      exact ⟨hs2, ho2, fun n hn => by simp at hn⟩
    · rename_i hsame
      simp only [Option.some.injEq] at hr
      subst hr
      refine ⟨hs2, ho2, fun n hn => ?_⟩
      simp only [Option.some.injEq] at hn
      have hcur : nextSibling s2.timerArray timer = some n := by
        rw [not_not.1 hsame]; exact hn
      exact nextSibling_mem _ _ _ hcur
  unfold jsiIdleTimer at h
  simp only at h
  by_cases hdue : (s.timerObj timer).time - e ≤ 0
  · simp only [if_pos hdue] at h
    cases hf : jsiIdleTimerFire env timer
        (s.setTimer timer fun t => { t with time := (s.timerObj timer).time - e }) with
    | none => simp [hf] at h
    | some x =>
      simp only [hf, Option.map_some'] at h
      refine hend true x (jsiIdleTimerFire_absent env timer T _ _ hf hyp1) ?_ h
      rw [(jsiIdleTimerFire_frame env timer _ x hf).1 T hne hyp1.2.2, hobj1]
  · simp only [if_neg hdue] at h
    exact hend b _ hyp1 hobj1 h

/-- A sweep of the timer loop does not evaluate a timer that is not in the
table: the timer stays out of the table and its variable is not written. -/
theorem jsiIdleTimerLoop_absent (env : Env) (e : Int) (T : JsVarRef) :
    ∀ (fuel : Nat) (cur : Option JsVarRef) (m : Int) (b : Bool) (s : St) (r : Int × Bool × St),
      (∀ c, cur = some c → c ∈ s.timerArray) →
      s.timersWF ∧ T ∉ s.timerArray ∧ T < s.nextRef →
      jsiIdleTimerLoop env e fuel cur m b s = some r →
      (r.2.2.timersWF ∧ T ∉ r.2.2.timerArray ∧ T < r.2.2.nextRef) ∧
        r.2.2.timerObj T = s.timerObj T
  | fuel, none, m, b, s, r, _, hyp, h => by
      cases fuel <;>
      · simp only [jsiIdleTimerLoop, Option.some.injEq] at h
        subst h
        exact ⟨hyp, rfl⟩
  | 0, some c, m, b, s, r, _, _, h => by simp [jsiIdleTimerLoop] at h
  | fuel + 1, some c, m, b, s, r, hcur, hyp, h => by
      have hne : T ≠ c := fun e => hyp.2.1 (e ▸ hcur c rfl)
      simp only [jsiIdleTimerLoop] at h
      cases hb : jsiIdleTimer env e c m b s with
      | none => simp [hb] at h
      | some x =>
        obtain ⟨m1, b1, cont, s1⟩ := x
        obtain ⟨hs1, ho1, hnext⟩ := jsiIdleTimer_absent env e c T m b s _ hne hyp hb
        simp only at hs1 ho1 hnext
        cases cont with
        | none =>
          simp only [hb, Option.some.injEq] at h
          subst h
          exact ⟨hs1, ho1⟩
        | some next =>
          simp only [hb] at h
          obtain ⟨a1, a2⟩ := jsiIdleTimerLoop_absent env e T fuel next m1 b1 s1 r
            (fun n hn => hnext n (by rw [hn])) hs1 h
          exact ⟨a1, by rw [a2, ho1]⟩

/-- Successive sweeps do not evaluate a timer that is not in the table. -/
theorem jsiIdleSweeps_absent (env : Env) (fuel : Nat) (T : JsVarRef) :
    ∀ (es : List Int) (s s' : St),
      s.timersWF ∧ T ∉ s.timerArray ∧ T < s.nextRef →
      jsiIdleSweeps env fuel es s = some s' →
      (s'.timersWF ∧ T ∉ s'.timerArray ∧ T < s'.nextRef) ∧ s'.timerObj T = s.timerObj T
  | [], s, s', hyp, h => by
      simp only [jsiIdleSweeps, Option.some.injEq] at h
      subst h
      exact ⟨hyp, rfl⟩
  | e :: es, s, s', hyp, h => by
      simp only [jsiIdleSweeps] at h
      cases hl : jsiIdleTimerLoop env e fuel s.timerArray.head? JSSYSTIME_MAX false s with
      | none => simp [hl] at h
      | some r =>
        simp only [hl] at h
        obtain ⟨h1, h2⟩ := jsiIdleTimerLoop_absent env e T fuel _ _ _ s r
          (fun c hc => List.mem_of_mem_head? hc) hyp hl
        obtain ⟨h3, h4⟩ := jsiIdleSweeps_absent env fuel T es r.2.2 s' h1 h
        exact ⟨h3, by rw [h4, h2]⟩

/-- C11. In the timer sweep, when a timer is due, its callback chain runs, and
the timer is either recurring with a callback chain that fails
(`jsiExecuteEventCallback` returns false) or a one-shot timer (whatever its
callback chain returns), the sweep ends with this timer and the timer is not in
the timer table at its end; it has not been rescheduled, and for the recurring
timer the error `Error processing interval - removing it.` is logged. No later
sweep evaluates the timer: it stays out of the table and its remaining ticks
are never decreased again. -/
theorem jsiIdleTimerLoop_failure (env : Env) (timePassed : Int) (fuel : Nat) (timer : JsVarRef)
    (minTimeUntilNext : Int) (wasBusy : Bool) (s s4 : St) (ok : Bool)
    (hwf : s.timersWF) (hlt : timer < s.nextRef)
    (hdue : (s.timerObj timer).time - timePassed ≤ 0)
    (hexec : (jsiIdleTimerData env timer
      (s.setTimer timer fun t => { t with time := (s.timerObj timer).time - timePassed })).1
        = true)
    (hcb : jsiIdleTimerChain env timePassed timer s = some (ok, s4))
    (hoff : (s.timerObj timer).recur = false ∨ ok = false) :
    ∃ m s', jsiIdleTimerLoop env timePassed (fuel + 1) (some timer) minTimeUntilNext wasBusy s =
        some (m, true, s') ∧
      timer ∉ s'.timerArray ∧
      s'.errors = s4.errors ++
        (if (s.timerObj timer).recur = true ∧ ok = false
          then ["Error processing interval - removing it."] else []) ∧
      (s'.timerObj timer).time = (s.timerObj timer).time - timePassed ∧
      ∀ (es : List Int) (k : Nat) (s'' : St), jsiIdleSweeps env k es s' = some s'' →
        timer ∉ s''.timerArray ∧ (s''.timerObj timer).time = (s'.timerObj timer).time := by
  set s1 := s.setTimer timer fun t => { t with time := (s.timerObj timer).time - timePassed }
    with hs1
  have hobj1 : s1.timerObj timer =
      { s.timerObj timer with time := (s.timerObj timer).time - timePassed } := by
    rw [hs1, setTimer_timerObj_same]
  have hrec1 : (s1.timerObj timer).recur = (s.timerObj timer).recur := by rw [hobj1]
  have hwf1 : s1.timersWF := hwf
  have hcb' : jsiExecuteEventCallback env (s1.timerObj timer).callback
      (jsiIdleTimerData env timer s1).2.1 .undefined (jsiIdleTimerData env timer s1).2.2 =
      some (ok, s4) := by
    rw [hobj1]
    exact hcb
  obtain ⟨s2, hfire, hgone, herr, hobj2⟩ :=
    jsiIdleTimerFire_off env timer s1 s4 ok hwf1 hexec hcb' (by rw [hrec1]; exact hoff)
  rw [hrec1] at herr
  have htime : (s2.timerObj timer).time = (s.timerObj timer).time - timePassed := by
    obtain ⟨hto, _, hnr⟩ := jsiIdleTimerData_frame env timer s1
    rw [hobj2, (jsiExecuteEventCallback_preserves env _ _ _ _ _ hcb').timerObj timer
      (lt_of_lt_of_le hlt hnr), hto, hobj1]
  -- the timer table is well formed after the block
  have hwf2 : s2.timersWF ∧ timer < s2.nextRef := by
    obtain ⟨hto, hta, hnr⟩ := jsiIdleTimerData_frame env timer s1
    have h3 : (jsiIdleTimerData env timer s1).2.2.timersWF :=
      ⟨by rw [hta]; exact hwf1.1, fun r hr => lt_of_lt_of_le (hwf1.2 r (hta ▸ hr)) hnr⟩
    have h4 : s4.timersWF :=
      jsiExecuteEventCallback_rel env _ (stepClosed_timersWF env) _ _ _ _ _ hcb' h3
    have hn4 : s.nextRef ≤ s4.nextRef :=
      le_trans hnr (jsiExecuteEventCallback_preserves env _ _ _ _ _ hcb').nextRef
    have hfin : ∀ (exec rec : Bool) (x : St), x.timersWF → s.nextRef ≤ x.nextRef →
        (jsiIdleTimerFinish timer (s1.timerObj timer).watch exec rec x).timersWF ∧
        timer < (jsiIdleTimerFinish timer (s1.timerObj timer).watch exec rec x).nextRef := by
      intro exec rec x hx hxn
      obtain ⟨htab, hn⟩ := jsiIdleTimerFinish_table timer (s1.timerObj timer).watch exec rec x
      refine ⟨?_, by rw [hn]; exact lt_of_lt_of_le hlt hxn⟩
      rcases htab with e | e
      · exact ⟨by rw [e]; exact hx.1, fun r hr => by rw [hn]; exact hx.2 r (e ▸ hr)⟩
      · exact ⟨by rw [e]; exact hx.1.erase _,
          fun r hr => by rw [hn]; exact hx.2 r (List.mem_of_mem_erase (e ▸ hr))⟩
    unfold jsiIdleTimerFire at hfire
    simp only [hexec, if_true, hcb'] at hfire
    split at hfire
    · simp only [Option.some.injEq] at hfire
      subst hfire
      exact hfin _ _ _ h4 hn4
    · simp only [Option.some.injEq] at hfire
      subst hfire
      exact hfin _ _ _ h4 hn4
  have hlink : nextSibling s2.timerArray timer = none := nextSibling_not_mem _ _ hgone
  have hbody : ∃ m cont, jsiIdleTimer env timePassed timer minTimeUntilNext wasBusy s =
      some (m, true, cont, s2) ∧ (cont = none ∨ cont = some none) := by
    simp only [jsiIdleTimer, ← hs1, if_pos hdue, hfire, Option.map_some', hlink]
    by_cases hsame : none ≠ nextSibling s.timerArray timer
    · rw [if_pos hsame]
      exact ⟨_, _, rfl, Or.inl rfl⟩
    · rw [if_neg hsame, ← not_not.1 hsame]
      exact ⟨_, _, rfl, Or.inr rfl⟩
  have hloop : ∃ m, jsiIdleTimerLoop env timePassed (fuel + 1) (some timer) minTimeUntilNext
      wasBusy s = some (m, true, s2) := by
    obtain ⟨m, cont, hb, hc⟩ := hbody
    rcases hc with rfl | rfl
    · exact ⟨m, by simp [jsiIdleTimerLoop, hb]⟩
    · refine ⟨m, ?_⟩
      cases fuel <;> simp [jsiIdleTimerLoop, hb]
  obtain ⟨m, hloop⟩ := hloop
  refine ⟨m, s2, hloop, hgone, herr, htime, fun es k s'' hs => ?_⟩
  obtain ⟨h1, h2⟩ := jsiIdleSweeps_absent env k timer es s2 s'' ⟨hwf2.1, hgone, hwf2.2⟩ hs
  exact ⟨h1.2.1, by rw [h2]⟩

/-- C11, witness: the recurring timer `1` (interval `50`, `50` ticks left) is
swept after `60` ticks with a callback that raises an error. The sweep removes
the timer, logs the error and leaves the remaining ticks at `-10`; two further
sweeps do not touch it. -/
theorem jsiIdleTimerLoop_failure_witness :
    ∃ m s', jsiIdleTimerLoop Env.failing 60 (4 + 1) (some 1) JSSYSTIME_MAX false
        St.interval50 = some (m, true, s') ∧
      1 ∉ s'.timerArray ∧
      s'.errors = ["Error processing interval - removing it."] ∧
      (s'.timerObj 1).time = -10 ∧
      ∀ s'' : St, jsiIdleSweeps Env.failing 5 [60, 60] s' = some s'' →
        1 ∉ s''.timerArray ∧ (s''.timerObj 1).time = (s'.timerObj 1).time := by
  cases h : jsiIdleTimerChain Env.failing 60 1 St.interval50 with
  | none =>
    have : (jsiIdleTimerChain Env.failing 60 1 St.interval50).isSome = true := by rfl
    rw [h] at this
    cases this
  | some r =>
    obtain ⟨ok, s4⟩ := r
    have h1 : (jsiIdleTimerChain Env.failing 60 1 St.interval50).map
        (fun r => (r.1, r.2.errors)) = some (false, []) := by rfl
    rw [h] at h1
    simp only [Option.map_some', Option.some.injEq, Prod.mk.injEq] at h1
    obtain ⟨hok, herr⟩ := h1
    subst hok
    obtain ⟨m, s', a1, a2, a3, a4, a5⟩ :=
      jsiIdleTimerLoop_failure Env.failing 60 4 1 JSSYSTIME_MAX false St.interval50 s4 false
        ⟨by decide, by decide⟩ (by decide) (by decide) (by rfl) h (Or.inr rfl)
    refine ⟨m, s', a1, a2, ?_, ?_, fun s'' hs => a5 [60, 60] 5 s'' hs⟩
    · rw [a3, herr]
      rfl
    · rw [a4]
      rfl

/-! ## The result of a callback chain -/

theorem jsiQueueEventInternal_hasError (env : Env) (f : JsVar) (args : List JsVar)
    (s s' : St) (h : jsiQueueEventInternal env f args s = some s') :
    s'.hasError = s.hasError := by
  unfold jsiQueueEventInternal jsvNewWithFlags at h
  split at h
  · by_cases ho : env.oom s.allocs = true
    · simp only [ho, if_true, Option.some.injEq] at h
      subst h
      rfl
    · simp only [ho, Bool.false_eq_true, if_false, Option.some.injEq] at h
      subst h
      rfl
  · cases h

theorem jsiQueueEventsLoop_hasError (env : Env) (args : List JsVar) :
    ∀ (elems : List JsVar) (s s' : St), jsiQueueEventsLoop env args elems s = some s' →
      s'.hasError = s.hasError
  | [], s, s', h => by
      simp only [jsiQueueEventsLoop, Option.some.injEq] at h
      subst h
      rfl
  | f :: rest, s, s', h => by
      simp only [jsiQueueEventsLoop] at h
      cases h1 : jsiQueueEventInternal env f args s with
      | none => simp [h1] at h
      | some s1 =>
        simp only [h1] at h
        rw [jsiQueueEventsLoop_hasError env args rest s1 s' h,
          jsiQueueEventInternal_hasError env f args s s1 h1]

theorem jsiQueueEvents_hasError (env : Env) (callback : JsVar) (args : List JsVar)
    (s s' : St) (h : jsiQueueEvents env callback args s = some s') :
    s'.hasError = s.hasError := by
  unfold jsiQueueEvents at h
  split at h
  · cases h; rfl
  · split at h
    · exact jsiQueueEventInternal_hasError env callback args s s' h
    · split at h
      · exact jsiQueueEventsLoop_hasError env args _ s s' h
      · cases h

/-- When no callback clears the error flag of the evaluator, an error that is
pending stays pending across a callback chain. -/
theorem stepClosed_sticky (env : Env)
    (hsticky : ∀ f args st, Action.setError false ∉ env.interp f args st) :
    StepClosed env (fun s s' => s.hasError = true → s'.hasError = true) where
  refl := fun _ h => h
  trans := fun _ _ _ h1 h2 h => h2 (h1 h)
  record := fun _ _ h => h
  act := by
    intro f args st a ha s s' h herr
    cases a with
    | queueEvents callback cargs =>
      rw [jsiQueueEvents_hasError env callback cargs s s' h]; exact herr
    | timerAdd t => simp only [applyAction, Option.some.injEq] at h; subst h; exact herr
    | timerRemove x => simp only [applyAction, Option.some.injEq] at h; subst h; exact herr
    | watchAdd w => simp only [applyAction, Option.some.injEq] at h; subst h; exact herr
    | watchRemove x => simp only [applyAction, Option.some.injEq] at h; subst h; exact herr
    | setInterrupted b => simp only [applyAction, Option.some.injEq] at h; subst h; exact herr
    | setError b =>
      simp only [applyAction, Option.some.injEq] at h
      subst h
      cases b with
      | true => rfl
      | false => exact absurd ha (hsticky f args st)
    | setTodo t => simp only [applyAction, Option.some.injEq] at h; subst h; exact herr
  error := fun _ _ h => h
  flag := fun _ h => h

theorem jsiExecuteEventCallbackResult_hasError (b : Bool) (s : St) :
    (jsiExecuteEventCallbackResult b s).2.hasError = s.hasError ∧
    (jsiExecuteEventCallbackResult b s).1 = !(!b && s.hasError) := by
  unfold jsiExecuteEventCallbackResult
  split
  · rename_i h
    exact ⟨rfl, by rw [h]; rfl⟩
  · rename_i h
    refine ⟨rfl, ?_⟩
    simp only [Bool.not_eq_true] at h
    rw [h]
    rfl

mutual
/-- The error flag after a callback chain, when no callback clears it: it is
set when it was set before or some invocation of the chain reported a failure;
and the value of the call is false exactly when the flag was clear before the
call and is set after it. -/
theorem jsiExecuteEventCallback_flag (env : Env)
    (hsticky : ∀ f args st, Action.setError false ∉ env.interp f args st) :
    ∀ (cb arg0 arg1 : JsVar) (s : St) (r : Bool × St),
      jsiExecuteEventCallback env cb arg0 arg1 s = some r →
      r.2.hasError = (s.hasError || chainFails env cb arg0 arg1 s) ∧
      r.1 = !(!s.hasError && r.2.hasError)
  | .undefined, _, _, s, r, h => by
      simp only [jsiExecuteEventCallback, Option.some.injEq] at h
      subst h
      obtain ⟨h1, h2⟩ := jsiExecuteEventCallbackResult_hasError s.hasError s
      exact ⟨by rw [h1]; simp [chainFails], by rw [h2, h1]⟩
  | .array elems, arg0, arg1, s, r, h => by
      simp only [jsiExecuteEventCallback, Option.map_eq_some'] at h
      obtain ⟨s1, hc, rfl⟩ := h
      obtain ⟨h1, h2⟩ := jsiExecuteEventCallbackResult_hasError s.hasError s1
      have := jsiExecuteEventCallbackChildren_flag env hsticky elems arg0 arg1 s s1 hc
      exact ⟨by rw [h1, this]; simp [chainFails], by rw [h2, h1]⟩
  | .function id, arg0, arg1, s, r, h => by
      simp only [jsiExecuteEventCallback, Option.map_eq_some'] at h
      obtain ⟨s1, hc, rfl⟩ := h
      obtain ⟨h1, h2⟩ := jsiExecuteEventCallbackResult_hasError s.hasError s1
      have hst := jspExecuteFunction_rel env _ (stepClosed_sticky env hsticky) _ _ s s1 hc
      refine ⟨?_, by rw [h2, h1]⟩
      rw [h1]
      simp only [chainFails, hc]
      cases hs : s.hasError
      · simp
      · simp [hst hs]
  | .string id, _, _, s, r, h => by
      simp only [jsiExecuteEventCallback, Option.map_eq_some'] at h
      obtain ⟨s1, hc, rfl⟩ := h
      obtain ⟨h1, h2⟩ := jsiExecuteEventCallbackResult_hasError s.hasError s1
      have hst := jspEvaluateVar_rel env _ (stepClosed_sticky env hsticky) _ s s1 hc
      refine ⟨?_, by rw [h2, h1]⟩
      rw [h1]
      simp only [chainFails, hc]
      cases hs : s.hasError
      · simp
      · simp [hst hs]
  | .data _, _, _, s, r, h => by
      simp only [jsiExecuteEventCallback, Option.some.injEq] at h
      subst h
      obtain ⟨h1, h2⟩ := jsiExecuteEventCallbackResult_hasError s.hasError
        (jsError "Unknown type of callback in Event Queue" s)
      exact ⟨by rw [h1]; simp [chainFails, jsError], by rw [h2, h1]⟩
  | .other _, _, _, s, r, h => by
      simp only [jsiExecuteEventCallback, Option.some.injEq] at h
      subst h
      obtain ⟨h1, h2⟩ := jsiExecuteEventCallbackResult_hasError s.hasError
        (jsError "Unknown type of callback in Event Queue" s)
      exact ⟨by rw [h1]; simp [chainFails, jsError], by rw [h2, h1]⟩
theorem jsiExecuteEventCallbackChildren_flag (env : Env)
    (hsticky : ∀ f args st, Action.setError false ∉ env.interp f args st) :
    ∀ (elems : List JsVar) (arg0 arg1 : JsVar) (s s' : St),
      jsiExecuteEventCallbackChildren env elems arg0 arg1 s = some s' →
      s'.hasError = (s.hasError || chainFailsList env elems arg0 arg1 s)
  | [], _, _, s, s', h => by
      simp only [jsiExecuteEventCallbackChildren, Option.some.injEq] at h
      subst h
      simp [chainFailsList]
  | child :: rest, arg0, arg1, s, s', h => by
      simp only [jsiExecuteEventCallbackChildren] at h
      cases h1 : jsiExecuteEventCallback env child arg0 arg1 s with
      | none => simp [h1] at h
      | some r =>
        obtain ⟨ok, s1⟩ := r
        simp only [h1] at h
        have a := (jsiExecuteEventCallback_flag env hsticky child arg0 arg1 s _ h1).1
        have b := jsiExecuteEventCallbackChildren_flag env hsticky rest arg0 arg1 s1 s' h
        simp only at a
        rw [b, a]
        simp [chainFailsList, h1, Bool.or_assoc]
end

/-- C12 (amended). The value of `jsiExecuteEventCallback` is read from the
error flag of the evaluator. When no error is pending at the start of the call
(and no invocation clears the flag that an earlier one has set), the call
returns false exactly when invoking the target, or some member of an array
target at any depth, reports a failure, and true when every invocation
succeeds. In every case the functions and strings of the target are invoked
once each, the members of an array in array order at any depth, every function
with the same two arguments. -/
theorem jsiExecuteEventCallback_aggregates (env : Env)
    (hsticky : ∀ f args st, Action.setError false ∉ env.interp f args st)
    (cb arg0 arg1 : JsVar) (s s' : St) (ok : Bool)
    (hclear : s.hasError = false)
    (h : jsiExecuteEventCallback env cb arg0 arg1 s = some (ok, s')) :
    (ok = false ↔ chainFails env cb arg0 arg1 s = true) ∧
    (ok = true ↔ chainFails env cb arg0 arg1 s = false) ∧
    s'.trace = s.trace ++ callbackInvocations cb arg0 arg1 := by
  obtain ⟨h1, h2⟩ := jsiExecuteEventCallback_flag env hsticky cb arg0 arg1 s _ h
  have h3 := jsiExecuteEventCallback_trace env cb arg0 arg1 s _ h
  simp only [hclear, Bool.false_or, Bool.not_false, Bool.true_and] at h1 h2
  rw [h1] at h2
  refine ⟨?_, ?_, h3⟩
  · rw [h2]
    cases chainFails env cb arg0 arg1 s <;> simp
  · rw [h2]
    cases chainFails env cb arg0 arg1 s <;> simp

/-- C12, witness: the target `[function 1, [function 2]]`, where `function 2`
raises an error. The call returns false, and the two functions are invoked in
this order, each with both arguments. -/
theorem jsiExecuteEventCallback_aggregates_witness :
    ∃ s', jsiExecuteEventCallback Env.secondFails
        (.array [.function 1, .array [.function 2]]) (.other 8) (.other 9) St.init =
        some (false, s') ∧
      chainFails Env.secondFails (.array [.function 1, .array [.function 2]])
        (.other 8) (.other 9) St.init = true ∧
      s'.trace = [{ func := .function 1, args := [.other 8, .other 9] },
        { func := .function 2, args := [.other 8, .other 9] }] := by
  have hsticky : ∀ f args st, Action.setError false ∉ Env.secondFails.interp f args st := by
    intro f args st
    simp only [Env.secondFails, Env.quiet]
    split <;> simp
  cases h : jsiExecuteEventCallback Env.secondFails
      (.array [.function 1, .array [.function 2]]) (.other 8) (.other 9) St.init with
  | none =>
    have : (jsiExecuteEventCallback Env.secondFails
      (.array [.function 1, .array [.function 2]]) (.other 8) (.other 9)
      St.init).isSome = true := by rfl
    rw [h] at this
    cases this
  | some r =>
    obtain ⟨ok, s'⟩ := r
    obtain ⟨a1, _, a3⟩ := jsiExecuteEventCallback_aggregates Env.secondFails hsticky _ _ _
      St.init s' ok rfl h
    have hfail : chainFails Env.secondFails
        (.array [.function 1, .array [.function 2]]) (.other 8) (.other 9) St.init
        = true := by rfl
    have hok : ok = false := a1.2 hfail
    subst hok
    exact ⟨s', rfl, hfail, by rw [a3]; rfl⟩

/-- C12, counterexample: an error of the evaluator is pending when
`jsiExecuteEventCallback` is called, and the callback raises an error. The
invocation reports a failure, and the call returns true. -/
theorem jsiExecuteEventCallback_pending :
    St.errorPending.hasError = true ∧
    Env.failing.interp (.function 1) [.undefined, .undefined] St.errorPending =
      [.setError true] ∧
    chainFails Env.failing (.function 1) .undefined .undefined St.errorPending = true ∧
    (jsiExecuteEventCallback Env.failing (.function 1) .undefined .undefined
      St.errorPending).map (fun r => (r.1, r.2.trace.length)) = some (true, 1) := by
  refine ⟨rfl, rfl, by rfl, by rfl⟩

/-! ## The main loop -/

/-- The function `jsiIdle` is its event loop, its timer check and the call of
`jswIdle`, followed by `jsiIdleDrain`. -/
theorem jsiIdle_eq_drain (env : Env) (fuel : Nat) (s0 : St) :
    jsiIdle env fuel s0 =
      match jsiIdleEvents env fuel fuel false
        (if s0.loopsIdling < 255 then { s0 with loopsIdling := s0.loopsIdling + 1 } else s0) with
      | none => none
      | some (busy1, s2) =>
        match jsiIdleTimers env fuel busy1 (jsiIdleFlowControl env s2) with
        | none => none
        | some (minTimeUntilNext, busy2, s3) =>
          match applyActions env (env.jswIdle s3).2 s3 with
          | none => none
          | some s4 => jsiIdleDrain env fuel minTimeUntilNext (busy2 || (env.jswIdle s3).1) s4 := by
  rfl

/-- The call `jsiQueueEvents` writes the queue, its record and the pool, and
nothing else. -/
theorem jsiQueueEventInternal_only (env : Env) (f : JsVar) (args : List JsVar)
    (s s' : St) (h : jsiQueueEventInternal env f args s = some s') :
    s' = { s with events := s'.events, queued := s'.queued, allocs := s'.allocs,
                  nextRef := s'.nextRef } := by
  unfold jsiQueueEventInternal jsvNewWithFlags at h
  split at h
  · by_cases ho : env.oom s.allocs = true
    · simp only [ho, if_true, Option.some.injEq] at h
      subst h
      rfl
    · simp only [ho, Bool.false_eq_true, if_false, Option.some.injEq] at h
      subst h
      rfl
  · cases h

theorem jsiQueueEventsLoop_only (env : Env) (args : List JsVar) :
    ∀ (elems : List JsVar) (s s' : St), jsiQueueEventsLoop env args elems s = some s' →
      s' = { s with events := s'.events, queued := s'.queued, allocs := s'.allocs,
                    nextRef := s'.nextRef }
  | [], s, s', h => by
      simp only [jsiQueueEventsLoop, Option.some.injEq] at h
      subst h
      rfl
  | f :: rest, s, s', h => by
      simp only [jsiQueueEventsLoop] at h
      cases h1 : jsiQueueEventInternal env f args s with
      | none => simp [h1] at h
      | some s1 =>
        simp only [h1] at h
        have a := jsiQueueEventInternal_only env f args s s1 h1
        have b := jsiQueueEventsLoop_only env args rest s1 s' h
        rw [b, a]

theorem jsiQueueEvents_only (env : Env) (callback : JsVar) (args : List JsVar)
    (s s' : St) (h : jsiQueueEvents env callback args s = some s') :
    s' = { s with events := s'.events, queued := s'.queued, allocs := s'.allocs,
                  nextRef := s'.nextRef } := by
  unfold jsiQueueEvents at h
  split at h
  · cases h; rfl
  · split at h
    · exact jsiQueueEventInternal_only env callback args s s' h
    · split at h
      · exact jsiQueueEventsLoop_only env args _ s s' h
      · cases h

/-- No action of a callback writes `loopsIdling`. -/
theorem applyAction_loopsIdling (env : Env) (a : Action) (s s' : St)
    (h : applyAction env a s = some s') : s'.loopsIdling = s.loopsIdling := by
  cases a with
  | queueEvents callback cargs =>
    rw [jsiQueueEvents_only env callback cargs s s' h]
  | timerAdd t => simp only [applyAction, Option.some.injEq] at h; subst h; rfl
  | timerRemove x => simp only [applyAction, Option.some.injEq] at h; subst h; rfl
  | watchAdd w => simp only [applyAction, Option.some.injEq] at h; subst h; rfl
  | watchRemove x => simp only [applyAction, Option.some.injEq] at h; subst h; rfl
  | setInterrupted b => simp only [applyAction, Option.some.injEq] at h; subst h; rfl
  | setError b => simp only [applyAction, Option.some.injEq] at h; subst h; rfl
  | setTodo t => simp only [applyAction, Option.some.injEq] at h; subst h; rfl

theorem stepClosed_loopsIdling (env : Env) :
    StepClosed env (fun s s' => s'.loopsIdling = s.loopsIdling) where
  refl := fun _ => rfl
  trans := fun _ _ _ h1 h2 => h2.trans h1
  record := fun _ _ => rfl
  act := fun _ _ _ a _ s s' h => applyAction_loopsIdling env a s s' h
  error := fun _ _ => rfl
  flag := fun _ => rfl

theorem applyActions_loopsIdling (env : Env) (acts : List Action) (s s' : St)
    (h : applyActions env acts s = some s') : s'.loopsIdling = s.loopsIdling :=
  applyActions_rel env (fun s s' => s'.loopsIdling = s.loopsIdling) (fun _ => rfl)
    (fun _ _ _ h1 h2 => h2.trans h1) acts s s'
    (fun a _ x x' hx => applyAction_loopsIdling env a x x' hx) h

theorem jsiIdleTimerFinish_loopsIdling (timer : JsVarRef) (watchPtr : Option JsVarRef)
    (exec rec : Bool) (s : St) :
    (jsiIdleTimerFinish timer watchPtr exec rec s).loopsIdling = s.loopsIdling := by
  unfold jsiIdleTimerFinish jsiIdleTimerUnwatch jshPinWatch
  cases watchPtr with
  | none =>
    simp only
    split
    · split <;> rfl
    · split <;> rfl
  | some w =>
    simp only
    split <;> split <;> (try split) <;> (try split) <;> (try split) <;> rfl

theorem jsiIdleTimerData_loopsIdling (env : Env) (timer : JsVarRef) (s : St) :
    (jsiIdleTimerData env timer s).2.2.loopsIdling = s.loopsIdling := by
  unfold jsiIdleTimerData jsvNewWithFlags jsiSetBusy
  by_cases ho : env.oom s.allocs = true
  · simp [ho]
  · cases hw : (s.timerObj timer).watch <;> simp [ho, hw, St.setWatch]

theorem jsiIdleTimerFire_loopsIdling (env : Env) (timer : JsVarRef) (s s' : St)
    (h : jsiIdleTimerFire env timer s = some s') : s'.loopsIdling = s.loopsIdling := by
  have hd := jsiIdleTimerData_loopsIdling env timer s
  unfold jsiIdleTimerFire at h
  simp only at h
  split at h
  · split at h
    · rename_i ok s4 hcb
      have h4 := jsiExecuteEventCallback_rel env _ (stepClosed_loopsIdling env) _ _ _ _ _ hcb
      simp only at h4
      split at h
      · simp only [Option.some.injEq] at h
        subst h
        rw [jsiIdleTimerFinish_loopsIdling]
        exact h4.trans hd
      · simp only [Option.some.injEq] at h
        subst h
        rw [jsiIdleTimerFinish_loopsIdling]
        exact h4.trans hd
    · cases h
  · simp only [Option.some.injEq] at h
    subst h
    rw [jsiIdleTimerFinish_loopsIdling]
    exact hd

/-- The body of the timer loop: `loopsIdling` is not written, `wasBusy` is set
exactly when the timer is due, and neither the state nor the timer to go on
with depends on `minTimeUntilNext` and `wasBusy`. -/
theorem jsiIdleTimer_busy (env : Env) (e : Int) (timer : JsVarRef) (m : Int) (b : Bool)
    (s : St) (r : Int × Bool × Option (Option JsVarRef) × St)
    (h : jsiIdleTimer env e timer m b s = some r) :
    r.2.2.2.loopsIdling = s.loopsIdling ∧
    r.2.1 = (b || decide ((s.timerObj timer).time - e ≤ 0)) ∧
    ∃ m' b', jsiIdleTimer env e timer JSSYSTIME_MAX false s = some (m', b', r.2.2.1, r.2.2.2) := by
  unfold jsiIdleTimer at h ⊢
  simp only at h ⊢
  by_cases hdue : (s.timerObj timer).time - e ≤ 0
  · simp only [if_pos hdue] at h ⊢
    cases hf : jsiIdleTimerFire env timer
        (s.setTimer timer fun t => { t with time := (s.timerObj timer).time - e }) with
    | none => simp [hf] at h
    | some x =>
      have hl := jsiIdleTimerFire_loopsIdling env timer _ x hf
      simp only [hf, Option.map_some'] at h ⊢
      split at h
      · rename_i hc
        simp only [Option.some.injEq] at h
        subst h
        rw [if_pos hc]
        exact ⟨hl, by simp [hdue], _, _, rfl⟩
      · rename_i hc
        simp only [Option.some.injEq] at h
        subst h
        rw [if_neg hc]
        exact ⟨hl, by simp [hdue], _, _, rfl⟩
  · simp only [if_neg hdue] at h ⊢
    split at h
    · rename_i hc
      simp only [Option.some.injEq] at h
      subst h
      rw [if_pos hc]
      exact ⟨rfl, by simp [hdue], _, _, rfl⟩
    · rename_i hc
      simp only [Option.some.injEq] at h
      subst h
      rw [if_neg hc]
      exact ⟨rfl, by simp [hdue], _, _, rfl⟩

/-- The timer loop: `loopsIdling` is not written, and `wasBusy` is set exactly
when some timer reached remaining ticks `<= 0`. -/
theorem jsiIdleTimerLoop_busy (env : Env) (e : Int) :
    ∀ (fuel : Nat) (cur : Option JsVarRef) (m : Int) (b : Bool) (s : St) (r : Int × Bool × St),
      jsiIdleTimerLoop env e fuel cur m b s = some r →
      r.2.2.loopsIdling = s.loopsIdling ∧ r.2.1 = (b || jsiIdleTimerLoopDue env e fuel cur s)
  | fuel, none, m, b, s, r, h => by
      cases fuel <;>
      · simp only [jsiIdleTimerLoop, Option.some.injEq] at h
        subst h
        simp [jsiIdleTimerLoopDue]
  | 0, some c, m, b, s, r, h => by simp [jsiIdleTimerLoop] at h
  | fuel + 1, some c, m, b, s, r, h => by
      simp only [jsiIdleTimerLoop] at h
      cases hb : jsiIdleTimer env e c m b s with
      | none => simp [hb] at h
      | some x =>
        obtain ⟨m1, b1, cont, s1⟩ := x
        obtain ⟨hl, hbusy, m', b', hb'⟩ := jsiIdleTimer_busy env e c m b s _ hb
        simp only at hl hbusy hb'
        cases cont with
        | none =>
          simp only [hb, Option.some.injEq] at h
          subst h
          refine ⟨hl, ?_⟩
          simp only [jsiIdleTimerLoopDue, hb', Bool.or_false]
          exact hbusy
        | some next =>
          simp only [hb] at h
          obtain ⟨a1, a2⟩ := jsiIdleTimerLoop_busy env e fuel next m1 b1 s1 r h
          refine ⟨a1.trans hl, ?_⟩
          simp only [jsiIdleTimerLoopDue, hb']
          rw [a2, hbusy, Bool.or_assoc]

theorem jsiIdleTimers_busy (env : Env) (fuel : Nat) (b : Bool) (s : St) (r : Int × Bool × St)
    (h : jsiIdleTimers env fuel b s = some r) :
    r.2.2.loopsIdling = s.loopsIdling ∧ r.2.1 = (b || jsiIdleTimersDue env fuel s) := by
  unfold jsiIdleTimers at h
  obtain ⟨h1, h2⟩ := jsiIdleTimerLoop_busy env _ fuel _ _ b _ r h
  exact ⟨h1, h2⟩

/-- The event loop of `jsiIdle`: `wasBusy` is set exactly when an event was
popped, and with an empty buffer nothing happens. -/
theorem jsiIdleEvents_busy (env : Env) (inner : Nat) :
    ∀ (fuel : Nat) (b : Bool) (s : St) (r : Bool × St),
      jsiIdleEvents env inner fuel b s = some r →
      r.1 = (b || !s.ioEvents.isEmpty) ∧ (s.ioEvents = [] → r.2 = s)
  | fuel, b, s, r, h => by
      unfold jsiIdleEvents at h
      cases hio : s.ioEvents with
      | nil =>
        simp only [hio, Option.some.injEq] at h
        subst h
        simp
      | cons event rest =>
        simp only [hio] at h
        cases fuel with
        | zero => simp at h
        | succ fuel =>
          simp only at h
          cases he : jsiIdleEvent env inner event { s with ioEvents := rest } with
          | none => simp [he] at h
          | some s1 =>
            simp only [he] at h
            obtain ⟨h1, _⟩ := jsiIdleEvents_busy env inner fuel true s1 r h
            refine ⟨?_, fun hn => by simp at hn⟩
            rw [h1]
            simp

theorem jsiExecuteEvent_loopsIdling (env : Env) (event : Event) (s s' : St)
    (h : jsiExecuteEvent env event s = some s') : s'.loopsIdling = s.loopsIdling := by
  unfold jsiExecuteEvent at h
  simp only at h
  split at h
  · cases h; rfl
  · split at h
    · exact jspExecuteFunction_rel env _ (stepClosed_loopsIdling env) _ _ s s' h
    · split at h
      · exact jspEvaluateVar_rel env _ (stepClosed_loopsIdling env) _ s s' h
      · cases h; rfl

theorem jsiExecuteEventsLoop_loopsIdling (env : Env) :
    ∀ (fuel : Nat) (s s' : St), jsiExecuteEventsLoop env fuel s = some s' →
      s'.loopsIdling = s.loopsIdling
  | fuel, s, s', h => by
      unfold jsiExecuteEventsLoop at h
      cases hev : s.events with
      | nil =>
        simp only [hev, Option.some.injEq] at h
        subst h
        rfl
      | cons event rest =>
        simp only [hev] at h
        cases fuel with
        | zero => simp at h
        | succ fuel =>
          simp only at h
          cases he : jsiExecuteEvent env event { s with events := rest } with
          | none => simp [he] at h
          | some s1 =>
            simp only [he] at h
            rw [jsiExecuteEventsLoop_loopsIdling env fuel s1 s' h,
              jsiExecuteEvent_loopsIdling env event _ s1 he]

/-- The function `jsiExecuteEvents` is its loop, apart from the busy flag and
the flag `interruptedDuringEvent`. -/
theorem jsiExecuteEvents_shape (env : Env) (fuel : Nat) (s s' : St)
    (h : jsiExecuteEvents env fuel s = some s') :
    ∃ (b : Bool) (s2 : St) (b' f : Bool),
      jsiExecuteEventsLoop env fuel { s with busy := b } = some s2 ∧
      s' = { s2 with busy := b', interruptedDuringEvent := f } := by
  have hs1 : ∀ (c : Bool) (x : St), x = (if c = true then jsiSetBusy true s else s) →
      ∃ b, x = { s with busy := b } := by
    intro c x hx
    subst hx
    split
    · exact ⟨true, rfl⟩
    · exact ⟨s.busy, rfl⟩
  have hs3 : ∀ (c : Bool) (s2 x : St), x = (if c = true
        then { jsiSetBusy false s2 with interruptedDuringEvent := true }
        else jsiSetBusy false s2) →
      ∃ b' f, x = { s2 with busy := b', interruptedDuringEvent := f } := by
    intro c s2 x hx
    subst hx
    split
    · exact ⟨false, true, rfl⟩
    · exact ⟨false, s2.interruptedDuringEvent, rfl⟩
  dsimp only [jsiExecuteEvents] at h
  split at h
  · cases h
  · rename_i s2 hl
    obtain ⟨b, hb⟩ := hs1 _ _ rfl
    rw [hb] at hl
    split at h
    · cases h
      obtain ⟨b', f, hx⟩ := hs3 _ s2 _ rfl
      exact ⟨b, s2, b', f, hl, hx⟩
    · simp only [Option.some.injEq] at h
      exact ⟨b, s2, s2.busy, s2.interruptedDuringEvent, hl, h.symm⟩

theorem jsiExecuteEvents_loopsIdling (env : Env) (fuel : Nat) (s s' : St)
    (h : jsiExecuteEvents env fuel s = some s') : s'.loopsIdling = s.loopsIdling := by
  obtain ⟨b, s2, b', f, hl, rfl⟩ := jsiExecuteEvents_shape env fuel s s' h
  exact jsiExecuteEventsLoop_loopsIdling env fuel { s with busy := b } s2 hl

theorem jsiIdleTodo_loopsIdling (env : Env) (s : St)
    (hreinit : ∀ m x, (env.reinit m x).loopsIdling = x.loopsIdling) :
    (jsiIdleTodo env s).loopsIdling = s.loopsIdling := by
  have hm : ∀ m x, (jsiIdleMaintain env m x).loopsIdling = x.loopsIdling := by
    intro m x
    unfold jsiIdleMaintain
    rw [hreinit]
  unfold jsiIdleTodo
  split
  · simp only [jsiSetBusy]
    split <;> split <;> split <;> simp [hm]
  · rfl

theorem jsiIdleSleep_loopsIdling (env : Env) (m : Int) (s : St) :
    (jsiIdleSleep env m s).loopsIdling = s.loopsIdling := by
  unfold jsiIdleSleep jsiSetBusy
  simp only
  split <;> split <;> rfl

/-- The function `jsiIdleDrain` in steps: the state `s6` in which the drain is
reached differs from `s4` in `loopsIdling` and the busy flag only, the queue is
drained unless the interrupt flag is set, and the interruption is reported. -/
theorem jsiIdleDrain_shape (env : Env) (fuel : Nat) (m : Int) (wasBusy : Bool) (s4 s' : St)
    (h : jsiIdleDrain env fuel m wasBusy s4 = some s') :
    ∃ (b : Bool) (s7 : St),
      (if s4.interrupted = true then
          s7 = { s4 with loopsIdling := if (wasBusy || !s4.events.isEmpty) = true then 0
                                        else s4.loopsIdling, busy := b }
        else jsiExecuteEvents env fuel
          { s4 with loopsIdling := if (wasBusy || !s4.events.isEmpty) = true then 0
                                   else s4.loopsIdling, busy := b } = some s7) ∧
      s' = jsiIdleSleep env m (jsiIdleTodo env
        (if s7.interruptedDuringEvent = true then
          { s7 with interrupted := false, interruptedDuringEvent := false,
                    consoleOut := s7.consoleOut ++
                      ["Execution Interrupted during event processing.\n"] }
        else s7)) := by
  have h6 : ∀ s6 : St, s6 = (if wasBusy = true then
        jsiSetBusy false (if (wasBusy || !s4.events.isEmpty) = true
          then { s4 with loopsIdling := 0 } else s4)
      else (if (wasBusy || !s4.events.isEmpty) = true
          then { s4 with loopsIdling := 0 } else s4)) →
      ∃ b, s6 = { s4 with loopsIdling := if (wasBusy || !s4.events.isEmpty) = true then 0
                                         else s4.loopsIdling, busy := b } := by
    intro s6 hs6
    subst hs6
    by_cases hw : wasBusy = true
    · by_cases hc : (wasBusy || !s4.events.isEmpty) = true
      · exact ⟨false, by rw [if_pos hw, if_pos hc, if_pos hc]; rfl⟩
      · exact ⟨false, by rw [if_pos hw, if_neg hc, if_neg hc]; rfl⟩
    · by_cases hc : (wasBusy || !s4.events.isEmpty) = true
      · exact ⟨s4.busy, by rw [if_neg hw, if_pos hc, if_pos hc]⟩
      · exact ⟨s4.busy, by rw [if_neg hw, if_neg hc, if_neg hc]⟩
  obtain ⟨b, hb⟩ := h6 _ rfl
  dsimp only [jsiIdleDrain] at h
  rw [hb] at h
  split at h
  · cases h
  · rename_i s7 hdrain
    simp only [Option.some.injEq] at h
    refine ⟨b, s7, ?_, h.symm⟩
    by_cases hi : s4.interrupted = true
    · rw [if_pos hi]
      have : (!({ s4 with loopsIdling := if (wasBusy || !s4.events.isEmpty) = true then 0
          else s4.loopsIdling, busy := b } : St).interrupted) = false := by
        show (!s4.interrupted) = false
        rw [hi]; rfl
      rw [this] at hdrain
      simp only [Bool.false_eq_true, if_false, Option.some.injEq] at hdrain
      exact hdrain.symm
    · rw [if_neg hi]
      have : (!({ s4 with loopsIdling := if (wasBusy || !s4.events.isEmpty) = true then 0
          else s4.loopsIdling, busy := b } : St).interrupted) = true := by
        show (!s4.interrupted) = true
        simp only [Bool.not_eq_true] at hi
        rw [hi]; rfl
      rw [this] at hdrain
      simpa using hdrain

/-- The end of `jsiIdle` leaves in `loopsIdling` what line 1494 has put
there, when the teardown and start up of the maintenance actions do not write
it. -/
theorem jsiIdleDrain_loopsIdling (env : Env) (fuel : Nat) (m : Int) (wasBusy : Bool)
    (s4 s' : St) (hreinit : ∀ m x, (env.reinit m x).loopsIdling = x.loopsIdling)
    (h : jsiIdleDrain env fuel m wasBusy s4 = some s') :
    s'.loopsIdling = if (wasBusy || !s4.events.isEmpty) = true then 0 else s4.loopsIdling := by
  obtain ⟨b, s7, hdrain, rfl⟩ := jsiIdleDrain_shape env fuel m wasBusy s4 s' h
  rw [jsiIdleSleep_loopsIdling, jsiIdleTodo_loopsIdling env _ hreinit]
  have h7 : s7.loopsIdling =
      if (wasBusy || !s4.events.isEmpty) = true then 0 else s4.loopsIdling := by
    split at hdrain
    · rw [hdrain]
    · rw [jsiExecuteEvents_loopsIdling env fuel _ s7 hdrain]
  split
  · exact h7
  · exact h7

/-- C13. A step of `jsiLoop` (that returns) starts with `loopsIdling` no larger
than `255`, by its type. `jsiLoop` returns true, which is `loopsIdling == 0`,
exactly when in this step a raw event was popped, or a timer reached remaining
ticks `<= 0`, or the event queue was not empty at line 1493 before the drain, or
`jswIdle` reported work. Otherwise it returns false and `loopsIdling` is its
previous value plus one, staying at `255` when it was there. The teardown and
start up of the maintenance actions do not write `loopsIdling` (no statement of
`jsiKill`, `jsiInit`, `jsiSoftKill` or `jsiSoftInit` does). -/
theorem jsiLoop_returns (env : Env) (fuel : Nat) (s0 s2 s3 s4 s' : St) (busy1 busy2 ret : Bool)
    (minTimeUntilNext : Int)
    (hreinit : ∀ m x, (env.reinit m x).loopsIdling = x.loopsIdling)
    (hchar : s0.loopsIdling ≤ 255)
    (hevents : jsiIdleEvents env fuel fuel false
      (if s0.loopsIdling < 255 then
        { s0 with ioEvents := s0.ioEvents ++ env.jshIdle s0, loopsIdling := s0.loopsIdling + 1 }
      else { s0 with ioEvents := s0.ioEvents ++ env.jshIdle s0 }) = some (busy1, s2))
    (htimers : jsiIdleTimers env fuel busy1 (jsiIdleFlowControl env s2) =
      some (minTimeUntilNext, busy2, s3))
    (hidle : applyActions env (env.jswIdle s3).2 s3 = some s4)
    (h : jsiLoop env fuel s0 = some (ret, s')) :
    ret = (s'.loopsIdling == 0) ∧
    (ret = true ↔
      (s0.ioEvents ++ env.jshIdle s0 ≠ [] ∨
        jsiIdleTimersDue env fuel (jsiIdleFlowControl env s2) = true ∨
        s4.events ≠ [] ∨ (env.jswIdle s3).1 = true)) ∧
    (ret = false → s'.loopsIdling = min (s0.loopsIdling + 1) 255) := by
  -- the state in which the event loop starts
  have hstart : (if ({ s0 with ioEvents := s0.ioEvents ++ env.jshIdle s0 } : St).loopsIdling < 255
      then { ({ s0 with ioEvents := s0.ioEvents ++ env.jshIdle s0 } : St) with
        loopsIdling := ({ s0 with ioEvents := s0.ioEvents ++ env.jshIdle s0 } : St).loopsIdling + 1 }
      else ({ s0 with ioEvents := s0.ioEvents ++ env.jshIdle s0 } : St)) =
      (if s0.loopsIdling < 255 then
        { s0 with ioEvents := s0.ioEvents ++ env.jshIdle s0, loopsIdling := s0.loopsIdling + 1 }
      else { s0 with ioEvents := s0.ioEvents ++ env.jshIdle s0 }) := by
    split <;> rfl
  obtain ⟨hb1, hsame⟩ := jsiIdleEvents_busy env fuel fuel false _ _ hevents
  obtain ⟨hl3, hb2⟩ := jsiIdleTimers_busy env fuel busy1 _ _ htimers
  have hl4 := applyActions_loopsIdling env _ s3 s4 hidle
  simp only at hb1 hsame hl3 hb2
  have hio : (if s0.loopsIdling < 255 then
        ({ s0 with ioEvents := s0.ioEvents ++ env.jshIdle s0,
                   loopsIdling := s0.loopsIdling + 1 } : St)
      else { s0 with ioEvents := s0.ioEvents ++ env.jshIdle s0 }).ioEvents =
      s0.ioEvents ++ env.jshIdle s0 := by split <;> rfl
  have hloops : (if s0.loopsIdling < 255 then
        ({ s0 with ioEvents := s0.ioEvents ++ env.jshIdle s0,
                   loopsIdling := s0.loopsIdling + 1 } : St)
      else { s0 with ioEvents := s0.ioEvents ++ env.jshIdle s0 }).loopsIdling =
      min (s0.loopsIdling + 1) 255 := by
    split
    · show s0.loopsIdling + 1 = _
      omega
    · show s0.loopsIdling = _
      omega
  rw [hio] at hb1 hsame
  have hflow : (jsiIdleFlowControl env s2).loopsIdling = s2.loopsIdling := by
    unfold jsiIdleFlowControl
    split <;> rfl
  -- the step itself
  unfold jsiLoop at h
  simp only at h
  rw [jsiIdle_eq_drain, hstart] at h
  simp only [hevents, htimers, hidle] at h
  cases hd : jsiIdleDrain env fuel minTimeUntilNext (busy2 || (env.jswIdle s3).1) s4 with
  | none => simp [hd] at h
  | some sd =>
    have hld := jsiIdleDrain_loopsIdling env fuel _ _ s4 sd hreinit hd
    simp only [hd, Option.some.injEq, Prod.mk.injEq] at h
    obtain ⟨hret, hs'⟩ := h
    have hfinal : s'.loopsIdling = sd.loopsIdling := by
      rw [← hs']
      split <;> split <;> split <;> rfl
    have hret' : ret = (s'.loopsIdling == 0) := by
      rw [← hret, hfinal]
      split <;> split <;> split <;> rfl
    rw [hld] at hfinal
    by_cases hwork : (busy2 || (env.jswIdle s3).1 || !s4.events.isEmpty) = true
    · -- there was work
      rw [if_pos hwork] at hfinal
      have hrt : ret = true := by rw [hret', hfinal]; rfl
      refine ⟨hret', ⟨fun _ => ?_, fun _ => hrt⟩, fun hf => (by rw [hrt] at hf; cases hf)⟩
      simp only [Bool.or_eq_true, Bool.not_eq_true', List.isEmpty_eq_false] at hwork
      rcases hwork with (hw | hw) | hw
      · rw [hb2, hb1] at hw
        simp only [Bool.false_or, Bool.or_eq_true, Bool.not_eq_true',
          List.isEmpty_eq_false] at hw
        rcases hw with hw | hw
        · exact Or.inl (by simpa using hw)
        · exact Or.inr (Or.inl hw)
      · exact Or.inr (Or.inr (Or.inr hw))
      · exact Or.inr (Or.inr (Or.inl (by simpa using hw)))
    · -- there was none
      rw [if_neg hwork] at hfinal
      simp only [Bool.or_eq_true, Bool.not_eq_true', not_or, Bool.not_eq_true] at hwork
      obtain ⟨⟨hw1, hw2⟩, hw3⟩ := hwork
      rw [hb2, hb1] at hw1
      simp only [Bool.false_or, Bool.or_eq_false_iff, Bool.not_eq_false',
        List.isEmpty_iff] at hw1
      obtain ⟨hw1a, hw1b⟩ := hw1
      have hs2 := hsame hw1a
      have hl : s'.loopsIdling = min (s0.loopsIdling + 1) 255 := by
        rw [hfinal, hl4, hl3, hflow, hs2, hloops]
      have hrf : ret = false := by
        rw [hret', hl]
        have : min (s0.loopsIdling + 1) 255 ≠ 0 := by omega
        simp [this]
      refine ⟨hret', ⟨fun ht => (by rw [hrf] at ht; cases ht), fun hor => ?_⟩, fun _ => hl⟩
      rcases hor with hor | hor | hor | hor
      · exact absurd hw1a hor
      · rw [hw1b] at hor; cases hor
      · simp only [List.isEmpty_eq_false] at hw3
        exact absurd (by simpa using hw3) hor
      · rw [hw2] at hor; cases hor

/-- C13, witness: a step of `jsiLoop` from the state after start up, with no
raw events, no timers, an empty queue and idle libraries, returns false and
leaves `loopsIdling = 1`; a step in which a timer is due returns true and
leaves `loopsIdling = 0`. -/
theorem jsiLoop_returns_witness :
    (∃ s', jsiLoop Env.quiet 5 St.init = some (false, s') ∧ s'.loopsIdling = 1) ∧
    (jsiLoop Env.clock100 5 St.twoOneShots).map (fun r => (r.1, r.2.loopsIdling)) =
      some (true, 0) := by
  refine ⟨?_, by rfl⟩
  have hev : jsiIdleEvents Env.quiet 5 5 false
      (if St.init.loopsIdling < 255 then
        { St.init with ioEvents := St.init.ioEvents ++ Env.quiet.jshIdle St.init,
                       loopsIdling := St.init.loopsIdling + 1 }
      else { St.init with ioEvents := St.init.ioEvents ++ Env.quiet.jshIdle St.init }) =
      some (false, { St.init with loopsIdling := 1 }) := by rfl
  cases ht : jsiIdleTimers Env.quiet 5 false
      (jsiIdleFlowControl Env.quiet { St.init with loopsIdling := 1 }) with
  | none =>
    have : (jsiIdleTimers Env.quiet 5 false
      (jsiIdleFlowControl Env.quiet { St.init with loopsIdling := 1 })).isSome = true := by rfl
    rw [ht] at this
    cases this
  | some r =>
    obtain ⟨m, b2, s3⟩ := r
    have hs3 : (jsiIdleTimers Env.quiet 5 false
        (jsiIdleFlowControl Env.quiet { St.init with loopsIdling := 1 })).map
        (fun r => r.2.2.events) = some [] := by rfl
    rw [ht] at hs3
    simp only [Option.map_some', Option.some.injEq] at hs3
    have hidle : applyActions Env.quiet (Env.quiet.jswIdle s3).2 s3 = some s3 := by rfl
    cases hl : jsiLoop Env.quiet 5 St.init with
    | none =>
      have : (jsiLoop Env.quiet 5 St.init).isSome = true := by rfl
      rw [hl] at this
      cases this
    | some x =>
      obtain ⟨ret, s'⟩ := x
      obtain ⟨_, hiff, hidl⟩ := jsiLoop_returns Env.quiet 5 St.init _ s3 s3 s' false b2 ret m
        (fun _ _ => rfl) (by decide) hev ht hidle hl
      have hret : ret = false := by
        cases ret with
        | false => rfl
        | true =>
          rcases hiff.1 rfl with h1 | h1 | h1 | h1
          · exact absurd rfl h1
          · have : jsiIdleTimersDue Env.quiet 5
                (jsiIdleFlowControl Env.quiet { St.init with loopsIdling := 1 }) = false := by rfl
            rw [this] at h1
            cases h1
          · exact absurd hs3 h1
          · cases h1
      subst hret
      exact ⟨s', rfl, by rw [hidl rfl]; rfl⟩

/-! ## The watch of a debounce timer -/

/-- The removal of a watch by the timer loop: the watch is not in the table
afterwards when the table was well formed, `jshPinWatch(pin, false)` is called
exactly when no watch that is left is on the pin, and nothing else changes. -/
theorem jsiIdleTimerUnwatch_spec (w : JsVarRef) (s : St) :
    (jsiIdleTimerUnwatch w s).watchArray = s.watchArray.erase w ∧
    (jsiIdleTimerUnwatch w s).watchObj = s.watchObj ∧
    (jsiIdleTimerUnwatch w s).pinWatchCalls = s.pinWatchCalls ++
      (if jsiIsWatchingPin (jsiIdleTimerUnwatch w s) (s.watchObj w).pin = true then []
        else [((s.watchObj w).pin, false)]) := by
  have herase : (if jsvGetArrayIndexOf s.watchArray w = true then
      { s with watchArray := jsvRemoveChild s.watchArray w } else s) =
      { s with watchArray := s.watchArray.erase w } := by
    split
    · rfl
    · rename_i hnot
      have hmem : w ∉ s.watchArray := by simpa [jsvGetArrayIndexOf] using hnot
      rw [List.erase_of_not_mem hmem]
  have hx : jsiIdleTimerUnwatch w s =
      (if jsiIsWatchingPin { s with watchArray := s.watchArray.erase w } (s.watchObj w).pin = true
        then { s with watchArray := s.watchArray.erase w }
        else jshPinWatch (s.watchObj w).pin false { s with watchArray := s.watchArray.erase w })
      := by
    unfold jsiIdleTimerUnwatch
    simp only [herase]
    cases hw : jsiIsWatchingPin { s with watchArray := s.watchArray.erase w } (s.watchObj w).pin
    · rfl
    · rfl
  rw [hx]
  by_cases hwatch : jsiIsWatchingPin { s with watchArray := s.watchArray.erase w }
      (s.watchObj w).pin = true
  · rw [if_pos hwatch]
    refine ⟨rfl, rfl, ?_⟩
    rw [if_pos hwatch]
    exact (List.append_nil _).symm
  · rw [if_neg hwatch]
    refine ⟨rfl, rfl, ?_⟩
    have : jsiIsWatchingPin (jshPinWatch (s.watchObj w).pin false
        { s with watchArray := s.watchArray.erase w }) (s.watchObj w).pin =
        jsiIsWatchingPin { s with watchArray := s.watchArray.erase w } (s.watchObj w).pin := rfl
    rw [this, if_neg hwatch]
    rfl

/-- The end of the block of a due timer that belongs to the watch `w`: the
link `timeout` of the watch is cleared; when the callback chain has run
(`exec`) and the watch is not recurring, the watch is taken out of the table and
`jshPinWatch(pin, false)` is called exactly when no watch that is left is on the
pin; otherwise the watch table and the interrupts are left alone. -/
theorem jsiIdleTimerFinish_watch (timer w : JsVarRef) (exec rec : Bool) (s : St) :
    (jsiIdleTimerFinish timer (some w) exec rec s).watchObj =
      Function.update s.watchObj w { s.watchObj w with timeout := none } ∧
    (jsiIdleTimerFinish timer (some w) exec rec s).watchArray =
      (if exec = true ∧ (s.watchObj w).recur = false then s.watchArray.erase w
        else s.watchArray) ∧
    (jsiIdleTimerFinish timer (some w) exec rec s).pinWatchCalls = s.pinWatchCalls ++
      (if exec = true ∧ (s.watchObj w).recur = false ∧
          jsiIsWatchingPin (jsiIdleTimerFinish timer (some w) exec rec s) (s.watchObj w).pin
            = false
        then [((s.watchObj w).pin, false)] else []) := by
  -- the state after the part that concerns the watch
  have h5 : ∀ s5 : St, s5 =
      (if (exec && !((s.setWatch w fun x => { x with timeout := none }).watchObj w).recur)
            = true
        then jsiIdleTimerUnwatch w (s.setWatch w fun x => { x with timeout := none })
        else s.setWatch w fun x => { x with timeout := none }) →
      s5.watchObj = Function.update s.watchObj w { s.watchObj w with timeout := none } ∧
      s5.watchArray = (if exec = true ∧ (s.watchObj w).recur = false then s.watchArray.erase w
        else s.watchArray) ∧
      s5.pinWatchCalls = s.pinWatchCalls ++
        (if exec = true ∧ (s.watchObj w).recur = false ∧
            jsiIsWatchingPin s5 (s.watchObj w).pin = false
          then [((s.watchObj w).pin, false)] else []) := by
    intro s5 hs5
    have hrec : ((s.setWatch w fun x => { x with timeout := none }).watchObj w).recur =
        (s.watchObj w).recur := by rw [setWatch_watchObj_same]
    have hpin : ((s.setWatch w fun x => { x with timeout := none }).watchObj w).pin =
        (s.watchObj w).pin := by rw [setWatch_watchObj_same]
    rw [hrec] at hs5
    by_cases hc : exec = true ∧ (s.watchObj w).recur = false
    · have hc' : (exec && !(s.watchObj w).recur) = true := by simp [hc.1, hc.2]
      rw [if_pos hc'] at hs5
      obtain ⟨a1, a2, a3⟩ :=
        jsiIdleTimerUnwatch_spec w (s.setWatch w fun x => { x with timeout := none })
      rw [hpin] at a3
      subst hs5
      refine ⟨by rw [a2]; rfl, by rw [a1, if_pos hc]; rfl, ?_⟩
      rw [a3]
      congr 1
      by_cases hwp : jsiIsWatchingPin (jsiIdleTimerUnwatch w
          (s.setWatch w fun x => { x with timeout := none })) (s.watchObj w).pin = true
      · simp [hwp]
      · simp only [Bool.not_eq_true] at hwp
        simp [hwp, hc.1, hc.2]
    · have hc' : ¬ (exec && !(s.watchObj w).recur) = true := by
        intro h
        simp only [Bool.and_eq_true, Bool.not_eq_true'] at h
        exact hc h
      rw [if_neg hc'] at hs5
      subst hs5
      refine ⟨rfl, by rw [if_neg hc]; rfl, ?_⟩
      have : ¬ (exec = true ∧ (s.watchObj w).recur = false ∧
          jsiIsWatchingPin (s.setWatch w fun x => { x with timeout := none })
            (s.watchObj w).pin = false) := fun h => hc ⟨h.1, h.2.1⟩
      rw [if_neg this]
      simp [St.setWatch]
  obtain ⟨b1, b2, b3⟩ := h5 _ rfl
  -- the part that concerns the timer does not touch the watches
  have hrest : ∀ s5 x : St, x =
      (if rec = true then
        (if (s5.timerObj timer).interval ≤ 0 then s5.setTimer timer fun t => { t with time := 0 }
        else s5.setTimer timer fun t => { t with time := t.time + (s5.timerObj timer).interval })
      else if jsvGetArrayIndexOf s5.timerArray timer = true then
        { s5 with timerArray := jsvRemoveChild s5.timerArray timer }
      else s5) →
      x.watchObj = s5.watchObj ∧ x.watchArray = s5.watchArray ∧
        x.pinWatchCalls = s5.pinWatchCalls := by
    intro s5 x hx
    subst hx
    split
    · split <;> exact ⟨rfl, rfl, rfl⟩
    · split <;> exact ⟨rfl, rfl, rfl⟩
  obtain ⟨c1, c2, c3⟩ := hrest
    (if (exec && !((s.setWatch w fun x => { x with timeout := none }).watchObj w).recur)
          = true
      then jsiIdleTimerUnwatch w (s.setWatch w fun x => { x with timeout := none })
      else s.setWatch w fun x => { x with timeout := none })
    (jsiIdleTimerFinish timer (some w) exec rec s) (by unfold jsiIdleTimerFinish; rfl)
  have hwatching : ∀ a b : St, a.watchArray = b.watchArray → a.watchObj = b.watchObj →
      ∀ p, jsiIsWatchingPin a p = jsiIsWatchingPin b p := by
    intro a b h1 h2 p
    unfold jsiIsWatchingPin
    rw [h1, h2]
  refine ⟨by rw [c1, b1], by rw [c2, b2], ?_⟩
  rw [c3, b3, hwatching _ _ c2 c1]

/-- No action of a callback calls `jshPinWatch`. -/
theorem stepClosed_pinWatchCalls (env : Env) :
    StepClosed env (fun s s' => s'.pinWatchCalls = s.pinWatchCalls) where
  refl := fun _ => rfl
  trans := fun _ _ _ h1 h2 => h2.trans h1
  record := fun _ _ => rfl
  act := by
    intro f args st a _ s s' h
    cases a with
    | queueEvents callback cargs => rw [jsiQueueEvents_only env callback cargs s s' h]
    | timerAdd t => simp only [applyAction, Option.some.injEq] at h; subst h; rfl
    | timerRemove x => simp only [applyAction, Option.some.injEq] at h; subst h; rfl
    | watchAdd w => simp only [applyAction, Option.some.injEq] at h; subst h; rfl
    | watchRemove x => simp only [applyAction, Option.some.injEq] at h; subst h; rfl
    | setInterrupted b => simp only [applyAction, Option.some.injEq] at h; subst h; rfl
    | setError b => simp only [applyAction, Option.some.injEq] at h; subst h; rfl
    | setTodo t => simp only [applyAction, Option.some.injEq] at h; subst h; rfl
  error := fun _ _ => rfl
  flag := fun _ => rfl

/-- Callbacks keep the watch table well formed. -/
theorem stepClosed_watchesWF (env : Env) :
    StepClosed env (fun s s' => s.watchesWF → s'.watchesWF) where
  refl := fun _ h => h
  trans := fun _ _ _ h1 h2 h => h2 (h1 h)
  record := fun _ _ h => h
  act := by
    intro f args st a _ s s' h hwf
    cases a with
    | queueEvents callback cargs =>
      obtain ⟨_, h1, _, _⟩ := jsiQueueEvents_tables env callback cargs s s' h
      have h2 := (jsiQueueEvents_preserves env callback cargs s s' h).nextRef
      exact ⟨by rw [h1]; exact hwf.1, fun r hr => lt_of_lt_of_le (hwf.2 r (h1 ▸ hr)) h2⟩
    | timerAdd t =>
      simp only [applyAction, jsiTimerAdd, Option.some.injEq] at h
      subst h
      exact ⟨hwf.1, fun r hr => Nat.lt_succ_of_lt (hwf.2 r hr)⟩
    | timerRemove x => simp only [applyAction, Option.some.injEq] at h; subst h; exact hwf
    | watchAdd w =>
      simp only [applyAction, Option.some.injEq] at h
      subst h
      refine ⟨?_, fun r hr => ?_⟩
      · show (s.watchArray ++ [s.nextRef]).Nodup
        rw [List.nodup_append]
        refine ⟨hwf.1, List.nodup_singleton _, ?_⟩
        intro a ha hb
        rw [List.mem_singleton] at hb
        subst hb
        exact absurd (hwf.2 _ ha) (lt_irrefl _)
      · have hr' : r ∈ s.watchArray ++ [s.nextRef] := hr
        rw [List.mem_append, List.mem_singleton] at hr'
        show r < s.nextRef + 1
        rcases hr' with h1 | h1
        · exact Nat.lt_succ_of_lt (hwf.2 r h1)
        · rw [h1]; exact Nat.lt_succ_self _
    | watchRemove x =>
      simp only [applyAction, Option.some.injEq] at h
      subst h
      exact ⟨hwf.1.erase x, fun r hr => hwf.2 r (List.mem_of_mem_erase hr)⟩
    | setInterrupted b => simp only [applyAction, Option.some.injEq] at h; subst h; exact hwf
    | setError b => simp only [applyAction, Option.some.injEq] at h; subst h; exact hwf
    | setTodo t => simp only [applyAction, Option.some.injEq] at h; subst h; exact hwf
  error := fun _ _ h => h
  flag := fun _ h => h

/-- The preparation of `data` for a timer that belongs to the watch `w`: the
callback chain is to run when the level stored in the watch matches the edge of
the watch, and also when the pool is exhausted; the watch table and the
interrupts are left alone. -/
theorem jsiIdleTimerData_watch (env : Env) (tr w : JsVarRef) (s : St)
    (hlink : (s.timerObj tr).watch = some w) :
    (jsiIdleTimerData env tr s).1 =
      (env.oom s.allocs ||
        jsiShouldExecuteWatch (s.watchObj w).edge ((s.watchObj w).state.getD false)) ∧
    (jsiIdleTimerData env tr s).2.2.watchArray = s.watchArray ∧
    (jsiIdleTimerData env tr s).2.2.pinWatchCalls = s.pinWatchCalls ∧
    (jsiIdleTimerData env tr s).2.2.trace = s.trace ∧
    s.nextRef ≤ (jsiIdleTimerData env tr s).2.2.nextRef := by
  unfold jsiIdleTimerData jsvNewWithFlags jsiSetBusy
  by_cases ho : env.oom s.allocs = true
  · simp [ho, hlink]
  · simp [ho, hlink, St.setWatch]

/-- The block for a due timer that belongs to the watch `w`, in a state with a
well-formed watch table. -/
theorem jsiIdleTimerFire_unwatch (env : Env) (tr w : JsVarRef) (s s' : St)
    (hwf : s.watchesWF)
    (hlink : (s.timerObj tr).watch = some w)
    (h : jsiIdleTimerFire env tr s = some s') :
    (s'.watchObj w).timeout = none ∧
    ((env.oom s.allocs ||
        jsiShouldExecuteWatch (s.watchObj w).edge ((s.watchObj w).state.getD false)) = true →
      (s'.watchObj w).recur = false →
      w ∉ s'.watchArray ∧
      s'.pinWatchCalls = s.pinWatchCalls ++
        (if jsiIsWatchingPin s' (s'.watchObj w).pin = true then []
          else [((s'.watchObj w).pin, false)])) ∧
    ((env.oom s.allocs ||
        jsiShouldExecuteWatch (s.watchObj w).edge ((s.watchObj w).state.getD false)) = false →
      s'.watchArray = s.watchArray ∧ s'.pinWatchCalls = s.pinWatchCalls ∧
        s'.trace = s.trace) ∧
    ((s'.watchObj w).recur = true → s'.pinWatchCalls = s.pinWatchCalls) := by
  obtain ⟨hexec, hwa, hpw, htr, hnr⟩ := jsiIdleTimerData_watch env tr w s hlink
  have hwf3 : (jsiIdleTimerData env tr s).2.2.watchesWF :=
    ⟨by rw [hwa]; exact hwf.1, fun r hr => lt_of_lt_of_le (hwf.2 r (hwa ▸ hr)) hnr⟩
  -- what the end of the block does, for any state `x` that it starts in
  have hfin : ∀ (exec rec : Bool) (x : St), x.watchesWF → x.pinWatchCalls = s.pinWatchCalls →
      ((jsiIdleTimerFinish tr (some w) exec rec x).watchObj w).timeout = none ∧
      (exec = true → ((jsiIdleTimerFinish tr (some w) exec rec x).watchObj w).recur = false →
        w ∉ (jsiIdleTimerFinish tr (some w) exec rec x).watchArray ∧
        (jsiIdleTimerFinish tr (some w) exec rec x).pinWatchCalls = s.pinWatchCalls ++
          (if jsiIsWatchingPin (jsiIdleTimerFinish tr (some w) exec rec x)
              ((jsiIdleTimerFinish tr (some w) exec rec x).watchObj w).pin = true then []
            else [(((jsiIdleTimerFinish tr (some w) exec rec x).watchObj w).pin, false)])) ∧
      (exec = false → (jsiIdleTimerFinish tr (some w) exec rec x).watchArray = x.watchArray ∧
        (jsiIdleTimerFinish tr (some w) exec rec x).pinWatchCalls = s.pinWatchCalls) ∧
      (((jsiIdleTimerFinish tr (some w) exec rec x).watchObj w).recur = true →
        (jsiIdleTimerFinish tr (some w) exec rec x).pinWatchCalls = s.pinWatchCalls) := by
    intro exec rec x hx hxp
    obtain ⟨f1, f2, f3⟩ := jsiIdleTimerFinish_watch tr w exec rec x
    have hobj : (jsiIdleTimerFinish tr (some w) exec rec x).watchObj w =
        { x.watchObj w with timeout := none } := by
      rw [f1]; simp
    have hrec : ((jsiIdleTimerFinish tr (some w) exec rec x).watchObj w).recur =
        (x.watchObj w).recur := by rw [hobj]
    have hpin : ((jsiIdleTimerFinish tr (some w) exec rec x).watchObj w).pin =
        (x.watchObj w).pin := by rw [hobj]
    refine ⟨by rw [hobj], fun he hr => ?_, fun he => ?_, fun hr => ?_⟩
    · rw [hrec] at hr
      rw [hpin]
      refine ⟨?_, ?_⟩
      · rw [f2, if_pos ⟨he, hr⟩]
        exact List.Nodup.not_mem_erase hx.1
      · rw [f3, hxp]
        congr 1
        by_cases hwp : jsiIsWatchingPin (jsiIdleTimerFinish tr (some w) exec rec x)
            (x.watchObj w).pin = true
        · rw [if_pos hwp, if_neg (fun hh => by rw [hwp] at hh; cases hh.2.2)]
        · simp only [Bool.not_eq_true] at hwp
          rw [if_pos ⟨he, hr, hwp⟩, if_neg (by rw [hwp]; simp)]
    · subst he
      refine ⟨by rw [f2]; simp, ?_⟩
      rw [f3, hxp]
      simp
    · rw [hrec] at hr
      rw [f3, hxp]
      simp [hr]
  unfold jsiIdleTimerFire at h
  simp only [hlink] at h
  by_cases hx : (jsiIdleTimerData env tr s).1 = true
  · simp only [hx, if_true] at h
    rw [hx] at hexec
    split at h
    · rename_i ok s4 hcb
      have hwf4 := jsiExecuteEventCallback_rel env _ (stepClosed_watchesWF env) _ _ _ _ _ hcb hwf3
      have hpw4 := jsiExecuteEventCallback_rel env _ (stepClosed_pinWatchCalls env) _ _ _ _ _ hcb
      simp only at hwf4 hpw4
      split at h
      · simp only [Option.some.injEq] at h
        subst h
        obtain ⟨g1, g2, _, g4⟩ := hfin true false
          (jsError "Error processing interval - removing it." s4) hwf4 (by rw [← hpw]; exact hpw4)
        exact ⟨g1, fun _ hr => g2 rfl hr, fun hf => (by rw [← hexec] at hf; cases hf), g4⟩
      · simp only [Option.some.injEq] at h
        subst h
        obtain ⟨g1, g2, _, g4⟩ := hfin true
          ((jsiIdleTimerData env tr s).2.2.timerObj tr).recur s4 hwf4
          (by rw [← hpw]; exact hpw4)
        exact ⟨g1, fun _ hr => g2 rfl hr, fun hf => (by rw [← hexec] at hf; cases hf), g4⟩
    · cases h
  · simp only [Bool.not_eq_true] at hx
    simp only [hx, Bool.false_eq_true, if_false, Option.some.injEq] at h
    rw [hx] at hexec
    subst h
    obtain ⟨g1, _, g3, g4⟩ := hfin false
      ((jsiIdleTimerData env tr s).2.2.timerObj tr).recur (jsiIdleTimerData env tr s).2.2 hwf3 hpw
    refine ⟨g1, fun ht => (by rw [← hexec] at ht; cases ht), fun _ => ?_, g4⟩
    obtain ⟨g5, g6⟩ := g3 rfl
    exact ⟨by rw [g5, hwa], g6, by rw [jsiIdleTimerFinish_trace, htr]⟩

/-- C14 (amended). When the timer loop finds a timer due that belongs to the
watch `w` (a debounce timer), it clears the link `timeout` of the watch,
whatever level is recorded. When the callback chain is run, that is when the
recorded level matches the edge of the watch (or `data` could not be allocated),
and the watch is not recurring, the watch is not in the watch table afterwards
and `jshPinWatch(pin, false)` is called exactly when no watch that is left in
the table is on the pin. When the recorded level does not match, nothing is
invoked, the watch table is left as it is and no interrupt is switched off,
also for a watch that is not recurring; neither is one switched off for a
recurring watch. -/
theorem jsiIdleTimer_unwatch (env : Env) (timePassed : Int) (tr w : JsVarRef)
    (minTimeUntilNext : Int) (wasBusy : Bool) (s : St)
    (r : Int × Bool × Option (Option JsVarRef) × St)
    (hwf : s.watchesWF)
    (hlink : (s.timerObj tr).watch = some w)
    (hdue : (s.timerObj tr).time - timePassed ≤ 0)
    (h : jsiIdleTimer env timePassed tr minTimeUntilNext wasBusy s = some r) :
    (r.2.2.2.watchObj w).timeout = none ∧
    ((env.oom s.allocs ||
        jsiShouldExecuteWatch (s.watchObj w).edge ((s.watchObj w).state.getD false)) = true →
      (r.2.2.2.watchObj w).recur = false →
      w ∉ r.2.2.2.watchArray ∧
      r.2.2.2.pinWatchCalls = s.pinWatchCalls ++
        (if jsiIsWatchingPin r.2.2.2 (r.2.2.2.watchObj w).pin = true then []
          else [((r.2.2.2.watchObj w).pin, false)])) ∧
    ((env.oom s.allocs ||
        jsiShouldExecuteWatch (s.watchObj w).edge ((s.watchObj w).state.getD false)) = false →
      r.2.2.2.watchArray = s.watchArray ∧ r.2.2.2.pinWatchCalls = s.pinWatchCalls ∧
        r.2.2.2.trace = s.trace) ∧
    ((r.2.2.2.watchObj w).recur = true → r.2.2.2.pinWatchCalls = s.pinWatchCalls) := by
  unfold jsiIdleTimer at h
  simp only [if_pos hdue] at h
  cases hf : jsiIdleTimerFire env tr
      (s.setTimer tr fun t => { t with time := (s.timerObj tr).time - timePassed }) with
  | none => simp [hf] at h
  | some s2 =>
    have hlink1 : ((s.setTimer tr fun t =>
        { t with time := (s.timerObj tr).time - timePassed }).timerObj tr).watch = some w := by
      rw [setTimer_timerObj_same]
      exact hlink
    have key := jsiIdleTimerFire_unwatch env tr w
      (s.setTimer tr fun t => { t with time := (s.timerObj tr).time - timePassed }) s2
      hwf hlink1 hf
    simp only [hf, Option.map_some'] at h
    split at h
    · simp only [Option.some.injEq] at h
      subst h
      exact key
    · simp only [Option.some.injEq] at h
      subst h
      exact key

/-- C14, witness: the watch `1` is not recurring and waits for a rising edge,
the level recorded is high, and its debounce timer is due. The callback is
invoked, the watch leaves the table, its link `timeout` is cleared, and the
interrupt of pin `5` is switched off as no watch is left on it. -/
theorem jsiIdleTimer_unwatch_witness :
    ∃ r, jsiIdleTimer Env.quiet 100 2 JSSYSTIME_MAX false (St.debounceOnce true) = some r ∧
      (r.2.2.2.watchObj 1).timeout = none ∧ 1 ∉ r.2.2.2.watchArray ∧
      r.2.2.2.pinWatchCalls = [(5, false)] ∧ r.2.2.2.trace.length = 1 := by
  cases h : jsiIdleTimer Env.quiet 100 2 JSSYSTIME_MAX false (St.debounceOnce true) with
  | none =>
    have : (jsiIdleTimer Env.quiet 100 2 JSSYSTIME_MAX false (St.debounceOnce true)).isSome
        = true := by rfl
    rw [h] at this
    cases this
  | some r =>
    have hfacts : (jsiIdleTimer Env.quiet 100 2 JSSYSTIME_MAX false (St.debounceOnce true)).map
        (fun r => ((r.2.2.2.watchObj 1).recur, (r.2.2.2.watchObj 1).pin,
          jsiIsWatchingPin r.2.2.2 5, r.2.2.2.trace.length)) =
        some (false, 5, false, 1) := by rfl
    rw [h] at hfacts
    simp only [Option.map_some', Option.some.injEq, Prod.mk.injEq] at hfacts
    obtain ⟨hrec, hpin, hwatching, hlen⟩ := hfacts
    obtain ⟨a1, a2, _, _⟩ := jsiIdleTimer_unwatch Env.quiet 100 2 1 JSSYSTIME_MAX false
      (St.debounceOnce true) r ⟨by decide, by decide⟩ (by rfl) (by decide) h
    obtain ⟨b1, b2⟩ := a2 (by rfl) hrec
    refine ⟨r, rfl, a1, b1, ?_, hlen⟩
    rw [b2, hpin, hwatching]
    rfl

/-- C14, counterexample: the same watch, not recurring and waiting for a
rising edge, with the level low recorded when its debounce timer is due. The
link `timeout` is cleared and the timer leaves the timer table, but the watch
stays in the watch table and `jshPinWatch` is not called, where the claim says
that a watch that is not recurring is removed for every recorded level. -/
theorem jsiIdle_debounce_keeps_watch :
    ((St.debounceOnce false).watchObj 1).recur = false ∧
    ((St.debounceOnce false).timerObj 2).watch = some 1 ∧
    (jsiIdle Env.clock100 5 (St.debounceOnce false)).map
      (fun s => ((s.watchObj 1).timeout, s.watchArray, s.timerArray, s.pinWatchCalls, s.trace)) =
      some (none, [1], [], [], []) := by
  refine ⟨rfl, rfl, by rfl⟩

/-! ## The removal of a watch after its callback -/

/-- The edge triggering block of the watch loop after the callback chain has
returned `ok` and left the state `s1`. -/
theorem jsiIdleWatchFire_removal (env : Env) (w : JsVarRef) (pin : Pin) (pinIsHigh : Bool)
    (evTime : Int) (s s1 : St) (ok : Bool)
    (hwf : s.watchesWF)
    (hcb : jsiIdleWatchChain env w pin pinIsHigh evTime s = some (ok, s1)) :
    ∃ s', jsiIdleWatchFire env w pin pinIsHigh (jsvNewFromFloat env evTime s).1
        (jsvNewFromFloat env evTime s).2 = some s' ∧
      s'.watchObj = s1.watchObj ∧
      s'.watchArray =
        (if (s.watchObj w).recur = false ∨ ok = false then s1.watchArray.erase w
          else s1.watchArray) ∧
      ((s.watchObj w).recur = false ∨ ok = false → w ∉ s'.watchArray) ∧
      s'.pinWatchCalls = s.pinWatchCalls ++
        (if ((s.watchObj w).recur = false ∨ ok = false) ∧ jsiIsWatchingPin s' pin = false
          then [(pin, false)] else []) := by
  unfold jsiIdleWatchChain at hcb
  simp only at hcb
  have hobjt : (jsvNewFromFloat env evTime s).2.watchObj = s.watchObj := by
    obtain ⟨_, r, _, _, hs⟩ := jsvNewFromFloat_eq env evTime s
    rw [hs]
  have hwft : (jsvNewFromFloat env evTime s).2.watchesWF := by
    obtain ⟨_, r, hr, _, hs⟩ := jsvNewFromFloat_eq env evTime s
    rw [hs]
    exact ⟨hwf.1, fun x hx => lt_of_lt_of_le (hwf.2 x hx) hr⟩
  have hpwt : (jsvNewFromFloat env evTime s).2.pinWatchCalls = s.pinWatchCalls := by
    obtain ⟨_, r, _, _, hs⟩ := jsvNewFromFloat_eq env evTime s
    rw [hs]
  have hwf0 : (jsvNewWithFlags env (jsvNewFromFloat env evTime s).2).2.watchesWF := by
    obtain ⟨r, hr, _, hs, _⟩ := jsvNewWithFlags_eq env (jsvNewFromFloat env evTime s).2
    rw [hs]
    exact ⟨hwft.1, fun x hx => lt_of_lt_of_le (hwft.2 x hx) hr⟩
  have hpw0 : (jsvNewWithFlags env (jsvNewFromFloat env evTime s).2).2.pinWatchCalls =
      s.pinWatchCalls := by
    obtain ⟨r, _, _, hs, _⟩ := jsvNewWithFlags_eq env (jsvNewFromFloat env evTime s).2
    rw [hs]
    exact hpwt
  have hwf1 : s1.watchesWF :=
    jsiExecuteEventCallback_rel env _ (stepClosed_watchesWF env) _ _ _ _ _ hcb hwf0
  have hpw1 : s1.pinWatchCalls = s.pinWatchCalls :=
    (jsiExecuteEventCallback_rel env _ (stepClosed_pinWatchCalls env) _ _ _ _ _ hcb).trans hpw0
  -- the state after the error message, if any
  have herr : ∀ (c : Bool) (x : St),
      x = (if c = true then jsError "Error processing Watch - removing it." s1 else s1) →
      x.watchArray = s1.watchArray ∧ x.watchObj = s1.watchObj ∧
        x.pinWatchCalls = s1.pinWatchCalls := by
    intro c x hx
    subst hx
    split <;> exact ⟨rfl, rfl, rfl⟩
  -- the removal
  have hrm : ∀ (x z : St),
      z = (if (!jsiIsWatchingPin { x with watchArray := jsvRemoveChild x.watchArray w } pin)
          = true
        then jshPinWatch pin false { x with watchArray := jsvRemoveChild x.watchArray w }
        else { x with watchArray := jsvRemoveChild x.watchArray w }) →
      z.watchArray = x.watchArray.erase w ∧ z.watchObj = x.watchObj ∧
        z.pinWatchCalls = x.pinWatchCalls ++
          (if jsiIsWatchingPin z pin = false then [(pin, false)] else []) := by
    intro x z hz
    by_cases hwp : jsiIsWatchingPin { x with watchArray := jsvRemoveChild x.watchArray w } pin
        = true
    · have hn : ¬ (!jsiIsWatchingPin { x with watchArray := jsvRemoveChild x.watchArray w } pin)
          = true := by rw [hwp]; simp
      rw [if_neg hn] at hz
      subst hz
      refine ⟨rfl, rfl, ?_⟩
      rw [if_neg (by rw [hwp]; simp)]
      exact (List.append_nil _).symm
    · simp only [Bool.not_eq_true] at hwp
      have hn : (!jsiIsWatchingPin { x with watchArray := jsvRemoveChild x.watchArray w } pin)
          = true := by rw [hwp]; rfl
      rw [if_pos hn] at hz
      subst hz
      refine ⟨rfl, rfl, ?_⟩
      have : jsiIsWatchingPin (jshPinWatch pin false
          { x with watchArray := jsvRemoveChild x.watchArray w }) pin = false := hwp
      rw [if_pos this]
      rfl
  unfold jsiIdleWatchFire
  simp only [hobjt, hcb]
  obtain ⟨e1, e2, e3⟩ := herr (!ok && (s.watchObj w).recur)
    (if (!ok && (s.watchObj w).recur) = true
      then jsError "Error processing Watch - removing it." s1 else s1) rfl
  by_cases hoff : (s.watchObj w).recur = false ∨ ok = false
  · have hc : (!ok && (s.watchObj w).recur || !(s.watchObj w).recur) = true := by
      rcases hoff with h | h
      · rw [h]; simp
      · rw [h]; cases (s.watchObj w).recur <;> rfl
    rw [if_pos hc]
    obtain ⟨z, hz⟩ : ∃ z : St, z =
        (if (!jsiIsWatchingPin
            { (if (!ok && (s.watchObj w).recur) = true
                then jsError "Error processing Watch - removing it." s1 else s1) with
              watchArray := jsvRemoveChild (if (!ok && (s.watchObj w).recur) = true
                then jsError "Error processing Watch - removing it." s1 else s1).watchArray w }
            pin) = true
          then jshPinWatch pin false
            { (if (!ok && (s.watchObj w).recur) = true
                then jsError "Error processing Watch - removing it." s1 else s1) with
              watchArray := jsvRemoveChild (if (!ok && (s.watchObj w).recur) = true
                then jsError "Error processing Watch - removing it." s1 else s1).watchArray w }
          else
            { (if (!ok && (s.watchObj w).recur) = true
                then jsError "Error processing Watch - removing it." s1 else s1) with
              watchArray := jsvRemoveChild (if (!ok && (s.watchObj w).recur) = true
                then jsError "Error processing Watch - removing it." s1 else s1).watchArray w })
        := ⟨_, rfl⟩
    obtain ⟨r1, r2, r3⟩ := hrm
      (if (!ok && (s.watchObj w).recur) = true
        then jsError "Error processing Watch - removing it." s1 else s1) z hz
    refine ⟨z, by rw [hz], by rw [r2, e2], by rw [r1, e1, if_pos hoff], fun _ => ?_, ?_⟩
    · rw [r1, e1]
      exact List.Nodup.not_mem_erase hwf1.1
    · rw [r3, e3, hpw1]
      congr 1
      by_cases hzp : jsiIsWatchingPin z pin = false
      · rw [if_pos hzp, if_pos ⟨hoff, hzp⟩]
      · rw [if_neg hzp, if_neg (fun hh => hzp hh.2)]
  · have hc : ¬ (!ok && (s.watchObj w).recur || !(s.watchObj w).recur) = true := by
      intro hh
      apply hoff
      cases hr : (s.watchObj w).recur
      · exact Or.inl rfl
      · cases ok
        · exact Or.inr rfl
        · rw [hr] at hh; simp at hh
    rw [if_neg hc]
    refine ⟨_, rfl, e2, by rw [e1, if_neg hoff], fun h => absurd h hoff, ?_⟩
    rw [e3, hpw1, if_neg (fun hh => hoff hh.1)]
    exact (List.append_nil _).symm

/-- C15. A watch without debounce is on the pin of the event and its edge
matches, so the watch loop runs its callback chain, which returns `ok` and
leaves the state `s1`. After that, the loop takes the watch out of the watch
table exactly when the watch is not recurring or the chain failed, and it is
not in the table then; every other watch that is in the table stays in it; and
`jshPinWatch(pin, false)` is called exactly when the watch was taken out and no
watch that is left in the table is on the pin (`jsiIsWatchingPin(pin)` is
false). The watch table is well formed at the start. -/
theorem jsiIdleWatch_removal (env : Env) (event : IOEvent) (w : JsVarRef) (s s1 : St)
    (ok : Bool)
    (hwf : s.watchesWF)
    (hpin : env.jshIsEventForPin event (s.watchObj w).pin = true)
    (hdeb : (s.watchObj w).debounce ≤ 0)
    (hedge : jsiShouldExecuteWatch (s.watchObj w).edge event.isHigh = true)
    (hcb : jsiIdleWatchChain env w (s.watchObj w).pin event.isHigh
      (eventTime (env.clock s.clockReads) event.time) (jshGetSystemTime env s).2 =
      some (ok, s1)) :
    ∃ s', jsiIdleWatch env event w s = some s' ∧
      (w ∈ s1.watchArray →
        (w ∉ s'.watchArray ↔ ((s.watchObj w).recur = false ∨ ok = false))) ∧
      ((s.watchObj w).recur = false ∨ ok = false → w ∉ s'.watchArray) ∧
      (∀ r, r ≠ w → (r ∈ s'.watchArray ↔ r ∈ s1.watchArray)) ∧
      s'.pinWatchCalls = s.pinWatchCalls ++
        (if ((s.watchObj w).recur = false ∨ ok = false) ∧
            jsiIsWatchingPin s' (s.watchObj w).pin = false
          then [((s.watchObj w).pin, false)] else []) := by
  obtain ⟨x, hfire, hobj, harr0, hgone0, hcalls0⟩ := jsiIdleWatchFire_removal env w
    (s.watchObj w).pin event.isHigh (eventTime (env.clock s.clockReads) event.time)
    (jshGetSystemTime env s).2 s1 ok hwf hcb
  have harr : x.watchArray =
      (if (s.watchObj w).recur = false ∨ ok = false then s1.watchArray.erase w
        else s1.watchArray) := harr0
  have hgone : (s.watchObj w).recur = false ∨ ok = false → w ∉ x.watchArray := hgone0
  have hcalls : x.pinWatchCalls = s.pinWatchCalls ++
      (if ((s.watchObj w).recur = false ∨ ok = false) ∧
          jsiIsWatchingPin x (s.watchObj w).pin = false
        then [((s.watchObj w).pin, false)] else []) := hcalls0
  have hbody : jsiIdleWatch env event w s = some
      (x.setWatch w fun y =>
        { y with lastTime := (jsvNewFromFloat env
            (eventTime (env.clock s.clockReads) event.time) (jshGetSystemTime env s).2).1 }) := by
    unfold jsiIdleWatch
    simp only [hpin, if_true]
    have hd : ¬ ((jshGetSystemTime env s).2.watchObj w).debounce > 0 := not_lt.2 hdeb
    have he : jsiShouldExecuteWatch ((jshGetSystemTime env s).2.watchObj w).edge event.isHigh
        = true := hedge
    rw [if_neg hd, if_pos he]
    have hf : jsiIdleWatchFire env w (s.watchObj w).pin event.isHigh
        (jsvNewFromFloat env (eventTime (jshGetSystemTime env s).1 event.time)
          (jshGetSystemTime env s).2).1
        (jsvNewFromFloat env (eventTime (jshGetSystemTime env s).1 event.time)
          (jshGetSystemTime env s).2).2 = some x :=
      hfire
    rw [hf]
    rfl
  have hwatching : jsiIsWatchingPin (x.setWatch w fun y =>
        { y with lastTime := (jsvNewFromFloat env
            (eventTime (env.clock s.clockReads) event.time) (jshGetSystemTime env s).2).1 })
        (s.watchObj w).pin = jsiIsWatchingPin x (s.watchObj w).pin := by
    unfold jsiIsWatchingPin
    show (x.watchArray.any fun r => _) = _
    congr 1
    funext r
    by_cases hr : r = w
    · subst hr
      rw [setWatch_watchObj_same]
    · rw [setWatch_watchObj_ne _ _ _ _ hr]
  refine ⟨_, hbody, fun hmem => ?_, hgone, fun r hr => ?_, ?_⟩
  · show w ∉ x.watchArray ↔ _
    constructor
    · intro hnot
      by_contra hoff
      rw [harr, if_neg hoff] at hnot
      exact hnot hmem
    · exact hgone
  · show r ∈ x.watchArray ↔ _
    rw [harr]
    split
    · exact ⟨List.mem_of_mem_erase, fun h => (List.mem_erase_of_ne hr).2 h⟩
    · exact Iff.rfl
  · rw [hwatching]
    exact hcalls

/-- C15, witness: watch `1` on pin `5` is not recurring, watch `2` on the same
pin is. A low edge runs the callback of watch `1`; the loop takes watch `1` out
of the table, watch `2` stays, and `jshPinWatch` is not called as watch `2` is
still on the pin. -/
theorem jsiIdleWatch_removal_witness :
    ∃ s', jsiIdleWatch Env.at1000 IOEvent.low5 1 St.oneShotWatchFirst = some s' ∧
      1 ∉ s'.watchArray ∧ 2 ∈ s'.watchArray ∧ s'.pinWatchCalls = [] := by
  cases hc : jsiIdleWatchChain Env.at1000 1 (St.oneShotWatchFirst.watchObj 1).pin
      IOEvent.low5.isHigh (eventTime (Env.at1000.clock St.oneShotWatchFirst.clockReads)
        IOEvent.low5.time) (jshGetSystemTime Env.at1000 St.oneShotWatchFirst).2 with
  | none =>
    have : (jsiIdleWatchChain Env.at1000 1 (St.oneShotWatchFirst.watchObj 1).pin
      IOEvent.low5.isHigh (eventTime (Env.at1000.clock St.oneShotWatchFirst.clockReads)
        IOEvent.low5.time) (jshGetSystemTime Env.at1000 St.oneShotWatchFirst).2).isSome
        = true := by rfl
    rw [hc] at this
    cases this
  | some r =>
    obtain ⟨ok, s1⟩ := r
    have hfacts : (jsiIdleWatchChain Env.at1000 1 (St.oneShotWatchFirst.watchObj 1).pin
        IOEvent.low5.isHigh (eventTime (Env.at1000.clock St.oneShotWatchFirst.clockReads)
          IOEvent.low5.time) (jshGetSystemTime Env.at1000 St.oneShotWatchFirst).2).map
        (fun r => r.2.watchArray) = some [1, 2] := by rfl
    rw [hc] at hfacts
    simp only [Option.map_some', Option.some.injEq] at hfacts
    obtain ⟨s', hbody, _, hgone, hothers, hcalls⟩ :=
      jsiIdleWatch_removal Env.at1000 IOEvent.low5 1 St.oneShotWatchFirst s1 ok
        ⟨by decide, by decide⟩ (by rfl) (by decide) (by rfl) hc
    have hwatching : (jsiIdleWatch Env.at1000 IOEvent.low5 1 St.oneShotWatchFirst).map
        (fun s => jsiIsWatchingPin s 5) = some true := by rfl
    rw [hbody] at hwatching
    simp only [Option.map_some', Option.some.injEq] at hwatching
    refine ⟨s', hbody, hgone (Or.inl rfl), (hothers 2 (by decide)).2 (by rw [hfacts]; simp), ?_⟩
    rw [hcalls]
    have hpin : (St.oneShotWatchFirst.watchObj 1).pin = 5 := rfl
    rw [hpin, hwatching]
    simp
    rfl

/-! ## The drain and the interrupt flag -/

theorem jsiIdleTodo_nothing (env : Env) (s : St) (h : s.todo = TODO_NOTHING) :
    jsiIdleTodo env s = s := by
  unfold jsiIdleTodo
  rw [h]
  rfl

theorem jsiIdleSleep_queue (env : Env) (m : Int) (s : St) :
    (jsiIdleSleep env m s).events = s.events ∧ (jsiIdleSleep env m s).trace = s.trace ∧
    (jsiIdleSleep env m s).queued = s.queued := by
  unfold jsiIdleSleep jsiSetBusy
  simp only
  split <;> split <;> exact ⟨rfl, rfl, rfl⟩

/-- With the interrupt flag set and nothing to do as maintenance, the end of
`jsiIdle` does not call `jsiExecuteEvents`: nothing is invoked and the queue is
left as it is. -/
theorem jsiIdleDrain_interrupted (env : Env) (fuel : Nat) (m : Int) (wasBusy : Bool) (s4 : St)
    (hint : s4.interrupted = true) (htodo : s4.todo = TODO_NOTHING) :
    ∃ s', jsiIdleDrain env fuel m wasBusy s4 = some s' ∧
      s'.events = s4.events ∧ s'.trace = s4.trace ∧ s'.queued = s4.queued := by
  have h6 : ∀ s6 : St, s6 = (if wasBusy = true then
        jsiSetBusy false (if (wasBusy || !s4.events.isEmpty) = true
          then { s4 with loopsIdling := 0 } else s4)
      else (if (wasBusy || !s4.events.isEmpty) = true
          then { s4 with loopsIdling := 0 } else s4)) →
      s6.interrupted = true ∧ s6.todo = TODO_NOTHING ∧ s6.events = s4.events ∧
        s6.trace = s4.trace ∧ s6.queued = s4.queued := by
    intro s6 hs6
    subst hs6
    split <;> split <;> exact ⟨hint, htodo, rfl, rfl, rfl⟩
  obtain ⟨i6, t6, e6, r6, q6⟩ := h6 _ rfl
  have h8 : ∀ s7 s8 : St, s8 = (if s7.interruptedDuringEvent = true then
        { s7 with interrupted := false, interruptedDuringEvent := false,
                  consoleOut := s7.consoleOut ++
                    ["Execution Interrupted during event processing.\n"] }
      else s7) →
      s8.todo = s7.todo ∧ s8.events = s7.events ∧ s8.trace = s7.trace ∧
        s8.queued = s7.queued := by
    intro s7 s8 hs8
    subst hs8
    split <;> exact ⟨rfl, rfl, rfl, rfl⟩
  dsimp only [jsiIdleDrain]
  have hskip : (!(if wasBusy = true then
        jsiSetBusy false (if (wasBusy || !s4.events.isEmpty) = true
          then { s4 with loopsIdling := 0 } else s4)
      else (if (wasBusy || !s4.events.isEmpty) = true
          then { s4 with loopsIdling := 0 } else s4)).interrupted) = false := by
    rw [i6]; rfl
  rw [hskip]
  simp only [Bool.false_eq_true, if_false]
  obtain ⟨t8, e8, r8, q8⟩ := h8 _ _ rfl
  refine ⟨_, rfl, ?_, ?_, ?_⟩
  · rw [(jsiIdleSleep_queue env m _).1, jsiIdleTodo_nothing env _ (by rw [t8, t6]), e8, e6]
  · rw [(jsiIdleSleep_queue env m _).2.1, jsiIdleTodo_nothing env _ (by rw [t8, t6]), r8, r6]
  · rw [(jsiIdleSleep_queue env m _).2.2, jsiIdleTodo_nothing env _ (by rw [t8, t6]), q8, q6]

/-- C16 (amended). The event loop, the timer check and `jswIdle` of a step of
`jsiIdle` have run and left the state `s4`, in which the interrupt flag is set
and no maintenance action is requested. Then the step returns without calling
`jsiExecuteEvents`: nothing is invoked, nothing is queued, and the event queue
after the step is the queue of `s4`, entry for entry. -/
theorem jsiIdle_interrupted (env : Env) (fuel : Nat) (s0 s2 s3 s4 : St) (busy1 busy2 : Bool)
    (minTimeUntilNext : Int)
    (hevents : jsiIdleEvents env fuel fuel false
      (if s0.loopsIdling < 255 then { s0 with loopsIdling := s0.loopsIdling + 1 } else s0) =
      some (busy1, s2))
    (htimers : jsiIdleTimers env fuel busy1 (jsiIdleFlowControl env s2) =
      some (minTimeUntilNext, busy2, s3))
    (hidle : applyActions env (env.jswIdle s3).2 s3 = some s4)
    (hint : s4.interrupted = true)
    (htodo : s4.todo = TODO_NOTHING) :
    ∃ s', jsiIdle env fuel s0 = some s' ∧
      s'.events = s4.events ∧ s'.trace = s4.trace ∧ s'.queued = s4.queued := by
  rw [jsiIdle_eq_drain]
  simp only [hevents, htimers, hidle]
  exact jsiIdleDrain_interrupted env fuel _ _ s4 hint htodo

/-- C16, witness: two entries are queued and the interrupt flag is set. The
step invokes nothing and leaves both entries in the queue, in order. -/
theorem jsiIdle_interrupted_witness :
    ∃ s', jsiIdle Env.quiet 5 St.interruptedQueue = some s' ∧
      s'.events = St.twoQueued.events ∧ s'.trace = [] := by
  have hev : jsiIdleEvents Env.quiet 5 5 false
      (if St.interruptedQueue.loopsIdling < 255 then
        { St.interruptedQueue with loopsIdling := St.interruptedQueue.loopsIdling + 1 }
      else St.interruptedQueue) =
      some (false, { St.interruptedQueue with loopsIdling := 1 }) := by rfl
  cases ht : jsiIdleTimers Env.quiet 5 false
      (jsiIdleFlowControl Env.quiet { St.interruptedQueue with loopsIdling := 1 }) with
  | none =>
    have : (jsiIdleTimers Env.quiet 5 false
      (jsiIdleFlowControl Env.quiet { St.interruptedQueue with loopsIdling := 1 })).isSome
        = true := by rfl
    rw [ht] at this
    cases this
  | some r =>
    obtain ⟨m, b2, s3⟩ := r
    have hs3 : (jsiIdleTimers Env.quiet 5 false
        (jsiIdleFlowControl Env.quiet { St.interruptedQueue with loopsIdling := 1 })).map
        (fun r => (r.2.2.events, r.2.2.trace, r.2.2.interrupted, r.2.2.todo)) =
        some (St.twoQueued.events, [], true, TODO_NOTHING) := by rfl
    rw [ht] at hs3
    simp only [Option.map_some', Option.some.injEq, Prod.mk.injEq] at hs3
    obtain ⟨he, htr, hi, htd⟩ := hs3
    have hidle : applyActions Env.quiet (Env.quiet.jswIdle s3).2 s3 = some s3 := by rfl
    obtain ⟨s', h1, h2, h3, _⟩ := jsiIdle_interrupted Env.quiet 5 St.interruptedQueue _ s3 s3
      false b2 m hev ht hidle hi htd
    exact ⟨s', h1, by rw [h2, he], by rw [h3, htr]⟩

/-- C16, counterexample: two entries are queued, the interrupt flag is set,
and a reset has been requested. The step does not drain the queue, carries out
the reset, and the two entries are gone without having been invoked. -/
theorem jsiIdle_interrupted_reset :
    St.interruptedReset.interrupted = true ∧ St.interruptedReset.events.length = 2 ∧
    (jsiIdle Env.softInit 5 St.interruptedReset).map
      (fun s => (s.events, s.trace, s.maintenance)) = some ([], [], [.reset]) := by
  refine ⟨rfl, rfl, by rfl⟩

/-- C17 (amended). The drain `jsiExecuteEvents` does not look at the interrupt
flag between two entries. Whatever the callbacks do to the flag, a drain that
returns has popped every entry and handed it to the evaluator, in queue order,
those queued meanwhile included, and the queue is empty. When the queue was not
empty, the flag was clear before the drain and is set after it, the drain sets
`interruptedDuringEvent`, for `jsiIdle` to report. -/
theorem jsiExecuteEvents_no_cancel (env : Env) (fuel : Nat) (s s' : St)
    (hq : ∀ e ∈ s.events, e.func.isFunction ∨ e.func.isString)
    (h : jsiExecuteEvents env fuel s = some s') :
    s'.events = [] ∧
    s'.trace = s.trace ++
      (s.events ++ s'.queued.drop s.queued.length).map Event.invocation ∧
    (s.events ≠ [] → s.interrupted = false → s'.interrupted = true →
      s'.interruptedDuringEvent = true) := by
  have hs1 : ∀ (b : Bool) (x : St), x = (if b = true then jsiSetBusy true s else s) →
      x.events = s.events ∧ x.trace = s.trace ∧ x.queued = s.queued := by
    intro b x hx
    subst hx
    split <;> simp [jsiSetBusy]
  have hs3 : ∀ (b : Bool) (s2 x : St), x = (if b = true
        then { jsiSetBusy false s2 with interruptedDuringEvent := true }
        else jsiSetBusy false s2) →
      x.events = s2.events ∧ x.trace = s2.trace ∧ x.queued = s2.queued ∧
        x.interrupted = s2.interrupted ∧ (b = true → x.interruptedDuringEvent = true) := by
    intro b s2 x hx
    subst hx
    split
    · exact ⟨rfl, rfl, rfl, rfl, fun _ => rfl⟩
    · rename_i hb
      exact ⟨rfl, rfl, rfl, rfl, fun hh => absurd hh hb⟩
  dsimp only [jsiExecuteEvents] at h
  split at h
  · cases h
  · rename_i s2 hl
    obtain ⟨e1, t1, q1⟩ := hs1 _ _ rfl
    obtain ⟨new, hq2, he2, ht2⟩ := jsiExecuteEventsLoop_fifo env fuel _ s2
      (by rw [e1]; exact hq) hl
    rw [e1, t1] at ht2
    rw [q1] at hq2
    have hd : s2.queued.drop s.queued.length = new := by rw [hq2]; simp
    split at h
    · simp only [Option.some.injEq] at h
      obtain ⟨e3, t3, q3, i3, f3⟩ := hs3 _ s2 _ h.symm
      refine ⟨by rw [e3, he2], by rw [t3, q3, hd, ht2], fun _ hclear hset => ?_⟩
      apply f3
      rw [i3] at hset
      have hset2 : (jsiSetBusy false s2).interrupted = true := hset
      rw [hclear, hset2]
      rfl
    · rename_i hempty
      simp only [Option.some.injEq] at h
      subst h
      refine ⟨he2, by rw [hd, ht2], fun hne => ?_⟩
      exfalso
      apply hempty
      cases hev : s.events with
      | nil => exact absurd hev hne
      | cons a l => rfl

/-- C17, witness: `function 1`, the first of two queued entries, sets the
interrupt flag. The drain goes on to evaluate `string 4`, leaves the queue
empty and sets `interruptedDuringEvent`. -/
theorem jsiExecuteEvents_no_cancel_witness :
    ∃ s', jsiExecuteEvents Env.interrupting 5 St.twoQueued = some s' ∧
      s'.events = [] ∧
      s'.trace = [{ func := .function 1, args := [.other 8, .undefined] },
        { func := .string 4, args := [] }] ∧
      s'.interruptedDuringEvent = true := by
  cases h : jsiExecuteEvents Env.interrupting 5 St.twoQueued with
  | none =>
    have : (jsiExecuteEvents Env.interrupting 5 St.twoQueued).isSome = true := by rfl
    rw [h] at this
    cases this
  | some s' =>
    have hfacts : (jsiExecuteEvents Env.interrupting 5 St.twoQueued).map
        (fun x => (x.queued, x.interrupted)) = some ([], true) := by rfl
    rw [h] at hfacts
    simp only [Option.map_some', Option.some.injEq, Prod.mk.injEq] at hfacts
    obtain ⟨hqd, hint⟩ := hfacts
    obtain ⟨a1, a2, a3⟩ := jsiExecuteEvents_no_cancel Env.interrupting 5 St.twoQueued s'
      (by decide) h
    refine ⟨s', rfl, a1, ?_, a3 (by decide) rfl hint⟩
    rw [a2, hqd]
    rfl

/-- C17, counterexample: two entries are queued, and the callback of the
first sets the interrupt flag. The drain still pops the second entry and hands
it to the evaluator; the queue is empty afterwards, in the drain and at the end
of the step of `jsiIdle`, which clears the flag and reports the interruption.
The claim says that the second entry is not invoked and stays in the queue. -/
theorem jsiExecuteEvents_interrupt_ignored :
    (jspExecuteFunction Env.interrupting (.function 1) [.other 8, .undefined]
      { St.twoQueued with events := St.twoQueued.events.tail }).map
      (fun s => (s.interrupted, s.events)) = some (true, [{ func := .string 4, args := [] }]) ∧
    (jsiExecuteEvents Env.interrupting 5 St.twoQueued).map
      (fun s => (s.trace.map (fun i => i.func), s.events, s.interrupted)) =
      some ([.function 1, .string 4], [], true) ∧
    (jsiIdle Env.interrupting 5 St.twoQueued).map
      (fun s => (s.trace.map (fun i => i.func), s.events, s.interrupted, s.consoleOut)) =
      some ([.function 1, .string 4], [], false,
        ["Execution Interrupted during event processing.\n"]) := by
  refine ⟨by rfl, by rfl, by rfl⟩

/-! ## Recurring timers without an interval -/

theorem jsiIdleTimerData_trace (env : Env) (timer : JsVarRef) (s : St) :
    (jsiIdleTimerData env timer s).2.2.trace = s.trace := by
  unfold jsiIdleTimerData jsvNewWithFlags jsiSetBusy
  by_cases ho : env.oom s.allocs = true
  · simp [ho]
  · cases hw : (s.timerObj timer).watch <;> simp [ho, hw, St.setWatch]

/-- C18 (amended). In the timer loop, when a recurring timer with
`interval <= 0` is due and its callback chain runs and succeeds, the loop body
invokes the chain once and sets the remaining ticks of the timer to `0` (not to
the value after the decrement, which may be negative); so the timer is due again
in every later sweep that evaluates it with non-negative elapsed ticks. -/
theorem jsiIdleTimer_immediate (env : Env) (timePassed : Int) (timer : JsVarRef)
    (minTimeUntilNext : Int) (wasBusy : Bool) (s s4 : St)
    (hwf : timer < s.nextRef)
    (hrec : (s.timerObj timer).recur = true)
    (hint : (s.timerObj timer).interval ≤ 0)
    (hdue : (s.timerObj timer).time - timePassed ≤ 0)
    (hexec : (jsiIdleTimerData env timer
      (s.setTimer timer fun t => { t with time := (s.timerObj timer).time - timePassed })).1
        = true)
    (hcb : jsiIdleTimerChain env timePassed timer s = some (true, s4)) :
    ∃ m cont s', jsiIdleTimer env timePassed timer minTimeUntilNext wasBusy s =
        some (m, true, cont, s') ∧
      s'.trace = s.trace ++ callbackInvocations (s.timerObj timer).callback
        (jsiIdleTimerArg env timePassed timer s) .undefined ∧
      (s'.timerObj timer).time = 0 ∧
      (s'.timerObj timer).recur = true ∧
      (s'.timerObj timer).interval = (s.timerObj timer).interval ∧
      ∀ e : Int, 0 ≤ e → (s'.timerObj timer).time - e ≤ 0 := by
  set s1 := s.setTimer timer fun t => { t with time := (s.timerObj timer).time - timePassed }
    with hs1
  have hobj1 : s1.timerObj timer =
      { s.timerObj timer with time := (s.timerObj timer).time - timePassed } := by
    rw [hs1, setTimer_timerObj_same]
  obtain ⟨hto, _, hnr⟩ := jsiIdleTimerData_frame env timer s1
  have htr := jsiIdleTimerData_trace env timer s1
  have hnext1 : s1.nextRef = s.nextRef := rfl
  have hpres := jsiExecuteEventCallback_preserves env _ _ _ _ _ hcb
  have htrace := jsiExecuteEventCallback_trace env _ _ _ _ _ hcb
  simp only at hpres htrace
  have hobj4 : s4.timerObj timer =
      { s.timerObj timer with time := (s.timerObj timer).time - timePassed } := by
    rw [hpres.timerObj timer (lt_of_lt_of_le (hnext1 ▸ hwf) hnr), hto, hobj1]
  have hcb' : jsiExecuteEventCallback env (s1.timerObj timer).callback
      (jsiIdleTimerData env timer s1).2.1 .undefined (jsiIdleTimerData env timer s1).2.2 =
      some (true, s4) := by
    rw [hobj1]
    exact hcb
  have hrec3 : ((jsiIdleTimerData env timer s1).2.2.timerObj timer).recur = true := by
    rw [hto, hobj1]; exact hrec
  -- the end of the block sets the time to `0`
  have hfin : (jsiIdleTimerFinish timer (s1.timerObj timer).watch true true s4).timerObj timer =
      { s.timerObj timer with time := 0 } := by
    have h5 : ∀ s5 : St, s5 = (match (s1.timerObj timer).watch with
        | none => s4
        | some w =>
          if (true && !((s4.setWatch w fun x => { x with timeout := none }).watchObj w).recur)
              = true
          then jsiIdleTimerUnwatch w (s4.setWatch w fun x => { x with timeout := none })
          else s4.setWatch w fun x => { x with timeout := none }) →
        s5.timerObj = s4.timerObj := by
      intro s5 h
      subst h
      cases (s1.timerObj timer).watch with
      | none => rfl
      | some w =>
        simp only
        split
        · rw [(jsiIdleTimerUnwatch_frame w _).1]; rfl
        · rfl
    have ho := h5 _ rfl
    unfold jsiIdleTimerFinish
    simp only [if_true]
    have hi : ((match (s1.timerObj timer).watch with
        | none => s4
        | some w =>
          if (true && !((s4.setWatch w fun x => { x with timeout := none }).watchObj w).recur)
              = true
          then jsiIdleTimerUnwatch w (s4.setWatch w fun x => { x with timeout := none })
          else s4.setWatch w fun x => { x with timeout := none }).timerObj timer).interval ≤ 0
        := by
      rw [ho, hobj4]; exact hint
    rw [if_pos hi, setTimer_timerObj_same, ho, hobj4]
  have hfire : jsiIdleTimerFire env timer s1 =
      some (jsiIdleTimerFinish timer (s1.timerObj timer).watch true true s4) := by
    unfold jsiIdleTimerFire
    simp only [hexec, if_true, hcb', hrec3]
    rfl
  have hbody : ∃ m cont, jsiIdleTimer env timePassed timer minTimeUntilNext wasBusy s =
      some (m, true, cont, jsiIdleTimerFinish timer (s1.timerObj timer).watch true true s4) := by
    unfold jsiIdleTimer
    simp only [← hs1, if_pos hdue, hfire, Option.map_some']
    split
    · exact ⟨_, _, rfl⟩
    · exact ⟨_, _, rfl⟩
  obtain ⟨m, cont, hbody⟩ := hbody
  refine ⟨m, cont, _, hbody, ?_, by rw [hfin], by rw [hfin]; exact hrec, by rw [hfin],
    fun e he => ?_⟩
  · rw [jsiIdleTimerFinish_trace, htrace, htr]
    rfl
  · rw [hfin]
    show (0 : Int) - e ≤ 0
    omega

/-- C18, witness: the recurring timer `1` with interval `0` and `50` ticks
left, swept after `60` ticks: it runs once and is left with `0` ticks. Driven
through the timer check of `jsiIdle` by the elapsed ticks `60`, `40` and `50`
it runs in every step. -/
theorem jsiIdleTimer_immediate_witness :
    (∃ m cont s', jsiIdleTimer Env.quiet 60 1 JSSYSTIME_MAX false St.interval0 =
        some (m, true, cont, s') ∧
      s'.trace = St.interval0.trace ++ callbackInvocations (St.interval0.timerObj 1).callback
        (jsiIdleTimerArg Env.quiet 60 1 St.interval0) .undefined ∧
      (s'.timerObj 1).time = 0 ∧ (s'.timerObj 1).recur = true ∧
      (s'.timerObj 1).interval = (St.interval0.timerObj 1).interval ∧
      ∀ e : Int, 0 ≤ e → (s'.timerObj 1).time - e ≤ 0) ∧
    (jsiIdleTimersStep Env.clock60 5 St.interval0).map
      (fun s => (s.trace.length, (s.timerObj 1).time)) = some (1, 0) ∧
    ((jsiIdleTimersStep Env.clock60 5 St.interval0).bind (jsiIdleTimersStep Env.clock60 5)).map
      (fun s => (s.trace.length, (s.timerObj 1).time)) = some (2, 0) ∧
    (((jsiIdleTimersStep Env.clock60 5 St.interval0).bind
      (jsiIdleTimersStep Env.clock60 5)).bind (jsiIdleTimersStep Env.clock60 5)).map
      (fun s => (s.trace.length, (s.timerObj 1).time)) = some (3, 0) := by
  refine ⟨?_, by rfl, by rfl, by rfl⟩
  cases h : jsiIdleTimerChain Env.quiet 60 1 St.interval0 with
  | none =>
    have : (jsiIdleTimerChain Env.quiet 60 1 St.interval0).isSome = true := by rfl
    rw [h] at this
    cases this
  | some r =>
    obtain ⟨ok, s4⟩ := r
    have h1 : (jsiIdleTimerChain Env.quiet 60 1 St.interval0).map (fun r => r.1) = some true := by
      rfl
    rw [h] at h1
    simp only [Option.map_some', Option.some.injEq] at h1
    subst h1
    exact jsiIdleTimer_immediate Env.quiet 60 1 JSSYSTIME_MAX false St.interval0 s4
      (by decide) (by rfl) (by decide) (by decide) (by rfl) h

/-- C18, counterexample: the recurring timer with interval `0` and `50` ticks
left is swept after `60` ticks. The value after the decrement is `-10`, and
`-10 + max(0, 0) = -10` is what the claim says the timer is left with; the loop
sets it to `0`. -/
theorem jsiIdleTimer_interval0_reset :
    (St.interval0.timerObj 1).recur = true ∧
    (St.interval0.timerObj 1).interval = 0 ∧
    (St.interval0.timerObj 1).time - 60 = -10 ∧
    (jsiIdleTimer Env.quiet 60 1 JSSYSTIME_MAX false St.interval0).map
      (fun r => ((r.2.2.2.timerObj 1).time, r.2.2.2.trace.length)) = some (0, 1) ∧
    (0 : Int) ≠ ((St.interval0.timerObj 1).time - 60) + max (St.interval0.timerObj 1).interval 0
    := by
  refine ⟨rfl, rfl, by decide, by rfl, by decide⟩

/-! ## The sweep after its own removal of a timer -/

/-- C19, failing input: two one-shot timers, timer `1` with `10` ticks and
behind it timer `2` with `100` ticks, swept after `100` ticks; no callback
touches the timer table. Timer `1` is decremented to `-90`, runs and is removed
by the sweep itself. The sweep then stops: timer `2` is not decremented (it
keeps its `100` ticks, where `0` is due) and is not invoked, and the minimum is
`0`, where the least value after the decrement is `-90`. The step of `jsiIdle`
has advanced `jsiLastIdleTime` by the `100` ticks all the same. -/
theorem jsiIdleTimerLoop_cut_short :
    (∀ f args st, ∀ a ∈ Env.clock100.interp f args st, a.keepsTimers) ∧
    (jsiIdleTimerLoop Env.clock100 100 5 St.twoOneShots.timerArray.head? JSSYSTIME_MAX false
        St.twoOneShots).map
      (fun r => (r.1, r.2.2.timerArray, (r.2.2.timerObj 1).time, (r.2.2.timerObj 2).time,
        r.2.2.trace.map fun i => i.func)) =
      some (0, [2], -90, 100, [.function 1]) ∧
    (jsiIdle Env.clock100 5 St.twoOneShots).map
      (fun s => (s.timerArray, (s.timerObj 2).time, s.jsiLastIdleTime)) =
      some ([2], 100, 100) := by
  refine ⟨fun f args st a ha => ?_, by rfl, by rfl⟩
  cases ha

/-! ## The two readings of the clock -/

/-- The timer check of `jsiIdle` reads the clock twice: the first reading
becomes `jsiLastIdleTime`, the second one is what the elapsed ticks are
computed from. -/
theorem jsiIdleTimers_clock (env : Env) (fuel : Nat) (wasBusy : Bool) (s : St) :
    jsiIdleTimers env fuel wasBusy s =
      jsiIdleTimerLoop env (env.clock (s.clockReads + 1) - s.jsiLastIdleTime) fuel
        s.timerArray.head? JSSYSTIME_MAX wasBusy
        { s with clockReads := s.clockReads + 2, jsiLastIdleTime := env.clock s.clockReads } := by
  rfl

/-- C20, failing input: the clock advances by one tick between the two
readings of a step: it reads `5` and `6` in the first step and `7` and `8` in
the second. Timer `2` starts with `100` ticks. The first step charges it `6`
ticks while `jsiLastIdleTime` advances by `5`; after the second step it has been
charged `9` ticks in all (`91` are left) while `jsiLastIdleTime` has advanced by
`7`. -/
theorem jsiIdleTimers_two_readings :
    St.twoOneShots.jsiLastIdleTime = 0 ∧ (St.twoOneShots.timerObj 2).time = 100 ∧
    (jsiIdleTimersStep Env.ticking 5 St.twoOneShots).map
      (fun s => ((s.timerObj 2).time, s.jsiLastIdleTime, s.clockReads)) = some (94, 5, 2) ∧
    ((jsiIdleTimersStep Env.ticking 5 St.twoOneShots).bind (jsiIdleTimersStep Env.ticking 5)).map
      (fun s => ((s.timerObj 2).time, s.jsiLastIdleTime, s.clockReads)) = some (91, 7, 4) ∧
    (jsiIdle Env.ticking 5 St.twoOneShots).map
      (fun s => ((s.timerObj 2).time, s.jsiLastIdleTime)) = some (94, 5) := by
  refine ⟨rfl, rfl, by rfl, by rfl, by rfl⟩

/-! ## One-shot timers in a table -/

/-- The preparation of `data` writes the child `lastTime` of the watch of a
debounce timer and nothing else of the watches. -/
theorem jsiIdleTimerData_watchObj (env : Env) (timer : JsVarRef) (s : St) :
    (∀ w, (s.timerObj timer).watch ≠ some w →
      (jsiIdleTimerData env timer s).2.2.watchObj w = s.watchObj w) ∧
    (jsiIdleTimerData env timer s).2.2.jsiLastIdleTime = s.jsiLastIdleTime := by
  unfold jsiIdleTimerData jsvNewWithFlags jsiSetBusy
  by_cases ho : env.oom s.allocs = true
  · simp [ho]
  · cases hw : (s.timerObj timer).watch with
    | none => simp [ho, hw]
    | some w0 =>
      simp only [ho, hw, Bool.false_eq_true, if_false]
      refine ⟨fun w hne => ?_, rfl⟩
      have hne' : w ≠ w0 := fun e => hne (by rw [e])
      simp [St.setWatch, Function.update_noteq hne']

/-- The end of the block for a due timer writes the child `timeout` of the
watch of a debounce timer and nothing else of the watch objects, and the child
`time` of the timer and nothing else of the timer objects. -/
theorem jsiIdleTimerFinish_only (timer : JsVarRef) (watchPtr : Option JsVarRef)
    (exec rec : Bool) (s : St) :
    (∀ w, watchPtr ≠ some w →
      (jsiIdleTimerFinish timer watchPtr exec rec s).watchObj w = s.watchObj w) ∧
    (jsiIdleTimerFinish timer watchPtr exec rec s).jsiLastIdleTime = s.jsiLastIdleTime ∧
    (∀ x, ((jsiIdleTimerFinish timer watchPtr exec rec s).timerObj x).watch =
        (s.timerObj x).watch ∧
      ((jsiIdleTimerFinish timer watchPtr exec rec s).timerObj x).recur =
        (s.timerObj x).recur ∧
      ((jsiIdleTimerFinish timer watchPtr exec rec s).timerObj x).callback =
        (s.timerObj x).callback) := by
  -- the part for the watch
  have hwatch : ∀ (x : St), x = (match watchPtr with
      | none => s
      | some w =>
        if (exec && !((s.setWatch w fun y => { y with timeout := none }).watchObj w).recur) = true
        then jsiIdleTimerUnwatch w (s.setWatch w fun y => { y with timeout := none })
        else s.setWatch w fun y => { y with timeout := none }) →
      (∀ w, watchPtr ≠ some w → x.watchObj w = s.watchObj w) ∧
        x.jsiLastIdleTime = s.jsiLastIdleTime ∧ x.timerObj = s.timerObj := by
    intro x hx
    subst hx
    cases watchPtr with
    | none => exact ⟨fun _ _ => rfl, rfl, rfl⟩
    | some w0 =>
      have hun : ∀ y : St, (jsiIdleTimerUnwatch w0 y).watchObj = y.watchObj ∧
          (jsiIdleTimerUnwatch w0 y).jsiLastIdleTime = y.jsiLastIdleTime ∧
          (jsiIdleTimerUnwatch w0 y).timerObj = y.timerObj := by
        intro y
        unfold jsiIdleTimerUnwatch jshPinWatch
        simp only
        split_ifs <;> exact ⟨rfl, rfl, rfl⟩
      simp only
      split_ifs
      · refine ⟨fun w hne => ?_, ?_, ?_⟩
        · rw [(hun _).1]
          exact setWatch_watchObj_ne _ _ _ _ (fun e => hne (by rw [e]))
        · rw [(hun _).2.1]; rfl
        · rw [(hun _).2.2]; rfl
      · exact ⟨fun w hne => setWatch_watchObj_ne _ _ _ _ (fun e => hne (by rw [e])), rfl, rfl⟩
  obtain ⟨h1, h2, h3⟩ := hwatch _ rfl
  unfold jsiIdleTimerFinish
  simp only
  split_ifs
  · refine ⟨fun w hne => h1 w hne, h2, fun x => ?_⟩
    by_cases hx : x = timer
    · subst hx
      rw [setTimer_timerObj_same, h3]
      exact ⟨rfl, rfl, rfl⟩
    · rw [setTimer_timerObj_ne _ _ _ _ hx, h3]
      exact ⟨rfl, rfl, rfl⟩
  · refine ⟨fun w hne => h1 w hne, h2, fun x => ?_⟩
    by_cases hx : x = timer
    · subst hx
      rw [setTimer_timerObj_same, h3]
      exact ⟨rfl, rfl, rfl⟩
    · rw [setTimer_timerObj_ne _ _ _ _ hx, h3]
      exact ⟨rfl, rfl, rfl⟩
  · exact ⟨fun w hne => h1 w hne, h2, fun x => by
      show ((_ : St).timerObj x).watch = _ ∧ _
      rw [h3]; exact ⟨rfl, rfl, rfl⟩⟩
  · exact ⟨fun w hne => h1 w hne, h2, fun x => by rw [h3]; exact ⟨rfl, rfl, rfl⟩⟩

/-- The frame of a body is kept by well-formedness. -/
theorem TimerBodyFrame.wf {p : JsVarRef} {s s' : St} (h : TimerBodyFrame p s s')
    (hwf : s.timersWF) : s'.timersWF := by
  rcases h.table with e | e
  · exact ⟨by rw [e]; exact hwf.1, fun r hr => lt_of_lt_of_le (hwf.2 r (e ▸ hr)) h.nextRef⟩
  · exact ⟨by rw [e]; exact hwf.1.erase _,
      fun r hr => lt_of_lt_of_le (hwf.2 r (List.mem_of_mem_erase (e ▸ hr))) h.nextRef⟩

/-- The block for a due timer, when callbacks keep the timer table. -/
theorem jsiIdleTimerFire_body (env : Env) (timer : JsVarRef) (s s' : St)
    (hcb : ∀ f args st, ∀ a ∈ env.interp f args st, a.keepsTimers)
    (h : jsiIdleTimerFire env timer s = some s') : TimerBodyFrame timer s s' := by
  obtain ⟨hto, hta, hnr⟩ := jsiIdleTimerData_frame env timer s
  obtain ⟨hdw, hdl⟩ := jsiIdleTimerData_watchObj env timer s
  have hdt := jsiIdleTimerData_trace env timer s
  -- the end of the block
  have hfin : ∀ (exec rec : Bool) (x : St),
      x.timerArray = s.timerArray →
      (∀ r, r < s.nextRef → x.timerObj r = s.timerObj r) →
      (∀ w, (s.timerObj timer).watch ≠ some w → w < s.nextRef → x.watchObj w = s.watchObj w) →
      x.jsiLastIdleTime = s.jsiLastIdleTime → s.nextRef ≤ x.nextRef →
      (∃ calls, x.trace = s.trace ++ calls) →
      TimerBodyFrame timer s
        (jsiIdleTimerFinish timer (s.timerObj timer).watch exec rec x) := by
    intro exec rec x harr hobj hwat hlast hnext htr
    obtain ⟨htab, hn⟩ := jsiIdleTimerFinish_table timer (s.timerObj timer).watch exec rec x
    obtain ⟨f1, _⟩ := jsiIdleTimerFinish_frame timer (s.timerObj timer).watch exec rec x
    obtain ⟨o1, o2, o3⟩ := jsiIdleTimerFinish_only timer (s.timerObj timer).watch exec rec x
    refine ⟨?_, fun r hne hr => by rw [f1 r hne]; exact hobj r hr, fun r hr => ?_,
      fun w hne hw => by rw [o1 w hne]; exact hwat w hne hw, by rw [o2]; exact hlast,
      by rw [hn]; exact hnext, by rw [jsiIdleTimerFinish_trace]; exact htr⟩
    · rcases htab with e | e
      · exact Or.inl (by rw [e, harr])
      · exact Or.inr (by rw [e, harr])
    · obtain ⟨a, b, c⟩ := o3 r
      rw [a, b, c, hobj r hr]
      exact ⟨rfl, rfl, rfl⟩
  unfold jsiIdleTimerFire at h
  simp only at h
  split at h
  · split at h
    · rename_i ok s4 hchain
      have hp := jsiExecuteEventCallback_preserves env _ _ _ _ _ hchain
      have harr := jsiExecuteEventCallback_rel env _ (stepClosed_timerArray env hcb)
        _ _ _ _ _ hchain
      have htr := jsiExecuteEventCallback_trace env _ _ _ _ _ hchain
      simp only at hp harr htr
      have harr4 : s4.timerArray = s.timerArray := by rw [harr, hta]
      have hobj4 : ∀ r, r < s.nextRef → s4.timerObj r = s.timerObj r := fun r hr => by
        rw [hp.timerObj r (lt_of_lt_of_le hr hnr), hto]
      have hwat4 : ∀ w, (s.timerObj timer).watch ≠ some w → w < s.nextRef →
          s4.watchObj w = s.watchObj w := fun w hne hw => by
        rw [hp.watchObj w (lt_of_lt_of_le hw hnr), hdw w hne]
      have hlast4 : s4.jsiLastIdleTime = s.jsiLastIdleTime := by rw [hp.jsiLastIdleTime, hdl]
      have hnext4 : s.nextRef ≤ s4.nextRef := le_trans hnr hp.nextRef
      have htr4 : ∃ calls, s4.trace = s.trace ++ calls := ⟨_, by rw [htr, hdt]⟩
      split at h
      · simp only [Option.some.injEq] at h
        subst h
        exact hfin _ _ (jsError "Error processing interval - removing it." s4) harr4 hobj4
          hwat4 hlast4 hnext4 htr4
      · simp only [Option.some.injEq] at h
        subst h
        exact hfin _ _ s4 harr4 hobj4 hwat4 hlast4 hnext4 htr4
    · cases h
  · simp only [Option.some.injEq] at h
    subst h
    exact hfin _ _ _ hta (fun r _ => by rw [hto]) (fun w hne _ => hdw w hne) hdl hnr
      ⟨[], by rw [hdt]; simp⟩

/-- The body of the timer loop for the timer `timer`, when callbacks keep the
timer table: what it does to the state, and the timer that the loop goes on
with. -/
theorem jsiIdleTimer_body (env : Env) (e : Int) (timer : JsVarRef) (m : Int) (b : Bool)
    (s s' : St) (m1 : Int) (b1 : Bool) (cont : Option (Option JsVarRef))
    (hcb : ∀ f args st, ∀ a ∈ env.interp f args st, a.keepsTimers)
    (h : jsiIdleTimer env e timer m b s = some (m1, b1, cont, s')) :
    TimerBodyFrame timer s s' ∧
    (nextSibling s'.timerArray timer ≠ nextSibling s.timerArray timer → cont = none) ∧
    (nextSibling s'.timerArray timer = nextSibling s.timerArray timer →
      cont = some (nextSibling s.timerArray timer)) ∧
    (¬ (s.timerObj timer).time - e ≤ 0 →
      s' = s.setTimer timer fun t => { t with time := (s.timerObj timer).time - e }) ∧
    ((s.timerObj timer).time - e ≤ 0 →
      jsiIdleTimerFire env timer
        (s.setTimer timer fun t => { t with time := (s.timerObj timer).time - e }) = some s')
    := by
  have hshape : (∃ x, (if (s.timerObj timer).time - e ≤ 0
        then (jsiIdleTimerFire env timer
          (s.setTimer timer fun t => { t with time := (s.timerObj timer).time - e })).map
            fun y => (true, y)
        else some (b, s.setTimer timer fun t =>
          { t with time := (s.timerObj timer).time - e })) = some (x, s')) ∧
      (nextSibling s'.timerArray timer ≠ nextSibling s.timerArray timer → cont = none) ∧
      (nextSibling s'.timerArray timer = nextSibling s.timerArray timer →
        cont = some (nextSibling s.timerArray timer)) := by
    unfold jsiIdleTimer at h
    simp only at h
    split at h
    · cases h
    · rename_i busy1 s2 hf
      split at h
      · rename_i hne
        simp only [Option.some.injEq, Prod.mk.injEq] at h
        obtain ⟨_, _, hc, hs⟩ := h
        subst hs
        exact ⟨⟨busy1, hf⟩, fun _ => hc.symm, fun he => absurd he hne⟩
      · rename_i heq
        simp only [Option.some.injEq, Prod.mk.injEq] at h
        obtain ⟨_, _, hc, hs⟩ := h
        subst hs
        exact ⟨⟨busy1, hf⟩, fun hne => absurd (not_not.1 heq) hne, fun _ => hc.symm⟩
  obtain ⟨⟨x, hx⟩, hc1, hc2⟩ := hshape
  have hidle : ¬ (s.timerObj timer).time - e ≤ 0 →
      s' = s.setTimer timer fun t => { t with time := (s.timerObj timer).time - e } := by
    intro hd
    rw [if_neg hd] at hx
    simp only [Option.some.injEq, Prod.mk.injEq] at hx
    exact hx.2.symm
  have hfire : (s.timerObj timer).time - e ≤ 0 →
      jsiIdleTimerFire env timer
        (s.setTimer timer fun t => { t with time := (s.timerObj timer).time - e }) = some s' := by
    intro hd
    rw [if_pos hd] at hx
    simp only [Option.map_eq_some', Prod.mk.injEq] at hx
    obtain ⟨y, hy, _, rfl⟩ := hx
    exact hy
  refine ⟨?_, hc1, hc2, hidle, hfire⟩
  -- the frame of the first statement of the body
  have hset : TimerBodyFrame timer s
      (s.setTimer timer fun t => { t with time := (s.timerObj timer).time - e }) :=
    ⟨Or.inl rfl, fun x hne _ => setTimer_timerObj_ne _ _ _ _ hne, fun x _ => by
        by_cases hx : x = timer
        · subst hx
          rw [setTimer_timerObj_same]
          exact ⟨rfl, rfl, rfl⟩
        · rw [setTimer_timerObj_ne _ _ _ _ hx]
          exact ⟨rfl, rfl, rfl⟩,
      fun _ _ _ => rfl, rfl, le_refl _, ⟨[], by simp [St.setTimer]⟩⟩
  by_cases hd : (s.timerObj timer).time - e ≤ 0
  · have hf := jsiIdleTimerFire_body env timer _ s' hcb (hfire hd)
    have hlink : ((s.setTimer timer fun t =>
        { t with time := (s.timerObj timer).time - e }).timerObj timer).watch =
        (s.timerObj timer).watch := by rw [setTimer_timerObj_same]
    refine ⟨hf.table, fun x hne hx => by rw [hf.others x hne hx]; exact hset.others x hne hx,
      fun x hx => ?_, fun w hne hw => hf.watches w (by rw [hlink]; exact hne) hw, hf.lastIdle,
      hf.nextRef, hf.trace⟩
    obtain ⟨a1, a2, a3⟩ := hf.fields x hx
    obtain ⟨b1', b2, b3⟩ := hset.fields x hx
    exact ⟨a1.trans b1', a2.trans b2, a3.trans b3⟩
  · rw [hidle hd]
    exact hset

/-- A state is in the sweep frame of itself. -/
theorem timerSweepFrame_refl (T : JsVarRef) (s : St) (hT : T ∈ s.timerArray)
    (hwf : s.timersWF) : TimerSweepFrame T s s :=
  ⟨hT, hwf, fun _ h => h, fun _ _ => ⟨rfl, rfl, rfl⟩, fun _ _ _ => rfl, le_refl _,
    ⟨[], by simp⟩⟩

/-- Sweep frames compose. -/
theorem timerSweepFrame_trans {T : JsVarRef} {s a b : St} (hwf : s.timersWF)
    (h1 : TimerSweepFrame T s a) (h2 : TimerSweepFrame T a b) : TimerSweepFrame T s b := by
  refine ⟨h2.mem, h2.wf, fun x hx => h1.sub x (h2.sub x hx), fun x hx => ?_, fun w hw hlt => ?_,
    le_trans h1.nextRef h2.nextRef, ?_⟩
  · obtain ⟨a1, a2, a3⟩ := h1.fields x hx
    obtain ⟨b1, b2, b3⟩ := h2.fields x (lt_of_lt_of_le hx h1.nextRef)
    exact ⟨b1.trans a1, b2.trans a2, b3.trans a3⟩
  · have hcond : ∀ p ∈ a.timerArray, p ≠ T → (a.timerObj p).watch ≠ some w := by
      intro p hp hne
      have hps := h1.sub p hp
      rw [(h1.fields p (hwf.2 p hps)).1]
      exact hw p hps hne
    rw [h2.watches w hcond (lt_of_lt_of_le hlt h1.nextRef)]
    exact h1.watches w hw hlt
  · obtain ⟨c1, e1⟩ := h1.trace
    obtain ⟨c2, e2⟩ := h2.trace
    exact ⟨c1 ++ c2, by rw [e2, e1, List.append_assoc]⟩

/-- The body of the timer loop for a timer other than `T` is in the sweep
frame of `T`, and leaves the variable of `T` as it is. -/
theorem timerSweepFrame_body {T c : JsVarRef} {s s' : St} (hwf : s.timersWF)
    (hT : T ∈ s.timerArray) (hc : c ∈ s.timerArray) (hne : c ≠ T)
    (h : TimerBodyFrame c s s') :
    TimerSweepFrame T s s' ∧ s'.timerObj T = s.timerObj T ∧
      s'.jsiLastIdleTime = s.jsiLastIdleTime := by
  have hsub : ∀ x, x ∈ s'.timerArray → x ∈ s.timerArray := by
    intro x hx
    rcases h.table with e | e
    · rw [e] at hx; exact hx
    · rw [e] at hx; exact List.mem_of_mem_erase hx
  have hmem : T ∈ s'.timerArray := by
    rcases h.table with e | e
    · rw [e]; exact hT
    · rw [e]; exact (List.mem_erase_of_ne (Ne.symm hne)).2 hT
  exact ⟨⟨hmem, h.wf hwf, hsub, h.fields, fun w hw hlt => h.watches w (hw c hc hne) hlt,
    h.nextRef, h.trace⟩, h.others T (Ne.symm hne) (hwf.2 T hT), h.lastIdle⟩

/-- The timers for which a sweep runs the block for a due timer, by the body
of the first timer of the sweep. -/
theorem jsiIdleTimerLoopFired_step (env : Env) (e : Int) (fuel : Nat) (c : JsVarRef)
    (m : Int) (b : Bool) (s s1 : St) (m1 : Int) (b1 : Bool) (cont : Option (Option JsVarRef))
    (hb : jsiIdleTimer env e c m b s = some (m1, b1, cont, s1)) :
    jsiIdleTimerLoopFired env e (fuel + 1) (some c) s =
      (if (s.timerObj c).time - e ≤ 0 then [c] else []) ++
        match cont with
        | some next => jsiIdleTimerLoopFired env e fuel next s1
        | none => [] := by
  obtain ⟨_, _, m2, b2, hb2⟩ := jsiIdleTimer_busy env e c m b s _ hb
  simp only at hb2
  simp only [jsiIdleTimerLoopFired, hb2]
  cases cont <;> rfl

/-- The rest of a sweep whose body for the timer `c` has removed `c` from the
table: the sweep ends with this body. -/
theorem jsiIdleTimerLoop_removed (env : Env) (e : Int) (fuel : Nat) (c : JsVarRef)
    (m : Int) (b : Bool) (s s1 : St) (m1 : Int) (b1 : Bool) (cont : Option (Option JsVarRef))
    (r : Int × Bool × St)
    (hcb : ∀ f args st, ∀ a ∈ env.interp f args st, a.keepsTimers)
    (hb : jsiIdleTimer env e c m b s = some (m1, b1, cont, s1))
    (hgone : c ∉ s1.timerArray)
    (h : jsiIdleTimerLoop env e (fuel + 1) (some c) m b s = some r) :
    r.2.2 = s1 ∧
    jsiIdleTimerLoopFired env e (fuel + 1) (some c) s =
      if (s.timerObj c).time - e ≤ 0 then [c] else [] := by
  obtain ⟨_, hc1, hc2, _, _⟩ := jsiIdleTimer_body env e c m b s s1 m1 b1 cont hcb hb
  have hcur : nextSibling s1.timerArray c = none := nextSibling_not_mem _ _ hgone
  rw [jsiIdleTimerLoopFired_step env e fuel c m b s s1 m1 b1 cont hb]
  simp only [jsiIdleTimerLoop, hb] at h
  cases cont with
  | none =>
    simp only [Option.some.injEq] at h
    subst h
    exact ⟨rfl, by simp⟩
  | some next =>
    have hsame : nextSibling s1.timerArray c = nextSibling s.timerArray c := by
      by_contra hne
      cases hc1 hne
    have hn := hc2 hsame
    rw [← hsame, hcur] at hn
    simp only [Option.some.injEq] at hn
    subst hn
    have hl : jsiIdleTimerLoop env e fuel none m1 b1 s1 = some (m1, b1, s1) := by
      cases fuel <;> rfl
    simp only [hl, Option.some.injEq] at h
    subst h
    refine ⟨rfl, ?_⟩
    cases fuel <;> simp [jsiIdleTimerLoopFired]

/-- A sweep that goes on behind the timer `T`: `T` stays in the table with its
variable as it is, and the sweep does not run the block for a due timer for
it. -/
theorem jsiIdleTimerLoop_behind (env : Env) (e : Int) (T : JsVarRef)
    (hcb : ∀ f args st, ∀ a ∈ env.interp f args st, a.keepsTimers) :
    ∀ (rest done : List JsVarRef) (fuel : Nat) (m : Int) (b : Bool) (s : St)
      (r : Int × Bool × St),
      s.timerArray = done ++ rest → s.timersWF → T ∈ done →
      jsiIdleTimerLoop env e fuel rest.head? m b s = some r →
      TimerSweepFrame T s r.2.2 ∧ r.2.2.timerObj T = s.timerObj T ∧
        T ∉ jsiIdleTimerLoopFired env e fuel rest.head? s
  | [], done, fuel, m, b, s, r, harr, hwf, hT, h => by
      have hTs : T ∈ s.timerArray := by rw [harr]; simp [hT]
      cases fuel <;>
      · simp only [List.head?_nil, jsiIdleTimerLoop, Option.some.injEq] at h
        subst h
        exact ⟨timerSweepFrame_refl T s hTs hwf, rfl, by simp [jsiIdleTimerLoopFired]⟩
  | c :: rest, done, 0, m, b, s, r, harr, hwf, hT, h => by
      simp [jsiIdleTimerLoop] at h
  | c :: rest, done, fuel + 1, m, b, s, r, harr, hwf, hT, h => by
      have hTs : T ∈ s.timerArray := by rw [harr]; simp [hT]
      have hcs : c ∈ s.timerArray := by rw [harr]; simp
      have hnd : (done ++ c :: rest).Nodup := harr ▸ hwf.1
      have hcd : c ∉ done := fun hm =>
        (List.nodup_append.1 hnd).2.2 hm (List.mem_cons_self _ _)
      have hne : c ≠ T := fun e => hcd (e ▸ hT)
      have hnext : nextSibling s.timerArray c = rest.head? := by
        rw [harr]; exact nextSibling_append done rest c hcd
      simp only [List.head?_cons] at h ⊢
      cases hb : jsiIdleTimer env e c m b s with
      | none => simp [jsiIdleTimerLoop, hb] at h
      | some x =>
        obtain ⟨m1, b1, cont, s1⟩ := x
        obtain ⟨hframe, hc1, hc2, _, _⟩ := jsiIdleTimer_body env e c m b s s1 m1 b1 cont hcb hb
        obtain ⟨hk, hobj, _⟩ := timerSweepFrame_body hwf hTs hcs hne hframe
        have hdue : T ∉ (if (s.timerObj c).time - e ≤ 0 then [c] else []) := by
          split_ifs <;> simp [Ne.symm hne]
        rcases hframe.table with htab | htab
        · -- the timer is still in the table
          have hcont : cont = some rest.head? := by rw [← hnext]; exact hc2 (by rw [htab])
          subst hcont
          rw [jsiIdleTimerLoopFired_step env e fuel c m b s s1 m1 b1 _ hb]
          simp only [jsiIdleTimerLoop, hb] at h
          have harr1 : s1.timerArray = (done ++ [c]) ++ rest := by rw [htab, harr]; simp
          obtain ⟨ih1, ih2, ih3⟩ := jsiIdleTimerLoop_behind env e T hcb rest (done ++ [c]) fuel
            m1 b1 s1 r harr1 hk.wf (by simp [hT]) h
          refine ⟨timerSweepFrame_trans hwf hk ih1, by rw [ih2, hobj], ?_⟩
          simp only [List.mem_append, not_or]
          exact ⟨hdue, ih3⟩
        · -- the body has removed the timer
          have hgone : c ∉ s1.timerArray := by rw [htab]; exact hwf.1.not_mem_erase
          obtain ⟨hr, hf⟩ := jsiIdleTimerLoop_removed env e fuel c m b s s1 m1 b1 cont r hcb hb
            hgone h
          rw [hr, hf]
          exact ⟨hk, hobj, hdue⟩

/-- A sweep from the first timer of the table reaches the timer `T` when none
of the timers that stand before `T` is missing from the table at the end of
the sweep: at the body of `T` the table is as at the start, and so is the
variable of `T`. -/
theorem jsiIdleTimerLoop_reach (env : Env) (e : Int) (T : JsVarRef)
    (hcb : ∀ f args st, ∀ a ∈ env.interp f args st, a.keepsTimers) :
    ∀ (pre done post : List JsVarRef) (fuel : Nat) (m : Int) (b : Bool) (s : St)
      (r : Int × Bool × St),
      s.timerArray = done ++ (pre ++ T :: post) → s.timersWF →
      jsiIdleTimerLoop env e fuel (pre ++ T :: post).head? m b s = some r →
      (∀ p ∈ pre, p ∈ r.2.2.timerArray) →
      ∃ (fuel1 : Nat) (m1 : Int) (b1 : Bool) (a : St) (F : List JsVarRef),
        jsiIdleTimerLoop env e fuel1 (some T) m1 b1 a = some r ∧
        a.timerArray = s.timerArray ∧ TimerSweepFrame T s a ∧ a.timerObj T = s.timerObj T ∧
        a.jsiLastIdleTime = s.jsiLastIdleTime ∧ T ∉ F ∧
        jsiIdleTimerLoopFired env e fuel (pre ++ T :: post).head? s =
          F ++ jsiIdleTimerLoopFired env e fuel1 (some T) a
  | [], done, post, fuel, m, b, s, r, harr, hwf, h, _ => by
      have hTs : T ∈ s.timerArray := by rw [harr]; simp
      exact ⟨fuel, m, b, s, [], h, rfl, timerSweepFrame_refl T s hTs hwf, rfl, rfl, by simp,
        by simp⟩
  | c :: pre, done, post, 0, m, b, s, r, harr, hwf, h, _ => by
      simp [jsiIdleTimerLoop] at h
  | c :: pre, done, post, fuel + 1, m, b, s, r, harr, hwf, h, hkeep => by
      have hTs : T ∈ s.timerArray := by rw [harr]; simp
      have hcs : c ∈ s.timerArray := by rw [harr]; simp
      have hnd : (done ++ c :: (pre ++ T :: post)).Nodup := by
        have := hwf.1
        rw [harr] at this
        simpa using this
      have hcd : c ∉ done := fun hm =>
        (List.nodup_append.1 hnd).2.2 hm (List.mem_cons_self _ _)
      have hne : c ≠ T := by
        intro e
        have h2 := (List.nodup_append.1 hnd).2.1
        rw [List.nodup_cons] at h2
        exact h2.1 (by simp [e])
      have hnext : nextSibling s.timerArray c = (pre ++ T :: post).head? := by
        rw [harr]; exact nextSibling_append done (pre ++ T :: post) c hcd
      simp only [List.cons_append, List.head?_cons] at h ⊢
      cases hb : jsiIdleTimer env e c m b s with
      | none => simp [jsiIdleTimerLoop, hb] at h
      | some x =>
        obtain ⟨m1, b1, cont, s1⟩ := x
        obtain ⟨hframe, hc1, hc2, _, _⟩ := jsiIdleTimer_body env e c m b s s1 m1 b1 cont hcb hb
        obtain ⟨hk, hobj, hlast⟩ := timerSweepFrame_body hwf hTs hcs hne hframe
        have hdue : T ∉ (if (s.timerObj c).time - e ≤ 0 then [c] else []) := by
          split_ifs <;> simp [Ne.symm hne]
        rcases hframe.table with htab | htab
        · have hcont : cont = some (pre ++ T :: post).head? := by
            rw [← hnext]; exact hc2 (by rw [htab])
          subst hcont
          rw [jsiIdleTimerLoopFired_step env e fuel c m b s s1 m1 b1 _ hb]
          simp only [jsiIdleTimerLoop, hb] at h
          have harr1 : s1.timerArray = (done ++ [c]) ++ (pre ++ T :: post) := by
            rw [htab, harr]; simp
          obtain ⟨fuel1, m2, b2, a, F, i1, i2, i3, i4, i7, i5, i6⟩ :=
            jsiIdleTimerLoop_reach env e T hcb pre (done ++ [c]) post fuel m1 b1 s1 r harr1
              hk.wf h (fun p hp => hkeep p (List.mem_cons_of_mem _ hp))
          refine ⟨fuel1, m2, b2, a, (if (s.timerObj c).time - e ≤ 0 then [c] else []) ++ F, i1,
            by rw [i2, htab], timerSweepFrame_trans hwf hk i3, by rw [i4, hobj],
            by rw [i7, hlast], ?_, ?_⟩
          · simp only [List.mem_append, not_or]
            exact ⟨hdue, i5⟩
          · simp only
            rw [i6, List.append_assoc]
        · have hgone : c ∉ s1.timerArray := by rw [htab]; exact hwf.1.not_mem_erase
          obtain ⟨hr, _⟩ := jsiIdleTimerLoop_removed env e fuel c m b s s1 m1 b1 cont r hcb hb
            hgone h
          exact absurd (hr ▸ hkeep c (List.mem_cons_self _ _)) hgone

/-- A table that holds `T` is the timers before `T`, then `T`, then the
rest. -/
theorem timersBefore_split (T : JsVarRef) :
    ∀ l : List JsVarRef, T ∈ l → ∃ post, l = (l.takeWhile fun r => r != T) ++ T :: post
  | [], h => by cases h
  | c :: l, h => by
      by_cases hc : c = T
      · subst hc
        exact ⟨l, by simp [List.takeWhile]⟩
      · have hm : T ∈ l := by
          rcases List.mem_cons.1 h with e | e
          · exact absurd e.symm hc
          · exact e
        obtain ⟨post, hp⟩ := timersBefore_split T l hm
        refine ⟨post, ?_⟩
        have hb : (c != T) = true := by simp [hc]
        rw [List.takeWhile_cons, hb]
        simp only [if_true, List.cons_append]
        rw [← hp]

/-- The block for a due timer that is not recurring takes the timer out of the
table, when callbacks keep the timer table. -/
theorem jsiIdleTimerFire_oneShot (env : Env) (timer : JsVarRef) (s s' : St)
    (hcb : ∀ f args st, ∀ a ∈ env.interp f args st, a.keepsTimers)
    (hrec : (s.timerObj timer).recur = false)
    (h : jsiIdleTimerFire env timer s = some s') :
    s'.timerArray = s.timerArray.erase timer := by
  obtain ⟨hto, hta, _⟩ := jsiIdleTimerData_frame env timer s
  have hrec3 : ((jsiIdleTimerData env timer s).2.2.timerObj timer).recur = false := by
    rw [hto]; exact hrec
  unfold jsiIdleTimerFire at h
  simp only [hrec3, Bool.and_false, Bool.false_eq_true, if_false] at h
  split at h
  · split at h
    · rename_i ok s4 hchain
      have harr := jsiExecuteEventCallback_rel env _ (stepClosed_timerArray env hcb)
        _ _ _ _ _ hchain
      simp only at harr
      simp only [Option.some.injEq] at h
      subst h
      rw [(jsiIdleTimerFinish_removes timer _ _ s4).1, harr, hta]
    · cases h
  · simp only [Option.some.injEq] at h
    subst h
    rw [(jsiIdleTimerFinish_removes timer _ _ _).1, hta]

/-- The body of the timer loop for a timer without watch link that is due: the
callback chain of the timer is invoked once. -/
theorem jsiIdleTimer_plain_due (env : Env) (e : Int) (T : JsVarRef) (m : Int) (b : Bool)
    (s : St) (x : Int × Bool × Option (Option JsVarRef) × St)
    (hwatch : (s.timerObj T).watch = none)
    (hdue : (s.timerObj T).time - e ≤ 0)
    (h : jsiIdleTimer env e T m b s = some x) :
    x.2.2.2.trace = s.trace ++ callbackInvocations (s.timerObj T).callback
      (jsiIdleTimerArg env e T s) .undefined := by
  set s1 := s.setTimer T fun t => { t with time := (s.timerObj T).time - e } with hs1
  have hobj1 : s1.timerObj T = { s.timerObj T with time := (s.timerObj T).time - e } := by
    rw [hs1, setTimer_timerObj_same]
  have hw1 : (s1.timerObj T).watch = none := by rw [hobj1]; exact hwatch
  obtain ⟨hexec, _, _, _, _, htr, _⟩ := jsiIdleTimerData_plain env T s1 hw1
  unfold jsiIdleTimer at h
  simp only [← hs1, if_pos hdue] at h
  cases hf : jsiIdleTimerFire env T s1 with
  | none => simp [hf] at h
  | some s2 =>
    simp only [hf, Option.map_some'] at h
    have hx : x.2.2.2 = s2 := by
      split at h <;> (simp only [Option.some.injEq] at h; rw [← h])
    rw [hx]
    unfold jsiIdleTimerFire at hf
    simp only [hexec, if_true] at hf
    split at hf
    · rename_i ok s4 hchain
      have htr4 := jsiExecuteEventCallback_trace env _ _ _ _ _ hchain
      simp only at htr4
      have hs2 : s2.trace = s4.trace := by
        split at hf <;>
        · simp only [Option.some.injEq] at hf
          subst hf
          rw [jsiIdleTimerFinish_trace]
          try rfl
      rw [hs2, htr4, htr, hobj1]
      rfl
    · cases hf

/-- Writing the remaining ticks of `T` is in the sweep frame of `T`. -/
theorem timerSweepFrame_setTimer (T : JsVarRef) (s : St) (f : Timer → Timer)
    (hT : T ∈ s.timerArray) (hwf : s.timersWF)
    (hf : ∀ t, (f t).watch = t.watch ∧ (f t).recur = t.recur ∧ (f t).callback = t.callback) :
    TimerSweepFrame T s (s.setTimer T f) := by
  refine ⟨hT, hwf, fun _ h => h, fun x _ => ?_, fun _ _ _ => rfl, le_refl _, ⟨[], ?_⟩⟩
  · by_cases hx : x = T
    · subst hx
      rw [setTimer_timerObj_same]
      exact hf _
    · rw [setTimer_timerObj_ne _ _ _ _ hx]
      exact ⟨rfl, rfl, rfl⟩
  · simp [St.setTimer]

/-- A sweep of the timer loop over a table that holds the one-shot timer `T`,
when callbacks keep the timer table and none of the timers that stand before
`T` is missing from the table at the end of the sweep. If `T` is not due, it
stays in the table with its remaining ticks decreased by the elapsed ticks, and
the block for a due timer does not run for it. If it is due, the body of the
loop runs for it once, in a state that has the table and the variable of `T` of
the start, and the sweep ends with `T` out of the table. -/
theorem jsiIdleTimerLoop_oneShot (env : Env) (e : Int) (T : JsVarRef)
    (hcb : ∀ f args st, ∀ a ∈ env.interp f args st, a.keepsTimers)
    (fuel : Nat) (m : Int) (b : Bool) (s : St) (r : Int × Bool × St)
    (h : jsiIdleTimerLoop env e fuel s.timerArray.head? m b s = some r)
    (hwf : s.timersWF) (hT : T ∈ s.timerArray) (hrec : (s.timerObj T).recur = false)
    (hkeep : ∀ p ∈ s.timersBefore T, p ∈ r.2.2.timerArray) :
    (¬ (s.timerObj T).time - e ≤ 0 →
      TimerSweepFrame T s r.2.2 ∧
      r.2.2.timerObj T = { s.timerObj T with time := (s.timerObj T).time - e } ∧
      T ∉ jsiIdleTimerLoopFired env e fuel s.timerArray.head? s) ∧
    ((s.timerObj T).time - e ≤ 0 →
      T ∉ r.2.2.timerArray ∧ r.2.2.timersWF ∧ T < r.2.2.nextRef ∧
      (jsiIdleTimerLoopFired env e fuel s.timerArray.head? s).count T = 1 ∧
      ∃ (a : St) (m1 : Int) (b1 : Bool) (x : Int × Bool × Option (Option JsVarRef) × St),
        a.timerArray = s.timerArray ∧ TimerSweepFrame T s a ∧ a.timerObj T = s.timerObj T ∧
        a.jsiLastIdleTime = s.jsiLastIdleTime ∧
        jsiIdleTimer env e T m1 b1 a = some x ∧ x.2.2.2 = r.2.2) := by
  obtain ⟨post, hsplit0⟩ := timersBefore_split T s.timerArray hT
  have hsplit : s.timerArray = s.timersBefore T ++ T :: post := hsplit0
  have hsplit1 : s.timerArray = [] ++ (s.timersBefore T ++ T :: post) := hsplit0
  have hhead : s.timerArray.head? = (s.timersBefore T ++ T :: post).head? := by
    rw [← List.nil_append (s.timersBefore T ++ T :: post), ← hsplit1]
  rw [hhead] at h ⊢
  obtain ⟨fuel1, m1, b1, a, F, hl, harr, hk, hobj, hlast, hF, hfired⟩ :=
    jsiIdleTimerLoop_reach env e T hcb (s.timersBefore T) [] post fuel m b s r hsplit1 hwf h
      hkeep
  rw [hfired]
  have hnd : (s.timersBefore T ++ T :: post).Nodup :=
    Eq.mp (congrArg List.Nodup hsplit) hwf.1
  have hTpre : T ∉ s.timersBefore T := fun hm =>
    (List.nodup_append.1 hnd).2.2 hm (List.mem_cons_self _ _)
  have hnext : nextSibling a.timerArray T = post.head? := by
    rw [harr, hsplit]; exact nextSibling_append _ post T hTpre
  cases fuel1 with
  | zero => simp [jsiIdleTimerLoop] at hl
  | succ fuel1 =>
    cases hb : jsiIdleTimer env e T m1 b1 a with
    | none => simp [jsiIdleTimerLoop, hb] at hl
    | some x =>
      obtain ⟨m2, b2, cont, s2⟩ := x
      obtain ⟨hframe, hc1, hc2, hidle, hfire⟩ :=
        jsiIdleTimer_body env e T m1 b1 a s2 m2 b2 cont hcb hb
      rw [hobj] at hidle hfire
      constructor
      · -- the timer is not due
        intro hd
        have hs2 := hidle hd
        have hcont : cont = some post.head? := by
          rw [← hnext]; exact hc2 (by rw [hs2]; rfl)
        subst hcont
        rw [jsiIdleTimerLoopFired_step env e fuel1 T m1 b1 a s2 m2 b2 _ hb]
        simp only [jsiIdleTimerLoop, hb] at hl
        have harr2 : s2.timerArray = (s.timersBefore T ++ [T]) ++ post := by
          rw [hs2]
          show a.timerArray = _
          rw [harr, hsplit]
          simp
        have hk2 : TimerSweepFrame T a s2 := by
          rw [hs2]
          exact timerSweepFrame_setTimer T a _ hk.mem hk.wf (fun _ => ⟨rfl, rfl, rfl⟩)
        obtain ⟨i1, i2, i3⟩ := jsiIdleTimerLoop_behind env e T hcb post
          (s.timersBefore T ++ [T]) fuel1 m2 b2 s2 r harr2 hk2.wf (by simp) hl
        refine ⟨timerSweepFrame_trans hwf hk (timerSweepFrame_trans hk.wf hk2 i1), ?_, ?_⟩
        · rw [i2, hs2, setTimer_timerObj_same, hobj]
        · rw [hobj, if_neg hd]
          simp only [List.mem_append, not_or, List.nil_append]
          exact ⟨hF, i3⟩
      · -- the timer is due
        intro hd
        have hrec1 : ((a.setTimer T fun t =>
            { t with time := (s.timerObj T).time - e }).timerObj T).recur = false := by
          rw [setTimer_timerObj_same]
          show (a.timerObj T).recur = false
          rw [hobj]; exact hrec
        have htab := jsiIdleTimerFire_oneShot env T _ s2 hcb hrec1 (hfire hd)
        have htab2 : s2.timerArray = a.timerArray.erase T := htab
        have hgone : T ∉ s2.timerArray := by rw [htab2]; exact hk.wf.1.not_mem_erase
        obtain ⟨hr, hf⟩ := jsiIdleTimerLoop_removed env e fuel1 T m1 b1 a s2 m2 b2 cont r hcb hb
          hgone hl
        rw [hr, hf, hobj, if_pos hd]
        refine ⟨hgone, hframe.wf hk.wf,
          lt_of_lt_of_le (hk.wf.2 T hk.mem) hframe.nextRef, ?_, a, m1, b1, _, harr, hk, hobj,
          hlast, hb, rfl⟩
        rw [List.count_append, List.count_eq_zero_of_not_mem hF]
        simp

/-- A sweep does not run the block for a due timer for a timer that is not in
the table. -/
theorem jsiIdleTimerLoopFired_absent (env : Env) (e : Int) (T : JsVarRef) :
    ∀ (fuel : Nat) (cur : Option JsVarRef) (s : St),
      (∀ c, cur = some c → c ∈ s.timerArray) →
      s.timersWF ∧ T ∉ s.timerArray ∧ T < s.nextRef →
      T ∉ jsiIdleTimerLoopFired env e fuel cur s
  | fuel, none, s, _, _ => by cases fuel <;> simp [jsiIdleTimerLoopFired]
  | 0, some c, s, _, _ => by simp [jsiIdleTimerLoopFired]
  | fuel + 1, some c, s, hcur, hyp => by
      have hne : T ≠ c := fun e => hyp.2.1 (e ▸ hcur c rfl)
      have hdue : T ∉ (if (s.timerObj c).time - e ≤ 0 then [c] else []) := by
        split_ifs <;> simp [hne]
      cases hb : jsiIdleTimer env e c JSSYSTIME_MAX false s with
      | none =>
        simp only [jsiIdleTimerLoopFired, hb, List.append_nil]
        exact hdue
      | some x =>
        obtain ⟨m1, b1, cont, s1⟩ := x
        obtain ⟨hs1, _, hnext⟩ := jsiIdleTimer_absent env e c T _ _ s _ hne hyp hb
        simp only at hs1 hnext
        rw [jsiIdleTimerLoopFired_step env e fuel c _ _ s s1 m1 b1 cont hb]
        simp only [List.mem_append, not_or]
        refine ⟨hdue, ?_⟩
        cases cont with
        | none => simp
        | some next =>
          exact jsiIdleTimerLoopFired_absent env e T fuel next s1
            (fun n hn => hnext n (by rw [hn])) hs1

theorem elapsedUpTo_zero (c : TimerCheck) (rest : List TimerCheck) :
    elapsedUpTo (c :: rest) 0 = c.timePassed := by
  simp [elapsedUpTo]

theorem elapsedUpTo_succ (c : TimerCheck) (rest : List TimerCheck) (k : Nat) :
    elapsedUpTo (c :: rest) (k + 1) = c.timePassed + elapsedUpTo rest k := by
  simp [elapsedUpTo, List.take_succ_cons]

/-- With non-negative elapsed ticks, the elapsed ticks of the checks before
check number `k` add up to a non-negative number. -/
theorem elapsedUpTo_before :
    ∀ (log : List TimerCheck) (k : Nat) (c : TimerCheck), log[k]? = some c →
      (∀ x ∈ log, 0 ≤ x.timePassed) →
      0 ≤ elapsedUpTo log k - c.timePassed ∧ 0 ≤ c.timePassed ∧
        (k = 0 → elapsedUpTo log k - c.timePassed = 0)
  | [], k, c, h, _ => by simp at h
  | c0 :: rest, 0, c, h, hn => by
      simp only [List.getElem?_cons_zero, Option.some.injEq] at h
      subst h
      rw [elapsedUpTo_zero]
      exact ⟨by omega, hn _ (List.mem_cons_self _ _), fun _ => by omega⟩
  | c0 :: rest, k + 1, c, h, hn => by
      simp only [List.getElem?_cons_succ] at h
      obtain ⟨i1, i2, _⟩ := elapsedUpTo_before rest k c h
        (fun x hx => hn x (List.mem_cons_of_mem _ hx))
      have h0 := hn c0 (List.mem_cons_self _ _)
      rw [elapsedUpTo_succ]
      exact ⟨by omega, i2, fun h => by omega⟩

/-- The timer checks of successive steps, one step at a time. -/
theorem jsiIdleTimerChecks_succ (env : Env) (fuel n : Nat) (s : St) (log : List TimerCheck)
    (h : jsiIdleTimerChecks env fuel (n + 1) s = some log) :
    ∃ (r : Int × Bool × St) (rest : List TimerCheck),
      jsiIdleTimerLoop env (env.clock (s.clockReads + 1) - s.jsiLastIdleTime) fuel
        s.timerArray.head? JSSYSTIME_MAX false
        { s with clockReads := s.clockReads + 2, jsiLastIdleTime := env.clock s.clockReads }
        = some r ∧
      jsiIdleTimerChecks env fuel n r.2.2 = some rest ∧
      log = { start := s, now := env.clock s.clockReads,
              timePassed := env.clock (s.clockReads + 1) - s.jsiLastIdleTime,
              fired := jsiIdleTimerLoopFired env
                (env.clock (s.clockReads + 1) - s.jsiLastIdleTime) fuel s.timerArray.head?
                { s with clockReads := s.clockReads + 2,
                         jsiLastIdleTime := env.clock s.clockReads },
              finish := r.2.2 } :: rest := by
  simp only [jsiIdleTimerChecks] at h
  cases hr : jsiIdleTimers env fuel false s with
  | none => simp [hr] at h
  | some r =>
    simp only [hr, Option.map_eq_some'] at h
    obtain ⟨rest, h1, h2⟩ := h
    rw [jsiIdleTimers_clock] at hr
    exact ⟨r, rest, hr, h1, h2.symm⟩

/-- The timer checks of successive steps do not run the block for a due timer
for a timer that is not in the table, and do not put it in the table. -/
theorem jsiIdleTimerChecks_absent (env : Env) (fuel : Nat) (T : JsVarRef) :
    ∀ (n : Nat) (s : St) (log : List TimerCheck),
      s.timersWF ∧ T ∉ s.timerArray ∧ T < s.nextRef →
      jsiIdleTimerChecks env fuel n s = some log →
      ∀ c ∈ log, T ∉ c.fired ∧ T ∉ c.finish.timerArray
  | 0, s, log, _, h => by
      simp only [jsiIdleTimerChecks, Option.some.injEq] at h
      subst h
      intro c hc
      cases hc
  | n + 1, s, log, hyp, h => by
      obtain ⟨r, rest, hl, hrest, hlog⟩ := jsiIdleTimerChecks_succ env fuel n s log h
      have h1 : r.2.2.timersWF ∧ T ∉ r.2.2.timerArray ∧ T < r.2.2.nextRef := by
        refine (jsiIdleTimerLoop_absent env _ T fuel _ _ _ _ r ?_ ?_ hl).1
        · exact fun c hc => List.mem_of_mem_head? hc
        · exact hyp
      have ih := jsiIdleTimerChecks_absent env fuel T n r.2.2 rest h1 hrest
      intro c hc
      rw [hlog] at hc
      rcases List.mem_cons.1 hc with e | e
      · subst e
        refine ⟨?_, h1.2.1⟩
        exact jsiIdleTimerLoopFired_absent env _ T fuel _ _
          (fun c hc => List.mem_of_mem_head? hc) hyp
      · exact ih c e

/-- The timer checks of successive steps of `jsiIdle` over a table that holds
the one-shot timer `T` with `I` remaining ticks, when callbacks keep the
timer table, elapsed ticks are not negative, and no check removes a timer
that stands before `T`. Up to a check, `E` ticks have elapsed. While
`E < I`, `T` is in the table with `I - E` ticks and its block for a due timer
has not run. In the first check with `I <= E` the body of the loop runs the
block once, in a state that has the variable of `T` with the ticks it had
before the check and `jsiLastIdleTime` at the time of the check, and `T`
leaves the table; later checks do not run the block for `T`. -/
theorem jsiIdleTimerChecks_run (env : Env) (fuel : Nat) (T : JsVarRef)
    (hcb : ∀ f args st, ∀ a ∈ env.interp f args st, a.keepsTimers) :
    ∀ (n : Nat) (s : St) (log : List TimerCheck),
      s.timersWF → T ∈ s.timerArray → (s.timerObj T).recur = false →
      jsiIdleTimerChecks env fuel n s = some log →
      (∀ c ∈ log, 0 ≤ c.timePassed) →
      (∀ c ∈ log, T ∈ c.start.timerArray →
        ∀ p ∈ c.start.timersBefore T, p ∈ c.finish.timerArray) →
      ∀ (k : Nat) (c : TimerCheck), log[k]? = some c →
        (elapsedUpTo log k < (s.timerObj T).time →
          TimerSweepFrame T s c.finish ∧
          c.finish.timerObj T =
            { s.timerObj T with time := (s.timerObj T).time - elapsedUpTo log k } ∧
          T ∉ c.fired) ∧
        ((s.timerObj T).time ≤ elapsedUpTo log k →
          T ∉ c.finish.timerArray ∧
          c.fired.count T =
            if k = 0 ∨ elapsedUpTo log k - c.timePassed < (s.timerObj T).time then 1 else 0) ∧
        ((s.timerObj T).time ≤ elapsedUpTo log k →
          (k = 0 ∨ elapsedUpTo log k - c.timePassed < (s.timerObj T).time) →
          ∃ (a : St) (m1 : Int) (b1 : Bool) (x : Int × Bool × Option (Option JsVarRef) × St),
            TimerSweepFrame T s a ∧
            a.timerObj T = { s.timerObj T with
              time := (s.timerObj T).time - (elapsedUpTo log k - c.timePassed) } ∧
            a.jsiLastIdleTime = c.now ∧
            (∃ calls, a.trace = c.start.trace ++ calls) ∧
            jsiIdleTimer env c.timePassed T m1 b1 a = some x ∧ x.2.2.2 = c.finish)
  | 0, s, log, _, _, _, hrun, _, _, k, c, hk => by
      simp only [jsiIdleTimerChecks, Option.some.injEq] at hrun
      subst hrun
      simp at hk
  | n + 1, s, log, hwf, hT, hrec, hrun, hnonneg, hkeep, k, c, hk => by
      obtain ⟨r, rest, hl, hrest, hlog⟩ := jsiIdleTimerChecks_succ env fuel n s log hrun
      subst hlog
      have hnonneg1 : ∀ x ∈ rest, 0 ≤ x.timePassed := fun x hx =>
        hnonneg x (List.mem_cons_of_mem _ hx)
      have hkeep1 : ∀ x ∈ rest, T ∈ x.start.timerArray →
          ∀ p ∈ x.start.timersBefore T, p ∈ x.finish.timerArray := fun x hx =>
        hkeep x (List.mem_cons_of_mem _ hx)
      have hkeep0 := hkeep _ (List.mem_cons_self _ _) hT
      have he0 := hnonneg _ (List.mem_cons_self _ _)
      simp only at hkeep0 he0
      obtain ⟨hone1, hone2⟩ := jsiIdleTimerLoop_oneShot env
        (env.clock (s.clockReads + 1) - s.jsiLastIdleTime) T hcb fuel JSSYSTIME_MAX false
        { s with clockReads := s.clockReads + 2, jsiLastIdleTime := env.clock s.clockReads } r
        hl hwf hT hrec hkeep0
      have hk01 : ∀ x : St, x.timersWF → (∀ y, y ∈ x.timerArray → y ∈ s.timerArray) →
          x.timerArray = s.timerArray → x.timerObj = s.timerObj → x.watchObj = s.watchObj →
          x.nextRef = s.nextRef → x.trace = s.trace → TimerSweepFrame T s x := by
        intro x h1 h2 h3 h4 h5 h6 h7
        exact ⟨h3 ▸ hT, h1, h2, fun y _ => by rw [h4]; exact ⟨rfl, rfl, rfl⟩,
          fun w _ _ => by rw [h5], le_of_eq h6.symm, ⟨[], by rw [h7]; simp⟩⟩
      have hk0 : TimerSweepFrame T s
          { s with clockReads := s.clockReads + 2, jsiLastIdleTime := env.clock s.clockReads } :=
        hk01 _ hwf (fun _ h => h) rfl rfl rfl rfl rfl
      cases k with
      | zero =>
        simp only [List.getElem?_cons_zero, Option.some.injEq] at hk
        subst hk
        rw [elapsedUpTo_zero]
        simp only
        refine ⟨fun hlt => ?_, fun hge => ?_, fun hge _ => ?_⟩
        · obtain ⟨f1, f2, f3⟩ := hone1 (by simp only; omega)
          exact ⟨timerSweepFrame_trans hwf hk0 f1, f2, f3⟩
        · obtain ⟨g1, _, _, g4, _⟩ := hone2 (by simp only; omega)
          refine ⟨g1, ?_⟩
          rw [if_pos (Or.inl trivial)]
          exact g4
        · obtain ⟨_, _, _, _, a, m1, b1, x, _, a2, a3, a4, a5, a6⟩ :=
            hone2 (by simp only; omega)
          refine ⟨a, m1, b1, x, timerSweepFrame_trans hwf hk0 a2, ?_, a4, a2.trace, a5, a6⟩
          rw [a3]
          have h0 : (s.timerObj T).time - (env.clock (s.clockReads + 1) - s.jsiLastIdleTime -
              (env.clock (s.clockReads + 1) - s.jsiLastIdleTime)) = (s.timerObj T).time := by
            omega
          rw [h0]
      | succ j =>
        simp only [List.getElem?_cons_succ] at hk
        rw [elapsedUpTo_succ]
        simp only
        obtain ⟨q1, q2, q3⟩ := elapsedUpTo_before rest j c hk hnonneg1
        by_cases hw : env.clock (s.clockReads + 1) - s.jsiLastIdleTime < (s.timerObj T).time
        · -- the timer is still waiting after the first check
          obtain ⟨f1, f2, _⟩ := hone1 (by simp only; omega)
          have hf0 := timerSweepFrame_trans hwf hk0 f1
          have hobj : r.2.2.timerObj T = { s.timerObj T with
              time := (s.timerObj T).time -
                (env.clock (s.clockReads + 1) - s.jsiLastIdleTime) } := f2
          obtain ⟨ih1, ih2, ih3⟩ := jsiIdleTimerChecks_run env fuel T hcb n r.2.2 rest f1.wf
            f1.mem (by rw [hobj]; exact hrec) hrest hnonneg1 hkeep1 j c hk
          rw [hobj] at ih1 ih2 ih3
          simp only at ih1 ih2 ih3
          refine ⟨fun hlt => ?_, fun hge => ?_, fun hge hlt => ?_⟩
          · obtain ⟨i1, i2, i3⟩ := ih1 (by omega)
            refine ⟨timerSweepFrame_trans hwf hf0 i1, ?_, i3⟩
            rw [i2]
            congr 1
            omega
          · obtain ⟨i1, i2⟩ := ih2 (by omega)
            refine ⟨i1, ?_⟩
            rw [i2]
            congr 1
            apply propext
            constructor <;> intro hx <;> omega
          · obtain ⟨a, m1, b1, x, i1, i2, i3, i4, i5, i6⟩ := ih3 (by omega) (by omega)
            refine ⟨a, m1, b1, x, timerSweepFrame_trans hwf hf0 i1, ?_, i3, i4, i5, i6⟩
            rw [i2]
            congr 1
            omega
        · -- the first check has run the block for the timer
          obtain ⟨g1, g2, g3, _⟩ := hone2 (by simp only; omega)
          obtain ⟨p1, p2⟩ := jsiIdleTimerChecks_absent env fuel T n r.2.2 rest ⟨g2, g1, g3⟩ hrest
            c (List.getElem?_mem hk)
          refine ⟨fun hlt => ?_, fun hge => ?_, fun hge hlt => ?_⟩
          · omega
          · refine ⟨p2, ?_⟩
            rw [if_neg (by omega), List.count_eq_zero_of_not_mem p1]
          · omega

/-- C3 (amended). A one-shot timer `T` without watch link stands in the timer
table with `I > 0` remaining ticks. The timer checks of `n` successive steps
of `jsiIdle` run with non-negative elapsed ticks, no callback mutates the
timer table, and no check removes a timer that stands before `T` in the table.
Let `E` be the elapsed ticks of the checks up to and including check `k`.
While `E < I`, `T` is in the table after check `k` with `I - E` ticks left and
the check has not run the block for a due timer for it. When `I <= E`, `T` is
not in the table after check `k`, and check `k` has run the block for `T`
exactly once if it is the first check with `I <= E`, and not at all otherwise.
The check that runs the block for `T` invokes the callback chain of `T` once,
after the calls made for the timers before `T`. -/
theorem jsiIdleTimerChecks_oneShot (env : Env) (fuel n : Nat) (T : JsVarRef) (s : St)
    (log : List TimerCheck)
    (hcb : ∀ f args st, ∀ a ∈ env.interp f args st, a.keepsTimers)
    (hwf : s.timersWF) (hT : T ∈ s.timerArray)
    (hrec : (s.timerObj T).recur = false) (hwatch : (s.timerObj T).watch = none)
    (hpos : 0 < (s.timerObj T).time)
    (hrun : jsiIdleTimerChecks env fuel n s = some log)
    (hnonneg : ∀ c ∈ log, 0 ≤ c.timePassed)
    (hkeep : ∀ c ∈ log, T ∈ c.start.timerArray →
      ∀ p ∈ c.start.timersBefore T, p ∈ c.finish.timerArray)
    (k : Nat) (c : TimerCheck) (hk : log[k]? = some c) :
    (elapsedUpTo log k < (s.timerObj T).time →
      T ∈ c.finish.timerArray ∧
      (c.finish.timerObj T).time = (s.timerObj T).time - elapsedUpTo log k ∧
      T ∉ c.fired) ∧
    ((s.timerObj T).time ≤ elapsedUpTo log k →
      T ∉ c.finish.timerArray ∧
      c.fired.count T =
        if elapsedUpTo log k - c.timePassed < (s.timerObj T).time then 1 else 0) ∧
    (T ∈ c.fired →
      ∃ calls data,
        c.finish.trace = c.start.trace ++ calls ++
          callbackInvocations (s.timerObj T).callback data .undefined) := by
  obtain ⟨g1, g2, g3⟩ := jsiIdleTimerChecks_run env fuel T hcb n s log hwf hT hrec hrun hnonneg
    hkeep k c hk
  obtain ⟨_, _, q3⟩ := elapsedUpTo_before log k c hk hnonneg
  have hcond : (k = 0 ∨ elapsedUpTo log k - c.timePassed < (s.timerObj T).time) ↔
      elapsedUpTo log k - c.timePassed < (s.timerObj T).time := by
    constructor
    · intro h
      rcases h with h | h
      · rw [q3 h]; exact hpos
      · exact h
    · exact Or.inr
  refine ⟨fun hlt => ?_, fun hge => ?_, fun hf => ?_⟩
  · obtain ⟨f1, f2, f3⟩ := g1 hlt
    exact ⟨f1.mem, by rw [f2], f3⟩
  · obtain ⟨f1, f2⟩ := g2 hge
    refine ⟨f1, ?_⟩
    rw [f2]
    simp only [hcond]
  · by_cases hlt : elapsedUpTo log k < (s.timerObj T).time
    · exact absurd hf (g1 hlt).2.2
    · have hge : (s.timerObj T).time ≤ elapsedUpTo log k := not_lt.1 hlt
      by_cases hb : elapsedUpTo log k - c.timePassed < (s.timerObj T).time
      · obtain ⟨a, m1, b1, x, _, oa, la, ⟨calls, ta⟩, hx, hfin⟩ := g3 hge (Or.inr hb)
        have hwa : (a.timerObj T).watch = none := by rw [oa]; exact hwatch
        have hdue : (a.timerObj T).time - c.timePassed ≤ 0 := by
          rw [oa]; simp only; omega
        have htr := jsiIdleTimer_plain_due env c.timePassed T m1 b1 a x hwa hdue hx
        refine ⟨calls, jsiIdleTimerArg env c.timePassed T a, ?_⟩
        rw [← hfin, htr, ta, oa]
      · obtain ⟨_, f2⟩ := g2 hge
        rw [if_neg (by rw [hcond]; exact hb)] at f2
        exact absurd hf (List.count_eq_zero.1 f2)

/-- C3, witness: a recurring timer with `1000` ticks stands before the
one-shot timer `2` with `100` ticks, and three timer checks come after `40`,
`40` and `40` ticks. After the second check the timer has `20` ticks left and
its block has not run; the third check runs the block once, invokes
`function 2` with the time `100` at which the timer was due, and leaves the
timer out of the table. -/
theorem jsiIdleTimerChecks_oneShot_witness :
    ∃ (log : List TimerCheck) (c1 c2 : TimerCheck),
      jsiIdleTimerChecks Env.clock40 5 3 St.intervalThenOneShot = some log ∧
      log[1]? = some c1 ∧ log[2]? = some c2 ∧
      (2 ∈ c1.finish.timerArray ∧ (c1.finish.timerObj 2).time = 20 ∧ 2 ∉ c1.fired) ∧
      (2 ∉ c2.finish.timerArray ∧ c2.fired.count 2 = 1) ∧
      c2.finish.trace.map (fun i => (i.func, i.args)) =
        [(.function 2, [.data { time := some 100, lastTime := none, pin := none,
                                state := none }, .undefined])] := by
  have hcb : ∀ f args st, ∀ a ∈ Env.clock40.interp f args st, a.keepsTimers := by
    intro f args st a ha
    cases ha
  cases h : jsiIdleTimerChecks Env.clock40 5 3 St.intervalThenOneShot with
  | none =>
    have : (jsiIdleTimerChecks Env.clock40 5 3 St.intervalThenOneShot).isSome = true := by rfl
    rw [h] at this
    cases this
  | some log =>
    have hfacts : (jsiIdleTimerChecks Env.clock40 5 3 St.intervalThenOneShot).map
        (fun l => l.map fun c => (c.timePassed, c.start.timerArray, c.finish.timerArray)) =
        some [(40, [1, 2], [1, 2]), (40, [1, 2], [1, 2]), (40, [1, 2], [1])] := by rfl
    have htrace : (jsiIdleTimerChecks Env.clock40 5 3 St.intervalThenOneShot).map
        (fun l => l.map fun c => c.finish.trace.map (fun i => (i.func, i.args))) =
        some [[], [], [(.function 2, [.data ⟨some 100, none, none, none⟩, .undefined])]] := by
      rfl
    rw [h] at hfacts htrace
    simp only [Option.map_some', Option.some.injEq] at hfacts htrace
    obtain ⟨c0, c1, c2, rfl⟩ : ∃ c0 c1 c2, log = [c0, c1, c2] := by
      have hlen := congrArg List.length hfacts
      simp only [List.length_map, List.length_cons, List.length_nil] at hlen
      exact List.length_eq_three.1 hlen
    simp only [List.map_cons, List.map_nil, List.cons.injEq, Prod.mk.injEq, and_true]
      at hfacts htrace
    obtain ⟨⟨e0, s0, f0⟩, ⟨e1, s1, f1⟩, e2, s2, f2⟩ := hfacts
    have hnonneg : ∀ c ∈ [c0, c1, c2], 0 ≤ c.timePassed := by
      intro c hc
      simp only [List.mem_cons, List.mem_singleton, List.not_mem_nil, or_false] at hc
      rcases hc with rfl | rfl | rfl <;> omega
    have hkeep : ∀ c ∈ [c0, c1, c2], (2 : JsVarRef) ∈ c.start.timerArray →
        ∀ p ∈ c.start.timersBefore 2, p ∈ c.finish.timerArray := by
      intro c hc _ p hp
      have hp1 : p = 1 := by
        simp only [List.mem_cons, List.mem_singleton, List.not_mem_nil, or_false] at hc
        have hb : c.start.timersBefore 2 = [1] := by
          rcases hc with rfl | rfl | rfl
          · unfold St.timersBefore; rw [s0]; decide
          · unfold St.timersBefore; rw [s1]; decide
          · unfold St.timersBefore; rw [s2]; decide
        rw [hb] at hp
        simpa using hp
      subst hp1
      simp only [List.mem_cons, List.mem_singleton, List.not_mem_nil, or_false] at hc
      rcases hc with rfl | rfl | rfl
      · rw [f0]; decide
      · rw [f1]; decide
      · rw [f2]; decide
    have hE1 : elapsedUpTo [c0, c1, c2] 1 = 80 := by
      simp [elapsedUpTo, e0, e1]
    have hE2 : elapsedUpTo [c0, c1, c2] 2 = 120 := by
      simp [elapsedUpTo, e0, e1, e2]
    have hI : (St.intervalThenOneShot.timerObj 2).time = 100 := by rfl
    obtain ⟨a1, _, _⟩ := jsiIdleTimerChecks_oneShot Env.clock40 5 3 2 St.intervalThenOneShot
      [c0, c1, c2] hcb ⟨by decide, by decide⟩ (by decide) rfl rfl (by decide) h hnonneg hkeep
      1 c1 rfl
    obtain ⟨_, b2, _⟩ := jsiIdleTimerChecks_oneShot Env.clock40 5 3 2 St.intervalThenOneShot
      [c0, c1, c2] hcb ⟨by decide, by decide⟩ (by decide) rfl rfl (by decide) h hnonneg hkeep
      2 c2 rfl
    rw [hE1, hI] at a1
    rw [hE2, hI, e2] at b2
    refine ⟨[c0, c1, c2], c1, c2, rfl, rfl, rfl, ?_, ?_, htrace.2.2⟩
    · obtain ⟨x1, x2, x3⟩ := a1 (by decide)
      exact ⟨x1, by rw [x2]; rfl, x3⟩
    · obtain ⟨y1, y2⟩ := b2 (by decide)
      exact ⟨y1, by rw [y2]; rfl⟩

/-- C3, exception: a one-shot timer that belongs to a debounced watch. Watch `1`
waits for a rising edge on pin `5` and has recorded the level low; its debounce
timer `2` has `100` ticks left. The idle step after `100` ticks removes the
timer from the table and invokes nothing, as the recorded level does not match
the edge of the watch. -/
theorem jsiIdle_debounce_timer_silent :
    (St.debouncePending.timerObj 2).recur = false ∧
    (St.debouncePending.timerObj 2).time = 100 ∧
    (jsiIdle Env.clock100 5 St.debouncePending).map
      (fun s => (s.trace, s.timerArray, s.watchArray, s.jsiLastIdleTime)) =
      some ([], [], [1], 100) ∧
    (jsiIdleSweeps Env.quiet 5 [100] St.debouncePending).map
      (fun s => (s.trace, s.timerArray)) = some ([], []) := by
  refine ⟨rfl, rfl, by rfl, by rfl⟩

/-! ## Debounce collapsing -/

/-- An action of a callback writes only the queue, the allocation counters, the
two tables and their objects, and the flags of the evaluator. -/
theorem applyAction_only (env : Env) (a : Action) (s s' : St)
    (h : applyAction env a s = some s') :
    s' = { s with events := s'.events, queued := s'.queued, allocs := s'.allocs,
                  nextRef := s'.nextRef, timerObj := s'.timerObj, timerArray := s'.timerArray,
                  watchObj := s'.watchObj, watchArray := s'.watchArray,
                  interrupted := s'.interrupted, hasError := s'.hasError, todo := s'.todo } := by
  cases a with
  | queueEvents callback cargs =>
    have := jsiQueueEvents_only env callback cargs s s' h
    rw [this]
  | timerAdd t => simp only [applyAction, Option.some.injEq] at h; subst h; rfl
  | timerRemove x => simp only [applyAction, Option.some.injEq] at h; subst h; rfl
  | watchAdd w => simp only [applyAction, Option.some.injEq] at h; subst h; rfl
  | watchRemove x => simp only [applyAction, Option.some.injEq] at h; subst h; rfl
  | setInterrupted b => simp only [applyAction, Option.some.injEq] at h; subst h; rfl
  | setError b => simp only [applyAction, Option.some.injEq] at h; subst h; rfl
  | setTodo t => simp only [applyAction, Option.some.injEq] at h; subst h; rfl

/-! ## What the idle loop does before its end leaves the records of maintenance and sleep -/

theorem stepClosed_logs (env : Env) : StepClosed env (fun s s' => s'.logs = s.logs) where
  refl := fun _ => rfl
  trans := fun _ _ _ h1 h2 => h2.trans h1
  record := fun _ _ => rfl
  act := fun _ _ _ a _ s s' h => by rw [applyAction_only env a s s' h]; rfl
  error := fun _ _ => rfl
  flag := fun _ => rfl

theorem applyActions_logs (env : Env) (acts : List Action) (s s' : St)
    (h : applyActions env acts s = some s') : s'.logs = s.logs :=
  applyActions_rel env (fun x x' => x'.logs = x.logs) (fun _ => rfl)
    (fun _ _ _ h1 h2 => h2.trans h1) acts s s'
    (fun a _ x x' hx => by rw [applyAction_only env a x x' hx]; rfl) h

theorem jsiIdleWatchDebounceTimer_logs (env : Env) (w : JsVarRef) (pin : Pin)
    (evTime debounce : Int) (s : St) :
    (jsiIdleWatchDebounceTimer env w pin evTime debounce s).logs = s.logs := by
  unfold jsiIdleWatchDebounceTimer
  cases ht : (s.watchObj w).timeout with
  | some t => rfl
  | none =>
    unfold jsvNewWithFlags
    by_cases ho : env.oom s.allocs = true
    · rw [if_pos ho]
      rfl
    · rw [if_neg ho]
      rfl

theorem jsiIdleWatchDebounce_logs (env : Env) (w : JsVarRef) (pin : Pin) (pinIsHigh : Bool)
    (evTime debounce : Int) (s : St) :
    (jsiIdleWatchDebounce env w pin pinIsHigh evTime debounce s).logs = s.logs := by
  obtain ⟨r, _, _, heq⟩ := jsiIdleWatchDebounce_eq env w pin pinIsHigh evTime debounce s
  rw [heq]
  exact jsiIdleWatchDebounceTimer_logs env w pin evTime debounce s

theorem logs_ite (c : Prop) [Decidable c] (a b s : St) (ha : a.logs = s.logs)
    (hb : b.logs = s.logs) : (if c then a else b).logs = s.logs := by
  split <;> assumption

theorem jsiIdleWatchFire_logs (env : Env) (w : JsVarRef) (pin : Pin) (pinIsHigh : Bool)
    (timePtr : Option Int) (s s' : St)
    (h : jsiIdleWatchFire env w pin pinIsHigh timePtr s = some s') :
    s'.logs = s.logs := by
  unfold jsiIdleWatchFire at h
  simp only at h
  split at h
  · cases h
  · rename_i ok s1 hcb
    have h1 := jsiExecuteEventCallback_rel env _ (stepClosed_logs env) _ _ _ _ _ hcb
    have h0 : (jsvNewWithFlags env s).2.logs = s.logs := by
      unfold jsvNewWithFlags; split <;> rfl
    simp only at h1
    have h10 : s1.logs = s.logs := h1.trans h0
    split at h
    · simp only [Option.some.injEq] at h
      subst h
      apply logs_ite
      · exact logs_ite _ _ _ _ h10 h10
      · exact logs_ite _ _ _ _ h10 h10
    · simp only [Option.some.injEq] at h
      subst h
      exact logs_ite _ _ _ _ h10 h10

theorem jsiIdleWatch_logs (env : Env) (event : IOEvent) (w : JsVarRef) (s s' : St)
    (h : jsiIdleWatch env event w s = some s') : s'.logs = s.logs := by
  unfold jsiIdleWatch at h
  simp only at h
  split at h
  · split at h
    · simp only [Option.some.injEq] at h
      subst h
      rw [jsiIdleWatchDebounce_logs]
      rfl
    · simp only [Option.map_eq_some'] at h
      obtain ⟨x, hx, rfl⟩ := h
      have h0 : ∀ (v : Int) (y : St), (jsvNewFromFloat env v y).2.logs = y.logs := by
        intro v y
        obtain ⟨_, r, _, _, hs⟩ := jsvNewFromFloat_eq env v y
        rw [hs]
        rfl
      split at hx
      · have hh := jsiIdleWatchFire_logs env w _ _ _ _ x hx
        exact hh.trans (h0 _ _)
      · simp only [Option.some.injEq] at hx
        subst hx
        exact h0 _ _
  · simp only [Option.some.injEq] at h
    subst h
    rfl

theorem jsiIdleWatchLoop_logs (env : Env) (event : IOEvent) :
    ∀ (fuel : Nat) (cur : Option JsVarRef) (s s' : St),
      jsiIdleWatchLoop env event fuel cur s = some s' → s'.logs = s.logs
  | fuel, none, s, s', h => by
      cases fuel <;> (simp only [jsiIdleWatchLoop, Option.some.injEq] at h; subst h; rfl)
  | 0, some c, s, s', h => by simp [jsiIdleWatchLoop] at h
  | fuel + 1, some c, s, s', h => by
      simp only [jsiIdleWatchLoop] at h
      cases hb : jsiIdleWatch env event c s with
      | none => simp [hb] at h
      | some s1 =>
        simp only [hb] at h
        exact (jsiIdleWatchLoop_logs env event fuel _ s1 s' h).trans
          (jsiIdleWatch_logs env event c s s1 hb)

theorem jsiHandleChars_logs (env : Env) : ∀ (chars : List Nat) (s s' : St),
    jsiHandleChars env chars s = some s' → s'.logs = s.logs
  | [], s, s', h => by simp only [jsiHandleChars, Option.some.injEq] at h; subst h; rfl
  | c :: rest, s, s', h => by
      simp only [jsiHandleChars] at h
      split at h
      · rename_i s2 h2
        have hh := applyActions_logs env _ _ s2 h2
        exact (jsiHandleChars_logs env rest s2 s' h).trans hh
      · cases h

theorem jsiIdleUsart_logs (env : Env) (event : IOEvent) (s s' : St)
    (h : jsiIdleUsart env event s = some s') : s'.logs = s.logs := by
  unfold jsiIdleUsart at h
  simp only at h
  split at h
  · simp only [Option.some.injEq] at h; subst h; rfl
  · have h0 : (jsvNewWithFlags env s).2.logs = s.logs := by
      unfold jsvNewWithFlags; split <;> rfl
    split at h
    · simp only [Option.some.injEq] at h; subst h; exact h0
    · split at h
      · cases h
      · have hh := applyActions_logs env _ _ s' h
        exact hh.trans h0

theorem jsiIdleEvent_logs (env : Env) (fuel : Nat) (event : IOEvent) (s s' : St)
    (h : jsiIdleEvent env fuel event s = some s') : s'.logs = s.logs := by
  unfold jsiIdleEvent at h
  simp only at h
  split at h
  · simp only [Option.map_eq_some'] at h
    obtain ⟨x, hx, rfl⟩ := h
    have hh := jsiHandleChars_logs env _ _ x hx
    exact hh
  · split at h
    · have hh := jsiIdleUsart_logs env event _ s' h
      exact hh
    · split at h
      · have hh := jsiIdleWatchLoop_logs env event fuel _ _ s' h
        exact hh
      · simp only [Option.some.injEq] at h; subst h; rfl

theorem jsiIdleEvents_logs (env : Env) (inner : Nat) :
    ∀ (fuel : Nat) (b : Bool) (s : St) (r : Bool × St),
      jsiIdleEvents env inner fuel b s = some r → r.2.logs = s.logs
  | fuel, b, s, r, h => by
      unfold jsiIdleEvents at h
      cases hio : s.ioEvents with
      | nil =>
        simp only [hio, Option.some.injEq] at h
        subst h
        rfl
      | cons event rest =>
        simp only [hio] at h
        cases fuel with
        | zero => simp at h
        | succ fuel =>
          simp only at h
          cases he : jsiIdleEvent env inner event { s with ioEvents := rest } with
          | none => simp [he] at h
          | some s1 =>
            simp only [he] at h
            have hh := jsiIdleEvent_logs env inner event _ s1 he
            exact (jsiIdleEvents_logs env inner fuel true s1 r h).trans hh

theorem jsiIdleTimerFinish_logs (timer : JsVarRef) (watchPtr : Option JsVarRef)
    (exec rec : Bool) (s : St) :
    (jsiIdleTimerFinish timer watchPtr exec rec s).logs = s.logs := by
  unfold jsiIdleTimerFinish jsiIdleTimerUnwatch jshPinWatch
  cases watchPtr with
  | none =>
    simp only
    split
    · split <;> rfl
    · split <;> rfl
  | some w =>
    simp only
    split <;> split <;> (try split) <;> (try split) <;> (try split) <;> rfl

theorem jsiIdleTimerData_logs (env : Env) (timer : JsVarRef) (s : St) :
    (jsiIdleTimerData env timer s).2.2.logs = s.logs := by
  unfold jsiIdleTimerData jsvNewWithFlags jsiSetBusy
  by_cases ho : env.oom s.allocs = true
  · simp [ho, St.logs]
  · cases hw : (s.timerObj timer).watch <;> simp [ho, hw, St.setWatch, St.logs]

theorem jsiIdleTimerFire_logs (env : Env) (timer : JsVarRef) (s s' : St)
    (h : jsiIdleTimerFire env timer s = some s') : s'.logs = s.logs := by
  have hd := jsiIdleTimerData_logs env timer s
  unfold jsiIdleTimerFire at h
  simp only at h
  split at h
  · split at h
    · rename_i ok s4 hcb
      have h4 := jsiExecuteEventCallback_rel env _ (stepClosed_logs env) _ _ _ _ _ hcb
      simp only at h4
      split at h
      · simp only [Option.some.injEq] at h
        subst h
        rw [jsiIdleTimerFinish_logs]
        exact h4.trans hd
      · simp only [Option.some.injEq] at h
        subst h
        rw [jsiIdleTimerFinish_logs]
        exact h4.trans hd
    · cases h
  · simp only [Option.some.injEq] at h
    subst h
    rw [jsiIdleTimerFinish_logs]
    exact hd

theorem jsiIdleTimer_logs (env : Env) (e : Int) (timer : JsVarRef) (m : Int) (b : Bool)
    (s : St) (r : Int × Bool × Option (Option JsVarRef) × St)
    (h : jsiIdleTimer env e timer m b s = some r) : r.2.2.2.logs = s.logs := by
  unfold jsiIdleTimer at h
  simp only at h
  by_cases hdue : (s.timerObj timer).time - e ≤ 0
  · simp only [if_pos hdue] at h
    cases hf : jsiIdleTimerFire env timer
        (s.setTimer timer fun t => { t with time := (s.timerObj timer).time - e }) with
    | none => simp [hf] at h
    | some x =>
      have hl := jsiIdleTimerFire_logs env timer _ x hf
      simp only [hf, Option.map_some'] at h
      split at h <;> (simp only [Option.some.injEq] at h; subst h; exact hl)
  · simp only [if_neg hdue] at h
    split at h <;> (simp only [Option.some.injEq] at h; subst h; rfl)

theorem jsiIdleTimerLoop_logs (env : Env) (e : Int) :
    ∀ (fuel : Nat) (cur : Option JsVarRef) (m : Int) (b : Bool) (s : St) (r : Int × Bool × St),
      jsiIdleTimerLoop env e fuel cur m b s = some r → r.2.2.logs = s.logs
  | fuel, none, m, b, s, r, h => by
      cases fuel <;> (simp only [jsiIdleTimerLoop, Option.some.injEq] at h; subst h; rfl)
  | 0, some c, m, b, s, r, h => by simp [jsiIdleTimerLoop] at h
  | fuel + 1, some c, m, b, s, r, h => by
      simp only [jsiIdleTimerLoop] at h
      cases hb : jsiIdleTimer env e c m b s with
      | none => simp [hb] at h
      | some x =>
        obtain ⟨m1, b1, cont, s1⟩ := x
        have hl := jsiIdleTimer_logs env e c m b s _ hb
        simp only at hl
        cases cont with
        | none =>
          simp only [hb, Option.some.injEq] at h
          subst h
          exact hl
        | some next =>
          simp only [hb] at h
          exact (jsiIdleTimerLoop_logs env e fuel next m1 b1 s1 r h).trans hl

theorem jsiIdleTimers_logs (env : Env) (fuel : Nat) (b : Bool) (s : St) (r : Int × Bool × St)
    (h : jsiIdleTimers env fuel b s = some r) : r.2.2.logs = s.logs := by
  unfold jsiIdleTimers at h
  have hh := jsiIdleTimerLoop_logs env _ fuel _ _ b _ r h
  exact hh

theorem jsiExecuteEvent_logs (env : Env) (event : Event) (s s' : St)
    (h : jsiExecuteEvent env event s = some s') : s'.logs = s.logs := by
  unfold jsiExecuteEvent at h
  simp only at h
  split at h
  · cases h; rfl
  · split at h
    · exact jspExecuteFunction_rel env _ (stepClosed_logs env) _ _ s s' h
    · split at h
      · exact jspEvaluateVar_rel env _ (stepClosed_logs env) _ s s' h
      · cases h; rfl

theorem jsiExecuteEventsLoop_logs (env : Env) :
    ∀ (fuel : Nat) (s s' : St), jsiExecuteEventsLoop env fuel s = some s' → s'.logs = s.logs
  | fuel, s, s', h => by
      unfold jsiExecuteEventsLoop at h
      cases hev : s.events with
      | nil =>
        simp only [hev, Option.some.injEq] at h
        subst h
        rfl
      | cons event rest =>
        simp only [hev] at h
        cases fuel with
        | zero => simp at h
        | succ fuel =>
          simp only at h
          cases he : jsiExecuteEvent env event { s with events := rest } with
          | none => simp [he] at h
          | some s1 =>
            simp only [he] at h
            have hh := jsiExecuteEvent_logs env event _ s1 he
            exact (jsiExecuteEventsLoop_logs env fuel s1 s' h).trans hh

/-- A drain of an empty queue does nothing. -/
theorem jsiExecuteEvents_empty (env : Env) (fuel : Nat) (s : St) (h : s.events = []) :
    jsiExecuteEvents env fuel s = some s := by
  have hl : jsiExecuteEventsLoop env fuel s = some s := by
    unfold jsiExecuteEventsLoop
    simp [h]
  unfold jsiExecuteEvents
  simp [h, hl]

theorem jsiExecuteEvents_logs (env : Env) (fuel : Nat) (s s' : St)
    (h : jsiExecuteEvents env fuel s = some s') : s'.logs = s.logs := by
  obtain ⟨b, s2, b', f, hloop, rfl⟩ := jsiExecuteEvents_shape env fuel s s' h
  have hh := jsiExecuteEventsLoop_logs env fuel _ s2 hloop
  exact hh

/-- A step of `jsiIdle`, in its stations: the events, the timers, `jswIdle`,
the drain of the queue with the report of an interruption, and then the check
for TODOs and the end. Up to the check for TODOs neither a maintenance action
nor a call of `jshSleep` is recorded. -/
theorem jsiIdle_stations (env : Env) (fuel : Nat) (s0 s' : St)
    (h : jsiIdle env fuel s0 = some s') :
    ∃ (busy1 busy2 : Bool) (s2 s3 s4 s8 : St) (minTimeUntilNext : Int),
      jsiIdleEvents env fuel fuel false
        (if s0.loopsIdling < 255 then { s0 with loopsIdling := s0.loopsIdling + 1 } else s0) =
          some (busy1, s2) ∧
      jsiIdleTimers env fuel busy1 (jsiIdleFlowControl env s2) =
        some (minTimeUntilNext, busy2, s3) ∧
      applyActions env (env.jswIdle s3).2 s3 = some s4 ∧
      s8.logs = s0.logs ∧
      s8.loopsIdling = (if (busy2 || (env.jswIdle s3).1 || !s4.events.isEmpty) = true then 0
        else s4.loopsIdling) ∧
      (s4.events = [] → s8.ioEvents = s4.ioEvents) ∧
      s' = jsiIdleSleep env minTimeUntilNext (jsiIdleTodo env s8) := by
  unfold jsiIdle at h
  simp only at h
  cases hev : jsiIdleEvents env fuel fuel false
      (if s0.loopsIdling < 255 then { s0 with loopsIdling := s0.loopsIdling + 1 } else s0) with
  | none => simp [hev] at h
  | some r1 =>
    obtain ⟨busy1, s2⟩ := r1
    simp only [hev] at h
    cases ht : jsiIdleTimers env fuel busy1 (jsiIdleFlowControl env s2) with
    | none => simp [ht] at h
    | some r2 =>
      obtain ⟨m, busy2, s3⟩ := r2
      simp only [ht] at h
      cases hi : applyActions env (env.jswIdle s3).2 s3 with
      | none => simp [hi] at h
      | some s4 =>
        simp only [hi] at h
        have hd : jsiIdleDrain env fuel m (busy2 || (env.jswIdle s3).1) s4 = some s' := by
          unfold jsiIdleDrain
          exact h
        obtain ⟨b, s7, hdrain, hs'⟩ := jsiIdleDrain_shape env fuel m _ s4 s' hd
        have l1 : s2.logs = s0.logs := by
          have hh := jsiIdleEvents_logs env fuel fuel false _ _ hev
          refine hh.trans ?_
          split <;> rfl
        have l2 : s3.logs = s2.logs := by
          have hh := jsiIdleTimers_logs env fuel busy1 _ _ ht
          refine hh.trans ?_
          unfold jsiIdleFlowControl
          split <;> rfl
        have l3 : s4.logs = s3.logs := applyActions_logs env _ s3 s4 hi
        have h7 : s7.logs = s4.logs ∧
            s7.loopsIdling = (if (busy2 || (env.jswIdle s3).1 || !s4.events.isEmpty) = true
              then 0 else s4.loopsIdling) ∧
            (s4.events = [] → s7.ioEvents = s4.ioEvents ∧ s7.interruptedDuringEvent =
              s4.interruptedDuringEvent) := by
          split at hdrain
          · subst hdrain
            exact ⟨rfl, rfl, fun _ => ⟨rfl, rfl⟩⟩
          · have a1 := jsiExecuteEvents_logs env fuel _ s7 hdrain
            have a2 := jsiExecuteEvents_loopsIdling env fuel _ s7 hdrain
            refine ⟨a1, a2, fun he => ?_⟩
            have a3 := jsiExecuteEvents_empty env fuel
              { s4 with loopsIdling := if (busy2 || (env.jswIdle s3).1 || !s4.events.isEmpty) = true
                                       then 0 else s4.loopsIdling, busy := b } he
            rw [a3] at hdrain
            simp only [Option.some.injEq] at hdrain
            subst hdrain
            exact ⟨rfl, rfl⟩
        refine ⟨busy1, busy2, s2, s3, s4, _, m, rfl, ht, hi, ?_, ?_, ?_, hs'⟩
        · refine Eq.trans ?_ (h7.1.trans (l3.trans (l2.trans l1)))
          split <;> rfl
        · rw [← h7.2.1]
          split <;> rfl
        · intro he
          rw [← (h7.2.2 he).1]
          split <;> rfl

/-! ## The time of a debounce timer -/

/-- A raw edge for a debounced watch without a pending timer, when the pool is
exhausted: no timer is made and the watch has no link to one. The level is
stored when the pool has a variable for it after all. -/
theorem jsiIdleWatch_fresh_exhausted (env : Env) (event : IOEvent) (w : JsVarRef) (s s' : St)
    (hoom : env.oom s.allocs = true)
    (hpin : env.jshIsEventForPin event (s.watchObj w).pin = true)
    (hdeb : (s.watchObj w).debounce > 0)
    (hto : (s.watchObj w).timeout = none)
    (h : jsiIdleWatch env event w s = some s') :
    s'.watchObj w = { s.watchObj w with
      state := if env.oom (s.allocs + 1) = true then none else some event.isHigh } ∧
    s'.jsiLastIdleTime = s.jsiLastIdleTime ∧ s'.allocs = s.allocs + 2 ∧
    s'.timerArray = s.timerArray := by
  have hrun : jsiIdleWatch env event w s = some (jsiIdleWatchDebounce env w (s.watchObj w).pin
      event.isHigh (eventTime (env.clock s.clockReads) event.time) (s.watchObj w).debounce
      { s with clockReads := s.clockReads + 1 }) := by
    unfold jsiIdleWatch
    simp only [jshGetSystemTime, hpin, if_true, hdeb]
  rw [hrun] at h
  simp only [Option.some.injEq] at h
  subst h
  obtain ⟨r, _, _, heq⟩ := jsiIdleWatchDebounce_eq env w (s.watchObj w).pin
    event.isHigh (eventTime (env.clock s.clockReads) event.time) (s.watchObj w).debounce
    { s with clockReads := s.clockReads + 1 }
  rw [heq]
  have hT : jsiIdleWatchDebounceTimer env w (s.watchObj w).pin
      (eventTime (env.clock s.clockReads) event.time) (s.watchObj w).debounce
      { s with clockReads := s.clockReads + 1 } =
      { s with clockReads := s.clockReads + 1, allocs := s.allocs + 1 } := by
    unfold jsiIdleWatchDebounceTimer
    simp only [hto, jsvNewWithFlags, hoom, if_true]
  rw [hT]
  refine ⟨?_, rfl, rfl, rfl⟩
  rw [setWatch_watchObj_same]

/-- C21, counterexample. The pool of variables is exhausted and a high edge
comes for a rising edge watch with a debounce window of `50` ticks that has no
timer pending: `jsvNewWithFlags` returns `0` and no timer is made (`if
(timeout)`, line 1332), `jsvNewFromBool` returns `0` and no level is recorded
(line 1346). The claim says that the recorded level is the level of the event
and that the watch has a linked timer with `(eventTime - jsiLastIdleTime) + D`
ticks. -/
theorem jsiIdleWatch_debounce_exhausted :
    (St.risingWatch.watchObj 1).debounce = 50 ∧
    (jsiIdleWatch Env.exhausted25 (IOEvent.edge5 true 20) 1 St.risingWatch).map
      (fun s => ((s.watchObj 1).state, (s.watchObj 1).timeout, s.timerArray)) =
      some (none, none, []) := by
  refine ⟨rfl, by rfl⟩

/-- C21 (amended). The watch loop of `jsiIdle` has processed a raw edge for a
watch with debounce window `D > 0`, and every variable that it asked for while
doing so was available. Then the level recorded in the watch is the level of
the event, and the watch is linked to a timer - the one that was pending, which
is kept while no timer is added, or a new one-shot timer at the end of the
timer table - that has `(eventTime - jsiLastIdleTime) + D` ticks remaining,
`eventTime` being the reconstructed time of the event. When the timer loop of
a step at time `now` takes `now - jsiLastIdleTime` ticks from the timer, what
is left is `<= 0` exactly when `eventTime + D <= now`: before that time the
body of the loop leaves the timer waiting with `eventTime + D - now` ticks, and
whenever it returns it has set `wasBusy` exactly when `eventTime + D <= now`.
The timer is due `D` ticks after the edge, not after the step. -/
theorem jsiIdleWatch_debounce_time (env : Env) (event : IOEvent) (w : JsVarRef) (s s' : St)
    (hpin : env.jshIsEventForPin event (s.watchObj w).pin = true)
    (hdeb : (s.watchObj w).debounce > 0)
    (h : jsiIdleWatch env event w s = some s')
    (hoom : ∀ n, s.allocs ≤ n → n < s'.allocs → env.oom n = false) :
    (s'.watchObj w).state = some event.isHigh ∧
    s'.jsiLastIdleTime = s.jsiLastIdleTime ∧
    ∃ t, (s'.watchObj w).timeout = some t ∧
      (s'.timerObj t).time =
        (eventTime (env.clock s.clockReads) event.time - s.jsiLastIdleTime) +
          (s.watchObj w).debounce ∧
      (∀ tr, (s.watchObj w).timeout = some tr → t = tr ∧ s'.timerArray = s.timerArray) ∧
      ((s.watchObj w).timeout = none →
        s'.timerArray = s.timerArray ++ [t] ∧ (s'.timerObj t).watch = some w ∧
          (s'.timerObj t).recur = false) ∧
      ∀ (now minTimeUntilNext : Int) (wasBusy : Bool),
        ((s'.timerObj t).time - (now - s'.jsiLastIdleTime) ≤ 0 ↔
          eventTime (env.clock s.clockReads) event.time + (s.watchObj w).debounce ≤ now) ∧
        (now < eventTime (env.clock s.clockReads) event.time + (s.watchObj w).debounce →
          ∃ r, jsiIdleTimer env (now - s'.jsiLastIdleTime) t minTimeUntilNext wasBusy s' =
              some r ∧ r.2.1 = wasBusy ∧
            (r.2.2.2.timerObj t).time =
              eventTime (env.clock s.clockReads) event.time + (s.watchObj w).debounce - now) ∧
        ∀ r, jsiIdleTimer env (now - s'.jsiLastIdleTime) t minTimeUntilNext wasBusy s' =
            some r →
          r.2.1 = (wasBusy || decide
            (eventTime (env.clock s.clockReads) event.time + (s.watchObj w).debounce ≤ now))
    := by
  have hdue : ∀ t, s'.jsiLastIdleTime = s.jsiLastIdleTime →
      (s'.timerObj t).time =
        (eventTime (env.clock s.clockReads) event.time - s.jsiLastIdleTime) +
          (s.watchObj w).debounce →
      ∀ (now minTimeUntilNext : Int) (wasBusy : Bool),
        ((s'.timerObj t).time - (now - s'.jsiLastIdleTime) ≤ 0 ↔
          eventTime (env.clock s.clockReads) event.time + (s.watchObj w).debounce ≤ now) ∧
        (now < eventTime (env.clock s.clockReads) event.time + (s.watchObj w).debounce →
          ∃ r, jsiIdleTimer env (now - s'.jsiLastIdleTime) t minTimeUntilNext wasBusy s' =
              some r ∧ r.2.1 = wasBusy ∧
            (r.2.2.2.timerObj t).time =
              eventTime (env.clock s.clockReads) event.time + (s.watchObj w).debounce - now) ∧
        ∀ r, jsiIdleTimer env (now - s'.jsiLastIdleTime) t minTimeUntilNext wasBusy s' =
            some r →
          r.2.1 = (wasBusy || decide
            (eventTime (env.clock s.clockReads) event.time + (s.watchObj w).debounce ≤ now))
      := by
    intro t hl ht now m b
    have hiff : ((s'.timerObj t).time - (now - s'.jsiLastIdleTime) ≤ 0 ↔
        eventTime (env.clock s.clockReads) event.time + (s.watchObj w).debounce ≤ now) := by
      rw [ht, hl]
      constructor <;> intro hh <;> omega
    refine ⟨hiff, fun hlt => ?_, fun r hr => ?_⟩
    · have hwait : ¬ (s'.timerObj t).time - (now - s'.jsiLastIdleTime) ≤ 0 := by
        rw [hiff]
        omega
      have hsame : nextSibling (s'.setTimer t fun x =>
          { x with time := (s'.timerObj t).time - (now - s'.jsiLastIdleTime) }).timerArray t =
          nextSibling s'.timerArray t := rfl
      have hrun : jsiIdleTimer env (now - s'.jsiLastIdleTime) t m b s' =
          some ((if (s'.timerObj t).time - (now - s'.jsiLastIdleTime) < m
              then (s'.timerObj t).time - (now - s'.jsiLastIdleTime) else m), b,
            some (nextSibling s'.timerArray t),
            s'.setTimer t fun x =>
              { x with time := (s'.timerObj t).time - (now - s'.jsiLastIdleTime) }) := by
        unfold jsiIdleTimer
        simp only [if_neg hwait, hsame, ne_eq, not_true_eq_false, if_false]
      refine ⟨_, hrun, rfl, ?_⟩
      show ((s'.setTimer t fun x =>
        { x with time := (s'.timerObj t).time - (now - s'.jsiLastIdleTime) }).timerObj t).time = _
      rw [setTimer_timerObj_same]
      show (s'.timerObj t).time - (now - s'.jsiLastIdleTime) = _
      rw [ht, hl]
      omega
    · obtain ⟨_, hb, _⟩ := jsiIdleTimer_busy env _ t m b s' r hr
      rw [hb]
      congr 1
      exact decide_eq_decide.mpr hiff
  cases hto : (s.watchObj w).timeout with
  | some tr =>
    obtain ⟨s1, hrun, _, harr, hlast, _, hw, ht, hal⟩ :=
      jsiIdleWatch_pending env event w tr s hpin hdeb hto
    rw [hrun] at h
    simp only [Option.some.injEq] at h
    subst h
    have ho : env.oom s.allocs = false := hoom s.allocs (le_refl _) (by rw [hal]; omega)
    simp only [ho, Bool.false_eq_true, if_false] at hw
    have hto1 : (s1.watchObj w).timeout = some tr := by rw [hw]; exact hto
    have htime : (s1.timerObj tr).time =
        (eventTime (env.clock s.clockReads) event.time - s.jsiLastIdleTime) +
          (s.watchObj w).debounce := by rw [ht]
    refine ⟨by rw [hw], hlast, tr, hto1, htime, fun tr' htr' => ?_, fun hn => (by cases hn),
      hdue tr hlast htime⟩
    simp only [Option.some.injEq] at htr'
    exact ⟨htr', harr⟩
  | none =>
    by_cases hex : env.oom s.allocs = true
    · obtain ⟨_, _, hal, _⟩ := jsiIdleWatch_fresh_exhausted env event w s s' hex hpin hdeb hto h
      have ho := hoom s.allocs (le_refl _) (by rw [hal]; omega)
      rw [ho] at hex
      cases hex
    · simp only [Bool.not_eq_true] at hex
      obtain ⟨s1, hrun, _, harr, hlast, _, hal, hw, ht⟩ :=
        jsiIdleWatch_fresh env event w s hex hpin hdeb hto
      rw [hrun] at h
      simp only [Option.some.injEq] at h
      subst h
      have ho : env.oom (s.allocs + 1) = false :=
        hoom (s.allocs + 1) (Nat.le_succ _) (by rw [hal]; omega)
      simp only [ho, Bool.false_eq_true, if_false] at hw
      have hto1 : (s1.watchObj w).timeout = some s.nextRef := by rw [hw]
      have htime : (s1.timerObj s.nextRef).time =
          (eventTime (env.clock s.clockReads) event.time - s.jsiLastIdleTime) +
            (s.watchObj w).debounce := by rw [ht]; rfl
      refine ⟨by rw [hw], hlast, s.nextRef, hto1, htime, fun tr htr => (by cases htr),
        fun _ => ⟨harr, (by rw [ht]; rfl), (by rw [ht]; rfl)⟩, hdue _ hlast htime⟩

/-- C21, witness: the rising edge watch `1` of `St.risingWatch` has a window of
`50` ticks and no timer pending; the clock stands at `25` and a high edge
stamped `20` comes. The level high is recorded and the new timer `2` has
`(20 - 0) + 50 = 70` ticks. The body of the timer loop for this timer, run at
time `69`, leaves the timer waiting with one tick and does not set `wasBusy`;
run at time `70`, it returns with `wasBusy` set. -/
theorem jsiIdleWatch_debounce_time_witness :
    (jsiIdleWatch Env.at25 (IOEvent.edge5 true 20) 1 St.risingWatch).map
      (fun s => ((s.watchObj 1).state, (s.watchObj 1).timeout, (s.timerObj 2).time,
        s.timerArray)) = some (some true, some 2, 70, [2]) ∧
    ((jsiIdleWatch Env.at25 (IOEvent.edge5 true 20) 1 St.risingWatch).bind
      (jsiIdleTimer Env.at25 (69 - 0) 2 JSSYSTIME_MAX false)).map
      (fun r => (r.2.1, (r.2.2.2.timerObj 2).time)) = some (false, 1) ∧
    ((jsiIdleWatch Env.at25 (IOEvent.edge5 true 20) 1 St.risingWatch).bind
      (jsiIdleTimer Env.at25 (70 - 0) 2 JSSYSTIME_MAX false)).map
      (fun r => r.2.1) = some true := by
  cases h : jsiIdleWatch Env.at25 (IOEvent.edge5 true 20) 1 St.risingWatch with
  | none =>
    have : (jsiIdleWatch Env.at25 (IOEvent.edge5 true 20) 1 St.risingWatch).isSome = true := by
      rfl
    rw [h] at this
    cases this
  | some r =>
    have hto : (jsiIdleWatch Env.at25 (IOEvent.edge5 true 20) 1 St.risingWatch).map
        (fun s => ((s.watchObj 1).timeout, s.timerArray, s.jsiLastIdleTime)) =
        some (some 2, [2], 0) := by rfl
    rw [h] at hto
    simp only [Option.map_some', Option.some.injEq, Prod.mk.injEq] at hto
    obtain ⟨hto1, harr, hlast0⟩ := hto
    have hev : eventTime (Env.at25.clock St.risingWatch.clockReads)
        (IOEvent.edge5 true 20).time = 20 := by decide
    have hD : (St.risingWatch.watchObj 1).debounce = 50 := rfl
    obtain ⟨a1, _, t, a3, a4, _, _, a7⟩ :=
      jsiIdleWatch_debounce_time Env.at25 (IOEvent.edge5 true 20) 1
        St.risingWatch r (by rfl) (by decide) h (fun _ _ _ => rfl)
    rw [hto1] at a3
    simp only [Option.some.injEq] at a3
    subst a3
    have hl0 : St.risingWatch.jsiLastIdleTime = 0 := rfl
    rw [hev, hD, hl0] at a4
    have a1' : (r.watchObj 1).state = some true := a1
    have a4' : (r.timerObj 2).time = 70 := by rw [a4]; norm_num
    refine ⟨by simp only [Option.map_some', a1', hto1, a4', harr], ?_, ?_⟩
    · obtain ⟨_, hwait, _⟩ := a7 69 JSSYSTIME_MAX false
      rw [hev, hD, hlast0] at hwait
      obtain ⟨x, hx, hb, ht⟩ := hwait (by norm_num)
      have hx' : jsiIdleTimer Env.at25 (69 - 0) 2 JSSYSTIME_MAX false r = some x := hx
      simp only [Option.some_bind, hx', Option.map_some', hb, ht]
      norm_num
    · obtain ⟨_, _, hdue⟩ := a7 70 JSSYSTIME_MAX false
      rw [hev, hD, hlast0] at hdue
      cases hx : jsiIdleTimer Env.at25 (70 - 0) 2 JSSYSTIME_MAX false r with
      | none =>
        have hs : ((jsiIdleWatch Env.at25 (IOEvent.edge5 true 20) 1 St.risingWatch).bind
            (jsiIdleTimer Env.at25 (70 - 0) 2 JSSYSTIME_MAX false)).isSome = true := by rfl
        rw [h] at hs
        simp only [Option.some_bind, hx] at hs
        cases hs
      | some x =>
        simp only [Option.some_bind, hx, Option.map_some']
        rw [hdue x hx]
        norm_num

/-! ## The debounce link -/

/-- The debounce link depends on the two tables, on the children `watch` and
`recur` of the timers, on the children `timeout` of the watches, and on the
references that are in use. -/
theorem St.DebounceLinked.of_tables {s s' : St} (h : s.DebounceLinked)
    (ht : s'.timerArray = s.timerArray) (hw : s'.watchArray = s.watchArray)
    (hto : ∀ t, (s'.timerObj t).watch = (s.timerObj t).watch ∧
      (s'.timerObj t).recur = (s.timerObj t).recur)
    (hwo : ∀ w, (s'.watchObj w).timeout = (s.watchObj w).timeout)
    (hn : s.nextRef ≤ s'.nextRef) : s'.DebounceLinked where
  timers := ⟨by rw [ht]; exact h.timers.1,
    fun r hr => lt_of_lt_of_le (h.timers.2 r (ht ▸ hr)) hn⟩
  watches := ⟨by rw [hw]; exact h.watches.1,
    fun r hr => lt_of_lt_of_le (h.watches.2 r (hw ▸ hr)) hn⟩
  linked := by
    intro t htm w hl
    rw [(hto t).1] at hl
    obtain ⟨a, b, c⟩ := h.linked t (ht ▸ htm) w hl
    exact ⟨by rw [(hto t).2]; exact a, lt_of_lt_of_le b hn, by rw [hwo w]; exact c⟩

/-- Taking an entry out of the timer table keeps the debounce link. -/
theorem St.DebounceLinked.erase_timer {s : St} (h : s.DebounceLinked) (r : JsVarRef) :
    ({ s with timerArray := s.timerArray.erase r } : St).DebounceLinked where
  timers := ⟨h.timers.1.erase r, fun x hx => h.timers.2 x (List.mem_of_mem_erase hx)⟩
  watches := h.watches
  linked := fun t htm w hl => h.linked t (List.mem_of_mem_erase htm) w hl

/-- Taking an entry out of the watch table keeps the debounce link. -/
theorem St.DebounceLinked.erase_watch {s : St} (h : s.DebounceLinked) (r : JsVarRef) :
    ({ s with watchArray := s.watchArray.erase r } : St).DebounceLinked where
  timers := h.timers
  watches := ⟨h.watches.1.erase r, fun x hx => h.watches.2 x (List.mem_of_mem_erase hx)⟩
  linked := h.linked

/-- An action that makes no timer with a link `watch` keeps the debounce
link. -/
theorem applyAction_linked (env : Env) (a : Action) (s s' : St) (hI : s.DebounceLinked)
    (hp : a.plainTimer) (h : applyAction env a s = some s') : s'.DebounceLinked := by
  cases a with
  | queueEvents callback cargs =>
    obtain ⟨h1, h2, h3, h4⟩ := jsiQueueEvents_tables env callback cargs s s' h
    have h5 := (jsiQueueEvents_preserves env callback cargs s s' h).nextRef
    exact hI.of_tables h1 h2 (fun t => by rw [h3]; exact ⟨rfl, rfl⟩) (fun w => by rw [h4]) h5
  | timerAdd t =>
    simp only [applyAction, jsiTimerAdd, Option.some.injEq] at h
    subst h
    have hfresh : s.nextRef ∉ s.timerArray := fun hm => lt_irrefl _ (hI.timers.2 _ hm)
    refine ⟨⟨?_, fun r hr => ?_⟩, ⟨hI.watches.1, fun r hr => Nat.lt_succ_of_lt (hI.watches.2 r hr)⟩,
      ?_⟩
    · show (s.timerArray ++ [s.nextRef]).Nodup
      rw [List.nodup_append]
      refine ⟨hI.timers.1, List.nodup_singleton _, ?_⟩
      intro x hx hb
      rw [List.mem_singleton] at hb
      subst hb
      exact hfresh hx
    · have hr' : r ∈ s.timerArray ++ [s.nextRef] := hr
      rw [List.mem_append, List.mem_singleton] at hr'
      show r < s.nextRef + 1
      rcases hr' with h1 | h1
      · exact Nat.lt_succ_of_lt (hI.timers.2 r h1)
      · rw [h1]; exact Nat.lt_succ_self _
    · intro x hx w hl
      have hx' : x ∈ s.timerArray ++ [s.nextRef] := hx
      rw [List.mem_append, List.mem_singleton] at hx'
      rcases hx' with h1 | h1
      · have hne : x ≠ s.nextRef := fun e => hfresh (e ▸ h1)
        have hobj : Function.update s.timerObj s.nextRef t x = s.timerObj x :=
          Function.update_noteq hne _ _
        have hl' : (s.timerObj x).watch = some w := by rw [← hobj]; exact hl
        obtain ⟨a, b, c⟩ := hI.linked x h1 w hl'
        exact ⟨by show (Function.update s.timerObj s.nextRef t x).recur = false
                  rw [hobj]; exact a, Nat.lt_succ_of_lt b, c⟩
      · subst h1
        have hobj : Function.update s.timerObj s.nextRef t s.nextRef = t :=
          Function.update_same _ _ _
        have hl' : t.watch = some w := by rw [← hobj]; exact hl
        have hp' : t.watch = none := hp
        rw [hp'] at hl'
        cases hl'
  | timerRemove x =>
    simp only [applyAction, Option.some.injEq] at h
    subst h
    exact hI.erase_timer x
  | watchAdd w =>
    simp only [applyAction, Option.some.injEq] at h
    subst h
    have hfresh : s.nextRef ∉ s.watchArray := fun hm => lt_irrefl _ (hI.watches.2 _ hm)
    refine ⟨⟨hI.timers.1, fun r hr => Nat.lt_succ_of_lt (hI.timers.2 r hr)⟩, ⟨?_, fun r hr => ?_⟩,
      ?_⟩
    · show (s.watchArray ++ [s.nextRef]).Nodup
      rw [List.nodup_append]
      refine ⟨hI.watches.1, List.nodup_singleton _, ?_⟩
      intro x hx hb
      rw [List.mem_singleton] at hb
      subst hb
      exact hfresh hx
    · have hr' : r ∈ s.watchArray ++ [s.nextRef] := hr
      rw [List.mem_append, List.mem_singleton] at hr'
      show r < s.nextRef + 1
      rcases hr' with h1 | h1
      · exact Nat.lt_succ_of_lt (hI.watches.2 r h1)
      · rw [h1]; exact Nat.lt_succ_self _
    · intro x hx w' hl
      obtain ⟨a, b, c⟩ := hI.linked x hx w' hl
      refine ⟨a, Nat.lt_succ_of_lt b, ?_⟩
      show (Function.update s.watchObj s.nextRef w w').timeout = some x
      rw [Function.update_noteq (ne_of_lt b)]
      exact c
  | watchRemove x =>
    simp only [applyAction, Option.some.injEq] at h
    subst h
    exact hI.erase_watch x
  | setInterrupted b => simp only [applyAction, Option.some.injEq] at h; subst h; exact ⟨hI.1, hI.2, hI.3⟩
  | setError b => simp only [applyAction, Option.some.injEq] at h; subst h; exact ⟨hI.1, hI.2, hI.3⟩
  | setTodo t => simp only [applyAction, Option.some.injEq] at h; subst h; exact ⟨hI.1, hI.2, hI.3⟩

theorem applyActions_linked (env : Env) (acts : List Action) (s s' : St)
    (hp : ∀ a ∈ acts, a.plainTimer) (h : applyActions env acts s = some s') :
    s.DebounceLinked → s'.DebounceLinked :=
  applyActions_rel env (fun x x' => x.DebounceLinked → x'.DebounceLinked) (fun _ hx => hx)
    (fun _ _ _ h1 h2 hx => h2 (h1 hx)) acts s s'
    (fun a ha x x' hx hI => applyAction_linked env a x x' hI (hp a ha) hx) h

/-- Callbacks keep the debounce link, when they make no timer with a link
`watch`. -/
theorem stepClosed_linked (env : Env)
    (hcb : ∀ f args st, ∀ a ∈ env.interp f args st, a.plainTimer) :
    StepClosed env (fun s s' => s.DebounceLinked → s'.DebounceLinked) where
  refl := fun _ h => h
  trans := fun _ _ _ h1 h2 h => h2 (h1 h)
  record := fun _ _ h => ⟨h.1, h.2, h.3⟩
  act := fun f args st a ha s s' h hI => applyAction_linked env a s s' hI (hcb f args st a ha) h
  error := fun _ _ h => ⟨h.1, h.2, h.3⟩
  flag := fun _ h => ⟨h.1, h.2, h.3⟩

/-- The debounce branch keeps the debounce link: a pending timer is kept, and
the timer that is made when none is pending is the one that the watch is linked
to. -/
theorem jsiIdleWatchDebounceTimer_linked (env : Env) (w : JsVarRef) (pin : Pin)
    (evTime debounce : Int) (s : St) (hw : w ∈ s.watchArray) (hI : s.DebounceLinked) :
    (jsiIdleWatchDebounceTimer env w pin evTime debounce s).DebounceLinked := by
  unfold jsiIdleWatchDebounceTimer
  cases hto : (s.watchObj w).timeout with
  | some t0 =>
    simp only
    refine hI.of_tables rfl rfl (fun t => ?_) (fun x => ?_) (le_refl _)
    · by_cases ht : t = t0
      · subst ht
        simp [St.setWatch, St.setTimer]
      · simp [St.setWatch, St.setTimer, Function.update_noteq ht]
    · by_cases hx : x = w
      · subst hx
        simp [St.setWatch, St.setTimer]
      · simp [St.setWatch, St.setTimer, Function.update_noteq hx]
  | none =>
    simp only [jsvNewWithFlags]
    by_cases ho : env.oom s.allocs = true
    · simp only [ho, if_true]
      refine hI.of_tables rfl rfl (fun t => ⟨rfl, rfl⟩) (fun x => ?_) (le_refl _)
      by_cases hx : x = w
      · subst hx
        simp [St.setWatch]
      · simp [St.setWatch, Function.update_noteq hx]
    · simp only [Bool.not_eq_true] at ho
      simp only [ho, Bool.false_eq_true, if_false]
      have hwlt : w < s.nextRef := hI.watches.2 w hw
      have hfresh : s.nextRef ∉ s.timerArray := fun hm => lt_irrefl _ (hI.timers.2 _ hm)
      refine ⟨⟨?_, fun r hr => ?_⟩,
        ⟨hI.watches.1, fun r hr => Nat.lt_succ_of_lt (hI.watches.2 r hr)⟩, ?_⟩
      · show (s.timerArray ++ [s.nextRef]).Nodup
        rw [List.nodup_append]
        refine ⟨hI.timers.1, List.nodup_singleton _, ?_⟩
        intro x hx hb
        rw [List.mem_singleton] at hb
        subst hb
        exact hfresh hx
      · have hr' : r ∈ s.timerArray ++ [s.nextRef] := hr
        rw [List.mem_append, List.mem_singleton] at hr'
        show r < s.nextRef + 1
        rcases hr' with h1 | h1
        · exact Nat.lt_succ_of_lt (hI.timers.2 r h1)
        · rw [h1]; exact Nat.lt_succ_self _
      · intro x hx w' hl
        have hx' : x ∈ s.timerArray ++ [s.nextRef] := hx
        rw [List.mem_append, List.mem_singleton] at hx'
        rcases hx' with h1 | h1
        · have hne : x ≠ s.nextRef := fun e => hfresh (e ▸ h1)
          simp only [St.setWatch, jsiTimerAdd, Function.update_noteq hne] at hl
          obtain ⟨a, b, c⟩ := hI.linked x h1 w' hl
          have hne' : w' ≠ w := by
            intro e
            rw [e, hto] at c
            cases c
          refine ⟨?_, Nat.lt_succ_of_lt b, ?_⟩
          · simp only [St.setWatch, jsiTimerAdd, Function.update_noteq hne]
            exact a
          · simp only [St.setWatch, jsiTimerAdd, Function.update_noteq hne']
            exact c
        · subst h1
          simp only [St.setWatch, jsiTimerAdd, Function.update_same, Option.some.injEq] at hl
          subst hl
          refine ⟨?_, Nat.lt_succ_of_lt hwlt, ?_⟩
          · simp [St.setWatch, jsiTimerAdd, Timer.absent]
          · simp [St.setWatch, jsiTimerAdd]

/-- The debounce branch keeps the debounce link: storing the level of the pin
changes no table and no link. -/
theorem jsiIdleWatchDebounce_linked (env : Env) (w : JsVarRef) (pin : Pin) (pinIsHigh : Bool)
    (evTime debounce : Int) (s : St) (hw : w ∈ s.watchArray) (hI : s.DebounceLinked) :
    (jsiIdleWatchDebounce env w pin pinIsHigh evTime debounce s).DebounceLinked := by
  obtain ⟨r, hr, _, heq⟩ := jsiIdleWatchDebounce_eq env w pin pinIsHigh evTime debounce s
  rw [heq]
  refine (jsiIdleWatchDebounceTimer_linked env w pin evTime debounce s hw hI).of_tables rfl rfl
    (fun t => ⟨rfl, rfl⟩) (fun x => ?_) hr
  by_cases hx : x = w
  · subst hx
    simp [St.setWatch]
  · simp [St.setWatch, Function.update_noteq hx]

theorem jsiIdleWatchFire_linked (env : Env)
    (hcb : ∀ f args st, ∀ a ∈ env.interp f args st, a.plainTimer)
    (w : JsVarRef) (pin : Pin) (pinIsHigh : Bool)
    (timePtr : Option Int) (s s' : St)
    (h : jsiIdleWatchFire env w pin pinIsHigh timePtr s = some s') (hI : s.DebounceLinked) :
    s'.DebounceLinked := by
  unfold jsiIdleWatchFire at h
  simp only at h
  split at h
  · cases h
  · rename_i ok s1 hcall
    have h0 : (jsvNewWithFlags env s).2.DebounceLinked := by
      unfold jsvNewWithFlags
      split
      · exact hI.of_tables rfl rfl (fun _ => ⟨rfl, rfl⟩) (fun _ => rfl) (le_refl _)
      · exact hI.of_tables rfl rfl (fun _ => ⟨rfl, rfl⟩) (fun _ => rfl) (Nat.le_succ _)
    have h1 : s1.DebounceLinked :=
      jsiExecuteEventCallback_rel env _ (stepClosed_linked env hcb) _ _ _ _ _ hcall h0
    have herr : ∀ (c : Prop) [Decidable c] (x : St), x.DebounceLinked →
        (if c then jsError "Error processing Watch - removing it." x else x).DebounceLinked := by
      intro c _ x hx
      split
      · exact ⟨hx.1, hx.2, hx.3⟩
      · exact hx
    have hpin : ∀ (c : Prop) [Decidable c] (x : St), x.DebounceLinked →
        (if c then jshPinWatch pin false x else x).DebounceLinked := by
      intro c _ x hx
      split
      · exact ⟨hx.1, hx.2, hx.3⟩
      · exact hx
    split at h
    · simp only [Option.some.injEq] at h
      subst h
      exact hpin _ _ ((herr _ _ h1).erase_watch w)
    · simp only [Option.some.injEq] at h
      subst h
      exact herr _ _ h1

theorem jsiIdleWatch_linked (env : Env)
    (hcb : ∀ f args st, ∀ a ∈ env.interp f args st, a.plainTimer)
    (event : IOEvent) (w : JsVarRef) (s s' : St)
    (h : jsiIdleWatch env event w s = some s') (hw : w ∈ s.watchArray)
    (hI : s.DebounceLinked) : s'.DebounceLinked := by
  have hclock : (jshGetSystemTime env s).2.DebounceLinked :=
    hI.of_tables rfl rfl (fun _ => ⟨rfl, rfl⟩) (fun _ => rfl) (le_refl _)
  have hlast : ∀ (x : St) (v : Option Int), x.DebounceLinked →
      (x.setWatch w fun y => { y with lastTime := v }).DebounceLinked := by
    intro x v hx
    refine hx.of_tables rfl rfl (fun _ => ⟨rfl, rfl⟩) (fun r => ?_) (le_refl _)
    by_cases hr : r = w
    · subst hr
      simp [St.setWatch]
    · simp [St.setWatch, Function.update_noteq hr]
  unfold jsiIdleWatch at h
  simp only at h
  split at h
  · split at h
    · simp only [Option.some.injEq] at h
      subst h
      exact jsiIdleWatchDebounce_linked env w _ _ _ _ _ hw hclock
    · simp only [Option.map_eq_some'] at h
      obtain ⟨x, hx, rfl⟩ := h
      apply hlast
      have hfloat : (jsvNewFromFloat env (eventTime (jshGetSystemTime env s).1 event.time)
          (jshGetSystemTime env s).2).2.DebounceLinked := by
        obtain ⟨_, r, hr, _, hs⟩ := jsvNewFromFloat_eq env
          (eventTime (jshGetSystemTime env s).1 event.time) (jshGetSystemTime env s).2
        rw [hs]
        exact hclock.of_tables rfl rfl (fun _ => ⟨rfl, rfl⟩) (fun _ => rfl) hr
      split at hx
      · exact jsiIdleWatchFire_linked env hcb w _ _ _ _ x hx hfloat
      · simp only [Option.some.injEq] at hx
        subst hx
        exact hfloat
  · simp only [Option.some.injEq] at h
    subst h
    exact hI

theorem jsiIdleWatchLoop_linked (env : Env)
    (hcb : ∀ f args st, ∀ a ∈ env.interp f args st, a.plainTimer) (event : IOEvent) :
    ∀ (fuel : Nat) (cur : Option JsVarRef) (s s' : St),
      jsiIdleWatchLoop env event fuel cur s = some s' →
      (∀ c, cur = some c → c ∈ s.watchArray) → s.DebounceLinked → s'.DebounceLinked
  | fuel, none, s, s', h, _, hI => by
      cases fuel <;> (simp only [jsiIdleWatchLoop, Option.some.injEq] at h; subst h; exact hI)
  | 0, some c, s, s', h, _, _ => by simp [jsiIdleWatchLoop] at h
  | fuel + 1, some c, s, s', h, hc, hI => by
      simp only [jsiIdleWatchLoop] at h
      cases hb : jsiIdleWatch env event c s with
      | none => simp [hb] at h
      | some s1 =>
        simp only [hb] at h
        have h1 := jsiIdleWatch_linked env hcb event c s s1 hb (hc c rfl) hI
        exact jsiIdleWatchLoop_linked env hcb event fuel _ s1 s' h
          (fun x hx => nextSibling_mem _ _ _ hx) h1

theorem jsiHandleChars_linked (env : Env)
    (hch : ∀ c st, ∀ a ∈ env.jsiHandleChar c st, a.plainTimer) : ∀ (chars : List Nat) (s s' : St),
    jsiHandleChars env chars s = some s' → s.DebounceLinked → s'.DebounceLinked
  | [], s, s', h, hI => by simp only [jsiHandleChars, Option.some.injEq] at h; subst h; exact hI
  | c :: rest, s, s', h, hI => by
      simp only [jsiHandleChars] at h
      split at h
      · rename_i s2 h2
        have hh := applyActions_linked env _ _ s2 (hch _ _) h2 ⟨hI.1, hI.2, hI.3⟩
        exact jsiHandleChars_linked env hch rest s2 s' h hh
      · cases h

theorem jsiIdleUsart_linked (env : Env)
    (hpd : ∀ d cs st, ∀ a ∈ env.pushData d cs st, a.plainTimer)
    (event : IOEvent) (s s' : St)
    (h : jsiIdleUsart env event s = some s') (hI : s.DebounceLinked) : s'.DebounceLinked := by
  unfold jsiIdleUsart at h
  simp only at h
  split at h
  · simp only [Option.some.injEq] at h; subst h; exact hI
  · have h0 : (jsvNewWithFlags env s).2.DebounceLinked := by
      unfold jsvNewWithFlags
      split
      · exact hI.of_tables rfl rfl (fun _ => ⟨rfl, rfl⟩) (fun _ => rfl) (le_refl _)
      · exact hI.of_tables rfl rfl (fun _ => ⟨rfl, rfl⟩) (fun _ => rfl) (Nat.le_succ _)
    split at h
    · simp only [Option.some.injEq] at h; subst h; exact h0
    · split at h
      · cases h
      · exact applyActions_linked env _ _ s' (hpd _ _ _) h ⟨h0.1, h0.2, h0.3⟩

theorem jsiIdleEvent_linked (env : Env) (hp : env.PlainTimers)
    (fuel : Nat) (event : IOEvent) (s s' : St)
    (h : jsiIdleEvent env fuel event s = some s') (hI : s.DebounceLinked) :
    s'.DebounceLinked := by
  unfold jsiIdleEvent at h
  simp only at h
  split at h
  · simp only [Option.map_eq_some'] at h
    obtain ⟨x, hx, rfl⟩ := h
    have hh := jsiHandleChars_linked env hp.jsiHandleChar _ _ x hx ⟨hI.1, hI.2, hI.3⟩
    exact ⟨hh.1, hh.2, hh.3⟩
  · split at h
    · exact jsiIdleUsart_linked env hp.pushData event _ s' h ⟨hI.1, hI.2, hI.3⟩
    · split at h
      · exact jsiIdleWatchLoop_linked env hp.interp event fuel _ _ s' h
          (fun c hc => List.mem_of_mem_head? hc) ⟨hI.1, hI.2, hI.3⟩
      · simp only [Option.some.injEq] at h; subst h; exact ⟨hI.1, hI.2, hI.3⟩

theorem jsiIdleEvents_linked (env : Env) (hp : env.PlainTimers) (inner : Nat) :
    ∀ (fuel : Nat) (b : Bool) (s : St) (r : Bool × St),
      jsiIdleEvents env inner fuel b s = some r → s.DebounceLinked → r.2.DebounceLinked
  | fuel, b, s, r, h, hI => by
      unfold jsiIdleEvents at h
      cases hio : s.ioEvents with
      | nil =>
        simp only [hio, Option.some.injEq] at h
        subst h
        exact hI
      | cons event rest =>
        simp only [hio] at h
        cases fuel with
        | zero => simp at h
        | succ fuel =>
          simp only at h
          cases he : jsiIdleEvent env inner event { s with ioEvents := rest } with
          | none => simp [he] at h
          | some s1 =>
            simp only [he] at h
            have hh := jsiIdleEvent_linked env hp inner event _ s1 he ⟨hI.1, hI.2, hI.3⟩
            exact jsiIdleEvents_linked env hp inner fuel true s1 r h hh

theorem jsiIdleTimerData_linked (env : Env) (timer : JsVarRef) (s : St) (hI : s.DebounceLinked) :
    (jsiIdleTimerData env timer s).2.2.DebounceLinked ∧
    ∀ w, ((jsiIdleTimerData env timer s).2.2.watchObj w).timeout = (s.watchObj w).timeout := by
  obtain ⟨hto, hta, hnr⟩ := jsiIdleTimerData_frame env timer s
  have hwa : (jsiIdleTimerData env timer s).2.2.watchArray = s.watchArray := by
    unfold jsiIdleTimerData jsvNewWithFlags jsiSetBusy
    by_cases ho : env.oom s.allocs = true
    · simp [ho]
    · cases hw : (s.timerObj timer).watch <;> simp [ho, hw, St.setWatch]
  have hwo : ∀ w, ((jsiIdleTimerData env timer s).2.2.watchObj w).timeout =
      (s.watchObj w).timeout := by
    intro w
    unfold jsiIdleTimerData jsvNewWithFlags jsiSetBusy
    by_cases ho : env.oom s.allocs = true
    · simp [ho]
    · cases hw : (s.timerObj timer).watch with
      | none => simp [ho, hw]
      | some w0 =>
        by_cases hx : w = w0
        · subst hx
          simp [ho, hw, St.setWatch]
        · simp [ho, hw, St.setWatch, Function.update_noteq hx]
  exact ⟨hI.of_tables hta hwa (fun t => by rw [hto]; exact ⟨rfl, rfl⟩) hwo hnr, hwo⟩

/-- The end of the block of a due timer keeps the debounce link: a timer with a
link is one-shot and is the one that its watch is linked to, so that it leaves
the table when the link of the watch is cleared. -/
theorem jsiIdleTimerFinish_linked (timer : JsVarRef) (watchPtr : Option JsVarRef)
    (exec rec : Bool) (x : St) (hI : x.DebounceLinked)
    (hlink : ∀ w, watchPtr = some w → (x.watchObj w).timeout = some timer ∧ rec = false) :
    (jsiIdleTimerFinish timer watchPtr exec rec x).DebounceLinked := by
  cases watchPtr with
  | none =>
    unfold jsiIdleTimerFinish
    simp only
    have hset : ∀ v : Int, (x.setTimer timer fun t => { t with time := v }).DebounceLinked := by
      intro v
      refine hI.of_tables rfl rfl (fun t => ?_) (fun _ => rfl) (le_refl _)
      by_cases ht : t = timer
      · subst ht
        simp [St.setTimer]
      · simp [St.setTimer, Function.update_noteq ht]
    split
    · split
      · exact hset _
      · exact hset _
    · split
      · exact hI.erase_timer timer
      · exact hI
  | some w =>
    obtain ⟨hto, hrec⟩ := hlink w rfl
    subst hrec
    obtain ⟨hwo, hwa, _⟩ := jsiIdleTimerFinish_watch timer w exec false x
    obtain ⟨hta, _, htob⟩ := jsiIdleTimerFinish_removes timer (some w) exec x
    obtain ⟨_, hn⟩ := jsiIdleTimerFinish_table timer (some w) exec false x
    refine ⟨⟨?_, fun r hr => ?_⟩, ⟨?_, fun r hr => ?_⟩, ?_⟩
    · rw [hta]
      exact hI.timers.1.erase timer
    · rw [hn]
      rw [hta] at hr
      exact hI.timers.2 r (List.mem_of_mem_erase hr)
    · rw [hwa]
      split
      · exact hI.watches.1.erase w
      · exact hI.watches.1
    · rw [hn]
      rw [hwa] at hr
      split at hr
      · exact hI.watches.2 r (List.mem_of_mem_erase hr)
      · exact hI.watches.2 r hr
    · intro t ht w' hl
      rw [hta] at ht
      rw [htob] at hl
      have htne : t ≠ timer := fun e => by
        rw [e] at ht
        exact List.Nodup.not_mem_erase hI.timers.1 ht
      obtain ⟨a, b, c⟩ := hI.linked t (List.mem_of_mem_erase ht) w' hl
      have hne : w' ≠ w := by
        intro e
        rw [e, hto] at c
        simp only [Option.some.injEq] at c
        exact htne c.symm
      refine ⟨by rw [htob]; exact a, by rw [hn]; exact b, ?_⟩
      rw [hwo, Function.update_noteq hne]
      exact c

/-- The block for a due timer keeps the debounce link. -/
theorem jsiIdleTimerFire_linked (env : Env)
    (hcb : ∀ f args st, ∀ a ∈ env.interp f args st, a.plainTimer)
    (timer : JsVarRef) (s s' : St)
    (h : jsiIdleTimerFire env timer s = some s')
    (hmem : timer ∈ s.timerArray) (hI : s.DebounceLinked) : s'.DebounceLinked := by
  obtain ⟨hto, hta, hnr⟩ := jsiIdleTimerData_frame env timer s
  obtain ⟨hI3, hwo3⟩ := jsiIdleTimerData_linked env timer s hI
  have hrec3 : ((jsiIdleTimerData env timer s).2.2.timerObj timer).recur =
      (s.timerObj timer).recur := by rw [hto]
  -- a timer with a link: it is one-shot and the watch is linked to it
  have hlink0 : ∀ w, (s.timerObj timer).watch = some w →
      (s.timerObj timer).recur = false ∧ w < s.nextRef ∧
        (s.watchObj w).timeout = some timer := fun w hw => hI.linked timer hmem w hw
  have hfin3 : ∀ exec : Bool,
      (jsiIdleTimerFinish timer (s.timerObj timer).watch exec
        ((jsiIdleTimerData env timer s).2.2.timerObj timer).recur
        (jsiIdleTimerData env timer s).2.2).DebounceLinked := by
    intro exec
    apply jsiIdleTimerFinish_linked _ _ _ _ _ hI3
    intro w hw
    obtain ⟨a, _, c⟩ := hlink0 w hw
    exact ⟨by rw [hwo3]; exact c, by rw [hrec3]; exact a⟩
  unfold jsiIdleTimerFire at h
  simp only at h
  split at h
  · split at h
    · rename_i ok s4 hcall
      have hI4 : s4.DebounceLinked :=
        jsiExecuteEventCallback_rel env _ (stepClosed_linked env hcb) _ _ _ _ _ hcall hI3
      have hp4 := jsiExecuteEventCallback_preserves env _ _ _ _ _ hcall
      simp only at hp4
      split at h
      · simp only [Option.some.injEq] at h
        subst h
        apply jsiIdleTimerFinish_linked
        · exact ⟨hI4.1, hI4.2, hI4.3⟩
        · intro w hw
          obtain ⟨a, b, c⟩ := hlink0 w hw
          refine ⟨?_, rfl⟩
          show (s4.watchObj w).timeout = some timer
          rw [hp4.watchObj w (lt_of_lt_of_le b hnr), hwo3]
          exact c
      · simp only [Option.some.injEq] at h
        subst h
        apply jsiIdleTimerFinish_linked _ _ _ _ _ hI4
        intro w hw
        obtain ⟨a, b, c⟩ := hlink0 w hw
        refine ⟨?_, by rw [hrec3]; exact a⟩
        rw [hp4.watchObj w (lt_of_lt_of_le b hnr), hwo3]
        exact c
    · cases h
  · simp only [Option.some.injEq] at h
    subst h
    exact hfin3 _

theorem jsiIdleTimer_linked (env : Env)
    (hcb : ∀ f args st, ∀ a ∈ env.interp f args st, a.plainTimer)
    (e : Int) (timer : JsVarRef) (m : Int) (b : Bool)
    (s : St) (r : Int × Bool × Option (Option JsVarRef) × St)
    (h : jsiIdleTimer env e timer m b s = some r)
    (hmem : timer ∈ s.timerArray) (hI : s.DebounceLinked) :
    r.2.2.2.DebounceLinked ∧ (∀ n, r.2.2.1 = some (some n) → n ∈ r.2.2.2.timerArray) := by
  have h1 : (s.setTimer timer fun t =>
      { t with time := (s.timerObj timer).time - e }).DebounceLinked := by
    refine hI.of_tables rfl rfl (fun t => ?_) (fun _ => rfl) (le_refl _)
    by_cases ht : t = timer
    · subst ht
      simp [St.setTimer]
    · simp [St.setTimer, Function.update_noteq ht]
  have hend : ∀ (busy1 : Bool) (s2 : St), s2.DebounceLinked →
      (if nextSibling s2.timerArray timer ≠ nextSibling s.timerArray timer then
          some ((0 : Int), busy1, (none : Option (Option JsVarRef)), s2)
        else some ((if (s.timerObj timer).time - e < m then (s.timerObj timer).time - e else m),
          busy1, some (nextSibling s.timerArray timer), s2)) = some r →
      r.2.2.2.DebounceLinked ∧ (∀ n, r.2.2.1 = some (some n) → n ∈ r.2.2.2.timerArray) := by
    intro busy1 s2 hs2 hr
    split at hr
    · simp only [Option.some.injEq] at hr
      subst hr
      exact ⟨hs2, fun n hn => by simp at hn⟩
    · rename_i hsame
      simp only [Option.some.injEq] at hr
      subst hr
      refine ⟨hs2, fun n hn => ?_⟩
      simp only [Option.some.injEq] at hn
      have hcur : nextSibling s2.timerArray timer = some n := by
        rw [not_not.1 hsame]; exact hn
      exact nextSibling_mem _ _ _ hcur
  unfold jsiIdleTimer at h
  simp only at h
  by_cases hdue : (s.timerObj timer).time - e ≤ 0
  · simp only [if_pos hdue] at h
    cases hf : jsiIdleTimerFire env timer
        (s.setTimer timer fun t => { t with time := (s.timerObj timer).time - e }) with
    | none => simp [hf] at h
    | some x =>
      have hl := jsiIdleTimerFire_linked env hcb timer _ x hf hmem h1
      simp only [hf, Option.map_some'] at h
      exact hend true x hl h
  · simp only [if_neg hdue] at h
    exact hend b _ h1 h

theorem jsiIdleTimerLoop_linked (env : Env)
    (hcb : ∀ f args st, ∀ a ∈ env.interp f args st, a.plainTimer) (e : Int) :
    ∀ (fuel : Nat) (cur : Option JsVarRef) (m : Int) (b : Bool) (s : St) (r : Int × Bool × St),
      jsiIdleTimerLoop env e fuel cur m b s = some r →
      (∀ c, cur = some c → c ∈ s.timerArray) → s.DebounceLinked → r.2.2.DebounceLinked
  | fuel, none, m, b, s, r, h, _, hI => by
      cases fuel <;> (simp only [jsiIdleTimerLoop, Option.some.injEq] at h; subst h; exact hI)
  | 0, some c, m, b, s, r, h, _, _ => by simp [jsiIdleTimerLoop] at h
  | fuel + 1, some c, m, b, s, r, h, hc, hI => by
      simp only [jsiIdleTimerLoop] at h
      cases hb : jsiIdleTimer env e c m b s with
      | none => simp [hb] at h
      | some x =>
        obtain ⟨m1, b1, cont, s1⟩ := x
        obtain ⟨hl, hnext⟩ := jsiIdleTimer_linked env hcb e c m b s _ hb (hc c rfl) hI
        simp only at hl hnext
        cases cont with
        | none =>
          simp only [hb, Option.some.injEq] at h
          subst h
          exact hl
        | some next =>
          simp only [hb] at h
          exact jsiIdleTimerLoop_linked env hcb e fuel next m1 b1 s1 r h
            (fun n hn => hnext n (by rw [hn])) hl

theorem jsiIdleTimers_linked (env : Env)
    (hcb : ∀ f args st, ∀ a ∈ env.interp f args st, a.plainTimer)
    (fuel : Nat) (b : Bool) (s : St) (r : Int × Bool × St)
    (h : jsiIdleTimers env fuel b s = some r) (hI : s.DebounceLinked) :
    r.2.2.DebounceLinked := by
  unfold jsiIdleTimers at h
  exact jsiIdleTimerLoop_linked env hcb _ fuel _ _ b _ r h
    (fun c hc => List.mem_of_mem_head? hc) ⟨hI.1, hI.2, hI.3⟩

theorem jsiExecuteEvent_linked (env : Env)
    (hcb : ∀ f args st, ∀ a ∈ env.interp f args st, a.plainTimer)
    (event : Event) (s s' : St)
    (h : jsiExecuteEvent env event s = some s') (hI : s.DebounceLinked) : s'.DebounceLinked := by
  unfold jsiExecuteEvent at h
  simp only at h
  split at h
  · cases h; exact hI
  · split at h
    · exact jspExecuteFunction_rel env _ (stepClosed_linked env hcb) _ _ s s' h hI
    · split at h
      · exact jspEvaluateVar_rel env _ (stepClosed_linked env hcb) _ s s' h hI
      · cases h; exact ⟨hI.1, hI.2, hI.3⟩

theorem jsiExecuteEventsLoop_linked (env : Env)
    (hcb : ∀ f args st, ∀ a ∈ env.interp f args st, a.plainTimer) :
    ∀ (fuel : Nat) (s s' : St), jsiExecuteEventsLoop env fuel s = some s' →
      s.DebounceLinked → s'.DebounceLinked
  | fuel, s, s', h, hI => by
      unfold jsiExecuteEventsLoop at h
      cases hev : s.events with
      | nil =>
        simp only [hev, Option.some.injEq] at h
        subst h
        exact hI
      | cons event rest =>
        simp only [hev] at h
        cases fuel with
        | zero => simp at h
        | succ fuel =>
          simp only at h
          cases he : jsiExecuteEvent env event { s with events := rest } with
          | none => simp [he] at h
          | some s1 =>
            simp only [he] at h
            have hh := jsiExecuteEvent_linked env hcb event _ s1 he ⟨hI.1, hI.2, hI.3⟩
            exact jsiExecuteEventsLoop_linked env hcb fuel s1 s' h hh

theorem jsiExecuteEvents_linked (env : Env)
    (hcb : ∀ f args st, ∀ a ∈ env.interp f args st, a.plainTimer)
    (fuel : Nat) (s s' : St)
    (h : jsiExecuteEvents env fuel s = some s') (hI : s.DebounceLinked) : s'.DebounceLinked := by
  obtain ⟨b, s2, b', f, hloop, rfl⟩ := jsiExecuteEvents_shape env fuel s s' h
  have hh := jsiExecuteEventsLoop_linked env hcb fuel _ s2 hloop ⟨hI.1, hI.2, hI.3⟩
  exact ⟨hh.1, hh.2, hh.3⟩

theorem jsiIdleTodo_linked (env : Env) (hp : env.PlainTimers) (s : St) (hI : s.DebounceLinked) :
    (jsiIdleTodo env s).DebounceLinked := by
  have hm : ∀ m (x : St), x.DebounceLinked → (jsiIdleMaintain env m x).DebounceLinked := by
    intro m x hx
    unfold jsiIdleMaintain
    exact hp.reinit m _ ⟨hx.1, hx.2, hx.3⟩
  have hite : ∀ (c : Prop) [Decidable c] (m : Maintenance) (x : St), x.DebounceLinked →
      (if c then jsiIdleMaintain env m x else x).DebounceLinked := by
    intro c _ m x hx
    split
    · exact hm m x hx
    · exact hx
  have hbusy : ∀ (b : Bool) (x : St), x.DebounceLinked → (jsiSetBusy b x).DebounceLinked :=
    fun _ _ hx => ⟨hx.1, hx.2, hx.3⟩
  unfold jsiIdleTodo
  split
  · simp only
    apply hbusy
    apply hite
    apply hite
    apply hite
    exact hbusy _ _ hI
  · exact hI

theorem jsiIdleSleep_linked (env : Env) (m : Int) (s : St) (hI : s.DebounceLinked) :
    (jsiIdleSleep env m s).DebounceLinked := by
  unfold jsiIdleSleep jsiSetBusy
  simp only
  split <;> split <;> exact ⟨hI.1, hI.2, hI.3⟩

/-- A step of `jsiIdle` keeps the debounce link. -/
theorem jsiIdle_linked (env : Env) (hp : env.PlainTimers) (fuel : Nat) (s0 s' : St)
    (h : jsiIdle env fuel s0 = some s') (hI : s0.DebounceLinked) : s'.DebounceLinked := by
  unfold jsiIdle at h
  simp only at h
  cases hev : jsiIdleEvents env fuel fuel false
      (if s0.loopsIdling < 255 then { s0 with loopsIdling := s0.loopsIdling + 1 } else s0) with
  | none => simp [hev] at h
  | some r1 =>
    obtain ⟨busy1, s2⟩ := r1
    simp only [hev] at h
    cases ht : jsiIdleTimers env fuel busy1 (jsiIdleFlowControl env s2) with
    | none => simp [ht] at h
    | some r2 =>
      obtain ⟨m, busy2, s3⟩ := r2
      simp only [ht] at h
      cases hi : applyActions env (env.jswIdle s3).2 s3 with
      | none => simp [hi] at h
      | some s4 =>
        simp only [hi] at h
        have hd : jsiIdleDrain env fuel m (busy2 || (env.jswIdle s3).1) s4 = some s' := by
          unfold jsiIdleDrain
          exact h
        obtain ⟨b, s7, hdrain, hs'⟩ := jsiIdleDrain_shape env fuel m _ s4 s' hd
        have h1 : (if s0.loopsIdling < 255 then { s0 with loopsIdling := s0.loopsIdling + 1 }
            else s0).DebounceLinked := by
          split
          · exact ⟨hI.1, hI.2, hI.3⟩
          · exact hI
        have h2 : s2.DebounceLinked := jsiIdleEvents_linked env hp fuel fuel false _ _ hev h1
        have h2' : (jsiIdleFlowControl env s2).DebounceLinked := by
          unfold jsiIdleFlowControl
          split
          · exact ⟨h2.1, h2.2, h2.3⟩
          · exact h2
        have h3 : s3.DebounceLinked := jsiIdleTimers_linked env hp.interp fuel busy1 _ _ ht h2'
        have h4 : s4.DebounceLinked := applyActions_linked env _ s3 s4 (hp.jswIdle _) hi h3
        have h7 : s7.DebounceLinked := by
          split at hdrain
          · subst hdrain
            exact ⟨h4.1, h4.2, h4.3⟩
          · exact jsiExecuteEvents_linked env hp.interp fuel _ s7 hdrain ⟨h4.1, h4.2, h4.3⟩
        rw [hs']
        apply jsiIdleSleep_linked
        apply jsiIdleTodo_linked env hp
        split
        · exact ⟨h7.1, h7.2, h7.3⟩
        · exact h7

/-- C22: the debounce link is an invariant. Start from a state whose tables
are well formed and whose timer table has no timer with a link `watch`. In
every state that steps of `jsiIdle` reach from it, raw events arriving between
the steps, every watch of the watch table has at most one timer in the timer
table that carries a link `watch` to it, and that timer is the one stored in
the child `timeout` of the watch. A raw edge for a watch that has a debounce
timer pending adds no timer and keeps the link. The collaborators make no timer
with a link `watch` (the link is written by `jsiIdle` alone), and maintenance
hands back tables that have the link. -/
theorem jsiIdle_debounce_link (env : Env) (fuel : Nat) (s0 s : St) (hp : env.PlainTimers)
    (htimers : s0.timersWF) (hwatches : s0.watchesWF)
    (hnone : ∀ t ∈ s0.timerArray, (s0.timerObj t).watch = none)
    (hreach : Reachable env fuel s0 s) :
    (∀ w ∈ s.watchArray, ∀ t1 ∈ s.timerArray, ∀ t2 ∈ s.timerArray,
      (s.timerObj t1).watch = some w → (s.timerObj t2).watch = some w → t1 = t2) ∧
    (∀ w ∈ s.watchArray, ∀ t ∈ s.timerArray,
      (s.timerObj t).watch = some w → (s.watchObj w).timeout = some t) ∧
    (∀ (event : IOEvent) (w tr : JsVarRef) (s1 : St),
      (s.watchObj w).timeout = some tr → (s.watchObj w).debounce > 0 →
      env.jshIsEventForPin event (s.watchObj w).pin = true →
      jsiIdleWatch env event w s = some s1 →
      s1.timerArray = s.timerArray ∧ (s1.watchObj w).timeout = some tr) := by
  have hI : s.DebounceLinked := by
    induction hreach with
    | start =>
      exact ⟨htimers, hwatches, fun t ht w hl => by rw [hnone t ht] at hl; cases hl⟩
    | step a b _ hstep ih => exact jsiIdle_linked env hp fuel a b hstep ih
    | arrive a evs _ ih => exact ⟨ih.1, ih.2, ih.3⟩
  refine ⟨fun w _ t1 ht1 t2 ht2 h1 h2 => ?_, fun w _ t ht hl => (hI.linked t ht w hl).2.2,
    fun event w tr s1 hto hdeb hpin hrun => ?_⟩
  · have a := (hI.linked t1 ht1 w h1).2.2
    have b := (hI.linked t2 ht2 w h2).2.2
    rw [a] at b
    simp only [Option.some.injEq] at b
    exact b
  · obtain ⟨x, hx, _, harr, _, _, hw, _⟩ := jsiIdleWatch_pending env event w tr s hpin hdeb hto
    rw [hx] at hrun
    simp only [Option.some.injEq] at hrun
    subst hrun
    exact ⟨harr, by rw [hw]; exact hto⟩

theorem jsiIdle_debounce_link_witness :
    (jsiIdle Env.at25 5 St.risingEdge).map
      (fun s => (s.watchArray, s.timerArray, (s.timerObj 2).watch, (s.watchObj 1).timeout)) =
      some ([1], [2], some 1, some 2) := by
  cases h : jsiIdle Env.at25 5 St.risingEdge with
  | none =>
    have : (jsiIdle Env.at25 5 St.risingEdge).isSome = true := by rfl
    rw [h] at this
    cases this
  | some r =>
    have hfacts : (jsiIdle Env.at25 5 St.risingEdge).map
        (fun s => (s.watchArray, s.timerArray, (s.timerObj 2).watch)) =
        some ([1], [2], some 1) := by rfl
    rw [h] at hfacts
    simp only [Option.map_some', Option.some.injEq, Prod.mk.injEq] at hfacts
    obtain ⟨hw, ht, hl⟩ := hfacts
    have hp : Env.at25.PlainTimers :=
      { interp := fun _ _ _ a ha => absurd ha (List.not_mem_nil a)
        jsiHandleChar := fun _ _ a ha => absurd ha (List.not_mem_nil a)
        pushData := fun _ _ _ a ha => absurd ha (List.not_mem_nil a)
        jswIdle := fun _ a ha => absurd ha (List.not_mem_nil a)
        reinit := fun _ _ hx => hx }
    have hlink := (jsiIdle_debounce_link Env.at25 5 St.risingEdge r hp
      ⟨by decide, by decide⟩ ⟨by decide, by decide⟩ (by decide)
      (Reachable.step St.risingEdge r Reachable.start h)).2.1 1 (by rw [hw]; decide) 2
      (by rw [ht]; decide) hl
    simp only [Option.map_some', hw, ht, hl, hlink]

/-! ## The condition that a drain raises -/

theorem jsiExecuteEvent_flag (env : Env) (event : Event) (s s' : St)
    (h : jsiExecuteEvent env event s = some s') :
    s'.interruptedDuringEvent = s.interruptedDuringEvent := by
  have hact : ∀ (acts : List Action) (x x' : St), applyActions env acts x = some x' →
      x'.interruptedDuringEvent = x.interruptedDuringEvent := fun acts x x' hx =>
    applyActions_rel env (fun a b => b.interruptedDuringEvent = a.interruptedDuringEvent)
      (fun _ => rfl) (fun _ _ _ h1 h2 => h2.trans h1) acts x x'
      (fun a _ y y' hy => by rw [applyAction_only env a y y' hy]) hx
  unfold jsiExecuteEvent at h
  simp only at h
  split at h
  · cases h; rfl
  · split at h
    · unfold jspExecuteFunction at h
      have hh := hact _ _ s' h
      exact hh
    · split at h
      · unfold jspEvaluateVar at h
        have hh := hact _ _ s' h
        exact hh
      · cases h; rfl

/-- The loop of `jsiExecuteEvents` does not write `interruptedDuringEvent`: the
drain hands the entries to `jspExecuteFunction` and `jspEvaluateVar` and does
not look at what they report. -/
theorem jsiExecuteEventsLoop_flag (env : Env) :
    ∀ (fuel : Nat) (s s' : St), jsiExecuteEventsLoop env fuel s = some s' →
      s'.interruptedDuringEvent = s.interruptedDuringEvent
  | fuel, s, s', h => by
      unfold jsiExecuteEventsLoop at h
      cases hev : s.events with
      | nil =>
        simp only [hev, Option.some.injEq] at h
        subst h
        rfl
      | cons event rest =>
        simp only [hev] at h
        cases fuel with
        | zero => simp at h
        | succ fuel =>
          simp only at h
          cases he : jsiExecuteEvent env event { s with events := rest } with
          | none => simp [he] at h
          | some s1 =>
            simp only [he] at h
            have hh := jsiExecuteEvent_flag env event _ s1 he
            exact (jsiExecuteEventsLoop_flag env fuel s1 s' h).trans hh

/-- C23 (amended): `jsiExecuteEvents` sets `interruptedDuringEvent` if and only
if the queue was not empty, the interrupt flag (`jspIsInterrupted`) was clear
when the drain began and it is set when the drain ends, an invocation made
during the drain having set it. The error flag (`jspHasError`) is not looked
at. An interrupt that was pending before the drain never raises the condition,
and a drain of an empty queue does nothing at all. -/
theorem jsiExecuteEvents_raises (env : Env) (fuel : Nat) (s s' : St)
    (h : jsiExecuteEvents env fuel s = some s') :
    s'.interruptedDuringEvent =
      (s.interruptedDuringEvent || (!s.events.isEmpty && !s.interrupted && s'.interrupted)) ∧
    (s.interruptedDuringEvent = false →
      (s'.interruptedDuringEvent = true ↔
        s.events ≠ [] ∧ s.interrupted = false ∧ s'.interrupted = true)) ∧
    (s.interrupted = true → s'.interruptedDuringEvent = s.interruptedDuringEvent) ∧
    (s.events = [] → s' = s) := by
  have hmain : s'.interruptedDuringEvent =
      (s.interruptedDuringEvent ||
        (!s.events.isEmpty && !s.interrupted && s'.interrupted)) := by
    dsimp only [jsiExecuteEvents] at h
    split at h
    · cases h
    · rename_i s2 hl
      have hf := jsiExecuteEventsLoop_flag env fuel _ s2 hl
      have hf0 : s2.interruptedDuringEvent = s.interruptedDuringEvent := by
        rw [hf]
        split <;> rfl
      split at h
      · rename_i hne
        simp only [Option.some.injEq] at h
        by_cases hc : (!s.interrupted && (jsiSetBusy false s2).interrupted) = true
        · rw [if_pos hc] at h
          subst h
          have hc' : (!s.interrupted && s2.interrupted) = true := hc
          simp only [hne, Bool.true_and]
          simp only [Bool.and_eq_true] at hc'
          have e : (jsiSetBusy false s2).interrupted = true := hc'.2
          simp [hc'.1, e]
        · rw [if_neg hc] at h
          subst h
          have hc' : ¬ (!s.interrupted && s2.interrupted) = true := hc
          simp only [hne, Bool.true_and]
          show s2.interruptedDuringEvent = _
          have e : (jsiSetBusy false s2).interrupted = s2.interrupted := rfl
          rw [e, hf0]
          simp only [Bool.not_eq_true] at hc'
          rw [hc', Bool.or_false]
      · rename_i hne
        simp only [Option.some.injEq] at h
        subst h
        rw [hf0]
        simp only [Bool.not_eq_true] at hne
        rw [hne]
        simp
  refine ⟨hmain, fun h0 => ?_, fun hi => ?_, fun he => ?_⟩
  · rw [hmain, h0]
    cases hev : s.events with
    | nil => simp
    | cons a l => simp
  · rw [hmain, hi]
    simp
  · rw [jsiExecuteEvents_empty env fuel s he] at h
    simp only [Option.some.injEq] at h
    exact h.symm

theorem jsiExecuteEvents_raises_witness :
    (jsiExecuteEvents Env.interrupting 5 St.twoQueued).map (·.interruptedDuringEvent) =
      some (St.twoQueued.interruptedDuringEvent ||
        (!St.twoQueued.events.isEmpty && !St.twoQueued.interrupted && true)) := by
  cases h : jsiExecuteEvents Env.interrupting 5 St.twoQueued with
  | none =>
    have : (jsiExecuteEvents Env.interrupting 5 St.twoQueued).isSome = true := by rfl
    rw [h] at this
    cases this
  | some r =>
    have hint : (jsiExecuteEvents Env.interrupting 5 St.twoQueued).map (·.interrupted) =
        some true := by rfl
    rw [h] at hint
    simp only [Option.map_some', Option.some.injEq] at hint
    have := (jsiExecuteEvents_raises Env.interrupting 5 St.twoQueued r h).1
    simp only [Option.map_some', this, hint]

/-- C23 (counterexample): every callback of the drain fails with an error that
is not an interrupt. The error flag, clear before the drain, is set after it,
and `interruptedDuringEvent` is not set: `jsiExecuteEvents` tests
`jspIsInterrupted()` only. -/
theorem jsiExecuteEvents_failure_not_raised :
    St.twoQueued.hasError = false ∧ St.twoQueued.interruptedDuringEvent = false ∧
    (jsiExecuteEvents Env.failing 5 St.twoQueued).map
      (fun s => (s.trace.length, s.hasError, s.interrupted, s.interruptedDuringEvent)) =
      some (2, true, false, false) := by
  refine ⟨rfl, rfl, by rfl⟩

/-! ## Sleep -/

/-- The body of the timer loop for a timer that is not due: the timer is
charged, the minimum is updated, and the loop goes on with the next entry. -/
theorem jsiIdleTimer_not_due (env : Env) (e : Int) (c : JsVarRef) (m : Int) (b : Bool) (s : St)
    (hwait : ¬ (s.timerObj c).time - e ≤ 0) :
    jsiIdleTimer env e c m b s =
      some (min m ((s.timerObj c).time - e), b, some (nextSibling s.timerArray c),
        s.setTimer c fun t => { t with time := (s.timerObj c).time - e }) := by
  unfold jsiIdleTimer
  simp only [if_neg hwait]
  have h2 : nextSibling (s.setTimer c fun t =>
      { t with time := (s.timerObj c).time - e }).timerArray c = nextSibling s.timerArray c := rfl
  simp only [h2, ne_eq, not_true_eq_false, if_false]
  have hmin : (if (s.timerObj c).time - e < m then (s.timerObj c).time - e else m) =
      min m ((s.timerObj c).time - e) := by
    rw [min_def]
    split_ifs <;> omega
  rw [hmin]

/-- A sweep of the timer loop in which no timer is due visits every timer of
the table, when no entry occurs twice in it: the minimum that it returns is the
least of the remaining ticks, and it is positive when it was positive before. -/
theorem jsiIdleTimerLoop_idle (env : Env) (e : Int) :
    ∀ (post : List JsVarRef) (fuel : Nat) (pre : List JsVarRef) (m : Int) (b : Bool) (s : St)
      (r : Int × Bool × St),
      s.timerArray = pre ++ post → (pre ++ post).Nodup →
      jsiIdleTimerLoop env e fuel post.head? m b s = some r →
      jsiIdleTimerLoopDue env e fuel post.head? s = false →
      r.1 = (post.map fun t => (s.timerObj t).time - e).foldl min m ∧ (0 < m → 0 < r.1)
  | [], fuel, pre, m, b, s, r, _, _, h, _ => by
      cases fuel <;>
      · simp only [List.head?_nil, jsiIdleTimerLoop, Option.some.injEq] at h
        subst h
        exact ⟨rfl, fun hm => hm⟩
  | c :: rest, 0, pre, m, b, s, r, _, _, h, _ => by
      simp [jsiIdleTimerLoop] at h
  | c :: rest, fuel + 1, pre, m, b, s, r, harr, hnd, h, hdue => by
      simp only [List.head?_cons, jsiIdleTimerLoopDue, Bool.or_eq_false_iff,
        decide_eq_false_iff_not] at hdue
      obtain ⟨hwait, hrest⟩ := hdue
      have hcpre : c ∉ pre := by
        intro hc
        have := List.nodup_append.mp hnd
        exact this.2.2 hc (by simp)
      have hnext : nextSibling s.timerArray c = rest.head? := by
        rw [harr]
        exact nextSibling_append pre rest c hcpre
      rw [jsiIdleTimer_not_due env e c JSSYSTIME_MAX false s hwait, hnext] at hrest
      simp only at hrest
      simp only [List.head?_cons, jsiIdleTimerLoop,
        jsiIdleTimer_not_due env e c m b s hwait, hnext] at h
      have harr1 : (s.setTimer c fun t =>
          { t with time := (s.timerObj c).time - e }).timerArray = (pre ++ [c]) ++ rest := by
        rw [List.append_assoc]
        exact harr
      have hnd1 : ((pre ++ [c]) ++ rest).Nodup := by
        rw [List.append_assoc]
        exact hnd
      obtain ⟨ih1, ih2⟩ := jsiIdleTimerLoop_idle env e rest fuel (pre ++ [c])
        (min m ((s.timerObj c).time - e)) b _ r harr1 hnd1 h hrest
      have hcrest : c ∉ rest := by
        have := List.nodup_append.mp hnd
        have h2 := this.2.1
        simp only [List.nodup_cons] at h2
        exact h2.1
      have hmap : (rest.map fun t => ((s.setTimer c fun t =>
          { t with time := (s.timerObj c).time - e }).timerObj t).time - e) =
          rest.map fun t => (s.timerObj t).time - e := by
        apply List.map_congr_left
        intro t ht
        have hne : t ≠ c := fun heq => hcrest (heq ▸ ht)
        rw [setTimer_timerObj_ne _ _ _ _ hne]
      rw [hmap] at ih1
      refine ⟨by rw [ih1]; rfl, fun hm => ih2 ?_⟩
      rw [lt_min_iff]
      exact ⟨hm, by omega⟩

/-- The timer check of an idle step in which no timer is due: the minimum is
the least of the remaining ticks after the sweep, and it is positive. -/
theorem jsiIdleTimers_idle (env : Env) (fuel : Nat) (b : Bool) (s : St) (r : Int × Bool × St)
    (hnd : s.timerArray.Nodup)
    (h : jsiIdleTimers env fuel b s = some r)
    (hdue : jsiIdleTimersDue env fuel s = false) :
    r.1 = minRemaining s (env.clock (s.clockReads + 1) - s.jsiLastIdleTime) ∧ 0 < r.1 := by
  unfold jsiIdleTimers at h
  unfold jsiIdleTimersDue at hdue
  simp only [jshGetSystemTime] at h hdue
  have key := jsiIdleTimerLoop_idle env _ s.timerArray fuel [] JSSYSTIME_MAX b _ r
    (by simp) (by simpa using hnd) h hdue
  exact ⟨key.1, key.2 (by decide)⟩

theorem jsiIdleTodo_sleeps (env : Env) (s : St)
    (hreinit : ∀ m x, (env.reinit m x).sleeps = x.sleeps) :
    (jsiIdleTodo env s).sleeps = s.sleeps := by
  have hm : ∀ m x, (jsiIdleMaintain env m x).sleeps = x.sleeps := by
    intro m x
    unfold jsiIdleMaintain
    rw [hreinit]
  unfold jsiIdleTodo
  split
  · simp only [jsiSetBusy]
    split <;> split <;> split <;> simp [hm]
  · rfl

/-- The end of `jsiIdle`: after the garbage collection, if any, the step is in
a state `g`; `jshSleep(minTimeUntilNext)` is called exactly when the test of the
last statement holds in `g`, and nothing else happens. -/
theorem jsiIdleSleep_cases (env : Env) (m : Int) (x : St) :
    ∃ g : St, g.sleeps = x.sleeps ∧ g.loopsIdling = x.loopsIdling ∧
      (jsiIdleSleeps env g → jsiIdleSleep env m x = { g with sleeps := g.sleeps ++ [m] }) ∧
      (¬ jsiIdleSleeps env g → jsiIdleSleep env m x = g) := by
  have hg : ∀ g : St, g = (if x.loopsIdling = 1 ∧ m > env.tenMilliseconds then
        jsiSetBusy false { jsiSetBusy true x with gcCalls := x.gcCalls + 1 } else x) →
      g.sleeps = x.sleeps ∧ g.loopsIdling = x.loopsIdling := by
    intro g hg
    subst hg
    split <;> exact ⟨rfl, rfl⟩
  refine ⟨_, (hg _ rfl).1, (hg _ rfl).2, fun hc => ?_, fun hc => ?_⟩
  · unfold jsiIdleSleep
    simp only
    rw [if_pos]
    obtain ⟨c1, c2, c3, c4⟩ := hc
    exact ⟨c1, by simp [c2], by simp [c3], by simp [c4]⟩
  · unfold jsiIdleSleep
    simp only
    rw [if_neg]
    intro hc'
    apply hc
    obtain ⟨c1, c2, c3, c4⟩ := hc'
    exact ⟨c1, by simpa using c2, by simpa using c3, by simpa using c4⟩

theorem St.sleeps_eta (g : St) (l : List Int) (h : g.sleeps = l) :
    { g with sleeps := l } = g := by
  subst h
  rfl

/-- C24 (amended): at the end of a step, `jsiIdle` calls `jshSleep` exactly
when `loopsIdling > 1`, no raw event is pending, no transmission is pending and
USB serial is not connected - the test being made in the state that the step
has reached before the call. The duration that it asks for is
`minTimeUntilNext`, without a cap: in a step that sleeps no timer was due, and
the duration is the least of the ticks that remain on the timers of the table
after the sweep (`JSSYSTIME_MAX` when there is none), which is positive. No
other call of `jshSleep` is made in the step. -/
theorem jsiIdle_sleep (env : Env) (fuel : Nat) (s0 s' : St)
    (hreinit : ∀ m x, (env.reinit m x).loopsIdling = x.loopsIdling ∧
      (env.reinit m x).sleeps = x.sleeps)
    (hnd : s0.timerArray.Nodup)
    (h : jsiIdle env fuel s0 = some s') :
    (jsiIdleSleeps env { s' with sleeps := s0.sleeps } →
      s'.sleeps = s0.sleeps ++
        [minRemaining s0 (env.clock (s0.clockReads + 1) - s0.jsiLastIdleTime)] ∧
      0 < minRemaining s0 (env.clock (s0.clockReads + 1) - s0.jsiLastIdleTime)) ∧
    (¬ jsiIdleSleeps env { s' with sleeps := s0.sleeps } → s'.sleeps = s0.sleeps) := by
  obtain ⟨busy1, busy2, s2, s3, s4, s8, m, hev, ht, hi, hlogs, hloops, _, hs'⟩ :=
    jsiIdle_stations env fuel s0 s' h
  have hs8 : s8.sleeps = s0.sleeps := congrArg Prod.snd hlogs
  obtain ⟨g, g1, g2, g3, g4⟩ := jsiIdleSleep_cases env m (jsiIdleTodo env s8)
  have hgs : g.sleeps = s0.sleeps := by
    rw [g1, jsiIdleTodo_sleeps env s8 fun a b => (hreinit a b).2, hs8]
  have hgl : g.loopsIdling = s8.loopsIdling := by
    rw [g2, jsiIdleTodo_loopsIdling env s8 fun a b => (hreinit a b).1]
  have hend : ({ s' with sleeps := s0.sleeps } : St) = g := by
    by_cases hc : jsiIdleSleeps env g
    · rw [hs', g3 hc]
      exact St.sleeps_eta g _ hgs
    · rw [hs', g4 hc]
      exact St.sleeps_eta g _ hgs
  rw [hend]
  refine ⟨fun hc => ?_, fun hc => by rw [hs', g4 hc, hgs]⟩
  have hloop : 1 < s8.loopsIdling := by
    rw [← hgl]
    exact hc.1
  have hquiet : (busy2 || (env.jswIdle s3).1 || !s4.events.isEmpty) = false := by
    cases hq : (busy2 || (env.jswIdle s3).1 || !s4.events.isEmpty) with
    | false => rfl
    | true =>
      rw [hq] at hloops
      simp only [if_true] at hloops
      omega
  simp only [Bool.or_eq_false_iff] at hquiet
  obtain ⟨⟨hb2, _⟩, _⟩ := hquiet
  obtain ⟨_, hbusy2⟩ := jsiIdleTimers_busy env fuel busy1 _ _ ht
  simp only at hbusy2
  rw [hb2] at hbusy2
  have hb1 : busy1 = false ∧ jsiIdleTimersDue env fuel (jsiIdleFlowControl env s2) = false := by
    simpa [Bool.or_eq_false_iff] using hbusy2.symm
  obtain ⟨hbusy1, hsame⟩ := jsiIdleEvents_busy env fuel fuel false _ _ hev
  simp only at hbusy1 hsame
  rw [hb1.1] at hbusy1
  have hio : (if s0.loopsIdling < 255 then { s0 with loopsIdling := s0.loopsIdling + 1 }
      else s0).ioEvents = [] := by
    have : (!(if s0.loopsIdling < 255 then { s0 with loopsIdling := s0.loopsIdling + 1 }
      else s0).ioEvents.isEmpty) = false := by simpa using hbusy1.symm
    simpa using this
  have hs2 := hsame hio
  have hfields : (jsiIdleFlowControl env s2).timerArray = s0.timerArray ∧
      (jsiIdleFlowControl env s2).timerObj = s0.timerObj ∧
      (jsiIdleFlowControl env s2).clockReads = s0.clockReads ∧
      (jsiIdleFlowControl env s2).jsiLastIdleTime = s0.jsiLastIdleTime := by
    rw [hs2]
    unfold jsiIdleFlowControl
    split <;> split <;> exact ⟨rfl, rfl, rfl, rfl⟩
  obtain ⟨f1, f2, f3, f4⟩ := hfields
  obtain ⟨k1, k2⟩ := jsiIdleTimers_idle env fuel busy1 _ _ (by rw [f1]; exact hnd) ht hb1.2
  simp only at k1 k2
  have hmin : minRemaining (jsiIdleFlowControl env s2)
      (env.clock ((jsiIdleFlowControl env s2).clockReads + 1) -
        (jsiIdleFlowControl env s2).jsiLastIdleTime) =
      minRemaining s0 (env.clock (s0.clockReads + 1) - s0.jsiLastIdleTime) := by
    unfold minRemaining
    rw [f1, f2, f3, f4]
  rw [hmin] at k1
  rw [← k1]
  exact ⟨by rw [hs', g3 hc, hgs], k2⟩

theorem jsiIdle_sleep_witness :
    (jsiIdle Env.quiet 5 St.idleTwice).map (·.sleeps) =
      some (St.idleTwice.sleeps ++
        [minRemaining St.idleTwice
          (Env.quiet.clock (St.idleTwice.clockReads + 1) - St.idleTwice.jsiLastIdleTime)]) ∧
    minRemaining St.idleTwice
      (Env.quiet.clock (St.idleTwice.clockReads + 1) - St.idleTwice.jsiLastIdleTime) = 100 := by
  cases h : jsiIdle Env.quiet 5 St.idleTwice with
  | none =>
    have : (jsiIdle Env.quiet 5 St.idleTwice).isSome = true := by rfl
    rw [h] at this
    cases this
  | some r =>
    have hfacts : (jsiIdle Env.quiet 5 St.idleTwice).map
        (fun s => (s.loopsIdling, s.ioEvents)) = some (3, []) := by rfl
    rw [h] at hfacts
    simp only [Option.map_some', Option.some.injEq, Prod.mk.injEq] at hfacts
    have hs := (jsiIdle_sleep Env.quiet 5 St.idleTwice r (fun _ _ => ⟨rfl, rfl⟩) (by decide)
      h).1 ⟨by show 1 < r.loopsIdling; rw [hfacts.1]; decide, rfl, hfacts.2, rfl⟩
    exact ⟨by simp only [Option.map_some', hs.1], by decide⟩

/-- C24 (counterexample): an idle step without timers asks `jshSleep` for
`JSSYSTIME_MAX` ticks, the largest value of the type: no cap is applied to the
duration (the test against `SYSTICK_RANGE` in line 1564 is commented out). -/
theorem jsiIdle_uncapped_sleep :
    (jsiIdle Env.quiet 5 St.idleNoTimer).map (fun s => (s.loopsIdling, s.sleeps)) =
      some (3, [JSSYSTIME_MAX]) ∧
    JSSYSTIME_MAX = 2 ^ 63 - 1 ∧ St.idleNoTimer.sleeps = [] := by
  refine ⟨by rfl, by decide, by rfl⟩

/-! ## Maintenance -/

/-- The check for TODOs carries out the action of every flag that is set, in
the order reset, save, load, and leaves no flag set, when the teardown and
start up do not write the flags. -/
theorem jsiIdleTodo_actions (env : Env) (s : St)
    (hreinit : ∀ m x, (env.reinit m x).todo = x.todo ∧
      (env.reinit m x).maintenance = x.maintenance) :
    (jsiIdleTodo env s).maintenance = s.maintenance ++ s.todo.actions ∧
    (jsiIdleTodo env s).todo = TODO_NOTHING := by
  have hm : ∀ m x, (jsiIdleMaintain env m x).maintenance = x.maintenance ++ [m] := by
    intro m x
    unfold jsiIdleMaintain
    rw [(hreinit _ _).2]
  have ht : ∀ m x, (jsiIdleMaintain env m x).todo =
      (match m with
        | .reset => { x.todo with reset := false }
        | .flashSave => { x.todo with flashSave := false }
        | .flashLoad => { x.todo with flashLoad := false }) := by
    intro m x
    unfold jsiIdleMaintain
    rw [(hreinit _ _).1]
  obtain ⟨events, timerArray, watchArray, timerObj, watchObj, last, loops, ide, todo, cd, busy,
    intr, err, allocs, nextRef, reads, trace, queued, errors, pins, io, usart, chars, stream,
    xon, out, maint, gc, sleeps⟩ := s
  obtain ⟨r, fs, fl⟩ := todo
  unfold jsiIdleTodo TODOFlags.actions TODO_NOTHING
  cases r <;> cases fs <;> cases fl <;> simp [jsiSetBusy, hm, ht]

/-- C25 (amended): a step of `jsiIdle` reaches the check for TODOs in a state
`s8` in which no maintenance action of the step has been carried out yet; the
check carries out the action of every flag that is pending there - reset, then
save to flash, then load from flash, each once - and clears the flags. The step
performs at most one of the three actions exactly when at most one of the flags
is pending; with two or three flags set together it performs two or three. -/
theorem jsiIdle_maintenance (env : Env) (fuel : Nat) (s0 s' : St)
    (hreinit : ∀ m x, (env.reinit m x).todo = x.todo ∧
      (env.reinit m x).maintenance = x.maintenance)
    (h : jsiIdle env fuel s0 = some s') :
    ∃ (s8 : St) (minTimeUntilNext : Int),
      s' = jsiIdleSleep env minTimeUntilNext (jsiIdleTodo env s8) ∧
      s8.maintenance = s0.maintenance ∧
      s'.maintenance = s0.maintenance ++ s8.todo.actions ∧
      s8.todo.actions.length = s8.todo.count ∧
      (s'.maintenance.length ≤ s0.maintenance.length + 1 ↔ s8.todo.count ≤ 1) ∧
      s'.todo = TODO_NOTHING := by
  obtain ⟨busy1, busy2, s2, s3, s4, s8, m, _, _, _, hlogs, _, _, hs'⟩ :=
    jsiIdle_stations env fuel s0 s' h
  have hm8 : s8.maintenance = s0.maintenance := congrArg Prod.fst hlogs
  have hsl : ∀ x : St, (jsiIdleSleep env m x).maintenance = x.maintenance ∧
      (jsiIdleSleep env m x).todo = x.todo := by
    intro x
    unfold jsiIdleSleep jsiSetBusy
    simp only
    split <;> split <;> exact ⟨rfl, rfl⟩
  obtain ⟨a1, a2⟩ := jsiIdleTodo_actions env s8 hreinit
  have hlen : s8.todo.actions.length = s8.todo.count := by
    unfold TODOFlags.actions TODOFlags.count
    cases s8.todo.reset <;> cases s8.todo.flashSave <;> cases s8.todo.flashLoad <;> rfl
  have hmaint : s'.maintenance = s0.maintenance ++ s8.todo.actions := by
    rw [hs', (hsl _).1, a1, hm8]
  refine ⟨s8, m, hs', hm8, hmaint, hlen, ?_, ?_⟩
  · rw [hmaint, List.length_append, hlen]
    omega
  · rw [hs', (hsl _).2, a2]

theorem jsiIdle_maintenance_witness :
    (jsiIdle Env.softInit 5 St.allTodo).map (fun s => s.todo) = some TODO_NOTHING := by
  cases h : jsiIdle Env.softInit 5 St.allTodo with
  | none =>
    have : (jsiIdle Env.softInit 5 St.allTodo).isSome = true := by rfl
    rw [h] at this
    cases this
  | some r =>
    obtain ⟨s8, m, _, _, _, _, _, h6⟩ :=
      jsiIdle_maintenance Env.softInit 5 St.allTodo r (fun _ _ => ⟨rfl, rfl⟩) h
    simp only [Option.map_some', h6]

/-- C25 (counterexample): with `TODO_RESET`, `TODO_FLASH_SAVE` and
`TODO_FLASH_LOAD` set together, one step of `jsiIdle` performs the three
maintenance actions, one after the other, and leaves no flag set. -/
theorem jsiIdle_three_actions :
    (jsiIdle Env.softInit 5 St.allTodo).map (fun s => (s.maintenance, s.todo)) =
      some ([.reset, .flashSave, .flashLoad], TODO_NOTHING) ∧
    St.allTodo.maintenance = [] := by
  refine ⟨by rfl, by rfl⟩

/-! ## The console state machine -/

/-- The definition of `jsiHandleChar` is the recursive function of the source:
it is its own body. -/
theorem jsiHandleChar_unfold (ch : Nat) (c : Console) :
    jsiHandleChar ch c = jsiHandleCharBody jsiHandleChar ch c := by
  have key : ∀ (x : Nat) (c0 : Console), x ≠ 0 → x ≠ 27 →
      jsiHandleCharBody (fun _ c2 => c2) x { c0 with inputState := .IS_NONE } =
        jsiHandleChar x { c0 with inputState := .IS_NONE } := by
    intro x c0 hx0 hx27
    unfold jsiHandleChar jsiHandleCharBody
    simp [hx0, hx27]
  unfold jsiHandleChar
  conv_lhs => unfold jsiHandleCharBody
  conv_rhs => unfold jsiHandleCharBody
  simp only [key 47 c (by decide) (by decide), key 42 c (by decide) (by decide),
    key 45 c (by decide) (by decide), key 43 c (by decide) (by decide),
    key 13 c (by decide) (by decide)]
  rfl

/-- In the last branch of `jsiHandleChar` the test `inputState == IS_HAD_R`
comes after `inputState = IS_NONE`: a line feed runs the new-line handling
whatever came before it, also after a carriage return. -/
theorem jsiHandleChar_lineFeed (c : Console)
    (h : c.inputState = .IS_NONE ∨ c.inputState = .IS_HAD_R) :
    jsiHandleChar 10 c =
      { inputState := .IS_NONE, calls := c.calls ++ [.jsiHandleNewLine true] } := by
  rcases h with h | h <;> simp [jsiHandleChar, jsiHandleCharBody, h, Console.call]

/-- C26 (code evaluated at the failing input `inputState == IS_NONE`, characters
CR LF): from every console state with `inputState` `IS_NONE` or `IS_HAD_R`, a
carriage return followed by a line feed runs `jsiHandleNewLine(true)` twice,
not once; the line feed is not ignored. -/
theorem jsiHandleChar_crlf_twice (c : Console)
    (h : c.inputState = .IS_NONE ∨ c.inputState = .IS_HAD_R) :
    jsiHandleCharSeq [13, 10] c =
      { inputState := .IS_NONE,
        calls := c.calls ++ [.jsiHandleNewLine true, .jsiHandleNewLine true] } ∧
    (jsiHandleCharSeq [13, 10] c).newLines = c.newLines + 2 := by
  have h1 : jsiHandleChar 13 c =
      { inputState := .IS_HAD_R, calls := c.calls ++ [.jsiHandleNewLine true] } := by
    rcases h with h | h <;> simp [jsiHandleChar, jsiHandleCharBody, h, Console.call]
  have h2 : jsiHandleCharSeq [13, 10] c =
      { inputState := .IS_NONE,
        calls := c.calls ++ [.jsiHandleNewLine true, .jsiHandleNewLine true] } := by
    simp only [jsiHandleCharSeq, h1]
    rw [jsiHandleChar_lineFeed _ (Or.inr rfl)]
    simp
  refine ⟨h2, ?_⟩
  rw [h2]
  simp [Console.newLines, List.countP_append]

theorem jsiHandleChar_crlf_twice_witness :
    jsiHandleCharSeq [13, 10] { inputState := .IS_NONE, calls := [] } =
      { inputState := .IS_NONE,
        calls := [.jsiHandleNewLine true, .jsiHandleNewLine true] } ∧
    (jsiHandleCharSeq [13, 10] { inputState := .IS_NONE, calls := [] }).newLines = 0 + 2 :=
  jsiHandleChar_crlf_twice { inputState := .IS_NONE, calls := [] } (Or.inl rfl)

/-! ## `httpParseHeaders` -/

/-- The first loop counts the characters in `strIdx`. -/
theorem httpParseHeadersFind_strIdx : ∀ (xs : List Nat) (v : Int × Int × Int),
    (xs.foldl httpParseHeadersFindStep v).2.1 = v.2.1 + xs.length
  | [], v => by simp
  | x :: xs, v => by
      rw [List.foldl_cons, httpParseHeadersFind_strIdx xs]
      have : (httpParseHeadersFindStep v x).2.1 = v.2.1 + 1 := by
        unfold httpParseHeadersFindStep
        simp only
        split_ifs <;> rfl
      rw [this]
      simp only [List.length_cons]
      push_cast
      ring

/-- The first loop keeps `newlineIdx` among `0`, `1`, `2` and `3`. -/
theorem httpParseHeadersFind_newlineIdx : ∀ (xs : List Nat) (v : Int × Int × Int),
    (v.1 = 0 ∨ v.1 = 1 ∨ v.1 = 2 ∨ v.1 = 3) →
    ((xs.foldl httpParseHeadersFindStep v).1 = 0 ∨ (xs.foldl httpParseHeadersFindStep v).1 = 1 ∨
      (xs.foldl httpParseHeadersFindStep v).1 = 2 ∨ (xs.foldl httpParseHeadersFindStep v).1 = 3)
  | [], _, h => by simpa using h
  | x :: xs, v, h => by
      rw [List.foldl_cons]
      apply httpParseHeadersFind_newlineIdx xs
      unfold httpParseHeadersFindStep
      simp only
      split_ifs <;> simp_all

/-- Characters other than the line feed leave `headerEnd` as it is. -/
theorem httpParseHeadersFind_no_lf : ∀ (xs : List Nat) (v : Int × Int × Int),
    10 ∉ xs → (xs.foldl httpParseHeadersFindStep v).2.2 = v.2.2
  | [], _, _ => by simp
  | x :: xs, v, h => by
      have hx : x ≠ 10 := fun e => h (by simp [e])
      have hxs : 10 ∉ xs := fun e => h (by simp [e])
      rw [List.foldl_cons, httpParseHeadersFind_no_lf xs _ hxs]
      unfold httpParseHeadersFindStep
      simp only [hx, if_false]
      split_ifs <;> rfl

/-- Once `headerEnd` is set it stays set. -/
theorem httpParseHeadersFind_set : ∀ (xs : List Nat) (v : Int × Int × Int),
    0 ≤ v.2.1 → 0 ≤ v.2.2 → 0 ≤ (xs.foldl httpParseHeadersFindStep v).2.2
  | [], _, _, h => by simpa using h
  | x :: xs, v, hi, h => by
      rw [List.foldl_cons]
      apply httpParseHeadersFind_set xs
      · have : (httpParseHeadersFindStep v x).2.1 = v.2.1 + 1 := by
          unfold httpParseHeadersFindStep
          simp only
          split_ifs <;> rfl
        omega
      · unfold httpParseHeadersFindStep
        simp only
        split_ifs <;> simp only <;> omega

/-- A blank line, CR LF CR LF, sets `headerEnd` to the index after it, whatever
the loop has read before. -/
theorem httpParseHeadersFind_crlfcrlf (v : Int × Int × Int)
    (h : v.1 = 0 ∨ v.1 = 1 ∨ v.1 = 2 ∨ v.1 = 3) :
    [13, 10, 13, 10].foldl httpParseHeadersFindStep v = (3, v.2.1 + 4, v.2.1 + 4) := by
  obtain ⟨q, i, e⟩ := v
  simp only at h
  rcases h with h | h | h | h <;> subst h <;>
    simp [httpParseHeadersFindStep, add_assoc]

/-- One character of the first loop of `httpParseHeaders` and what the loop
has read: `headerEnd` is set only when a blank line, possibly with a repeated
LF or CR, has been read; otherwise `newlineIdx` says how much of one the
string ends with. -/
theorem httpParseHeadersFind_inv (e0 : Int) (l : List Nat) (v : Int × Int × Int) (x : Nat)
    (hi : e0 ≤ v.2.1)
    (hacc : v.2.2 ≠ e0 → blankLineRepeated l)
    (h1 : v.2.2 = e0 → v.1 = 1 → ∃ pre, l = pre ++ [13])
    (h2 : v.2.2 = e0 → v.1 = 2 → ∃ pre b, 1 ≤ b ∧ l = pre ++ 13 :: List.replicate b 10)
    (h3 : v.2.2 = e0 → v.1 = 3 →
      ∃ pre b c, 1 ≤ b ∧ 1 ≤ c ∧ l = pre ++ 13 :: (List.replicate b 10 ++ List.replicate c 13)) :
    e0 ≤ (httpParseHeadersFindStep v x).2.1 ∧
    ((httpParseHeadersFindStep v x).2.2 ≠ e0 → blankLineRepeated (l ++ [x])) ∧
    ((httpParseHeadersFindStep v x).2.2 = e0 → (httpParseHeadersFindStep v x).1 = 1 →
      ∃ pre, l ++ [x] = pre ++ [13]) ∧
    ((httpParseHeadersFindStep v x).2.2 = e0 → (httpParseHeadersFindStep v x).1 = 2 →
      ∃ pre b, 1 ≤ b ∧ l ++ [x] = pre ++ 13 :: List.replicate b 10) ∧
    ((httpParseHeadersFindStep v x).2.2 = e0 → (httpParseHeadersFindStep v x).1 = 3 →
      ∃ pre b c, 1 ≤ b ∧ 1 ≤ c ∧
        l ++ [x] = pre ++ 13 :: (List.replicate b 10 ++ List.replicate c 13)) := by
  obtain ⟨q, i, e⟩ := v
  simp only at hi hacc h1 h2 h3
  have hext : blankLineRepeated l → blankLineRepeated (l ++ [x]) := by
    rintro ⟨pre, b, c, post, hb, hc, rfl⟩
    exact ⟨pre, b, c, post ++ [x], hb, hc, by simp⟩
  unfold httpParseHeadersFindStep
  simp only
  by_cases hx13 : x = 13
  · subst hx13
    simp only [if_true]
    by_cases hq0 : q = 0
    · subst hq0
      simp only [if_true]
      refine ⟨(by omega), fun h => hext (hacc h), fun _ _ => ⟨l, rfl⟩, fun _ h => (by cases h),
        fun _ h => (by cases h)⟩
    · simp only [hq0, if_false]
      by_cases hq2 : q = 2
      · subst hq2
        simp only [if_true]
        refine ⟨(by omega), fun h => hext (hacc h), fun _ h => (by cases h), fun _ h => (by cases h),
          fun h _ => ?_⟩
        obtain ⟨pre, b, hb, rfl⟩ := h2 h rfl
        exact ⟨pre, b, 1, hb, le_refl _, by simp⟩
      · simp only [hq2, if_false]
        refine ⟨(by omega), fun h => hext (hacc h), fun _ _ => ⟨l, rfl⟩,
          fun _ h => h.elim, fun h hq => ?_⟩
        obtain ⟨pre, b, c, hb, hc, rfl⟩ := h3 h hq
        refine ⟨pre, b, c + 1, hb, (by omega), ?_⟩
        simp [List.replicate_succ']
  · simp only [hx13, if_false]
    by_cases hx10 : x = 10
    · subst hx10
      simp only [if_true]
      by_cases hq1 : q = 1
      · subst hq1
        simp only [if_true]
        refine ⟨(by omega), fun h => hext (hacc h), fun _ h => (by cases h), fun h _ => ?_,
          fun _ h => (by cases h)⟩
        obtain ⟨pre, rfl⟩ := h1 h rfl
        exact ⟨pre, 1, le_refl _, by simp⟩
      · simp only [hq1, if_false]
        by_cases hq3 : q = 3
        · subst hq3
          simp only [if_true]
          refine ⟨(by omega), fun _ => ?_, fun h _ => (by omega), fun h _ => (by omega),
            fun h _ => (by omega)⟩
          by_cases he : e = e0
          · obtain ⟨pre, b, c, hb, hc, rfl⟩ := h3 he rfl
            exact ⟨pre, b, c, [], hb, hc, by simp⟩
          · exact hext (hacc he)
        · simp only [hq3, if_false]
          refine ⟨(by omega), fun h => hext (hacc h), fun _ h => absurd h hq1, fun h hq => ?_,
            fun _ h => h.elim⟩
          obtain ⟨pre, b, hb, rfl⟩ := h2 h hq
          refine ⟨pre, b + 1, (by omega), ?_⟩
          simp [List.replicate_succ']
    · simp only [hx10, if_false]
      refine ⟨(by omega), fun h => hext (hacc h), fun _ h => (by cases h), fun _ h => (by cases h),
        fun _ h => (by cases h)⟩

/-- The first loop of `httpParseHeaders`, started before the first character
of a line (`newlineIdx = 0`): when it has set `headerEnd`, the string that it
has read contains a blank line, possibly with a repeated LF or CR. -/
theorem httpParseHeadersFind_accepts (e0 : Int) :
    ∀ (xs l : List Nat) (v : Int × Int × Int),
      e0 ≤ v.2.1 →
      (v.2.2 ≠ e0 → blankLineRepeated l) →
      (v.2.2 = e0 → v.1 = 1 → ∃ pre, l = pre ++ [13]) →
      (v.2.2 = e0 → v.1 = 2 → ∃ pre b, 1 ≤ b ∧ l = pre ++ 13 :: List.replicate b 10) →
      (v.2.2 = e0 → v.1 = 3 →
        ∃ pre b c, 1 ≤ b ∧ 1 ≤ c ∧
          l = pre ++ 13 :: (List.replicate b 10 ++ List.replicate c 13)) →
      (xs.foldl httpParseHeadersFindStep v).2.2 ≠ e0 → blankLineRepeated (l ++ xs)
  | [], l, v, _, hacc, _, _, _, h => by simpa using hacc h
  | x :: xs, l, v, hi, hacc, h1, h2, h3, h => by
      obtain ⟨a, b, c, d, e⟩ := httpParseHeadersFind_inv e0 l v x hi hacc h1 h2 h3
      have := httpParseHeadersFind_accepts e0 xs (l ++ [x]) (httpParseHeadersFindStep v x)
        a b c d e h
      simpa using this

/-- A string that the first loop of `httpParseHeaders` finds a header end in
contains a blank line, possibly with a repeated LF or CR. -/
theorem httpParseHeadersFind_found (data : List Nat) (h : 0 ≤ httpParseHeadersFind data) :
    blankLineRepeated data := by
  have := httpParseHeadersFind_accepts (-1) data [] (0, 0, -1) (by norm_num)
    (fun hh => absurd rfl hh) (fun _ hh => by cases hh) (fun _ hh => by cases hh)
    (fun _ hh => by cases hh) (by unfold httpParseHeadersFind at h; omega)
  simpa using this

/-- Without LF LF and CR CR a blank line with repeats is CR LF CR LF. -/
theorem blankLineRepeated_strict (data : List Nat) (h : blankLineRepeated data)
    (hlf : ¬ [10, 10] <:+: data) (hcr : ¬ [13, 13] <:+: data) :
    [13, 10, 13, 10] <:+: data := by
  obtain ⟨pre, b, c, post, hb, hc, rfl⟩ := h
  have hb1 : b = 1 := by
    by_contra hne
    obtain ⟨k, rfl⟩ : ∃ k, b = k + 2 := ⟨b - 2, by omega⟩
    apply hlf
    refine ⟨pre ++ [13], List.replicate k 10 ++ List.replicate c 13 ++ 10 :: post, ?_⟩
    simp [List.replicate_succ]
  have hc1 : c = 1 := by
    by_contra hne
    obtain ⟨k, rfl⟩ : ∃ k, c = k + 2 := ⟨c - 2, by omega⟩
    apply hcr
    refine ⟨pre ++ 13 :: List.replicate b 10, List.replicate k 13 ++ 10 :: post, ?_⟩
    simp [List.replicate_succ]
  subst hb1 hc1
  exact ⟨pre, post, by simp⟩

/-- After a blank line (`newlineIdx = 3`), the first loop of
`httpParseHeaders` leaves `headerEnd` as it is when the rest of the string
neither begins with LF, after CRs if any, nor contains another blank line,
with or without repeats. -/
theorem httpParseHeadersFind_rest : ∀ (post : List Nat) (v : Int × Int × Int),
    v.1 = 3 → v.2.2 ≤ v.2.1 → ¬ beginsWithLineFeed post → ¬ blankLineRepeated post →
    (post.foldl httpParseHeadersFindStep v).2.2 = v.2.2
  | [], _, _, _, _, _ => rfl
  | x :: rest, v, hq, hi, ha, hb => by
      obtain ⟨q, i, e⟩ := v
      simp only at hq hi
      subst hq
      rw [List.foldl_cons]
      by_cases hx13 : x = 13
      · subst hx13
        have hstep : httpParseHeadersFindStep (3, i, e) 13 = (3, i + 1, e) := by
          simp [httpParseHeadersFindStep]
        rw [hstep, httpParseHeadersFind_rest rest (3, i + 1, e) rfl (by simp only; omega)]
        · rintro ⟨c, r, rfl⟩
          exact ha ⟨c + 1, r, by simp [List.replicate_succ]⟩
        · rintro ⟨pre, b, c, post, h1, h2, rfl⟩
          exact hb ⟨13 :: pre, b, c, post, h1, h2, by simp⟩
      · by_cases hx10 : x = 10
        · subst hx10
          exact absurd ⟨0, rest, by simp⟩ ha
        · have hstep : httpParseHeadersFindStep (3, i, e) x = (0, i + 1, e) := by
            simp [httpParseHeadersFindStep, hx13, hx10]
          rw [hstep]
          by_contra hne
          have := httpParseHeadersFind_accepts e rest [] (0, i + 1, e) (by simp only; omega)
            (fun hh => absurd rfl hh) (fun _ hh => by cases hh) (fun _ hh => by cases hh)
            (fun _ hh => by cases hh) hne
          simp only [List.nil_append] at this
          obtain ⟨pre, b, c, post, h1, h2, rfl⟩ := this
          exact hb ⟨x :: pre, b, c, post, h1, h2, by simp⟩

/-- A blank line with repeats has a CR in it. -/
theorem blankLineRepeated_mem (data : List Nat) (h : blankLineRepeated data) : 13 ∈ data := by
  obtain ⟨pre, b, c, post, _, _, rfl⟩ := h
  simp

/-- A string that begins with LF, after CRs if any, begins with LF or CR. -/
theorem beginsWithLineFeed_head (data : List Nat) (h : beginsWithLineFeed data) :
    data.head? = some 10 ∨ data.head? = some 13 := by
  obtain ⟨c, rest, rfl⟩ := h
  cases c with
  | zero => exact Or.inl rfl
  | succ c => exact Or.inr (by simp [List.replicate_succ])

/-- The value of `headerEnd` for a string that has a blank line. -/
theorem httpParseHeadersFind_blank (pre post : List Nat) :
    0 ≤ httpParseHeadersFind (pre ++ [13, 10, 13, 10] ++ post) ∧
    (¬ beginsWithLineFeed post → ¬ blankLineRepeated post →
      httpParseHeadersFind (pre ++ [13, 10, 13, 10] ++ post) = pre.length + 4) := by
  unfold httpParseHeadersFind
  rw [List.foldl_append, List.foldl_append]
  have hq := httpParseHeadersFind_newlineIdx pre (0, 0, -1) (Or.inl rfl)
  have hi := httpParseHeadersFind_strIdx pre (0, 0, -1)
  rw [httpParseHeadersFind_crlfcrlf _ hq, hi]
  simp only [zero_add]
  refine ⟨?_, fun h1 h2 => ?_⟩
  · apply httpParseHeadersFind_set <;> simp only <;> omega
  · rw [httpParseHeadersFind_rest post _ rfl (le_refl _) h1 h2]

/-- C27 (amended): for every received string, `httpParseHeaders` returns true
if the string contains CR LF CR LF, and only if it contains CR LF CR LF or a
form of it in which the LF or the CR in the middle is repeated; so for a
string without LF LF and without CR CR it returns true if and only if the
string contains CR LF CR LF. When no variable fails to be allocated and the
characters after the first CR LF CR LF neither begin with LF (after CRs, if
any) nor contain another CR LF CR LF or repeated form of it, `*receiveData` is
replaced by exactly the characters that follow the first CR LF CR LF. When the
function returns false, `*receiveData` and `objectForData` are unchanged. -/
theorem httpParseHeaders_blank_line (oom : Nat → Bool) (allocs : Nat) (receiveData : List Nat)
    (objectForData : List (String × HttpChild)) (isServer : Bool) :
    ([13, 10, 13, 10] <:+: receiveData →
      (httpParseHeaders oom allocs receiveData objectForData isServer).1 = true) ∧
    ((httpParseHeaders oom allocs receiveData objectForData isServer).1 = true →
      blankLineRepeated receiveData) ∧
    (¬ [10, 10] <:+: receiveData → ¬ [13, 13] <:+: receiveData →
      ((httpParseHeaders oom allocs receiveData objectForData isServer).1 = true ↔
        [13, 10, 13, 10] <:+: receiveData)) ∧
    (∀ pre post : List Nat, receiveData = pre ++ [13, 10, 13, 10] ++ post →
      ¬ [13, 10, 13, 10] <:+: pre ++ [13, 10, 13] →
      ¬ beginsWithLineFeed post → ¬ blankLineRepeated post →
      receiveData.length < 2 ^ 31 → (∀ n, oom n = false) →
      (httpParseHeaders oom allocs receiveData objectForData isServer).2.1 = some post) ∧
    ((httpParseHeaders oom allocs receiveData objectForData isServer).1 = false →
      (httpParseHeaders oom allocs receiveData objectForData isServer).2.1 = some receiveData ∧
      (httpParseHeaders oom allocs receiveData objectForData isServer).2.2.1 = objectForData) := by
  have hif : [13, 10, 13, 10] <:+: receiveData →
      (httpParseHeaders oom allocs receiveData objectForData isServer).1 = true := by
    rintro ⟨pre, post, rfl⟩
    have h := (httpParseHeadersFind_blank pre post).1
    unfold httpParseHeaders
    simp only [not_lt.mpr h, if_false]
    split_ifs <;> rfl
  have honly : (httpParseHeaders oom allocs receiveData objectForData isServer).1 = true →
      blankLineRepeated receiveData := by
    intro h
    apply httpParseHeadersFind_found
    by_contra hneg
    unfold httpParseHeaders at h
    simp only [not_le.mp hneg, if_true] at h
    cases h
  refine ⟨hif, honly, fun hlf hcr => ⟨fun h => blankLineRepeated_strict _ (honly h) hlf hcr, hif⟩,
    ?_, ?_⟩
  · intro pre post hs _ hbegin hrep hlen hoom
    have h := (httpParseHeadersFind_blank pre post).2 hbegin hrep
    rw [← hs] at h
    have hlen' : pre.length + 4 + post.length < 2 ^ 31 := by
      rw [hs] at hlen
      simp only [List.length_append, List.length_cons, List.length_nil] at hlen
      omega
    have hsz : toSize ((pre.length : Int) + 4) = pre.length + 4 := by
      unfold toSize
      have : ((pre.length : Int) + 4) % 2 ^ 32 = (pre.length : Int) + 4 := by
        apply Int.emod_eq_of_lt <;> omega
      rw [this]
      omega
    unfold httpParseHeaders
    simp only [h, hoom, Bool.false_eq_true, if_false]
    have h0 : ¬ ((pre.length : Int) + 4 < 0) := by omega
    simp only [h0, if_false, hsz]
    unfold jsvNewFromStringVar JSVAPPENDSTRINGVAR_MAXLENGTH
    have hdrop : receiveData.drop (pre.length + 4) = post := by
      rw [hs, List.append_assoc]
      have : pre.length + 4 = (pre ++ [13, 10, 13, 10]).length := by simp
      rw [← List.append_assoc, this, List.drop_left]
    rw [hdrop, List.take_of_length_le (by omega)]
  · intro h
    unfold httpParseHeaders at h ⊢
    by_cases hneg : httpParseHeadersFind receiveData < 0
    · simp [hneg]
    · simp only [hneg, if_false] at h
      split_ifs at h

/-- C27, witness: the string `A`, CR LF CR LF, `a`, LF, `b`. The function
returns true and leaves `a`, LF, `b`: a line feed in the body does not
matter. -/
theorem httpParseHeaders_blank_line_witness :
    (httpParseHeaders (fun _ => false) 0 [65, 13, 10, 13, 10, 97, 10, 98] [] false).1 = true ∧
    (httpParseHeaders (fun _ => false) 0 [65, 13, 10, 13, 10, 97, 10, 98] [] false).2.1 =
      some [97, 10, 98] :=
  ⟨(httpParseHeaders_blank_line (fun _ => false) 0 [65, 13, 10, 13, 10, 97, 10, 98] []
      false).1 ⟨[65], [97, 10, 98], rfl⟩,
    (httpParseHeaders_blank_line (fun _ => false) 0 [65, 13, 10, 13, 10, 97, 10, 98] []
      false).2.2.2.1 [65] [97, 10, 98] rfl (by decide)
      (fun h => by
        have := beginsWithLineFeed_head _ h
        revert this
        decide)
      (fun h => by
        have := blankLineRepeated_mem _ h
        revert this
        decide)
      (by decide) (fun _ => rfl)⟩

/-- C27 (counterexample): when the pool is exhausted, `httpParseHeaders` returns
true for the string `A`, blank line, `B`, which contains CR LF CR LF, and
leaves `*receiveData` as it was (line 93), where the claim has it replaced by
`B`. -/
theorem httpParseHeaders_exhausted :
    [13, 10, 13, 10] <:+: [65, 13, 10, 13, 10, 66] ∧
    httpParseHeaders (fun _ => true) 0 [65, 13, 10, 13, 10, 66] [] false =
      (true, some [65, 13, 10, 13, 10, 66], [], 1) ∧
    some [65, 13, 10, 13, 10, 66] ≠ some [66] :=
  ⟨⟨[65], [66], rfl⟩, by decide, by decide⟩

/-- The first loop of `httpParseHeaders` does not stop at the first blank line:
`headerEnd` is overwritten at every later one, so for `A`, blank line, `B`,
blank line, `C` the data that is left is `C`, not `B`, blank line, `C`. -/
theorem httpParseHeaders_last_blank_line :
    httpParseHeaders (fun _ => false) 0 twoBlankLines [] false =
      (true, some [67], [("headers", .headers [])], 2) ∧
    twoBlankLines = [65] ++ [13, 10, 13, 10] ++ [66, 13, 10, 13, 10, 67] := by
  refine ⟨by decide, by decide⟩

/-- The first loop of `httpParseHeaders` takes CR LF LF CR LF for a blank line:
it returns true for a string that does not contain CR LF CR LF. -/
theorem httpParseHeaders_loose_match :
    (httpParseHeaders (fun _ => false) 0 [13, 10, 10, 13, 10, 66] [] false).1 = true ∧
    ¬ [13, 10, 13, 10] <:+: [13, 10, 10, 13, 10, 66] := by
  refine ⟨by decide, by decide⟩

/-! ## The serial branch -/

/-- No list of actions writes the record of the data given to
`jswrap_stream_pushData`. -/
theorem applyActions_streamData (env : Env) (acts : List Action) (s s' : St)
    (h : applyActions env acts s = some s') : s'.streamData = s.streamData :=
  applyActions_rel env (fun x x' => x'.streamData = x.streamData) (fun _ => rfl)
    (fun _ _ _ h1 h2 => h2.trans h1) acts s s'
    (fun a _ x x' hx => by rw [applyAction_only env a x x' hx]) h

/-- The mask keeps the low `bytesize` bits of a character, and all of it when
`bytesize` is 8. -/
theorem maskChar_low (bytesize c : Nat) (hlt : bytesize < 32) (hc : c < 256) :
    maskChar bytesize c = some (c % 2 ^ bytesize) ∧ maskChar 8 c = some c := by
  unfold maskChar
  have h1 : c % 2 ^ bytesize ≤ c := Nat.mod_le _ _
  rw [if_pos hlt, if_pos (by norm_num)]
  refine ⟨by rw [Nat.mod_eq_of_lt (show c % 2 ^ bytesize < 256 by omega)], ?_⟩
  congr 1
  omega

/-- The masking loop on characters that are bytes, when the shift is
defined. -/
theorem jsiIdleUsartMask_low (bytesize : Nat) (hlt : bytesize < 32) :
    ∀ cs : List Nat, (∀ c ∈ cs, c < 256) →
      jsiIdleUsartMask bytesize cs = some (cs.map fun c => c % 2 ^ bytesize)
  | [], _ => rfl
  | c :: cs, h => by
      simp only [jsiIdleUsartMask, (maskChar_low bytesize c hlt (h c (by simp))).1,
        jsiIdleUsartMask_low bytesize hlt cs (fun x hx => h x (by simp [hx])), List.map_cons]

/-- The loop of the serial branch masks the characters that it receives, in
the order of arrival. -/
theorem jsiIdleUsartChars_masked (eventType bytesize : Nat) (hlt : bytesize < 32) :
    ∀ (buffer : List IOEvent) (chars : List Nat),
      (∀ c ∈ jsiIdleUsartReceived eventType chars buffer, c < 256) →
      ∃ rest, jsiIdleUsartChars eventType bytesize chars buffer =
        some ((jsiIdleUsartReceived eventType chars buffer).map (fun c => c % 2 ^ bytesize),
          rest)
  | buffer, [], _ => ⟨buffer, by simp [jsiIdleUsartChars, jsiIdleUsartReceived]⟩
  | [], c :: cs, h => by
      refine ⟨[], ?_⟩
      have hm := jsiIdleUsartMask_low bytesize hlt (c :: cs)
        (fun x hx => h x (by simpa [jsiIdleUsartReceived] using hx))
      simp only [jsiIdleUsartChars, jsiIdleUsartReceived, hm, Option.map_some']
  | top :: buffer, c :: cs, h => by
      by_cases ht : top.eventType = eventType
      · have hrec : jsiIdleUsartReceived eventType (c :: cs) (top :: buffer) =
            (c :: cs) ++ jsiIdleUsartReceived eventType top.chars buffer := by
          simp only [jsiIdleUsartReceived, ht, if_true]
        rw [hrec] at h
        have hm := jsiIdleUsartMask_low bytesize hlt (c :: cs)
          (fun x hx => h x (List.mem_append_left _ hx))
        obtain ⟨rest, hr⟩ := jsiIdleUsartChars_masked eventType bytesize hlt buffer top.chars
          (fun x hx => h x (List.mem_append_right _ hx))
        refine ⟨rest, ?_⟩
        simp only [jsiIdleUsartChars, hm, ht, if_true, hr, Option.map_some', hrec,
          List.map_append]
      · have hrec : jsiIdleUsartReceived eventType (c :: cs) (top :: buffer) = c :: cs := by
          simp only [jsiIdleUsartReceived, ht, if_false]
        rw [hrec] at h
        have hm := jsiIdleUsartMask_low bytesize hlt (c :: cs) h
        refine ⟨top :: buffer, ?_⟩
        simp only [jsiIdleUsartChars, hm, ht, if_false, hrec]

/-- C28 (amended): a USART data event for a device that has a class object,
when the string for the data can be allocated. The characters of the event and
of the events of the same device that come next in the buffer are handed to
`jswrap_stream_pushData` in one call, in the order of arrival, each masked to
its low `bytesize` bits, where `bytesize` is 8 when the device has no options
object and the low byte of the child `bytesize` of the options object when it
has that child, and is less than 32, so that the shift `1<<bytesize` of a 32
bit `int` is defined; with `bytesize` 8 the characters forwarded are those
received. -/
theorem jsiIdleUsart_forwards (env : Env) (event : IOEvent) (s s' : St)
    (options : Option (Option Int)) (bytesize : Nat)
    (hclass : s.usartClass event.eventType = some options)
    (hsize : (options = none ∧ bytesize = 8) ∨
      ∃ b : Int, options = some (some b) ∧ bytesize = (b % 256).toNat)
    (hlt : bytesize < 32)
    (hoom : env.oom s.allocs = false)
    (hchars : ∀ c ∈ jsiIdleUsartReceived event.eventType event.chars s.ioEvents, c < 256)
    (h : jsiIdleUsart env event s = some s') :
    s'.streamData = s.streamData ++
      [(event.eventType,
        (jsiIdleUsartReceived event.eventType event.chars s.ioEvents).map
          fun c => c % 2 ^ bytesize)] ∧
    (bytesize = 8 → s'.streamData = s.streamData ++
      [(event.eventType, jsiIdleUsartReceived event.eventType event.chars s.ioEvents)]) := by
  obtain ⟨rest, hgather⟩ := jsiIdleUsartChars_masked event.eventType bytesize hlt s.ioEvents
    event.chars hchars
  have hmain : s'.streamData = s.streamData ++
      [(event.eventType,
        (jsiIdleUsartReceived event.eventType event.chars s.ioEvents).map
          fun c => c % 2 ^ bytesize)] := by
    unfold jsiIdleUsart at h
    rcases hsize with ⟨h1, h2⟩ | ⟨b, h1, h2⟩
    · subst h1
      subst h2
      simp only [hclass, jsvNewWithFlags, hoom, Bool.false_eq_true, if_false, hgather] at h
      rw [applyActions_streamData env _ _ s' h]
    · subst h1
      simp only [hclass, jsvNewWithFlags, hoom, Bool.false_eq_true, if_false,
        Option.getD_some] at h
      subst h2
      simp only [hgather] at h
      rw [applyActions_streamData env _ _ s' h]
  refine ⟨hmain, fun h8 => ?_⟩
  rw [hmain]
  subst h8
  have : (jsiIdleUsartReceived event.eventType event.chars s.ioEvents).map
      (fun c => c % 2 ^ 8) = jsiIdleUsartReceived event.eventType event.chars s.ioEvents := by
    conv_rhs => rw [← List.map_id (jsiIdleUsartReceived event.eventType event.chars s.ioEvents)]
    exact List.map_congr_left fun c hc => by
      have := hchars c hc
      simp only [id]
      omega
  rw [this]

/-- C28, witness: the characters `A`, `B` for a device whose options say
`bytesize` 7 are forwarded with their low seven bits. -/
theorem jsiIdleUsart_forwards_witness :
    (jsiIdleUsart Env.quiet IOEvent.serialAB (St.serial (some (some 7)))).map (·.streamData) =
      some [(3, [65 % 2 ^ 7, 66 % 2 ^ 7])] := by
  cases h : jsiIdleUsart Env.quiet IOEvent.serialAB (St.serial (some (some 7))) with
  | none =>
    have : (jsiIdleUsart Env.quiet IOEvent.serialAB (St.serial (some (some 7)))).isSome = true := by
      rfl
    rw [h] at this
    cases this
  | some r =>
    have := (jsiIdleUsart_forwards Env.quiet IOEvent.serialAB (St.serial (some (some 7))) r
      (some (some 7)) 7 rfl (Or.inr ⟨7, rfl, by decide⟩) (by decide) rfl (by decide) h).1
    simp only [Option.map_some', this]
    rfl

/-- C28 (counterexample): when the pool is exhausted the string for the data
is not made (line 1269) and the characters of the event are dropped: nothing is
handed to `jswrap_stream_pushData`, although the device has a class object and
no options. -/
theorem jsiIdleUsart_exhausted :
    (jsiIdleUsart Env.exhausted IOEvent.serialAB (St.serial none)).map (·.streamData) =
      some [] ∧
    (jsiIdleUsart Env.exhausted IOEvent.serialAB (St.serial none)).map (·.ioEvents) =
      some [] := by
  refine ⟨by rfl, by rfl⟩

/-- The serial branch reads the child `bytesize` of the options object without
testing that it is there: for an options object without `bytesize` (as
`Serial.setup(9600, {parity:'odd'})` stores it) the mask has no bits, and
every character is forwarded as `0`. -/
theorem jsiIdleUsart_bytesize_absent :
    (jsiIdleUsart Env.quiet IOEvent.serialAB (St.serial (some none))).map (·.streamData) =
      some [(3, [0, 0])] := by
  rfl

/-- The mask is made by a shift of a 32 bit `int`: for a `bytesize` of 32
the shift is undefined, and the run of the serial branch on an event with
characters has no defined result. -/
theorem jsiIdleUsart_shift_undefined :
    jsiIdleUsart Env.quiet IOEvent.serialAB (St.serial (some (some 32))) = none := by
  rfl

/-! ## `Serial.setup` -/

/-- An invalid parity ends `jswrap_serial_setup` before the hardware is set up:
when the low byte of a numeric parity is greater than 2, an error is raised,
`jshUSARTSetup` is not called, and the stored baud rate and options are
unchanged. -/
theorem jswrap_serial_setup_parity (env : SerialEnv) (baud : Option Int) (o : SerialOptions)
    (v : Int) (p : Serial) (husart : env.isUsart = true) (hpar : o.parity = .int v)
    (hv : (v % 256).toNat > 2) :
    (jswrap_serial_setup env baud (.object o) p).setups = p.setups ∧
    (jswrap_serial_setup env baud (.object o) p).baudrate = p.baudrate ∧
    (jswrap_serial_setup env baud (.object o) p).options = p.options ∧
    "Invalid parity %d" ∈ (jswrap_serial_setup env baud (.object o) p).exceptions := by
  have hopt : ∀ inf q, jswrap_serial_setup_options env o inf q =
      (none, jsExceptionHere "Invalid parity %d" q) := by
    intro inf q
    unfold jswrap_serial_setup_options
    simp only [hpar, hv, if_true]
  unfold jswrap_serial_setup
  simp only [husart, Bool.not_true, Bool.false_eq_true, if_false, hopt]
  cases baud with
  | none => simp [jsExceptionHere]
  | some b =>
    simp only
    split_ifs <;> simp [jsExceptionHere]

/-- C29 (code evaluated at the failing input): `Serial.setup(50)` on a USART
device whose object stores 115200 baud and options. The baud rate 50 is
outside `100 < b <= 10000000` and the error is raised, but the function goes
on: `jshUSARTSetup` is called with the default baud rate 9600, and the stored
baud rate and the stored options are removed. -/
theorem jswrap_serial_setup_invalid_baud :
    jswrap_serial_setup SerialEnv.usart (some 50) .undefined Serial.configured =
      { baudrate := none
        options := none
        setups := [SerialEnv.usart.initInfo]
        exceptions := ["Invalid baud rate specified"] } := by
  decide

/-- The parity is cut down to a byte before it is tested: `parity: 256` is
taken for no parity, no error is raised and the hardware is set up. -/
theorem jswrap_serial_setup_parity_256 :
    jswrap_serial_setup SerialEnv.usart none (.object (SerialOptions.onlyParity (.int 256)))
        Serial.configured =
      { baudrate := none
        options := some (.object (SerialOptions.onlyParity (.int 256)))
        setups := [SerialEnv.usart.initInfo]
        exceptions := [] } := by
  decide

/-! ## `httpStringGet` -/

/-- The loop of `httpStringGet` from any point on: it returns `len - l` plus
the number of characters it still copies, and it writes those characters at the
offsets from `pos` on and nowhere else. -/
theorem httpStringGetLoop_spec (len : Nat) :
    ∀ (chars : List Nat) (l pos : Nat) (buf : Nat → Nat), l ≤ len →
      (httpStringGetLoop len chars l pos buf).1 = len - l + min chars.length l ∧
      ∀ i, (httpStringGetLoop len chars l pos buf).2 i =
        if pos ≤ i ∧ i < pos + min chars.length l then chars.getD (i - pos) 0 else buf i
  | [], l, pos, buf, _ => by
      refine ⟨by simp [httpStringGetLoop], fun i => ?_⟩
      have h1 : ¬ (pos ≤ i ∧ i < pos + min ([] : List Nat).length l) := by
        simp only [List.length_nil]; omega
      rw [if_neg h1]
      rfl
  | ch :: rest, l, pos, buf, hl => by
      by_cases h0 : l = 0
      · subst h0
        refine ⟨by simp [httpStringGetLoop], fun i => ?_⟩
        have h1 : ¬ (pos ≤ i ∧ i < pos + min (ch :: rest).length 0) := by omega
        rw [if_neg h1]
        simp [httpStringGetLoop]
      · have ih := httpStringGetLoop_spec len rest (l - 1) (pos + 1)
          (Function.update buf pos ch) (by omega)
        simp only [httpStringGetLoop, if_neg h0]
        refine ⟨?_, fun i => ?_⟩
        · rw [ih.1]
          simp only [List.length_cons]
          omega
        · rw [ih.2 i]
          simp only [List.length_cons]
          by_cases hi : i = pos
          · subst hi
            have h1 : ¬ (i + 1 ≤ i ∧ i < i + 1 + min rest.length (l - 1)) := by omega
            have h2 : i ≤ i ∧ i < i + min (rest.length + 1) l := by omega
            simp [h1, h2]
          · by_cases hin : pos + 1 ≤ i ∧ i < pos + 1 + min rest.length (l - 1)
            · have h2 : pos ≤ i ∧ i < pos + min (rest.length + 1) l := by omega
              have h3 : i - pos = (i - (pos + 1)) + 1 := by omega
              rw [if_pos hin, if_pos h2, h3]
              simp
            · have h2 : ¬ (pos ≤ i ∧ i < pos + min (rest.length + 1) l) := by omega
              rw [if_neg hin, if_neg h2, Function.update_noteq hi]

/-- C30: `httpStringGet` is a bounded copy. For every string `v` and every
buffer length `len` it returns `min n len`, where `n` is the length of `v`;
afterwards the buffer holds the first `min n len` characters of `v` in order at
the offsets below `min n len`, and every other offset of the memory, in
particular every offset from `len` on, holds what it held before. -/
theorem httpStringGet_bounded_copy (v : List Nat) (str : Nat → Nat) (len : Nat) :
    (httpStringGet v str len).1 = min v.length len ∧
    (∀ i, i < min v.length len → (httpStringGet v str len).2 i = v.getD i 0) ∧
    (∀ i, min v.length len ≤ i → (httpStringGet v str len).2 i = str i) ∧
    (∀ i, len ≤ i → (httpStringGet v str len).2 i = str i) := by
  have h := httpStringGetLoop_spec len v len 0 str (le_refl _)
  have hbuf : ∀ i, (httpStringGet v str len).2 i =
      if i < min v.length len then v.getD i 0 else str i := by
    intro i
    have := h.2 i
    simpa [httpStringGet] using this
  refine ⟨?_, fun i hi => ?_, fun i hi => ?_, fun i hi => ?_⟩
  · have := h.1
    simpa [httpStringGet] using this
  · rw [hbuf i, if_pos hi]
  · rw [hbuf i, if_neg (by omega)]
  · rw [hbuf i, if_neg (by omega)]

end Espruino
